import Mathlib

/-!
# crypt0: pad-based authenticated file encryption

A shallow embedding of the three tools of the repository
(`encrypt0`, `decrypt0`, `genpads0`) and theorems about them.

Conventions of the embedding

* A byte is a natural number; a file's contents, a buffer and a key are
  lists of bytes.  `^=` on bytes is `^^^` on naturals.
* Go's `int64` values are integers; `/` and `%` are the truncating
  `Int.tdiv` and `Int.tmod`; where the source can overflow the value is
  wrapped with `wrap64`.
* The process-wide variables of each tool are the fields of a `World`
  record that every function takes and returns.  A call that ends the
  process (`os.Exit`, `CleanExit`, a run-time fault) is the `error` branch
  of `Except`, carrying the exit status and the file system left behind.
* AES block encryption and HMAC-SHA-512 come from Go's standard library;
  they are the two fields of `Prims` and every definition is parametric
  in them.  The CFB and CTR stream modes and the streaming MAC object are
  modelled on top of them.
* What a run cannot decide is an input of it: the bytes the system
  generator delivers (`iv`, `rng`), the readings of the clock (`clock`),
  and which `Write` calls fail (`wfail`).
-/

namespace Crypt0

/-! ## Library layer -/

/-- The two cryptographic primitives taken from the standard library:
`aes key block` is the AES encryption of one block, `hmac key msg` is
HMAC-SHA-512 of `msg`. -/
structure Prims where
  aes : List Nat → List Nat → List Nat
  hmac : List Nat → List Nat → List Nat

/-- How a process ends: `os.Exit code`, or a run-time fault (Go panic). -/
inductive Status where
  | exit (code : Int)
  | fault
  deriving DecidableEq, Repr

/-- An object of the file system, as a path or a directory entry leads to
it: a regular file with its bytes, or a directory with its entries in
listing order; and the objects that a call can fail on: a regular file that
the process may not open for reading (`os.Stat` answers, `os.Open` fails),
a directory that it may not open or list (`os.Stat` answers, `os.Open` and
`ioutil.ReadDir` fail), and a link that leads nowhere (`os.Stat` and
`os.Open` fail). -/
inductive Node where
  | file (data : List Nat)
  | dir (entries : List (String × Node))
  | unreadable (data : List Nat)
  | unlistable
  | dangling

/-- The mode test `info.Mode().IsRegular()` on what `os.Stat` answered. -/
def Node.IsRegular : Node → Bool
  | .file _ => true
  | .unreadable _ => true
  | _ => false

/-- The mode test `info.Mode().IsDir()` on what `os.Stat` answered. -/
def Node.IsDir : Node → Bool
  | .dir _ => true
  | .unlistable => true
  | _ => false

/-- The size `info.Size()` of a regular file (only used for regular files). -/
def Node.Size : Node → Int
  | .file data => (data.length : Int)
  | .unreadable data => (data.length : Int)
  | _ => 0

/-- The call `os.Open` on the object: the bytes that the handle will
deliver, or nothing when the call fails.  A directory can be opened, and a
read on the handle then delivers nothing. -/
def Node.open : Node → Option (List Nat)
  | .file data => some data
  | .dir _ => some []
  | _ => none

/-- The call `os.Stat` on what a path leads to: the object, or nothing when
the call fails (nothing is there, or a link leads nowhere). -/
def Stat : Option Node → Option Node
  | some .dangling => none
  | o => o

/-- The call `os.Open` on what a path leads to: the bytes that the handle
will deliver, or nothing when the call fails. -/
def Open : Option Node → Option (List Nat)
  | none => none
  | some node => node.open

/-- The file system: what each path names, if anything. -/
abbrev FS := String → Option Node

/-- The file system with `name` bound to `node`. -/
def FS.set (fs : FS) (name : String) (node : Node) : FS :=
  fun p => if p = name then some node else fs p

/-- Unlinking, `os.Remove name`. -/
def FS.remove (fs : FS) (name : String) : FS :=
  fun p => if p = name then none else fs p

/-- Creating or truncating, `os.Create name`, in a directory that exists:
fails on a directory; whatever else the name leads to is replaced by an
empty regular file (the model has no write permissions).  `encrypt0` and
`decrypt0` create next to a file they were given, whose directory
therefore exists. -/
def FS.create (fs : FS) (name : String) : Option FS :=
  match fs name with
  | some (.dir _) => none
  | some .unlistable => none
  | _ => some (fs.set name (.file []))

/-- Renaming, `os.Rename old new`: fails when `old` does not exist or when
`new` is a directory. -/
def FS.rename (fs : FS) (old new : String) : Option FS :=
  match fs old with
  | none => none
  | some node =>
    match fs new with
    | some (.dir _) => none
    | some .unlistable => none
    | _ => some (fun p => if p = new then some node else if p = old then none else fs p)

/-- Whether an object, if any, is a regular file open to reading with
exactly these bytes. -/
def holdsBytes (o : Option Node) (data : List Nat) : Prop :=
  match o with
  | some (.file d) => d = data
  | _ => False

instance (o : Option Node) (data : List Nat) : Decidable (holdsBytes o data) := by
  unfold holdsBytes
  cases o with
  | none => exact isFalse id
  | some n =>
    cases n with
    | file d => exact inferInstanceAs (Decidable (d = data))
    | dir _ => exact isFalse id
    | unreadable _ => exact isFalse id
    | unlistable => exact isFalse id
    | dangling => exact isFalse id

/-- Whether a path names a regular file open to reading with exactly these
bytes. -/
def FS.holds (fs : FS) (name : String) (data : List Nat) : Prop :=
  holdsBytes (fs name) data

instance (fs : FS) (name : String) (data : List Nat) : Decidable (fs.holds name data) :=
  inferInstanceAs (Decidable (holdsBytes (fs name) data))

/-- The bytes of an object that is a regular file. -/
def fileBytes (o : Option Node) : Option (List Nat) :=
  match o with
  | some (.file d) => some d
  | _ => none

/-- The final state of a run: exit status and file system. -/
structure Final where
  status : Status
  fs : FS

/-- Wrapping to the range of `int64` (two's complement). -/
def wrap64 (x : Int) : Int :=
  (x + 2 ^ 63) % 2 ^ 64 - 2 ^ 63

/-- The loop `for j = 0; j < todo; j++ { a[j] ^= b[j] }` on two buffers of
the same length `todo`. -/
def xorBytes (a b : List Nat) : List Nat :=
  List.zipWith (fun x y => x ^^^ y) a b

/-- The reader `io.ReadFull(f, buf)` with `len(buf) = n` on the unread rest
of a file: the `n` bytes and the new rest, or nothing on a short read. -/
def ReadFull (rest : List Nat) (n : Nat) : Option (List Nat × List Nat) :=
  if n ≤ rest.length then some (rest.take n, rest.drop n) else none

/-- The index of the first occurrence of `sub` in `s` as a natural number. -/
def firstIndex (sub : List Char) : List Char → Option Nat
  | [] => if sub = [] then some 0 else none
  | c :: cs =>
    if sub.isPrefixOf (c :: cs) then some 0
    else (firstIndex sub cs).map (fun i => i + 1)

/-- The search `strings.Index(s, sub)`: index of the first occurrence, `-1`
when there is none. -/
def Index (s sub : String) : Int :=
  match firstIndex sub.data s.data with
  | some i => (i : Int)
  | none => -1

/-- Worker of `Replace`: `skip` characters of a matched occurrence are
still to be dropped. -/
def replaceAux (old new : List Char) : Nat → List Char → List Char
  | _, [] => []
  | skip + 1, _ :: cs => replaceAux old new skip cs
  | 0, c :: cs =>
    if old.isPrefixOf (c :: cs) then new ++ replaceAux old new (old.length - 1) cs
    else c :: replaceAux old new 0 cs

/-- The call `strings.Replace(s, old, new, -1)` for a non-empty `old`:
every non-overlapping occurrence, from the left, is replaced. -/
def Replace (s old new : String) : String :=
  String.mk (replaceAux old.data new.data 0 s.data)

/-- The streaming MAC object `hmac.New(sha512.New, key)`: it remembers the
key and everything written to it. -/
structure Mac where
  key : List Nat
  msg : List Nat
  deriving DecidableEq

/-- A new MAC object, `hmac.New`. -/
def Mac.New (key : List Nat) : Mac := ⟨key, []⟩

/-- Feeding bytes, `Hmac.Write(b)`. -/
def Mac.Write (h : Mac) (b : List Nat) : Mac := { h with msg := h.msg ++ b }

/-- The tag, `Hmac.Sum(nil)`. -/
def Mac.Sum (P : Prims) (h : Mac) : List Nat := P.hmac h.key h.msg

/-- The CFB stream object of `crypto/cipher`: the block key, the feedback
register `next`, the current key-stream block `out`, how many of its bytes
are used, and the direction. -/
structure CFB where
  key : List Nat
  next : List Nat
  out : List Nat
  outUsed : Nat
  decrypt : Bool
  deriving DecidableEq

/-- The constructors `cipher.NewCFBEncrypter` / `cipher.NewCFBDecrypter`:
`next` is a copy of the IV, the key-stream block is all used. -/
def CFB.New (key iv : List Nat) (decrypt : Bool) : CFB :=
  ⟨key, iv, List.replicate iv.length 0, iv.length, decrypt⟩

/-- One byte through `XORKeyStream`: a fresh key-stream block is computed
when the current one is used up, the byte is XORed with the next
key-stream byte, and the ciphertext byte enters the feedback register. -/
def CFB.stepByte (P : Prims) (c : CFB) (b : Nat) : CFB × Nat :=
  let c1 := if c.outUsed = c.next.length then { c with out := P.aes c.key c.next, outUsed := 0 } else c
  let o := b ^^^ c1.out.getD c1.outUsed 0
  let fb := if c1.decrypt then b else o
  ({ c1 with next := c1.next.set c1.outUsed fb, outUsed := c1.outUsed + 1 }, o)

/-- The method `Cipher.XORKeyStream(buf, buf)`: the new cipher state and the
transformed buffer. -/
def CFB.XORKeyStream (P : Prims) : CFB → List Nat → CFB × List Nat
  | c, [] => (c, [])
  | c, b :: bs =>
    let r := CFB.stepByte P c b
    let rs := CFB.XORKeyStream P r.1 bs
    (rs.1, r.2 :: rs.2)

/-- What `buf := make([]byte, n)` followed by `io.ReadFull(f, buf)` gives. -/
inductive Got where
  | fault
  | short
  | ok (buf : List Nat) (rest : Option (List Nat))

/-- Allocating a buffer of `n` bytes and filling it from a handle (`none`
is the nil handle, `some rest` an open file with `rest` unread): a
negative length is a run-time fault, a read of zero bytes always succeeds,
and too few bytes left is an error. -/
def readBuf (h : Option (List Nat)) (n : Int) : Got :=
  if n < 0 then .fault
  else
    match h with
    | none => if n = 0 then .ok [] none else .short
    | some rest =>
      match ReadFull rest n.toNat with
      | some r => .ok r.1 (some r.2)
      | none => .short

/-- The loop `for i = i0; i < blocks; i++ { body }` with `k` passes left:
it is entered with `k = blocks - i0`, and a pass that ends the process ends
the loop. -/
def forLoop {σ : Type} (body : Int → σ → Except Final σ) : Nat → Int → σ → Except Final σ
  | 0, _, s => .ok s
  | k + 1, i, s =>
    match body i s with
    | .error e => .error e
    | .ok s => forLoop body k (i + 1) s

/-- Whether a path names a directory. -/
def FS.isDir (fs : FS) (name : String) : Bool :=
  match fs name with
  | some (.dir _) => true
  | some .unlistable => true
  | _ => false

/-- The directory part of a path: what stands before its last `/`; `none`
for a bare name, which lies in the working directory. -/
def dirOf (path : String) : Option String :=
  match path.data.reverse.dropWhile (fun c => c ≠ '/') with
  | [] => none
  | _ :: rest => some (String.mk rest.reverse)

/-- Creating or truncating, `os.Create name`, for a name whose directory
may be missing: the call fails when the directory part of the name is not
a directory (the root always is one), and is `FS.create` otherwise. -/
def FS.createIn (fs : FS) (name : String) : Option FS :=
  match dirOf name with
  | none => fs.create name
  | some d => if d = "" ∨ fs.isDir d = true then fs.create name else none

/-! ## encrypt0 -/

namespace Encrypt0

def ExitSuccess : Int := 0
def ExitPadTooShort : Int := 1
def ExitError : Int := 9
def PadExt : String := ".w.pad"
def UsedPadExt : String := ".x.pad"
def CiphertextExt : String := ".enc"
def PadOverhead : Int := 144
def BufferSize : Int := 1024 * 1024

/-- The process-wide variables of `encrypt0`, the file system, and the
outcomes of the successive `Write` calls on the output file (`true`: the
call fails; an exhausted list: every further call succeeds).  An open
input handle is the unread rest of the file, the output handle the bytes
written so far. -/
structure World where
  fs : FS
  wfail : List Bool
  Fplaintext : Option (List Nat)
  Fciphertext : Option (List Nat)
  Fpad : Option (List Nat)
  PlaintextSize : Int
  PadSize : Int
  PlaintextName : String
  CiphertextName : String
  PadName : String
  Short : Bool
  Hmac : Mac
  Cipher : CFB

/-- The variables as the program text initialises them. -/
def World.start (fs : FS) (wfail : List Bool) : World :=
  { fs := fs, wfail := wfail, Fplaintext := none, Fciphertext := none, Fpad := none,
    PlaintextSize := -1, PadSize := -1, PlaintextName := "", CiphertextName := "",
    PadName := "", Short := false, Hmac := Mac.New [], Cipher := CFB.New [] [] false }

/-- The exit routine `CleanExit(status)`: the output file is removed when it
was created and the status is not success; the pad keeps its name. -/
def CleanExit (w : World) (status : Int) : Final :=
  { status := .exit status,
    fs := if w.Fciphertext.isSome ∧ status ≠ ExitSuccess then w.fs.remove w.CiphertextName else w.fs }

/-- The exits `FatalCheck(err)` with an error and `FatalError`. -/
def Fatal (w : World) : Final := CleanExit w ExitError

/-- A run-time fault ends the process without the exit routine. -/
def Fault (w : World) : Final := { status := .fault, fs := w.fs }

/-- The call `Fciphertext.Write(b)`: the world after it and whether it
returned an error.  A nil handle gives an error; a successful call appends
to the file that `CiphertextName` names. -/
def Write (w : World) (b : List Nat) : World × Bool :=
  match w.Fciphertext with
  | none => (w, true)
  | some done =>
    if w.wfail.headD false then ({ w with wfail := w.wfail.tail }, true)
    else
      ({ w with wfail := w.wfail.tail, Fciphertext := some (done ++ b),
                fs := w.fs.set w.CiphertextName (.file (done ++ b)) }, false)

/-- The argument check `ParseArgs` on `os.Args`. -/
def ParseArgs (args : List String) (w : World) : Except Final World :=
  let length : Int := args.length
  let short := length = 4 ∧ args.getD 1 "" = "--short"
  let start : Nat := if short then 2 else 1
  let w := if short then { w with Short := true } else w
  if length ≠ (start : Int) + 2 then .error (Fatal w)
  else
    let w := { w with PlaintextName := args.getD start "", PadName := args.getD (start + 1) "" }
    let indx := Index w.PadName PadExt
    if indx ≤ 0 ∨ indx ≠ (w.PadName.length : Int) - (PadExt.length : Int) then .error (Fatal w)
    else .ok w

/-- The file check `CheckFiles`: both arguments must be regular files and
the pad must exceed the plaintext by `PadOverhead`; the "pad too short"
exit is a bare `os.Exit(ExitPadTooShort)`. -/
def CheckFiles (w : World) : Except Final World :=
  match Stat (w.fs w.PlaintextName) with
  | none => .error (Fatal w)
  | some inputInfo =>
    match Stat (w.fs w.PadName) with
    | none => .error (Fatal w)
    | some padInfo =>
      if inputInfo.IsRegular = false then .error (Fatal w)
      else if padInfo.IsRegular = false then .error (Fatal w)
      else if padInfo.Size - inputInfo.Size < PadOverhead then
        .error { status := .exit ExitPadTooShort, fs := w.fs }
      else .ok { w with PlaintextSize := inputInfo.Size, PadSize := padInfo.Size }

/-- The header builder `GetHeader`: sixteen bytes, the first eight zero, the
last eight filled from index 15 down to 8 with
`byte((PlaintextSize / div) % 256)`, `div` being multiplied by 256 (in
`int64`) after each. -/
def GetHeader (PlaintextSize : Int) : List Nat :=
  let fill : List Nat × Int → Nat → List Nat × Int := fun acc i =>
    (acc.1.set i (((PlaintextSize.tdiv acc.2).tmod 256) % 256).toNat, wrap64 (acc.2 * 256))
  ([15, 14, 13, 12, 11, 10, 9, 8].foldl fill (List.replicate 16 0, 1)).1

/-- The first part of `Init`, "opening files": open the plaintext, create
the output (the result of `os.Create` is not looked at), rename the pad to
its used name and reopen it under that name. -/
def initFiles (w : World) : Except Final World :=
  match Open (w.fs w.PlaintextName) with
  | none => .error (Fatal w)
  | some plain =>
    let w := { w with Fplaintext := some plain }
    let w := { w with CiphertextName := w.PlaintextName ++ CiphertextExt }
    let w :=
      match w.fs.create w.CiphertextName with
      | some fs => { w with fs := fs, Fciphertext := some [] }
      | none => { w with Fciphertext := none }
    let newPadName := Replace w.PadName PadExt UsedPadExt
    match w.fs.rename w.PadName newPadName with
    | none => .error (Fatal w)
    | some fs =>
      let w := { w with fs := fs, PadName := newPadName }
      match Open (w.fs w.PadName) with
      | none => .error (Fatal w)
      | some pad => .ok { w with Fpad := some pad }

/-- The second part of `Init`, "setting up HMAC" and "setting up AES": key
the MAC with the first 96 pad bytes, write the IV `iv` (what `rand.Read`
delivered) and feed it to the MAC, key the cipher with the next 32 pad
bytes. -/
def initKeys (iv : List Nat) (w : World) : Except Final World :=
  match readBuf w.Fpad 96 with
  | .fault => .error (Fault w)
  | .short => .error (Fatal w)
  | .ok hmacKey rest =>
    let w := { w with Fpad := rest, Hmac := Mac.New hmacKey }
    let r := Write w iv
    if r.2 then .error (Fatal r.1)
    else
      let w := { r.1 with Hmac := r.1.Hmac.Write iv }
      match readBuf w.Fpad 32 with
      | .fault => .error (Fault w)
      | .short => .error (Fatal w)
      | .ok aesKey rest => .ok { w with Fpad := rest, Cipher := CFB.New aesKey iv false }

/-- The set-up `Init`. -/
def Init (iv : List Nat) (w : World) : Except Final World :=
  match initFiles w with
  | .error e => .error e
  | .ok w => initKeys iv w

/-- One pass of the plaintext loop of `Encrypt` (block index `i`); the
result of the output `Write` is not looked at. -/
def bodyBlock (P : Prims) (blocks : Int) (i : Int) (w : World) : Except Final World :=
  let todo := if i = blocks - 1 then w.PlaintextSize.tmod BufferSize else BufferSize
  if todo = 0 then .ok w
  else
    match readBuf w.Fplaintext todo with
    | .fault => .error (Fault w)
    | .short => .error (Fatal w)
    | .ok buff rest =>
      let w := { w with Fplaintext := rest }
      match readBuf w.Fpad todo with
      | .fault => .error (Fault w)
      | .short => .error (Fatal w)
      | .ok padBuff rest =>
        let w := { w with Fpad := rest }
        let r := w.Cipher.XORKeyStream P (xorBytes buff padBuff)
        let w := { w with Cipher := r.1 }
        let w := (Write w r.2).1
        .ok { w with Hmac := w.Hmac.Write r.2 }

/-- One pass of the size-hiding loop of `Encrypt`. -/
def padBlock (P : Prims) (toWrite blocks : Int) (i : Int) (w : World) : Except Final World :=
  let todo := if i = blocks - 1 then toWrite.tmod BufferSize else BufferSize
  match readBuf w.Fpad todo with
  | .fault => .error (Fault w)
  | .short => .error (Fatal w)
  | .ok padBuff rest =>
    let w := { w with Fpad := rest }
    let r := w.Cipher.XORKeyStream P padBuff
    let w := { w with Cipher := r.1 }
    let wr := Write w r.2
    if wr.2 then .error (Fatal wr.1)
    else .ok { wr.1 with Hmac := wr.1.Hmac.Write r.2 }

/-- The first part of `Encrypt`, "getting and encrypt the header": the
header is masked with the next 16 pad bytes, encrypted, written and fed to
the MAC. -/
def encryptHeader (P : Prims) (w : World) : Except Final World :=
  let head := GetHeader w.PlaintextSize
  match readBuf w.Fpad 16 with
  | .fault => .error (Fault w)
  | .short => .error (Fatal w)
  | .ok headPad rest =>
    let w := { w with Fpad := rest }
    let head := xorBytes head headPad
    let r := w.Cipher.XORKeyStream P head
    let w := { w with Cipher := r.1 }
    let wr := Write w r.2
    if wr.2 then .error (Fatal wr.1)
    else .ok { wr.1 with Hmac := wr.1.Hmac.Write r.2 }

/-- The last part of `Encrypt`, "writing the HMAC at the end of the
ciphertext". -/
def writeTag (P : Prims) (w : World) : Except Final World :=
  let wr := Write w (w.Hmac.Sum P)
  if wr.2 then .error (Fatal wr.1) else .ok wr.1

/-- The pipeline `Encrypt`: masked and encrypted header, plaintext blocks,
size-hiding blocks unless `Short`, then the tag. -/
def Encrypt (P : Prims) (w : World) : Except Final World :=
  match encryptHeader P w with
  | .error e => .error e
  | .ok w =>
    let blocks := w.PlaintextSize.tdiv BufferSize + 1
    match forLoop (bodyBlock P blocks) blocks.toNat 0 w with
    | .error e => .error e
    | .ok w =>
      let padded :=
        if w.Short then .ok w
        else
          let toWrite := w.PadSize - PadOverhead - w.PlaintextSize
          let blocks := toWrite.tdiv BufferSize + 1
          forLoop (padBlock P toWrite blocks) blocks.toNat 0 w
      match padded with
      | .error e => .error e
      | .ok w => writeTag P w

/-- What `Init` followed by `Encrypt` leaves in the output file, when both
return. -/
def output (P : Prims) (iv : List Nat) (w : World) : Option (List Nat) :=
  match Init iv w with
  | .error _ => none
  | .ok w =>
    match Encrypt P w with
    | .error _ => none
    | .ok w => fileBytes (w.fs w.CiphertextName)

/-- The program `main` of `encrypt0` on the arguments `args`, with `iv` the
bytes the system generator delivers. -/
def main (P : Prims) (iv : List Nat) (args : List String) (fs : FS) (wfail : List Bool) : Final :=
  match ParseArgs args (World.start fs wfail) with
  | .error e => e
  | .ok w =>
    match CheckFiles w with
    | .error e => e
    | .ok w =>
      match Init iv w with
      | .error e => e
      | .ok w =>
        match Encrypt P w with
        | .error e => e
        | .ok w => CleanExit w ExitSuccess

end Encrypt0

/-! ## decrypt0 -/

namespace Decrypt0

def ExitSuccess : Int := 0
def ExitNoValidPad : Int := 1
def ExitError : Int := 9
def CiphertextExt : String := ".enc"
def PadExt : String := ".r.pad"
def PadOverhead : Int := 48
def CiphertextOverhead : Int := 96
def BufferSize : Int := 1024 * 1024

/-- The process-wide variables of `decrypt0`, the file system, and the
outcomes of the successive `Write` calls on the output file.  `PadNode` is
the object that the path `PadName` names (a pad argument may be a path
below a directory, whose entries the file system holds as a tree); it
changes together with `PadName`. -/
structure World where
  fs : FS
  wfail : List Bool
  Fplaintext : Option (List Nat)
  Fciphertext : Option (List Nat)
  Fpad : Option (List Nat)
  PlaintextSize : Int
  CiphertextSize : Int
  PadSize : Int
  PlaintextName : String
  CiphertextName : String
  PadName : String
  PadNode : Option Node
  Hmac : Mac
  Cipher : CFB

/-- The variables as the program text initialises them. -/
def World.start (fs : FS) (wfail : List Bool) : World :=
  { fs := fs, wfail := wfail, Fplaintext := none, Fciphertext := none, Fpad := none,
    PlaintextSize := -1, CiphertextSize := -1, PadSize := -1, PlaintextName := "",
    CiphertextName := "", PadName := "", PadNode := fs "", Hmac := Mac.New [],
    Cipher := CFB.New [] [] true }

/-- The exit routine `CleanExit(status)`: the output file is removed when it
was created and the status is not success. -/
def CleanExit (w : World) (status : Int) : Final :=
  { status := .exit status,
    fs := if w.Fplaintext.isSome ∧ status ≠ ExitSuccess then w.fs.remove w.PlaintextName else w.fs }

/-- The exits `FatalCheck(err)` with an error and `FatalError`. -/
def Fatal (w : World) : Final := CleanExit w ExitError

/-- A run-time fault ends the process without the exit routine. -/
def Fault (w : World) : Final := { status := .fault, fs := w.fs }

/-- The call `Fplaintext.Write(b)`: the world after it and whether it
returned an error. -/
def Write (w : World) (b : List Nat) : World × Bool :=
  match w.Fplaintext with
  | none => (w, true)
  | some done =>
    if w.wfail.headD false then ({ w with wfail := w.wfail.tail }, true)
    else
      ({ w with wfail := w.wfail.tail, Fplaintext := some (done ++ b),
                fs := w.fs.set w.PlaintextName (.file (done ++ b)) }, false)

/-- The argument check `ParseArgs` on `os.Args`. -/
def ParseArgs (args : List String) (w : World) : Except Final World :=
  if args.length ≠ 3 then .error (Fatal w)
  else
    let w := { w with CiphertextName := args.getD 1 "", PadName := args.getD 2 "",
                      PadNode := w.fs (args.getD 2 "") }
    let indx := Index w.CiphertextName CiphertextExt
    if indx ≤ 0 ∨ indx ≠ (w.CiphertextName.length : Int) - (CiphertextExt.length : Int) then
      .error (Fatal w)
    else .ok w

/-- The opener `OpenFiles`: each of the three files whose name is set is
opened (the output is created, which empties a file of that name, also
for a handle already open on it). -/
def OpenFiles (w : World) : Except Final World :=
  let padStep : Except Final World :=
    if w.PadName.length > 0 then
      match Open w.PadNode with
      | none => .error (Fatal w)
      | some pad => .ok { w with Fpad := some pad }
    else .ok w
  match padStep with
  | .error e => .error e
  | .ok w =>
    let cipherStep : Except Final World :=
      if w.CiphertextName.length > 0 then
        match Open (w.fs w.CiphertextName) with
        | none => .error (Fatal w)
        | some ct => .ok { w with Fciphertext := some ct }
      else .ok w
    match cipherStep with
    | .error e => .error e
    | .ok w =>
      if w.PlaintextName.length > 0 then
        match w.fs.create w.PlaintextName with
        | none => .error (Fatal { w with Fplaintext := none })
        | some fs =>
          .ok { w with fs := fs, Fplaintext := some [],
                       Fpad := if w.PlaintextName = w.PadName then w.Fpad.map (fun _ => []) else w.Fpad,
                       PadNode := if w.PlaintextName = w.PadName then some (.file []) else w.PadNode,
                       Fciphertext :=
                         if w.PlaintextName = w.CiphertextName then w.Fciphertext.map (fun _ => [])
                         else w.Fciphertext }
      else .ok w

/-- One pass of the MAC loop of `CheckIntegrity` on the local MAC object. -/
def macBlock (toRead blocks : Int) (i : Int) (s : World × Mac) : Except Final (World × Mac) :=
  let todo := if i = blocks - 1 then toRead.tmod BufferSize else BufferSize
  match readBuf s.1.Fciphertext todo with
  | .fault => .error (Fault s.1)
  | .short => .error (Fatal s.1)
  | .ok buff rest => .ok ({ s.1 with Fciphertext := rest }, s.2.Write buff)

/-- The unchecked `io.ReadFull(Fciphertext, hmac)` into a buffer of 64
zero bytes: what could be read, the rest of the buffer staying zero. -/
def readTag (h : Option (List Nat)) : List Nat :=
  match h with
  | none => List.replicate 64 0
  | some rest => rest.take 64 ++ List.replicate (64 - rest.length) 0

/-- The probe `CheckIntegrity` of the pad named by `PadName` against the
ciphertext: the fast test on the first eight header bytes, then the MAC over
everything but the last 64 bytes. -/
def CheckIntegrity (P : Prims) (w : World) : Except Final (Bool × World) :=
  match OpenFiles w with
  | .error e => .error e
  | .ok w =>
    match readBuf w.Fpad 96 with
    | .fault => .error (Fault w)
    | .short => .error (Fatal w)
    | .ok hmacKey rest =>
      let w := { w with Fpad := rest }
      match readBuf w.Fpad 32 with
      | .fault => .error (Fault w)
      | .short => .error (Fatal w)
      | .ok aesKey rest =>
        let w := { w with Fpad := rest }
        match readBuf w.Fpad 8 with
        | .fault => .error (Fault w)
        | .short => .error (Fatal w)
        | .ok headPad rest =>
          let w := { w with Fpad := rest, Hmac := Mac.New hmacKey }
          match readBuf w.Fciphertext 16 with
          | .fault => .error (Fault w)
          | .short => .error (Fatal w)
          | .ok iv rest =>
            let w := { w with Fciphertext := rest }
            match readBuf w.Fciphertext 8 with
            | .fault => .error (Fault w)
            | .short => .error (Fatal w)
            | .ok head rest =>
              let w := { w with Fciphertext := rest }
              let h := ((Mac.New hmacKey).Write iv).Write head
              let r := (CFB.New aesKey iv true).XORKeyStream P head
              let w := { w with Cipher := r.1 }
              if r.2 ≠ headPad then .ok (false, w)
              else
                let toRead := w.CiphertextSize - 64 - (8 + 16)
                let blocks := toRead.tdiv BufferSize + 1
                match forLoop (macBlock toRead blocks) blocks.toNat 0 (w, h) with
                | .error e => .error e
                | .ok r =>
                  let hmac := readTag r.1.Fciphertext
                  if hmac = r.2.Sum P then .ok (true, r.1) else .ok (false, r.1)

/-- The first block of `FindPad`: the size of the ciphertext is taken once. -/
def statCiphertext (w : World) : Except Final World :=
  if w.CiphertextSize = -1 then
    match Stat (w.fs w.CiphertextName) with
    | none => .error (Fatal w)
    | some inputInfo =>
      if inputInfo.IsRegular = false then .error (Fatal w)
      else .ok { w with CiphertextSize := inputInfo.Size }
  else .ok w

mutual
/-- The search `FindPad` on the object `info` that `PadName` leads to:
`os.Stat(PadName)` must answer; a regular file that is large enough and
carries the pad suffix is probed; a directory must let `ioutil.ReadDir`
list it and has `FindPad` called on each entry in turn, `PadName` being the
entry's path during the call and restored after a failure. -/
def FindPadOn (P : Prims) : Node → World → Except Final (Bool × World)
  | info, w =>
    match statCiphertext w with
    | .error e => .error e
    | .ok w =>
      match info with
      | .dangling => .error (Fatal w)
      | .file data =>
        if (Node.file data).Size - w.CiphertextSize ≥ PadOverhead then
          let indx := Index w.PadName PadExt
          if indx > 0 ∧ indx = (w.PadName.length : Int) - (PadExt.length : Int) then
            CheckIntegrity P w
          else .ok (false, w)
        else .ok (false, w)
      | .unreadable data =>
        if (Node.unreadable data).Size - w.CiphertextSize ≥ PadOverhead then
          let indx := Index w.PadName PadExt
          if indx > 0 ∧ indx = (w.PadName.length : Int) - (PadExt.length : Int) then
            CheckIntegrity P w
          else .ok (false, w)
        else .ok (false, w)
      | .dir infos => FindPadIn P w.PadName (.dir infos) infos w
      | .unlistable => .error (Fatal w)
/-- The loop `for _, f := range infos` of `FindPad`. -/
def FindPadIn (P : Prims) (oldPadName : String) (oldNode : Node) :
    List (String × Node) → World → Except Final (Bool × World)
  | [], w => .ok (false, w)
  | f :: rest, w =>
    let w := { w with PadName := oldPadName ++ "/" ++ f.1, PadNode := some f.2 }
    match FindPadOn P f.2 w with
    | .error e => .error e
    | .ok r =>
      if r.1 then .ok (true, r.2)
      else FindPadIn P oldPadName oldNode rest { r.2 with PadName := oldPadName, PadNode := some oldNode }
end

/-- The search `FindPad`: a pad argument that cannot be examined is fatal. -/
def FindPad (P : Prims) (w : World) : Except Final (Bool × World) :=
  match w.PadNode with
  | none =>
    match statCiphertext w with
    | .error e => .error e
    | .ok w => .error (Fatal w)
  | some info => FindPadOn P info w

/-- The size loop of `DecryptInit`: `PlaintextSize *= 256` and
`PlaintextSize += int64(head[i])` for `i` from 8 to 15, in `int64`. -/
def decodeSize (head : List Nat) : Int :=
  [8, 9, 10, 11, 12, 13, 14, 15].foldl
    (fun acc i => wrap64 (wrap64 (acc * 256) + ((head.getD i 0 % 256 : Nat) : Int))) 0

/-- The last test of `DecryptInit`: an impossible size is "authenticated but
malformed". -/
def sizeCheck (w : World) : Except Final World :=
  if w.PlaintextSize < 0 ∨ w.CiphertextSize - w.PlaintextSize < CiphertextOverhead then
    .error (Fatal w)
  else .ok w

/-- The set-up `DecryptInit` of the recovery pass. -/
def DecryptInit (P : Prims) (w : World) : Except Final World :=
  let w := { w with PlaintextName := Replace w.CiphertextName ".enc" "" }
  match OpenFiles w with
  | .error e => .error e
  | .ok w =>
    match readBuf w.Fpad 96 with
    | .fault => .error (Fault w)
    | .short => .error (Fatal w)
    | .ok hmacKey rest =>
      let w := { w with Fpad := rest }
      match readBuf w.Fpad 32 with
      | .fault => .error (Fault w)
      | .short => .error (Fatal w)
      | .ok aesKey rest =>
        let w := { w with Fpad := rest }
        match readBuf w.Fpad 16 with
        | .fault => .error (Fault w)
        | .short => .error (Fatal w)
        | .ok headPad rest =>
          let w := { w with Fpad := rest, Hmac := Mac.New hmacKey }
          match readBuf w.Fciphertext 16 with
          | .fault => .error (Fault w)
          | .short => .error (Fatal w)
          | .ok iv rest =>
            let w := { w with Fciphertext := rest }
            match readBuf w.Fciphertext 16 with
            | .fault => .error (Fault w)
            | .short => .error (Fatal w)
            | .ok head rest =>
              let w := { w with Fciphertext := rest }
              let r := (CFB.New aesKey iv true).XORKeyStream P head
              let w := { w with Cipher := r.1 }
              let head := xorBytes r.2 headPad
              sizeCheck { w with PlaintextSize := decodeSize head }

/-- One pass of the loop of `Decrypt`; the result of the output `Write` is
not looked at. -/
def plainBlock (P : Prims) (blocks : Int) (i : Int) (w : World) : Except Final World :=
  let todo := BufferSize
  if todo = 0 then .ok w
  else
    let todo := if i = blocks - 1 then w.PlaintextSize.tmod BufferSize else todo
    match readBuf w.Fciphertext todo with
    | .fault => .error (Fault w)
    | .short => .error (Fatal w)
    | .ok buff rest =>
      let w := { w with Fciphertext := rest }
      match readBuf w.Fpad todo with
      | .fault => .error (Fault w)
      | .short => .error (Fatal w)
      | .ok padBuff rest =>
        let w := { w with Fpad := rest }
        let r := w.Cipher.XORKeyStream P buff
        let w := { w with Cipher := r.1 }
        .ok (Write w (xorBytes r.2 padBuff)).1

/-- The recovery `Decrypt`. -/
def Decrypt (P : Prims) (w : World) : Except Final World :=
  let blocks := w.PlaintextSize.tdiv BufferSize + 1
  forLoop (plainBlock P blocks) blocks.toNat 0 w

/-- What `DecryptInit` followed by `Decrypt` leaves in the output file, when
both return. -/
def recovered (P : Prims) (w : World) : Option (List Nat) :=
  match DecryptInit P w with
  | .error _ => none
  | .ok w =>
    match Decrypt P w with
    | .error _ => none
    | .ok w => fileBytes (w.fs w.PlaintextName)

/-- The program `main` of `decrypt0` on the arguments `args`. -/
def main (P : Prims) (args : List String) (fs : FS) (wfail : List Bool) : Final :=
  match ParseArgs args (World.start fs wfail) with
  | .error e => e
  | .ok w =>
    match FindPad P w with
    | .error e => e
    | .ok r =>
      if r.1 = false then CleanExit r.2 ExitNoValidPad
      else
        match DecryptInit P r.2 with
        | .error e => e
        | .ok w =>
          match Decrypt P w with
          | .error e => e
          | .ok w => CleanExit w ExitSuccess

end Decrypt0

/-! ## genpads0 -/

/-- The CTR stream object of `crypto/cipher`: the block key, the counter
block, the current key-stream block and how many of its bytes are used. -/
structure CTR where
  key : List Nat
  ctr : List Nat
  out : List Nat
  outUsed : Nat
  deriving DecidableEq

/-- The big-endian increment of the counter block (on the reversed block:
least significant byte first). -/
def incrRev : List Nat → List Nat
  | [] => []
  | b :: bs => if (b + 1) % 256 = 0 then 0 :: incrRev bs else (b + 1) % 256 :: bs

/-- The constructor `cipher.NewCTR(block, iv)`. -/
def CTR.New (key iv : List Nat) : CTR :=
  ⟨key, iv, List.replicate iv.length 0, iv.length⟩

/-- One byte through the CTR `XORKeyStream`: when the key-stream block is
used up the counter block is encrypted and incremented. -/
def CTR.stepByte (P : Prims) (c : CTR) (b : Nat) : CTR × Nat :=
  let c1 :=
    if c.outUsed = c.ctr.length then
      { c with out := P.aes c.key c.ctr, ctr := (incrRev c.ctr.reverse).reverse, outUsed := 0 }
    else c
  ({ c1 with outUsed := c1.outUsed + 1 }, b ^^^ c1.out.getD c1.outUsed 0)

/-- The method `Cipher.XORKeyStream(buf, buf)` of the CTR stream. -/
def CTR.XORKeyStream (P : Prims) : CTR → List Nat → CTR × List Nat
  | c, [] => (c, [])
  | c, b :: bs =>
    let r := CTR.stepByte P c b
    let rs := CTR.XORKeyStream P r.1 bs
    (rs.1, r.2 :: rs.2)

/-- The call `strings.Split(s, sep)` for a one-character separator. -/
def splitChars (sep : Char) : List Char → List (List Char)
  | [] => [[]]
  | c :: cs =>
    if c = sep then [] :: splitChars sep cs
    else
      match splitChars sep cs with
      | [] => [[c]]
      | h :: t => (c :: h) :: t

/-- The call `strings.Split(s, ":")`. -/
def Split (s : String) : List String :=
  (splitChars ':' s.data).map String.mk

/-- The call `strconv.FormatInt(n, 16)`: the lower-case hexadecimal digits
of `n`, after a minus sign when `n` is negative. -/
def FormatInt16 (n : Int) : String :=
  if n < 0 then String.mk ('-' :: Nat.toDigits 16 n.natAbs) else String.mk (Nat.toDigits 16 n.natAbs)

/-- The call `strconv.ParseUint(s, 10, 64)`: the number that a non-empty
string of decimal digits denotes, when it fits 64 bits; anything else is
an error. -/
def ParseUint (s : String) : Option Nat :=
  if s.data = [] then none
  else if s.data.all (fun c => decide ('0' ≤ c ∧ c ≤ '9')) then
    let n := s.data.foldl (fun acc c => acc * 10 + (c.toNat - 48)) 0
    if n < 2 ^ 64 then some n else none
  else none

/-- Worker of `mkdirAll`: the ancestors of a path, shortest first (`acc` is
what was read so far, reversed). -/
def ancestorsAux : List Char → List Char → List (List Char)
  | _, [] => []
  | acc, c :: cs =>
    if c = '/' ∧ acc ≠ [] then acc.reverse :: ancestorsAux (c :: acc) cs
    else ancestorsAux (c :: acc) cs

/-- Making each of the listed directories in turn: a directory that exists
is kept, anything else in the way is an error. -/
def FS.mkdirs (fs : FS) : List String → Option FS
  | [] => some fs
  | p :: ps =>
    match fs p with
    | some (.dir _) => FS.mkdirs fs ps
    | some .unlistable => FS.mkdirs fs ps
    | some _ => none
    | none => FS.mkdirs (fs.set p (.dir [])) ps

/-- The call `os.MkdirAll(path, 0700)`: the directory and its missing
ancestors are made. -/
def FS.mkdirAll (fs : FS) (path : String) : Option FS :=
  fs.mkdirs ((ancestorsAux [] path.data).map String.mk ++ [path])

namespace Genpads0

def ExitSuccess : Int := 0
def ExitError : Int := 9
def DirExt : String := ".pads"

/-- The process-wide variables of `genpads0`, the file system, the
environment, and the system generator: `rng j` is the `j`-th byte it
delivers and `used` counts the bytes taken so far.  An open source is the
unread rest of its file, a stream of its own that the files written do not
touch.  `clock t` is what the `t`-th reading `time.Now().UnixNano()` gives
and `ticks` counts the readings so far; `wfail` holds the outcomes of the
successive `Write` calls on pad files (`true`: the call fails; an exhausted
list: every further call succeeds); `calls` records the arguments of every
call of `GeneratePad`, in order. -/
structure World where
  fs : FS
  env : String → String
  rng : Nat → Nat
  used : Nat
  Todo : List (List String)
  Number : Nat
  Size : Nat
  Cipher : CTR
  Sources : List (List Nat)
  clock : Nat → Int
  ticks : Nat
  wfail : List Bool
  calls : List (String × String)

/-- The exit routine `CleanExit(status)`: the sources are closed. -/
def CleanExit (w : World) (status : Int) : Final :=
  { status := .exit status, fs := w.fs }

/-- The exits `FatalCheck(err)` with an error and `FatalError`. -/
def Fatal (w : World) : Final := CleanExit w ExitError

/-- The call `rand.Read(buf)` with `len(buf) = n`. -/
def randRead (w : World) (n : Nat) : List Nat × World :=
  ((List.range n).map (fun j => w.rng (w.used + j)), { w with used := w.used + n })

/-- The opening loop of `InitRandom`: every non-empty name is opened and
appended to `Sources`. -/
def openSources : List String → World → Except Final World
  | [], w => .ok w
  | source :: rest, w =>
    if source ≠ "" then
      match Open (w.fs source) with
      | none => .error (Fatal w)
      | some f => openSources rest { w with Sources := w.Sources ++ [f] }
    else openSources rest w

/-- The seeding loop `for _, f := range Sources` of `InitRandom`, on the
sources not yet visited (`done` holds those visited): two zeroed buffers
`_iv` and `_aesKey` are made, `io.ReadFull(f, iv)` and
`io.ReadFull(f, aesKey)` fill `iv` and `aesKey`, and the zeroed buffers are
XORed into them. -/
def seedLoop (w : World) : List (List Nat) → List (List Nat) → List Nat → List Nat →
    Except Final (List (List Nat) × List Nat × List Nat)
  | [], done, iv, aesKey => .ok (done, iv, aesKey)
  | f :: rest, done, _, _ =>
    let _iv := List.replicate 16 0
    let _aesKey := List.replicate 32 0
    match ReadFull f 16 with
    | none => .error (Fatal w)
    | some r1 =>
      match ReadFull r1.2 32 with
      | none => .error (Fatal w)
      | some r2 =>
        seedLoop w rest (done ++ [r2.2]) (xorBytes r1.1 _iv) (xorBytes r2.1 _aesKey)

/-- The set-up `InitRandom`: the sources named in `CSTRNG` and `PRNG` are
opened, `iv` and `aesKey` are drawn from the system generator, the seeding
loop runs, and the CTR stream is keyed. -/
def InitRandom (w : World) : Except Final World :=
  let sources := Split (w.env "CSTRNG")
  let sources := sources ++ Split (w.env "PRNG")
  match openSources sources w with
  | .error e => .error e
  | .ok w =>
    let r := randRead w 16
    let iv := r.1
    let r := randRead r.2 32
    let aesKey := r.1
    let w := r.2
    match seedLoop w w.Sources [] iv aesKey with
    | .error e => .error e
    | .ok s => .ok { w with Sources := s.1, Cipher := CTR.New s.2.2 s.2.1 }

/-- The exit of `Usage`: a bare `os.Exit(ExitError)`. -/
def Usage (w : World) : Final := { status := .exit ExitError, fs := w.fs }

/-- The mixing loop `for _, f := range Sources` of `GeneratePad`, on the
sources not yet visited (`done` holds those visited): 1024 bytes are read
from the source into a fresh `_buffer` and XORed into `buffer`. -/
def mixSources (w : World) : List (List Nat) → List (List Nat) → List Nat →
    Except Final (List (List Nat) × List Nat)
  | [], done, buffer => .ok (done, buffer)
  | f :: rest, done, buffer =>
    match ReadFull f 1024 with
    | none => .error (Fatal w)
    | some r => mixSources w rest (done ++ [r.2]) (xorBytes buffer r.1)

/-- The call `file.Write(b)` on an open pad file (its name and the bytes
written through the handle so far) followed by `FatalCheck(err)`: the
handle writes at its own offset, after what it wrote before. -/
def Write (w : World) (file : String × List Nat) (b : List Nat) :
    Except Final (World × (String × List Nat)) :=
  if w.wfail.headD false then .error (Fatal { w with wfail := w.wfail.tail })
  else
    .ok ({ w with wfail := w.wfail.tail, fs := w.fs.set file.1 (.file (file.2 ++ b)) },
         (file.1, file.2 ++ b))

/-- One pass of the loop `for i = 0; i < Size; i++` of `GeneratePad` on the
variables, `file1` and `file2` (`none` is the nil handle): `buffer` is
filled by the system generator, every source is mixed in, the buffer goes
through the CTR stream and is written to both files. -/
def padPass (P : Prims) (_ : Int)
    (s : World × (String × List Nat) × Option (String × List Nat)) :
    Except Final (World × (String × List Nat) × Option (String × List Nat)) :=
  let r := randRead s.1 1024
  match mixSources r.2 r.2.Sources [] r.1 with
  | .error e => .error e
  | .ok m =>
    let w := { r.2 with Sources := m.1 }
    let x := w.Cipher.XORKeyStream P m.2
    let w := { w with Cipher := x.1 }
    match Write w s.2.1 x.2 with
    | .error e => .error e
    | .ok r1 =>
      match s.2.2 with
      | none => .ok (r1.1, r1.2, none)
      | some file2 =>
        match Write r1.1 file2 x.2 with
        | .error e => .error e
        | .ok r2 => .ok (r2.1, r1.2, some r2.2)

/-- The second `os.Create` of `GeneratePad`, for a non-empty `padCopy`. -/
def openCopy (padCopy : String) (w : World) : Except Final (World × Option (String × List Nat)) :=
  if padCopy ≠ "" then
    match w.fs.createIn padCopy with
    | none => .error (Fatal w)
    | some fs => .ok ({ w with fs := fs }, some (padCopy, []))
  else .ok (w, none)

/-- The pad writer `GeneratePad(padName, padCopy)`: the call is recorded in
`calls`, both files are created and `Size` blocks are written to them. -/
def GeneratePad (P : Prims) (padName padCopy : String) (w : World) : Except Final World :=
  let w := { w with calls := w.calls ++ [(padName, padCopy)] }
  match w.fs.createIn padName with
  | none => .error (Fatal w)
  | some fs =>
    match openCopy padCopy { w with fs := fs } with
    | .error e => .error e
    | .ok o =>
      match forLoop (padPass P) o.1.Size 0 (o.1, (padName, []), o.2) with
      | .error e => .error e
      | .ok s => .ok s.1

/-- The body of the innermost loop of `DoTheWork` for the sender
`Todo[i][0]` and the recipient `Todo[i][j]`: the two directories are made,
the base name is the time in hexadecimal, and the pad pair is written. -/
def onePad (P : Prims) (sender recipient : String) (w : World) : Except Final World :=
  let wDir := sender ++ DirExt ++ "/" ++ recipient
  let rDir := recipient ++ DirExt ++ "/" ++ sender
  match w.fs.mkdirAll wDir with
  | none => .error (Fatal w)
  | some fs =>
    let w := { w with fs := fs }
    match w.fs.mkdirAll rDir with
    | none => .error (Fatal w)
    | some fs =>
      let w := { w with fs := fs }
      let baseName := FormatInt16 (w.clock w.ticks)
      let w := { w with ticks := w.ticks + 1 }
      GeneratePad P (wDir ++ "/" ++ baseName ++ ".w.pad") (rDir ++ "/" ++ baseName ++ ".r.pad") w

/-- The loop `for k = 0; k < Number; k++` of `DoTheWork`. -/
def padsLoop (P : Prims) (i j : Int) (w : World) : Except Final World :=
  forLoop (fun _ w => onePad P ((w.Todo.getD i.toNat []).getD 0 "")
    ((w.Todo.getD i.toNat []).getD j.toNat "") w) w.Number 0 w

/-- The loop `for j = 1; j < len(Todo[i]); j++` of `DoTheWork`. -/
def recipientsLoop (P : Prims) (i : Int) (w : World) : Except Final World :=
  forLoop (padsLoop P i) ((w.Todo.getD i.toNat []).length - 1) 1 w

/-- The work `DoTheWork`: for every row of `Todo`, for every recipient in
it, `Number` pad pairs. -/
def DoTheWork (P : Prims) (w : World) : Except Final World :=
  forLoop (recipientsLoop P) w.Todo.length 0 w

/-- Worker of `main`: the two numeric arguments of forms 2 and 3. -/
def parseSizes (args : List String) (w : World) : Except Final World :=
  match ParseUint (args.getD 1 "") with
  | none => .error (Usage w)
  | some size =>
    let w := { w with Size := size }
    match ParseUint (args.getD 2 "") with
    | none => .error (Usage w)
    | some number => .ok { w with Number := number }

/-- The program `main` of `genpads0` up to its last statement, on the
arguments `args`; `csv` is `csv.NewReader(file).ReadAll()` with
`FieldsPerRecord = -1` on the bytes of a file (reading a directory is an
error). -/
def run (P : Prims) (csv : List Nat → Option (List (List String))) (args : List String)
    (w : World) : Except Final World :=
  if args.length = 3 then
    match ParseUint (args.getD 1 "") with
    | none => .error (Usage w)
    | some size =>
      match InitRandom { w with Size := size } with
      | .error e => .error e
      | .ok w => GeneratePad P (args.getD 2 "") "" w
  else if args.length = 5 then
    match parseSizes args w with
    | .error e => .error e
    | .ok w =>
      match InitRandom w with
      | .error e => .error e
      | .ok w =>
        DoTheWork P { w with Todo := [[args.getD 3 "", args.getD 4 ""],
                                      [args.getD 4 "", args.getD 3 ""]] }
  else if args.length = 4 then
    match parseSizes args w with
    | .error e => .error e
    | .ok w =>
      match InitRandom w with
      | .error e => .error e
      | .ok w =>
        match w.fs (args.getD 3 "") with
        | none => .error (Fatal w)
        | some file =>
          match file.open with
          | none => .error (Fatal w)
          | some bytes =>
            if file.IsDir then .error (Fatal w)
            else
              match csv bytes with
              | none => .error (Fatal w)
              | some rows => DoTheWork P { w with Todo := rows }
  else .error (Usage w)

/-- The program `main` of `genpads0`. -/
def main (P : Prims) (csv : List Nat → Option (List (List String))) (args : List String)
    (w : World) : Final :=
  match run P csv args w with
  | .error e => e
  | .ok w => CleanExit w ExitSuccess

end Genpads0

end Crypt0

namespace Crypt0

/-! ## Specification-side definitions -/

/-- The big-endian encoding of a number in eight bytes, most significant
byte first (written from the words of the specification). -/
def bigEndian64 (n : Nat) : List Nat :=
  [n / 256 ^ 7 % 256, n / 256 ^ 6 % 256, n / 256 ^ 5 % 256, n / 256 ^ 4 % 256,
   n / 256 ^ 3 % 256, n / 256 ^ 2 % 256, n / 256 ^ 1 % 256, n / 256 ^ 0 % 256]

/-- The number that eight bytes denote in big-endian order. -/
def bigEndianValue (bs : List Nat) : Nat :=
  bs.foldl (fun acc b => acc * 256 + b) 0

/-- The decrypting CFB stream in the same position as an encrypting one. -/
def CFB.toDecrypt (c : CFB) : CFB := { c with decrypt := true }

/-- The number of bytes a block loop over `n` bytes has handled before
pass `i`. -/
def chunkOff (n : Nat) (i : Int) : Nat := min (i.toNat * 1048576) n

/-- The encryptor in mid-stream: the variables of `base`, with every
output `Write` succeeding, the unread plaintext `p` and pad `q`, the cipher
`c`, the MAC object `m` and the output bytes `done` written so far. -/
def Encrypt0.mid (base : Encrypt0.World) (p q : List Nat) (c : CFB) (m : Mac)
    (done : List Nat) : Encrypt0.World :=
  { base with wfail := [], Fplaintext := some p, Fpad := some q, Cipher := c, Hmac := m,
              Fciphertext := some done, fs := base.fs.set base.CiphertextName (.file done) }

/-- The encryptor after the first `o` bytes of the plaintext `pl` went
through the plaintext loop that started with pad rest `q`, cipher `c0`, MAC
object `m0` and output `d0`. -/
def Encrypt0.bodyAt (P : Prims) (base : Encrypt0.World) (pl q : List Nat) (c0 : CFB) (m0 : Mac)
    (d0 : List Nat) (o : Nat) : Encrypt0.World :=
  Encrypt0.mid base (pl.drop o) (q.drop o) (c0.XORKeyStream P ((xorBytes pl q).take o)).1
    (m0.Write (c0.XORKeyStream P ((xorBytes pl q).take o)).2)
    (d0 ++ (c0.XORKeyStream P ((xorBytes pl q).take o)).2)

/-- The encryptor after the first `o` pad bytes went through the
size-hiding loop that started with pad rest `q`. -/
def Encrypt0.padAt (P : Prims) (base : Encrypt0.World) (p q : List Nat) (c0 : CFB) (m0 : Mac)
    (d0 : List Nat) (o : Nat) : Encrypt0.World :=
  Encrypt0.mid base p (q.drop o) (c0.XORKeyStream P (q.take o)).1
    (m0.Write (c0.XORKeyStream P (q.take o)).2)
    (d0 ++ (c0.XORKeyStream P (q.take o)).2)

/-- The variables and the file system that `Init` leaves behind, apart
from the stream state: the output exists and is empty, the pad is found
under its used name only. -/
def Encrypt0.initBase (w : Encrypt0.World) : Encrypt0.World :=
  { w with CiphertextName := w.PlaintextName ++ Encrypt0.CiphertextExt,
           PadName := Replace w.PadName Encrypt0.PadExt Encrypt0.UsedPadExt,
           fs := fun p =>
             if p = Replace w.PadName Encrypt0.PadExt Encrypt0.UsedPadExt then w.fs w.PadName
             else if p = w.PadName then none
             else (w.fs.set (w.PlaintextName ++ Encrypt0.CiphertextExt) (.file [])) p }

/-- The encryptor right after `Init`, for a plaintext `plain`, a pad `pad`
and the IV `iv`. -/
def Encrypt0.afterInit (iv : List Nat) (w : Encrypt0.World) (plain pad : List Nat) : Encrypt0.World :=
  Encrypt0.mid (Encrypt0.initBase w) plain (pad.drop 128)
    (CFB.New ((pad.drop 96).take 32) iv false) ((Mac.New (pad.take 96)).Write iv) iv

/-- The byte stream that goes through the cipher, in the words of the
specification: the sixteen-byte header (eight zero bytes, the size in
big-endian) XOR the header mask `pad[128:144]`, then the plaintext XOR the
pad bytes from 144 on, then, unless short mode is set, all the pad bytes
that remain. -/
def clearStream (plain pad : List Nat) (short : Bool) : List Nat :=
  xorBytes (List.replicate 8 0 ++ bigEndian64 plain.length) ((pad.drop 128).take 16)
    ++ xorBytes plain (pad.drop 144)
    ++ (if short then [] else pad.drop (144 + plain.length))

/-- The encrypted header and body of the container: the stream under
AES-CFB with the key `pad[96:128]` and the IV. -/
def cipherStream (P : Prims) (plain pad iv : List Nat) (short : Bool) : List Nat :=
  ((CFB.New ((pad.drop 96).take 32) iv false).XORKeyStream P (clearStream plain pad short)).2

/-- The ciphertext container of the specification: IV, encrypted header
and body, and the HMAC, keyed with `pad[0:96]`, of all that precedes it. -/
def container (P : Prims) (plain pad iv : List Nat) (short : Bool) : List Nat :=
  iv ++ cipherStream P plain pad iv short
    ++ P.hmac (pad.take 96) (iv ++ cipherStream P plain pad iv short)

/-- The decryptor in mid-stream: the variables of `base`, with every
output `Write` succeeding, the unread ciphertext `cr` and pad `q`, the
cipher `c` and the output bytes `done` written so far. -/
def Decrypt0.mid (base : Decrypt0.World) (cr q : List Nat) (c : CFB) (done : List Nat) :
    Decrypt0.World :=
  { base with wfail := [], Fciphertext := some cr, Fpad := some q, Cipher := c,
              Fplaintext := some done, fs := base.fs.set base.PlaintextName (.file done) }

/-- The decryptor after the first `o` body bytes went through the loop of
`Decrypt` that started with ciphertext rest `cr`, pad rest `q`, cipher `c0`
and output `d0`. -/
def Decrypt0.plainAt (P : Prims) (base : Decrypt0.World) (cr q : List Nat) (c0 : CFB)
    (d0 : List Nat) (o : Nat) : Decrypt0.World :=
  Decrypt0.mid base (cr.drop o) (q.drop o) (c0.XORKeyStream P (cr.take o)).1
    (d0 ++ xorBytes (c0.XORKeyStream P (cr.take o)).2 (q.take o))

/-- The variables that `DecryptInit` leaves behind, apart from the handles,
the cipher and the file system: the output name, the MAC key and the
decoded size `n`. -/
def Decrypt0.initBase (d : Decrypt0.World) (n : Int) (key : List Nat) : Decrypt0.World :=
  { d with PlaintextName := Replace d.CiphertextName ".enc" "", Hmac := Mac.New key,
           PlaintextSize := n }

/-- The size that `DecryptInit` decodes from a ciphertext `ct` under a pad
`pad`: the second sixteen bytes are decrypted, unmasked and read as a
number. -/
def Decrypt0.sizeOf (P : Prims) (ct pad : List Nat) : Int :=
  Decrypt0.decodeSize (xorBytes
    ((CFB.New ((pad.drop 96).take 32) (ct.take 16) true).XORKeyStream P ((ct.drop 16).take 16)).2
    ((pad.drop 128).take 16))

/-- The length property of HMAC-SHA-512: every tag has 64 bytes. -/
def Prims.tag64 (P : Prims) : Prop := ∀ key msg : List Nat, (P.hmac key msg).length = 64

/-- The encrypting stream after the masked header, and the encrypted header. -/
def encHead (P : Prims) (pad iv : List Nat) (n : Nat) : CFB × List Nat :=
  (CFB.New ((pad.drop 96).take 32) iv false).XORKeyStream P
    (xorBytes (List.replicate 8 0 ++ bigEndian64 n) ((pad.drop 128).take 16))

/-- The encrypting stream after the masked plaintext, and the encrypted plaintext. -/
def encBody (P : Prims) (plain pad iv : List Nat) : CFB × List Nat :=
  (encHead P pad iv plain.length).1.XORKeyStream P (xorBytes plain (pad.drop 144))

/-- The encrypted size-hiding bytes. -/
def encTail (P : Prims) (plain pad iv : List Nat) (short : Bool) : List Nat :=
  ((encBody P plain pad iv).1.XORKeyStream P
    (if short then [] else pad.drop (144 + plain.length))).2

/-- The encryptor's state when `Init` starts, for a plaintext `plain` and a
pad `pad`: `CheckFiles` has found the two regular files and taken their
sizes, the output name `PlaintextName ++ ".enc"` is not the pad's name and
not a directory, the pad's used name is not a directory, and no output
`Write` will fail. -/
def Encrypt0.Ready (e : Encrypt0.World) (plain pad : List Nat) : Prop :=
  e.fs.holds e.PlaintextName plain ∧ e.fs.holds e.PadName pad ∧
  e.PlaintextSize = (plain.length : Int) ∧ e.PadSize = (pad.length : Int) ∧
  e.wfail = [] ∧ e.PadName ≠ e.PlaintextName ++ Encrypt0.CiphertextExt ∧
  e.fs.isDir (e.PlaintextName ++ Encrypt0.CiphertextExt) = false ∧
  e.fs.isDir (Replace e.PadName Encrypt0.PadExt Encrypt0.UsedPadExt) = false

/-- The decryptor's state when `DecryptInit` starts, for a ciphertext `ct`
and a pad `pad`: `CiphertextName` names a file holding `ct` whose size was
taken, `PadName` names a file holding `pad`, the output name
(`CiphertextName` without `.enc`) is not empty, differs from both input
names and is not a directory, and no output `Write` will fail. -/
def Decrypt0.Ready (d : Decrypt0.World) (ct pad : List Nat) : Prop :=
  d.fs.holds d.CiphertextName ct ∧ holdsBytes d.PadNode pad ∧
  d.PadName.length > 0 ∧ d.CiphertextName.length > 0 ∧
  (Replace d.CiphertextName ".enc" "").length > 0 ∧
  Replace d.CiphertextName ".enc" "" ≠ d.PadName ∧
  Replace d.CiphertextName ".enc" "" ≠ d.CiphertextName ∧
  d.fs.isDir (Replace d.CiphertextName ".enc" "") = false ∧
  d.wfail = [] ∧ d.CiphertextSize = (ct.length : Int)

/-- The probe's state after the first `o` bytes of the ciphertext rest `r`
went through the MAC loop of `CheckIntegrity` that started in `w0` with
the MAC object `h0`. -/
def Decrypt0.macAt (w0 : Decrypt0.World) (h0 : Mac) (r : List Nat) (o : Nat) :
    Decrypt0.World × Mac :=
  ({ w0 with Fciphertext := some (r.drop o) }, h0.Write (r.take o))

/-- The state in which `CheckIntegrity` is called on a candidate pad `pad`
for a ciphertext `ct`: both names are set and name files with these bytes,
the size of the ciphertext was taken, and no output name is set yet. -/
def Decrypt0.Probing (w : Decrypt0.World) (ct pad : List Nat) : Prop :=
  w.fs.holds w.CiphertextName ct ∧ holdsBytes w.PadNode pad ∧
  w.PadName.length > 0 ∧ w.CiphertextName.length > 0 ∧ w.PlaintextName.length = 0 ∧
  w.CiphertextSize = (ct.length : Int)

/-- The fast test of the probe, in the words of the specification:
CFB-decrypting ciphertext bytes 16..23 under the key `pad[96:128]` and the
IV `ct[0:16]` gives `pad[128:136]`. -/
def fastTest (P : Prims) (ct pad : List Nat) : Prop :=
  ((CFB.New ((pad.drop 96).take 32) (ct.take 16) true).XORKeyStream P ((ct.drop 16).take 8)).2
    = (pad.drop 128).take 8

/-- The tag test of the probe, in the words of the specification: the last
64 bytes of the ciphertext are the HMAC, keyed with `pad[0:96]`, of all
the bytes before them. -/
def tagTest (P : Prims) (ct pad : List Nat) : Prop :=
  ct.drop (ct.length - 64) = P.hmac (pad.take 96) (ct.take (ct.length - 64))

instance (P : Prims) (ct pad : List Nat) : Decidable (fastTest P ct pad) :=
  inferInstanceAs (Decidable (_ = _))

instance (P : Prims) (ct pad : List Nat) : Decidable (tagTest P ct pad) :=
  inferInstanceAs (Decidable (_ = _))

/-- Whether a path carries the read-pad suffix the way `FindPad` tests it:
the first occurrence of `.r.pad` is not at the start and ends the path. -/
def padSuffix (name : String) : Prop :=
  Index name Decrypt0.PadExt > 0 ∧
    Index name Decrypt0.PadExt = (name.length : Int) - (Decrypt0.PadExt.length : Int)

instance (name : String) : Decidable (padSuffix name) :=
  inferInstanceAs (Decidable (_ ∧ _))

/-- Whether a regular file `pad` found under the path `name` is a pad that
authenticates the ciphertext `ct`: it is at least 48 bytes longer, its path
carries the suffix, and it passes the fast test and the tag test. -/
def authenticates (P : Prims) (ct : List Nat) (name : String) (pad : List Nat) : Prop :=
  (pad.length : Int) - (ct.length : Int) ≥ 48 ∧ padSuffix name ∧ fastTest P ct pad ∧
    tagTest P ct pad

instance (P : Prims) (ct : List Nat) (name : String) (pad : List Nat) :
    Decidable (authenticates P ct name pad) :=
  inferInstanceAs (Decidable (_ ∧ _))

/-- What the depth-first search for a pad comes to: a pad that authenticates,
with its path; no such pad; or an object in the way that cannot be
examined, at which the search stops. -/
inductive Search where
  | found (name : String) (pad : List Nat)
  | absent
  | stopped
  deriving DecidableEq

/-- Whether the search has an answer. -/
def Search.isFound : Search → Bool
  | .found _ _ => true
  | _ => false

mutual
/-- The depth-first search for a pad: a regular file is the answer when it
authenticates; in a directory the entries are searched in listing order, each
under the path of the directory extended by its name, sub-directories
included, and the first answer is kept.  The search stops at the first
object that cannot be examined: a link that leads nowhere, a directory that
cannot be listed, and a regular file that cannot be opened when it is large
enough and carries the suffix, so that it would be probed. -/
def searchOn (P : Prims) (ct : List Nat) : String → Node → Search
  | name, .file pad => if authenticates P ct name pad then .found name pad else .absent
  | name, .unreadable pad =>
    if (pad.length : Int) - (ct.length : Int) ≥ 48 ∧ padSuffix name then .stopped else .absent
  | _, .dangling => .stopped
  | _, .unlistable => .stopped
  | name, .dir entries => searchIn P ct name entries
/-- The search through the entries of the directory `dirName`. -/
def searchIn (P : Prims) (ct : List Nat) (dirName : String) :
    List (String × Node) → Search
  | [] => .absent
  | f :: rest =>
    match searchOn P ct (dirName ++ "/" ++ f.1) f.2 with
    | .absent => searchIn P ct dirName rest
    | r => r
end

/-- The byte list with bit `j` of byte `i` flipped. -/
def flipBit (ct : List Nat) (i j : Nat) : List Nat :=
  ct.set i (ct.getD i 0 ^^^ 2 ^ j)

/-- The state in which `main` calls `FindPad`, and in which `FindPad` calls
itself: the ciphertext name is set and names a regular file holding `ct`,
whose size is either not yet taken or taken, no output name is set and no
output is open. -/
def Decrypt0.Searching (w : Decrypt0.World) (ct : List Nat) : Prop :=
  w.fs w.CiphertextName = some (.file ct) ∧ w.CiphertextName.length > 0 ∧
  w.PlaintextName.length = 0 ∧ w.Fplaintext = none ∧
  (w.CiphertextSize = -1 ∨ w.CiphertextSize = (ct.length : Int))

/-- What a call of `FindPad` that started in `w` and returned `r` has done
when the depth-first search answers `res`: it reports whether there is an
answer, it has taken the size of the ciphertext, it has touched neither
the file system nor the other names, and `PadName` is the path of the
answer, or unchanged when there is none. -/
def Decrypt0.FindPost (w : Decrypt0.World) (ct : List Nat) (res : Search)
    (r : Bool × Decrypt0.World) : Prop :=
  r.1 = res.isFound ∧ r.2.fs = w.fs ∧ r.2.CiphertextName = w.CiphertextName ∧
  r.2.PlaintextName = w.PlaintextName ∧ r.2.Fplaintext = w.Fplaintext ∧
  r.2.wfail = w.wfail ∧ r.2.CiphertextSize = (ct.length : Int) ∧
  (match res with
   | .found name pad => r.2.PadName = name ∧ r.2.PadNode = some (.file pad)
   | _ => r.2.PadName = w.PadName ∧ r.2.PadNode = w.PadNode)

/-- What a call of `FindPad` that started in `w` comes to when the
depth-first search comes to `res`: where the search stops the call ends the
run with exit code 9 and the file system as it was; otherwise it returns as
`Decrypt0.FindPost` says. -/
def Decrypt0.FindSpec (w : Decrypt0.World) (ct : List Nat) (res : Search)
    (out : Except Final (Bool × Decrypt0.World)) : Prop :=
  match res with
  | .stopped => ∃ e, out = .error e ∧ e.status = .exit Decrypt0.ExitError ∧ e.fs = w.fs
  | _ => ∃ r, out = .ok r ∧ Decrypt0.FindPost w ct res r

/-- Whether a path carries the ciphertext suffix the way `ParseArgs` of
`decrypt0` tests it: the first occurrence of `.enc` is not at the start and
ends the path. -/
def encSuffix (name : String) : Prop :=
  Index name Decrypt0.CiphertextExt > 0 ∧
    Index name Decrypt0.CiphertextExt
      = (name.length : Int) - (Decrypt0.CiphertextExt.length : Int)

instance (name : String) : Decidable (encSuffix name) :=
  inferInstanceAs (Decidable (_ ∧ _))

/-- The decryptor's variables after `ParseArgs` accepted the ciphertext
name `cn` and the pad argument `pn`. -/
def Decrypt0.parsed (fs : FS) (wfail : List Bool) (cn pn : String) : Decrypt0.World :=
  { Decrypt0.World.start fs wfail with CiphertextName := cn, PadName := pn, PadNode := fs pn }

/-- Whether a path carries the write-pad suffix the way `ParseArgs` of
`encrypt0` tests it: the first occurrence of `.w.pad` is not at the start
and ends the path. -/
def padWSuffix (name : String) : Prop :=
  Index name Encrypt0.PadExt > 0 ∧
    Index name Encrypt0.PadExt = (name.length : Int) - (Encrypt0.PadExt.length : Int)

instance (name : String) : Decidable (padWSuffix name) :=
  inferInstanceAs (Decidable (_ ∧ _))

/-- The pad is committed in a file system: nothing is named `wn` any more
and the used name `xn` names a file with the pad's bytes. -/
def Committed (wn xn : String) (pad : List Nat) (fs : FS) : Prop :=
  fs wn = none ∧ fs xn = some (.file pad)

/-- The outcome of a step of the encryptor meets `inv` if it returns and
`good` if it ends the process. -/
def Encrypt0.Outcome (inv : Encrypt0.World → Prop) (good : Final → Prop)
    (r : Except Final Encrypt0.World) : Prop :=
  match r with
  | .ok w => inv w
  | .error e => good e

/-- The arguments of a run of `encrypt0` on the plaintext `pn` and the pad
`wn`, with or without `--short`. -/
def Encrypt0.argsOf (short : Bool) (prog pn wn : String) : List String :=
  if short then [prog, "--short", pn, wn] else [prog, pn, wn]

/-- The encryptor has committed the pad: its file system has, and its
output name is `cn`. -/
def Encrypt0.Burnt (wn xn cn : String) (pad : List Nat) (w : Encrypt0.World) : Prop :=
  Committed wn xn pad w.fs ∧ w.CiphertextName = cn

/-- The IV and the key with which `InitRandom` keys the CTR stream, when it
returns. -/
def Genpads0.seed (w : Genpads0.World) : Option (List Nat × List Nat) :=
  match Genpads0.InitRandom w with
  | .ok w2 => some (w2.Cipher.ctr, w2.Cipher.key)
  | .error _ => none

/-- The seed in the words of the specification: the 16 + 32 bytes drawn
from the system generator, with bytes 0..15 and 16..47 of every source
XORed in. -/
def mixedSeed (rngIv rngKey : List Nat) (sources : List (List Nat)) : List Nat × List Nat :=
  (sources.foldl (fun acc s => xorBytes acc (s.take 16)) rngIv,
   sources.foldl (fun acc s => xorBytes acc ((s.drop 16).take 32)) rngKey)

/-- A run of `genpads0` with `CSTRNG=zero`, a file of 48 zero bytes, no
`PRNG`, and a system generator that delivers only the byte 255. -/
def zeroSourceGen : Genpads0.World :=
  { fs := fun p => if p = "zero" then some (.file (List.replicate 48 0)) else none,
    env := fun v => if v = "CSTRNG" then "zero" else "",
    rng := fun _ => 255, used := 0, Todo := [], Number := 0, Size := 0,
    Cipher := CTR.New [] [], Sources := [], clock := fun _ => 0, ticks := 0, wfail := [],
    calls := [] }

/-- The sixteen header bytes as `DecryptInit` recovers them from a
ciphertext `ct` under a pad `pad`: ciphertext bytes 16..31, CFB-decrypted
under the key `pad[96:128]` and the IV `ct[0:16]`, XOR the header mask
`pad[128:144]`. -/
def unmaskedHeader (P : Prims) (ct pad : List Nat) : List Nat :=
  xorBytes
    ((CFB.New ((pad.drop 96).take 32) (ct.take 16) true).XORKeyStream P ((ct.drop 16).take 16)).2
    ((pad.drop 128).take 16)

/-- Bytes 8..15 of a header read as a signed 64-bit big-endian integer, in
the words of the specification: the unsigned big-endian value `u` of the
eight bytes, and `u - 2^64` when the top bit is set. -/
def signedSize (head : List Nat) : Int :=
  let u := bigEndianValue (((head.drop 8).take 8).map (fun b => b % 256))
  if u < 2 ^ 63 then (u : Int) else (u : Int) - 2 ^ 64

/-- A final state that is not the "pad too short" exit of `encrypt0`. -/
def Encrypt0.NotTooShort (e : Final) : Prop := e.status ≠ .exit Encrypt0.ExitPadTooShort

/-- The first `n` bytes of the key stream of a CTR stream in state `c`:
what `XORKeyStream` makes of `n` zero bytes. -/
def CTR.keyStream (P : Prims) (c : CTR) (n : Nat) : List Nat :=
  (c.XORKeyStream P (List.replicate n 0)).2

/-- The accumulator of block `i` of a pad, in the words of the
specification, for the variables `w` at the call of `GeneratePad`: 1024
fresh bytes of the system generator, with the next 1024 bytes of every
source XORed in. -/
def Genpads0.accumulator (w : Genpads0.World) (i : Nat) : List Nat :=
  w.Sources.foldl (fun acc s => xorBytes acc ((s.drop (1024 * i)).take 1024))
    ((List.range 1024).map (fun j => w.rng (w.used + 1024 * i + j)))

/-- The accumulators of the first `n` blocks, one after the other. -/
def Genpads0.mixed (w : Genpads0.World) : Nat → List Nat
  | 0 => []
  | n + 1 => Genpads0.mixed w n ++ Genpads0.accumulator w n

/-- What holds during the block loop of `GeneratePad padName padCopy`
called in `w0`, before pass `n`, of the variables and the two handles: both
files hold the `n` blocks written so far, which are the first `n`
accumulators sent through the CTR stream; the generator, the sources and
the stream have advanced by `n` blocks; the other variables are those of
`w0`, with the call recorded. -/
def Genpads0.Writing (P : Prims) (padName padCopy : String) (w0 : Genpads0.World) (n : Nat)
    (s : Genpads0.World × (String × List Nat) × Option (String × List Nat)) : Prop :=
  s.2.1 = (padName, (w0.Cipher.XORKeyStream P (Genpads0.mixed w0 n)).2) ∧
  s.2.2 = (if padCopy ≠ "" then
    some (padCopy, (w0.Cipher.XORKeyStream P (Genpads0.mixed w0 n)).2) else none) ∧
  s.1.fs padName = some (.file (w0.Cipher.XORKeyStream P (Genpads0.mixed w0 n)).2) ∧
  (padCopy ≠ "" →
    s.1.fs padCopy = some (.file (w0.Cipher.XORKeyStream P (Genpads0.mixed w0 n)).2)) ∧
  s.1.Cipher = (w0.Cipher.XORKeyStream P (Genpads0.mixed w0 n)).1 ∧
  s.1.Sources = w0.Sources.map (fun f => f.drop (1024 * n)) ∧
  s.1.used = w0.used + 1024 * n ∧ s.1.rng = w0.rng ∧ s.1.Size = w0.Size ∧
  s.1.Number = w0.Number ∧ s.1.Todo = w0.Todo ∧ s.1.clock = w0.clock ∧
  s.1.ticks = w0.ticks ∧ s.1.calls = w0.calls ++ [(padName, padCopy)] ∧
  (Genpads0.mixed w0 n).length = 1024 * n ∧
  ∀ i, i < n → (Genpads0.accumulator w0 i).length = 1024

/-- The two file names of a pad pair for the direction `sender` to
`recipient` with the base name `base`, in the words of the specification:
`S.pads/R/<base>.w.pad` and `R.pads/S/<base>.r.pad`. -/
def padPair (sender recipient base : String) : String × String :=
  (sender ++ ".pads" ++ "/" ++ recipient ++ "/" ++ base ++ ".w.pad",
   recipient ++ ".pads" ++ "/" ++ sender ++ "/" ++ base ++ ".r.pad")

/-- The pad pairs of `count` pads for the direction `sender` to
`recipient`, the first being named after reading `t0` of the clock. -/
def pairsFor (clock : Nat → Int) (t0 count : Nat) (sender recipient : String) :
    List (String × String) :=
  (List.range count).map (fun k => padPair sender recipient (FormatInt16 (clock (t0 + k))))

/-- What the calls of `GeneratePad` leave unchanged: the clock, the work
list, and the two numbers. -/
def Genpads0.SameJob (w w2 : Genpads0.World) : Prop :=
  w2.clock = w.clock ∧ w2.Todo = w.Todo ∧ w2.Number = w.Number ∧ w2.Size = w.Size

/-- The state in which `main` calls `DecryptInit` after `FindPad` returned
true for a ciphertext `ct` and a pad `pad`: `ParseArgs` accepted the
ciphertext name, which names a file holding `ct` whose size was taken, and
`PadName` is the path of a file holding `pad`. -/
def Decrypt0.Accepted (d : Decrypt0.World) (ct pad : List Nat) : Prop :=
  encSuffix d.CiphertextName ∧ d.fs.holds d.CiphertextName ct ∧
  d.CiphertextSize = (ct.length : Int) ∧ d.PadName.length > 0 ∧ holdsBytes d.PadNode pad

/-- The lengths `todo` of the blocks that the loop of `Decrypt` asks for,
pass by pass, when `PlaintextSize` is `n`. -/
def Decrypt0.blockLengths (n : Int) : List Int :=
  (List.range (n.tdiv Decrypt0.BufferSize + 1).toNat).map
    (fun (i : Nat) => if (i : Int) = n.tdiv Decrypt0.BufferSize + 1 - 1
      then n.tmod Decrypt0.BufferSize else Decrypt0.BufferSize)

/-- The stream cipher as `DecryptInit` leaves it: CFB decryption under the
key `pad[96:128]` and the IV `ct[0:16]`, after the sixteen header bytes. -/
def Decrypt0.bodyCipher (P : Prims) (ct pad : List Nat) : CFB :=
  ((CFB.New ((pad.drop 96).take 32) (ct.take 16) true).XORKeyStream P ((ct.drop 16).take 16)).1

/-- A pad pair is written: both names name a regular file, and the two
files hold one and the same `size × 1024` bytes. -/
def pairWritten (fs : FS) (size : Nat) (p : String × String) : Prop :=
  ∃ bytes, fs p.1 = some (.file bytes) ∧ fs p.2 = some (.file bytes) ∧
    bytes.length = size * 1024

/-- The pad pairs of the channel between `a` and `b`: those of either
direction, for any clock reading. -/
def channelPair (a b : String) (q : String × String) : Prop :=
  ∃ t, q = padPair a b (FormatInt16 t) ∨ q = padPair b a (FormatInt16 t)

mutual
/-- Whether an object and everything below it can be examined: it is made
of readable regular files and listable directories only. -/
def Node.examinable : Node → Bool
  | .file _ => true
  | .dir entries => examinableAll entries
  | _ => false
/-- Whether every entry of a listing can be examined. -/
def examinableAll : List (String × Node) → Bool
  | [] => true
  | f :: rest => f.2.examinable && examinableAll rest
end

/-! ## Sample data -/

/-- Small stand-ins for the two primitives, for evaluating the tools on
concrete files: a block function that adds key and block bytewise, and a
tag that is the message cut or zero-filled to 64 bytes. -/
def samplePrims : Prims :=
  { aes := fun key block => List.zipWith (fun x y => (x + y + 1) % 256) key block,
    hmac := fun _ msg => (msg ++ List.replicate 64 0).take 64 }

/-- A pad of 150 bytes. -/
def samplePad : List Nat := List.range 150

/-- A plaintext of three bytes. -/
def samplePlain : List Nat := [1, 2, 3]

/-- An IV of sixteen bytes. -/
def sampleIv : List Nat := [7, 6, 5, 4, 3, 2, 1, 0, 9, 8, 7, 6, 5, 4, 3, 2]

/-- A directory holding the plaintext `m` and the write pad `k.w.pad`. -/
def sampleFS : FS := fun p =>
  if p = "m" then some (.file samplePlain)
  else if p = "k.w.pad" then some (.file samplePad)
  else none

/-- The encryptor's variables after `CheckFiles` in `encrypt0 m k.w.pad`
(`short = false`) or `encrypt0 --short m k.w.pad`. -/
def sampleEnc (short : Bool) : Encrypt0.World :=
  { Encrypt0.World.start sampleFS [] with
    PlaintextName := "m", PadName := "k.w.pad", PlaintextSize := 3, PadSize := 150,
    Short := short }

/-- The container made from the sample plaintext, pad and IV. -/
def sampleContainer (short : Bool) : List Nat :=
  container samplePrims samplePlain samplePad sampleIv short

/-- A directory holding a ciphertext `m.enc` and the read pad `k.r.pad`. -/
def sampleDecFS (ct : List Nat) : FS := fun p =>
  if p = "m.enc" then some (.file ct)
  else if p = "k.r.pad" then some (.file samplePad)
  else none

/-- The decryptor's variables after `FindPad` in `decrypt0 m.enc k.r.pad`. -/
def sampleDec (ct : List Nat) : Decrypt0.World :=
  { Decrypt0.World.start (sampleDecFS ct) [] with
    CiphertextName := "m.enc", PadName := "k.r.pad", PadNode := some (.file samplePad),
    CiphertextSize := (ct.length : Int) }

/-- The path that `FindPad` leaves in `PadName` when it returns true. -/
def Decrypt0.found (P : Prims) (w : Decrypt0.World) : Option String :=
  match Decrypt0.FindPad P w with
  | .ok r => if r.1 then some r.2.PadName else none
  | .error _ => none

/-- A directory holding an empty ciphertext `m.enc` and the read pad
`k.r.pad`. -/
def emptyCipherFS : FS := sampleDecFS []

/-- A directory holding the sample container as `m.enc` and a directory
`d`, in which the read pad lies two levels down, as `d/s/k.r.pad`, next to
two decoys. -/
def nestedPadFS : FS := fun p =>
  if p = "m.enc" then some (.file (sampleContainer false))
  else if p = "d" then
    some (.dir [("a.r.pad", .file (List.replicate 150 0)),
                ("s", .dir [("k.r.pad", .file samplePad)]),
                ("z.r.pad", .file (List.replicate 150 1))])
  else none

/-- A directory holding the sample container as `m.enc` and a directory
`d` of decoys only. -/
def decoyPadFS : FS := fun p =>
  if p = "m.enc" then some (.file (sampleContainer false))
  else if p = "d" then
    some (.dir [("a.r.pad", .file (List.replicate 150 0)),
                ("s", .dir [("b.r.pad", .file (List.replicate 200 2))]),
                ("z.r.pad", .file (List.replicate 150 1))])
  else none

/-- A directory holding the sample container as `m.enc` and a directory
`d` in which a link that leads nowhere is listed between a decoy and the
read pad `k.r.pad`. -/
def brokenDirFS : FS := fun p =>
  if p = "m.enc" then some (.file (sampleContainer false))
  else if p = "d" then
    some (.dir [("a.r.pad", .file (List.replicate 150 0)),
                ("gone", .dangling),
                ("k.r.pad", .file samplePad)])
  else none

/-- A directory holding the plaintext `m`, which may not be opened for
reading, and the write pad `k.w.pad`. -/
def lockedPlainFS : FS := fun p =>
  if p = "m" then some (.unreadable samplePlain)
  else if p = "k.w.pad" then some (.file samplePad)
  else none

/-- A directory holding the plaintext `m` and a write pad `k.w.pad` of ten
bytes, too short for it. -/
def shortPadFS : FS := fun p =>
  if p = "m" then some (.file samplePlain)
  else if p = "k.w.pad" then some (.file (List.range 10))
  else none

/-- The variables of `genpads0` after an `InitRandom` with two sources, for
pads of two blocks: the file system is empty and no `Write` will fail. -/
def sampleGen : Genpads0.World :=
  { fs := fun _ => none, env := fun _ => "", rng := fun j => j % 251, used := 48,
    Todo := [], Number := 0, Size := 2, Cipher := CTR.New (List.range 32) (List.range 16),
    Sources := [List.replicate 3000 5, List.replicate 2500 9], clock := fun t => 1000 + (t : Int),
    ticks := 0, wfail := [], calls := [] }

/-- The variables of `genpads0` when `main` starts, in an empty directory,
with neither `CSTRNG` nor `PRNG` set. -/
def sampleGenStart : Genpads0.World :=
  { fs := fun _ => none, env := fun _ => "", rng := fun j => j % 251, used := 0,
    Todo := [], Number := 0, Size := 0, Cipher := CTR.New [] [], Sources := [],
    clock := fun t => 1000 + 255 * (t : Int), ticks := 0, wfail := [], calls := [] }

/-- A directory holding the short-mode sample container as `m.enc` and, as
`k.r.pad`, the sample pad without its last byte. -/
def truncatedPadFS : FS := fun p =>
  if p = "m.enc" then some (.file (sampleContainer true))
  else if p = "k.r.pad" then some (.file (samplePad.take 149))
  else none

/-- A directory holding the long-mode sample container as `m.enc` and, as
`t.r.pad`, the sample pad without its last byte. -/
def truncatedLongFS : FS := fun p =>
  if p = "m.enc" then some (.file (sampleContainer false))
  else if p = "t.r.pad" then some (.file (samplePad.take (samplePad.length - 1)))
  else none

/-- A directory holding the sample container as `m.enc` and a directory
`d` in which the read pad `k.r.pad` lies between two decoys. -/
def discoveryFS : FS := fun p =>
  if p = "m.enc" then some (.file (sampleContainer false))
  else if p = "d" then
    some (.dir [("a.r.pad", .file (List.replicate 150 0)),
                ("k.r.pad", .file samplePad),
                ("z.r.pad", .file (List.replicate 150 1))])
  else none

/-- A directory holding the sample container as `m.enc` and a directory
named `old.r.pad.d` that holds the read pad `k.r.pad` and nothing else. -/
def dottedDirFS : FS := fun p =>
  if p = "m.enc" then some (.file (sampleContainer false))
  else if p = "old.r.pad.d" then some (.dir [("k.r.pad", .file samplePad)])
  else none

/-- The decryptor's variables after `DecryptInit` in `decrypt0 m.enc k.r.pad`
on the sample container. -/
def sampleInit : Decrypt0.World :=
  match Decrypt0.DecryptInit samplePrims (sampleDec (sampleContainer false)) with
  | .ok w => w
  | .error _ => sampleDec (sampleContainer false)

/-! ## Byte lists and the CFB stream -/

theorem xorBytes_length (a b : List Nat) : (xorBytes a b).length = min a.length b.length := by
  simp [xorBytes]

theorem xorBytes_append (a a2 b b2 : List Nat) (h : a.length = b.length) :
    xorBytes (a ++ a2) (b ++ b2) = xorBytes a b ++ xorBytes a2 b2 := by
  simp only [xorBytes]
  exact List.zipWith_append _ a a2 b b2 h

theorem xorBytes_cancel : ∀ (a b : List Nat), a.length ≤ b.length → xorBytes (xorBytes a b) b = a
  | [], _, _ => by simp [xorBytes]
  | x :: a, [], h => by simp at h
  | x :: a, y :: b, h => by
    have ih := xorBytes_cancel a b (by simpa using h)
    simp only [xorBytes] at ih ⊢
    simp [List.zipWith, ih, Nat.xor_cancel_right]

theorem xorBytes_zero : ∀ (n : Nat) (b : List Nat), b.length = n →
    xorBytes (List.replicate n 0) b = b
  | 0, [], _ => by simp [xorBytes]
  | 0, _ :: _, h => by simp at h
  | n + 1, [], h => by simp at h
  | n + 1, y :: b, h => by
    have ih := xorBytes_zero n b (by simpa using h)
    simp only [xorBytes] at ih ⊢
    simp [List.replicate, List.zipWith, ih]

theorem XORKeyStream_append (P : Prims) : ∀ (a b : List Nat) (c : CFB),
    c.XORKeyStream P (a ++ b) =
      (((c.XORKeyStream P a).1.XORKeyStream P b).1,
        (c.XORKeyStream P a).2 ++ ((c.XORKeyStream P a).1.XORKeyStream P b).2)
  | [], b, c => by simp [CFB.XORKeyStream]
  | x :: a, b, c => by
    have ih := XORKeyStream_append P a b (c.stepByte P x).1
    show CFB.XORKeyStream P c (x :: (a ++ b)) = _
    simp only [CFB.XORKeyStream, ih, List.cons_append]

theorem XORKeyStream_length (P : Prims) : ∀ (a : List Nat) (c : CFB),
    (c.XORKeyStream P a).2.length = a.length
  | [], c => by simp [CFB.XORKeyStream]
  | x :: a, c => by
    simp only [CFB.XORKeyStream, List.length_cons]
    rw [XORKeyStream_length P a]

theorem stepByte_toDecrypt (P : Prims) (c : CFB) (b : Nat) (h : c.decrypt = false) :
    c.toDecrypt.stepByte P (c.stepByte P b).2 = ((c.stepByte P b).1.toDecrypt, b) ∧
      (c.stepByte P b).1.decrypt = false := by
  cases c with
  | mk key next out outUsed decrypt =>
    simp only at h
    subst h
    by_cases hu : outUsed = next.length
    · simp [CFB.stepByte, CFB.toDecrypt, hu, Nat.xor_cancel_right]
    · simp [CFB.stepByte, CFB.toDecrypt, hu, Nat.xor_cancel_right]

theorem XORKeyStream_toDecrypt (P : Prims) : ∀ (x : List Nat) (c : CFB), c.decrypt = false →
    c.toDecrypt.XORKeyStream P (c.XORKeyStream P x).2 = ((c.XORKeyStream P x).1.toDecrypt, x)
  | [], c, _ => by simp [CFB.XORKeyStream]
  | b :: x, c, h => by
    have hs := stepByte_toDecrypt P c b h
    have ih := XORKeyStream_toDecrypt P x (c.stepByte P b).1 hs.2
    simp only [CFB.XORKeyStream]
    rw [hs.1]
    simp only [ih]

theorem XORKeyStream_decrypt_false (P : Prims) : ∀ (x : List Nat) (c : CFB), c.decrypt = false →
    (c.XORKeyStream P x).1.decrypt = false
  | [], c, h => by simpa [CFB.XORKeyStream] using h
  | b :: x, c, h => by
    simp only [CFB.XORKeyStream]
    exact XORKeyStream_decrypt_false P x _ (stepByte_toDecrypt P c b h).2

theorem New_toDecrypt (key iv : List Nat) : (CFB.New key iv false).toDecrypt = CFB.New key iv true := rfl

/-! ## Header -/

theorem GetHeader_eq (n : Nat) :
    Encrypt0.GetHeader (n : Int) = List.replicate 8 0 ++ bigEndian64 n := by
  have h : ∀ d : Nat, (((n : Int).tdiv (d : Int)).tmod 256 % 256).toNat = n / d % 256 := by
    intro d
    have h1 : ((n : Int).tdiv (d : Int)) = ((n / d : Nat) : Int) := (Int.ofNat_tdiv n d).symm
    have h2 : (((n / d : Nat) : Int).tmod 256) = ((n / d % 256 : Nat) : Int) :=
      (Int.ofNat_tmod (n / d) 256).symm
    rw [h1, h2]
    have h3 : (((n / d % 256 : Nat) : Int) % 256) = ((n / d % 256 % 256 : Nat) : Int) := by
      exact_mod_cast rfl
    rw [h3, Int.toNat_ofNat, Nat.mod_mod]
  have w1 : wrap64 (1 * 256) = ((256 ^ 1 : Nat) : Int) := by decide
  have w2 : wrap64 (((256 ^ 1 : Nat) : Int) * 256) = ((256 ^ 2 : Nat) : Int) := by decide
  have w3 : wrap64 (((256 ^ 2 : Nat) : Int) * 256) = ((256 ^ 3 : Nat) : Int) := by decide
  have w4 : wrap64 (((256 ^ 3 : Nat) : Int) * 256) = ((256 ^ 4 : Nat) : Int) := by decide
  have w5 : wrap64 (((256 ^ 4 : Nat) : Int) * 256) = ((256 ^ 5 : Nat) : Int) := by decide
  have w6 : wrap64 (((256 ^ 5 : Nat) : Int) * 256) = ((256 ^ 6 : Nat) : Int) := by decide
  have w7 : wrap64 (((256 ^ 6 : Nat) : Int) * 256) = ((256 ^ 7 : Nat) : Int) := by decide
  have w0 : (1 : Int) = ((256 ^ 0 : Nat) : Int) := by decide
  unfold Encrypt0.GetHeader bigEndian64
  simp only [List.foldl_cons, List.foldl_nil]
  rw [w1, w2, w3, w4, w5, w6, w7]
  conv_lhs => rw [w0]
  simp only [h]
  rfl

/-! ## Block loops -/

theorem forLoop_ok {σ : Type} (body : Int → σ → Except Final σ) (Inv : Int → σ → Prop) (hi : Int)
    (hstep : ∀ i s, 0 ≤ i → i < hi → Inv i s → ∃ s2, body i s = .ok s2 ∧ Inv (i + 1) s2) :
    ∀ (k : Nat) (i : Int) (s : σ), 0 ≤ i → i + (k : Int) = hi → Inv i s →
      ∃ s2, forLoop body k i s = .ok s2 ∧ Inv hi s2
  | 0, i, s, _, hk, hinv => by
    have : i = hi := by simpa using hk
    subst this
    exact ⟨s, rfl, hinv⟩
  | k + 1, i, s, h0, hk, hinv => by
    obtain ⟨s2, hb, hinv2⟩ := hstep i s h0 (by push_cast at hk; omega) hinv
    obtain ⟨s3, hl, hinv3⟩ := forLoop_ok body Inv hi hstep k (i + 1) s2 (by omega)
      (by push_cast at hk; omega) hinv2
    exact ⟨s3, by simp only [forLoop, hb, hl], hinv3⟩

theorem chunkOff_zero (n : Nat) : chunkOff n 0 = 0 := by simp [chunkOff]

theorem chunkOff_last (n : Nat) : chunkOff n ((n : Int).tdiv 1048576 + 1) = n := by
  have h : (n : Int).tdiv 1048576 = (n : Int) / 1048576 := Int.tdiv_eq_ediv (by omega) (by omega)
  rw [h]
  unfold chunkOff
  omega

theorem chunkOff_le (n : Nat) (i : Int) : chunkOff n i ≤ n := by
  unfold chunkOff
  omega

theorem chunk_todo (n : Nat) (i : Int) (h0 : 0 ≤ i) (h1 : i < (n : Int).tdiv 1048576 + 1) :
    ∃ t : Nat, (if i = (n : Int).tdiv 1048576 + 1 - 1 then (n : Int).tmod 1048576 else 1048576)
        = (t : Int) ∧ chunkOff n i + t = chunkOff n (i + 1) := by
  have h : (n : Int).tdiv 1048576 = (n : Int) / 1048576 := Int.tdiv_eq_ediv (by omega) (by omega)
  have hm : (n : Int).tmod 1048576 = (n : Int) % 1048576 := Int.tmod_eq_emod (by omega) (by omega)
  rw [h] at h1 ⊢
  rw [hm]
  unfold chunkOff
  by_cases hi : i = (n : Int) / 1048576 + 1 - 1
  · refine ⟨((n : Int) % 1048576).toNat, ?_, ?_⟩
    · rw [if_pos hi]; omega
    · omega
  · refine ⟨1048576, ?_, ?_⟩
    · rw [if_neg hi]; rfl
    · omega

theorem readBuf_some (r : List Nat) (t : Nat) (h : t ≤ r.length) :
    readBuf (some r) (t : Int) = .ok (r.take t) (some (r.drop t)) := by
  simp [readBuf, ReadFull, h]

theorem readBuf_short (r : List Nat) (t : Nat) (h : r.length < t) :
    readBuf (some r) (t : Int) = .short := by
  have : ¬ t ≤ r.length := by omega
  simp [readBuf, ReadFull, this]

theorem FS_set_set (fs : FS) (name : String) (a b : Node) :
    (fs.set name a).set name b = fs.set name b := by
  funext p
  simp only [FS.set]
  split <;> rfl

/-! ## The encryptor's pipeline -/

theorem Encrypt0.BufferSize_eq : Encrypt0.BufferSize = 1048576 := by decide

theorem Encrypt0.Write_mid (base : Encrypt0.World) (p q : List Nat) (c : CFB) (m : Mac)
    (done b : List Nat) :
    Encrypt0.Write (Encrypt0.mid base p q c m done) b
      = (Encrypt0.mid base p q c m (done ++ b), false) := by
  simp [Encrypt0.Write, Encrypt0.mid, FS_set_set]

theorem XORKeyStream_take_add (P : Prims) (c : CFB) (x : List Nat) (o t : Nat) :
    c.XORKeyStream P (x.take (o + t)) =
      (((c.XORKeyStream P (x.take o)).1.XORKeyStream P ((x.drop o).take t)).1,
        (c.XORKeyStream P (x.take o)).2 ++
          ((c.XORKeyStream P (x.take o)).1.XORKeyStream P ((x.drop o).take t)).2) := by
  rw [List.take_add, XORKeyStream_append]

theorem Encrypt0.bodyBlock_step (P : Prims) (base : Encrypt0.World) (pl q : List Nat) (c0 : CFB)
    (m0 : Mac) (d0 : List Nat) (hn : base.PlaintextSize = (pl.length : Int))
    (hq : pl.length ≤ q.length) (i : Int) (h0 : 0 ≤ i)
    (h1 : i < (pl.length : Int).tdiv 1048576 + 1) :
    Encrypt0.bodyBlock P ((pl.length : Int).tdiv 1048576 + 1) i
        (Encrypt0.bodyAt P base pl q c0 m0 d0 (chunkOff pl.length i))
      = .ok (Encrypt0.bodyAt P base pl q c0 m0 d0 (chunkOff pl.length (i + 1))) := by
  obtain ⟨t, ht, hoff⟩ := chunk_todo pl.length i h0 h1
  have hle := chunkOff_le pl.length (i + 1)
  have hsz : (Encrypt0.bodyAt P base pl q c0 m0 d0 (chunkOff pl.length i)).PlaintextSize
      = (pl.length : Int) := hn
  unfold Encrypt0.bodyBlock
  simp only [hsz, Encrypt0.BufferSize_eq, ht]
  by_cases ht0 : t = 0
  · subst ht0
    simp only [Nat.cast_zero, if_true]
    rw [← hoff, Nat.add_zero]
  · have hne : ¬ ((t : Int) = 0) := by exact_mod_cast ht0
    rw [if_neg hne]
    have hp : (Encrypt0.bodyAt P base pl q c0 m0 d0 (chunkOff pl.length i)).Fplaintext
        = some (pl.drop (chunkOff pl.length i)) := rfl
    rw [hp, readBuf_some _ t (by simp; omega)]
    simp only
    have hq2 : (Encrypt0.bodyAt P base pl q c0 m0 d0 (chunkOff pl.length i)).Fpad
        = some (q.drop (chunkOff pl.length i)) := rfl
    rw [hq2, readBuf_some _ t (by simp; omega)]
    rw [← hoff]
    simp only [Encrypt0.bodyAt, XORKeyStream_take_add, Encrypt0.mid, Encrypt0.Write]
    simp [xorBytes, List.take_zipWith, List.drop_zipWith, FS_set_set, Mac.Write,
      List.append_assoc, List.drop_drop, Nat.add_comm]
    exact hn.symm

theorem Encrypt0.bodyLoop_mid (P : Prims) (base : Encrypt0.World) (pl q : List Nat) (c0 : CFB)
    (m0 : Mac) (d0 : List Nat) (hn : base.PlaintextSize = (pl.length : Int))
    (hq : pl.length ≤ q.length) :
    forLoop (Encrypt0.bodyBlock P (base.PlaintextSize.tdiv Encrypt0.BufferSize + 1))
        (base.PlaintextSize.tdiv Encrypt0.BufferSize + 1).toNat 0
        (Encrypt0.mid base pl q c0 m0 d0)
      = .ok (Encrypt0.mid base [] (q.drop pl.length)
          (c0.XORKeyStream P (xorBytes pl q)).1
          (m0.Write (c0.XORKeyStream P (xorBytes pl q)).2)
          (d0 ++ (c0.XORKeyStream P (xorBytes pl q)).2)) := by
  rw [hn, Encrypt0.BufferSize_eq]
  have hb : 0 ≤ (pl.length : Int).tdiv 1048576 + 1 := by
    have := Int.tdiv_nonneg (a := (pl.length : Int)) (b := 1048576) (by omega) (by omega)
    omega
  obtain ⟨s2, hl, hinv⟩ := forLoop_ok (Encrypt0.bodyBlock P ((pl.length : Int).tdiv 1048576 + 1))
    (fun i s => s = Encrypt0.bodyAt P base pl q c0 m0 d0 (chunkOff pl.length i))
    ((pl.length : Int).tdiv 1048576 + 1)
    (fun i s h0 h1 hs => ⟨_, by rw [hs]; exact Encrypt0.bodyBlock_step P base pl q c0 m0 d0 hn hq i h0 h1, rfl⟩)
    ((pl.length : Int).tdiv 1048576 + 1).toNat 0 (Encrypt0.mid base pl q c0 m0 d0) (le_refl 0)
    (by rw [Int.toNat_of_nonneg hb]; omega)
    (by simp [Encrypt0.bodyAt, chunkOff_zero, CFB.XORKeyStream, Mac.Write])
  rw [hl, hinv, chunkOff_last]
  have hx : (xorBytes pl q).take pl.length = xorBytes pl q := by
    apply List.take_of_length_le
    rw [xorBytes_length]; omega
  simp [Encrypt0.bodyAt, hx]

theorem Encrypt0.padBlock_step (P : Prims) (base : Encrypt0.World) (p q : List Nat) (c0 : CFB)
    (m0 : Mac) (d0 : List Nat) (r : Nat) (hq : r ≤ q.length) (i : Int) (h0 : 0 ≤ i)
    (h1 : i < (r : Int).tdiv 1048576 + 1) :
    Encrypt0.padBlock P (r : Int) ((r : Int).tdiv 1048576 + 1) i
        (Encrypt0.padAt P base p q c0 m0 d0 (chunkOff r i))
      = .ok (Encrypt0.padAt P base p q c0 m0 d0 (chunkOff r (i + 1))) := by
  obtain ⟨t, ht, hoff⟩ := chunk_todo r i h0 h1
  have hle := chunkOff_le r (i + 1)
  unfold Encrypt0.padBlock
  simp only [Encrypt0.BufferSize_eq, ht]
  have hq2 : (Encrypt0.padAt P base p q c0 m0 d0 (chunkOff r i)).Fpad
      = some (q.drop (chunkOff r i)) := rfl
  rw [hq2, readBuf_some _ t (by simp; omega)]
  rw [← hoff]
  simp only [Encrypt0.padAt, XORKeyStream_take_add, Encrypt0.mid, Encrypt0.Write]
  simp [FS_set_set, Mac.Write, List.append_assoc, List.drop_drop, Nat.add_comm]

theorem Encrypt0.padLoop_mid (P : Prims) (base : Encrypt0.World) (p q : List Nat) (c0 : CFB)
    (m0 : Mac) (d0 : List Nat) (r : Nat) (hq : r ≤ q.length) :
    forLoop (Encrypt0.padBlock P (r : Int) ((r : Int).tdiv Encrypt0.BufferSize + 1))
        ((r : Int).tdiv Encrypt0.BufferSize + 1).toNat 0
        (Encrypt0.mid base p q c0 m0 d0)
      = .ok (Encrypt0.mid base p (q.drop r)
          (c0.XORKeyStream P (q.take r)).1
          (m0.Write (c0.XORKeyStream P (q.take r)).2)
          (d0 ++ (c0.XORKeyStream P (q.take r)).2)) := by
  rw [Encrypt0.BufferSize_eq]
  have hb : 0 ≤ (r : Int).tdiv 1048576 + 1 := by
    have := Int.tdiv_nonneg (a := (r : Int)) (b := 1048576) (by omega) (by omega)
    omega
  obtain ⟨s2, hl, hinv⟩ := forLoop_ok (Encrypt0.padBlock P (r : Int) ((r : Int).tdiv 1048576 + 1))
    (fun i s => s = Encrypt0.padAt P base p q c0 m0 d0 (chunkOff r i))
    ((r : Int).tdiv 1048576 + 1)
    (fun i s h0 h1 hs => ⟨_, by rw [hs]; exact Encrypt0.padBlock_step P base p q c0 m0 d0 r hq i h0 h1, rfl⟩)
    ((r : Int).tdiv 1048576 + 1).toNat 0 (Encrypt0.mid base p q c0 m0 d0) (le_refl 0)
    (by rw [Int.toNat_of_nonneg hb]; omega)
    (by simp [Encrypt0.padAt, chunkOff_zero, CFB.XORKeyStream, Mac.Write])
  rw [hl, hinv, chunkOff_last]
  rfl

theorem Encrypt0.encryptHeader_mid (P : Prims) (base : Encrypt0.World) (pl q : List Nat) (c0 : CFB)
    (m0 : Mac) (d0 : List Nat) (hq : 16 ≤ q.length) :
    Encrypt0.encryptHeader P (Encrypt0.mid base pl q c0 m0 d0)
      = .ok (Encrypt0.mid base pl (q.drop 16)
          (c0.XORKeyStream P (xorBytes (Encrypt0.GetHeader base.PlaintextSize) (q.take 16))).1
          (m0.Write (c0.XORKeyStream P (xorBytes (Encrypt0.GetHeader base.PlaintextSize) (q.take 16))).2)
          (d0 ++ (c0.XORKeyStream P (xorBytes (Encrypt0.GetHeader base.PlaintextSize) (q.take 16))).2)) := by
  have hpadh : (Encrypt0.mid base pl q c0 m0 d0).Fpad = some q := rfl
  have h16 : readBuf (some q) 16 = .ok (q.take 16) (some (q.drop 16)) :=
    readBuf_some q 16 (by omega)
  unfold Encrypt0.encryptHeader
  rw [hpadh, h16]
  simp [Encrypt0.mid, Encrypt0.Write, FS_set_set]

theorem Encrypt0.writeTag_mid (P : Prims) (base : Encrypt0.World) (pl q : List Nat) (c0 : CFB)
    (m0 : Mac) (d0 : List Nat) :
    Encrypt0.writeTag P (Encrypt0.mid base pl q c0 m0 d0)
      = .ok (Encrypt0.mid base pl q c0 m0 (d0 ++ P.hmac m0.key m0.msg)) := by
  unfold Encrypt0.writeTag
  rw [Encrypt0.Write_mid]
  rfl

theorem Encrypt0.mid_PlaintextSize (base : Encrypt0.World) (p q : List Nat) (c : CFB) (m : Mac)
    (d : List Nat) : (Encrypt0.mid base p q c m d).PlaintextSize = base.PlaintextSize := rfl

theorem Encrypt0.mid_PadSize (base : Encrypt0.World) (p q : List Nat) (c : CFB) (m : Mac)
    (d : List Nat) : (Encrypt0.mid base p q c m d).PadSize = base.PadSize := rfl

theorem Encrypt0.mid_Short (base : Encrypt0.World) (p q : List Nat) (c : CFB) (m : Mac)
    (d : List Nat) : (Encrypt0.mid base p q c m d).Short = base.Short := rfl

theorem Encrypt0.Encrypt_mid (P : Prims) (base : Encrypt0.World) (pl q : List Nat) (c0 : CFB)
    (m0 : Mac) (d0 : List Nat) (hn : base.PlaintextSize = (pl.length : Int))
    (hq : 16 + pl.length ≤ q.length) (hpad : base.PadSize = (q.length : Int) + 128) :
    Encrypt0.Encrypt P (Encrypt0.mid base pl q c0 m0 d0)
      = .ok (Encrypt0.mid base [] (if base.Short then q.drop (16 + pl.length) else [])
          (c0.XORKeyStream P (xorBytes (Encrypt0.GetHeader pl.length) (q.take 16)
            ++ xorBytes pl (q.drop 16)
            ++ (if base.Short then [] else q.drop (16 + pl.length)))).1
          (m0.Write (c0.XORKeyStream P (xorBytes (Encrypt0.GetHeader pl.length) (q.take 16)
            ++ xorBytes pl (q.drop 16)
            ++ (if base.Short then [] else q.drop (16 + pl.length)))).2)
          (d0 ++ (c0.XORKeyStream P (xorBytes (Encrypt0.GetHeader pl.length) (q.take 16)
            ++ xorBytes pl (q.drop 16)
            ++ (if base.Short then [] else q.drop (16 + pl.length)))).2
            ++ P.hmac m0.key (m0.msg ++ (c0.XORKeyStream P
              (xorBytes (Encrypt0.GetHeader pl.length) (q.take 16)
            ++ xorBytes pl (q.drop 16)
            ++ (if base.Short then [] else q.drop (16 + pl.length)))).2))) := by
  unfold Encrypt0.Encrypt
  rw [Encrypt0.encryptHeader_mid P base pl q c0 m0 d0 (by omega)]
  simp only [Encrypt0.mid_PlaintextSize]
  rw [Encrypt0.bodyLoop_mid P base pl (q.drop 16) _ _ _ hn (by simp; omega)]
  simp only [Encrypt0.mid_Short, Encrypt0.mid_PadSize, Encrypt0.mid_PlaintextSize]
  cases hs : base.Short
  · have htw : base.PadSize - Encrypt0.PadOverhead - base.PlaintextSize
        = ((q.length - 16 - pl.length : Nat) : Int) := by
      rw [hpad, hn]
      simp only [Encrypt0.PadOverhead]
      omega
    simp only [htw]
    rw [Encrypt0.padLoop_mid P base [] ((q.drop 16).drop pl.length) _ _ _ _ (by simp; omega)]
    simp only [Bool.false_eq_true, if_false]
    rw [Encrypt0.writeTag_mid, hn]
    have ht : List.take (q.length - 16 - pl.length) (List.drop pl.length (List.drop 16 q))
        = List.drop (16 + pl.length) q := by
      rw [List.drop_drop]
      apply List.take_of_length_le
      simp
      omega
    have hd : List.drop (q.length - 16 - pl.length) (List.drop pl.length (List.drop 16 q)) = [] := by
      apply List.drop_of_length_le
      simp
      omega
    rw [ht, hd]
    simp [XORKeyStream_append, Mac.Write, List.append_assoc]
  · simp only [if_true]
    rw [Encrypt0.writeTag_mid, hn]
    simp [XORKeyStream_append, Mac.Write, List.append_assoc, List.drop_drop, Nat.add_comm,
      CFB.XORKeyStream]

theorem FS.create_ok (fs : FS) (name : String) (h : fs.isDir name = false) :
    fs.create name = some (fs.set name (.file [])) := by
  unfold FS.create
  unfold FS.isDir at h
  cases hx : fs name with
  | none => rfl
  | some nd =>
    rw [hx] at h
    cases nd <;> first | rfl | exact absurd h (by simp)

theorem FS.rename_ok (fs : FS) (old new : String) (node : Node) (ho : fs old = some node)
    (h : fs.isDir new = false) :
    fs.rename old new
      = some (fun p => if p = new then some node else if p = old then none else fs p) := by
  unfold FS.rename
  unfold FS.isDir at h
  rw [ho]
  simp only
  cases hx : fs new with
  | none => rfl
  | some nd =>
    rw [hx] at h
    cases nd <;> first | rfl | exact absurd h (by simp)

theorem FS.isDir_set_file (fs : FS) (name other : String) (d : List Nat)
    (h : fs.isDir other = false) : (fs.set name (.file d)).isDir other = false := by
  unfold FS.isDir FS.set
  by_cases hp : other = name
  · simp [hp]
  · simp only [hp, if_false]
    exact h

theorem Encrypt0.Init_mid (iv : List Nat) (w : Encrypt0.World) (plain pad : List Nat)
    (hplain : w.fs w.PlaintextName = some (.file plain))
    (hpadf : w.fs w.PadName = some (.file pad))
    (hne : w.PadName ≠ w.PlaintextName ++ Encrypt0.CiphertextExt)
    (hout : w.fs.isDir (w.PlaintextName ++ Encrypt0.CiphertextExt) = false)
    (hused : w.fs.isDir (Replace w.PadName Encrypt0.PadExt Encrypt0.UsedPadExt) = false)
    (hw : w.wfail = []) (hlen : 128 ≤ pad.length) :
    Encrypt0.Init iv w
      = .ok (Encrypt0.afterInit iv w plain pad) := by
  unfold Encrypt0.Init Encrypt0.initFiles Encrypt0.initKeys Encrypt0.afterInit
  rw [hplain]
  simp only [FS.create_ok w.fs _ hout]
  rw [FS.rename_ok _ w.PadName _ (.file pad) (by simp [FS.set, hne, hpadf])
    (FS.isDir_set_file _ _ _ _ hused)]
  have h96 : readBuf (some pad) 96 = .ok (pad.take 96) (some (pad.drop 96)) :=
    readBuf_some pad 96 (by omega)
  have h32 : readBuf (some (pad.drop 96)) 32
      = .ok ((pad.drop 96).take 32) (some ((pad.drop 96).drop 32)) :=
    readBuf_some (pad.drop 96) 32 (by simp; omega)
  simp only [if_true, Open, Node.open, h96]
  simp only [Encrypt0.Write, hw, List.headD_nil, List.tail_nil, Bool.false_eq_true, if_false,
    List.nil_append, h32]
  simp [Encrypt0.mid, Encrypt0.initBase, FS.set, List.drop_drop]
  rw [hpadf]

theorem Encrypt0.Encrypt_afterInit (P : Prims) (iv : List Nat) (w : Encrypt0.World)
    (plain pad : List Nat) (hn : w.PlaintextSize = (plain.length : Int))
    (hp : w.PadSize = (pad.length : Int)) (hlen : 144 + plain.length ≤ pad.length) :
    Encrypt0.Encrypt P (Encrypt0.afterInit iv w plain pad)
      = .ok (Encrypt0.mid (Encrypt0.initBase w) []
          (if w.Short then pad.drop (144 + plain.length) else [])
          ((CFB.New ((pad.drop 96).take 32) iv false).XORKeyStream P
            (clearStream plain pad w.Short)).1
          ⟨pad.take 96, iv ++ cipherStream P plain pad iv w.Short⟩
          (container P plain pad iv w.Short)) := by
  unfold Encrypt0.afterInit
  rw [Encrypt0.Encrypt_mid P (Encrypt0.initBase w) plain (pad.drop 128) _ _ _ hn
    (by simp; omega) (by
      show w.PadSize = _
      rw [hp]
      simp
      omega)]
  have hS : (Encrypt0.initBase w).Short = w.Short := rfl
  have h144 : 128 + (16 + plain.length) = 144 + plain.length := by omega
  rw [hS, GetHeader_eq]
  simp [container, cipherStream, clearStream, Mac.Write, Mac.New, List.drop_drop,
    List.append_assoc, h144]

/-! ## The decryptor's recovery pass -/

theorem Decrypt0.decBufferSize_eq : Decrypt0.BufferSize = 1048576 := by decide

theorem Decrypt0.decWrite_mid (base : Decrypt0.World) (cr q : List Nat) (c : CFB) (done b : List Nat) :
    Decrypt0.Write (Decrypt0.mid base cr q c done) b
      = (Decrypt0.mid base cr q c (done ++ b), false) := by
  simp [Decrypt0.Write, Decrypt0.mid, FS_set_set]

theorem Decrypt0.plainBlock_step (P : Prims) (base : Decrypt0.World) (cr q : List Nat) (c0 : CFB)
    (d0 : List Nat) (n : Nat) (hn : base.PlaintextSize = (n : Int))
    (hc : n ≤ cr.length) (hq : n ≤ q.length) (i : Int) (h0 : 0 ≤ i)
    (h1 : i < (n : Int).tdiv 1048576 + 1) :
    Decrypt0.plainBlock P ((n : Int).tdiv 1048576 + 1) i
        (Decrypt0.plainAt P base cr q c0 d0 (chunkOff n i))
      = .ok (Decrypt0.plainAt P base cr q c0 d0 (chunkOff n (i + 1))) := by
  obtain ⟨t, ht, hoff⟩ := chunk_todo n i h0 h1
  have hle := chunkOff_le n (i + 1)
  have hsz : (Decrypt0.plainAt P base cr q c0 d0 (chunkOff n i)).PlaintextSize = (n : Int) := hn
  unfold Decrypt0.plainBlock
  simp only [hsz, Decrypt0.decBufferSize_eq, ht]
  have hc2 : (Decrypt0.plainAt P base cr q c0 d0 (chunkOff n i)).Fciphertext
      = some (cr.drop (chunkOff n i)) := rfl
  have hq2 : (Decrypt0.plainAt P base cr q c0 d0 (chunkOff n i)).Fpad
      = some (q.drop (chunkOff n i)) := rfl
  have hx : xorBytes (c0.XORKeyStream P (cr.take (chunkOff n i + t))).2 (q.take (chunkOff n i + t))
      = xorBytes (c0.XORKeyStream P (cr.take (chunkOff n i))).2 (q.take (chunkOff n i))
        ++ xorBytes ((c0.XORKeyStream P (cr.take (chunkOff n i))).1.XORKeyStream P
            ((cr.drop (chunkOff n i)).take t)).2 ((q.drop (chunkOff n i)).take t) := by
    rw [XORKeyStream_take_add, List.take_add]
    apply xorBytes_append
    rw [XORKeyStream_length]
    simp
    omega
  rw [if_neg (by decide), hc2, readBuf_some _ t (by simp; omega)]
  simp only
  rw [hq2, readBuf_some _ t (by simp; omega)]
  rw [← hoff]
  simp only [Decrypt0.plainAt, hx]
  simp only [XORKeyStream_take_add, Decrypt0.mid, Decrypt0.Write]
  simp [FS_set_set, List.append_assoc, List.drop_drop, Nat.add_comm]
  exact hn.symm

theorem Decrypt0.Decrypt_mid (P : Prims) (base : Decrypt0.World) (cr q : List Nat) (c0 : CFB)
    (d0 : List Nat) (n : Nat) (hn : base.PlaintextSize = (n : Int))
    (hc : n ≤ cr.length) (hq : n ≤ q.length) :
    Decrypt0.Decrypt P (Decrypt0.mid base cr q c0 d0)
      = .ok (Decrypt0.mid base (cr.drop n) (q.drop n) (c0.XORKeyStream P (cr.take n)).1
          (d0 ++ xorBytes (c0.XORKeyStream P (cr.take n)).2 (q.take n))) := by
  unfold Decrypt0.Decrypt
  have hsz : (Decrypt0.mid base cr q c0 d0).PlaintextSize = (n : Int) := hn
  simp only [hsz, Decrypt0.decBufferSize_eq]
  have hb : 0 ≤ (n : Int).tdiv 1048576 + 1 := by
    have := Int.tdiv_nonneg (a := (n : Int)) (b := 1048576) (by omega) (by omega)
    omega
  obtain ⟨s2, hl, hinv⟩ := forLoop_ok (Decrypt0.plainBlock P ((n : Int).tdiv 1048576 + 1))
    (fun i s => s = Decrypt0.plainAt P base cr q c0 d0 (chunkOff n i))
    ((n : Int).tdiv 1048576 + 1)
    (fun i s h0 h1 hs => ⟨_, by rw [hs]; exact Decrypt0.plainBlock_step P base cr q c0 d0 n hn hc hq i h0 h1, rfl⟩)
    ((n : Int).tdiv 1048576 + 1).toNat 0 (Decrypt0.mid base cr q c0 d0) (le_refl 0)
    (by rw [Int.toNat_of_nonneg hb]; omega)
    (by simp [Decrypt0.plainAt, chunkOff_zero, CFB.XORKeyStream, xorBytes])
  rw [hl, hinv, chunkOff_last]
  rfl

theorem Decrypt0.DecryptInit_mid (P : Prims) (d : Decrypt0.World) (ct pad : List Nat)
    (hct : d.fs d.CiphertextName = some (.file ct)) (hpad : d.PadNode = some (.file pad))
    (hpn : d.PadName.length > 0) (hcn : d.CiphertextName.length > 0)
    (hon : (Replace d.CiphertextName ".enc" "").length > 0)
    (hop : Replace d.CiphertextName ".enc" "" ≠ d.PadName)
    (hoc : Replace d.CiphertextName ".enc" "" ≠ d.CiphertextName)
    (hod : d.fs.isDir (Replace d.CiphertextName ".enc" "") = false)
    (hw : d.wfail = []) (hcs : d.CiphertextSize = (ct.length : Int))
    (hpl : 144 ≤ pad.length) (hcl : 32 ≤ ct.length)
    (h0 : 0 ≤ Decrypt0.sizeOf P ct pad)
    (h96 : Decrypt0.sizeOf P ct pad + 96 ≤ (ct.length : Int)) :
    Decrypt0.DecryptInit P d
      = .ok (Decrypt0.mid (Decrypt0.initBase d (Decrypt0.sizeOf P ct pad) (pad.take 96))
          (ct.drop 32) (pad.drop 144)
          ((CFB.New ((pad.drop 96).take 32) (ct.take 16) true).XORKeyStream P
            ((ct.drop 16).take 16)).1 []) := by
  have r96 : readBuf (some pad) 96 = .ok (pad.take 96) (some (pad.drop 96)) :=
    readBuf_some pad 96 (by omega)
  have r32 : readBuf (some (pad.drop 96)) 32
      = .ok ((pad.drop 96).take 32) (some ((pad.drop 96).drop 32)) :=
    readBuf_some (pad.drop 96) 32 (by simp; omega)
  have r16 : readBuf (some ((pad.drop 96).drop 32)) 16
      = .ok (((pad.drop 96).drop 32).take 16) (some (((pad.drop 96).drop 32).drop 16)) :=
    readBuf_some _ 16 (by simp; omega)
  have c16 : readBuf (some ct) 16 = .ok (ct.take 16) (some (ct.drop 16)) :=
    readBuf_some ct 16 (by omega)
  have c32 : readBuf (some (ct.drop 16)) 16
      = .ok ((ct.drop 16).take 16) (some ((ct.drop 16).drop 16)) :=
    readBuf_some _ 16 (by simp; omega)
  unfold Decrypt0.DecryptInit Decrypt0.OpenFiles
  simp only [hpn, hcn, hon, hpad, hct, if_true, FS.create_ok d.fs _ hod, hop, hoc, if_false,
    Open, Node.open, r96, r32, r16, c16, c32]
  have hsz : Decrypt0.decodeSize (xorBytes
      ((CFB.New ((pad.drop 96).take 32) (ct.take 16) true).XORKeyStream P
        ((ct.drop 16).take 16)).2 (((pad.drop 96).drop 32).take 16))
      = Decrypt0.sizeOf P ct pad := by
    simp [Decrypt0.sizeOf, List.drop_drop]
  have hok : ¬ (Decrypt0.sizeOf P ct pad < 0 ∨
      (ct.length : Int) - Decrypt0.sizeOf P ct pad < Decrypt0.CiphertextOverhead) := by
    simp only [Decrypt0.CiphertextOverhead]
    omega
  unfold Decrypt0.sizeCheck
  simp only [hsz, hcs, hok, if_false]
  simp [Decrypt0.mid, Decrypt0.initBase, hw, hcs, hpad, List.drop_drop]

theorem wrap64_of_range (x : Int) (h0 : 0 ≤ x) (h1 : x < 9223372036854775808) : wrap64 x = x := by
  unfold wrap64
  omega

theorem wrap64_step (a k : Nat) (ha : a < 36028797018963968) (hk : k < 256) :
    wrap64 (wrap64 ((a : Int) * 256) + (k : Int)) = ((a * 256 + k : Nat) : Int) := by
  rw [wrap64_of_range ((a : Int) * 256) (by omega) (by omega),
    wrap64_of_range _ (by omega) (by omega)]
  push_cast
  rfl

theorem decodeSize_cons (a0 a1 a2 a3 a4 a5 a6 a7 b0 b1 b2 b3 b4 b5 b6 b7 : Nat) :
    Decrypt0.decodeSize [a0, a1, a2, a3, a4, a5, a6, a7, b0, b1, b2, b3, b4, b5, b6, b7]
      = wrap64 (wrap64 (wrap64 (wrap64 (wrap64 (wrap64 (wrap64 (wrap64 (wrap64 (wrap64 (wrap64
          (wrap64 (wrap64 (wrap64 (wrap64 (wrap64 (0 * 256) + ((b0 % 256 : Nat) : Int)) * 256)
          + ((b1 % 256 : Nat) : Int)) * 256) + ((b2 % 256 : Nat) : Int)) * 256)
          + ((b3 % 256 : Nat) : Int)) * 256) + ((b4 % 256 : Nat) : Int)) * 256)
          + ((b5 % 256 : Nat) : Int)) * 256) + ((b6 % 256 : Nat) : Int)) * 256)
          + ((b7 % 256 : Nat) : Int)) := by
  unfold Decrypt0.decodeSize
  rw [List.foldl_cons, List.foldl_cons, List.foldl_cons, List.foldl_cons, List.foldl_cons,
    List.foldl_cons, List.foldl_cons, List.foldl_cons, List.foldl_nil]
  rfl

theorem decodeSize_bytes (a0 a1 a2 a3 a4 a5 a6 a7 b0 b1 b2 b3 b4 b5 b6 b7 : Nat)
    (h0 : b0 < 128) (h1 : b1 < 256) (h2 : b2 < 256) (h3 : b3 < 256) (h4 : b4 < 256)
    (h5 : b5 < 256) (h6 : b6 < 256) (h7 : b7 < 256) :
    Decrypt0.decodeSize [a0, a1, a2, a3, a4, a5, a6, a7, b0, b1, b2, b3, b4, b5, b6, b7]
      = ((((((((b0 * 256 + b1) * 256 + b2) * 256 + b3) * 256 + b4) * 256 + b5) * 256 + b6) * 256
          + b7 : Nat) : Int) := by
  rw [decodeSize_cons]
  rw [Nat.mod_eq_of_lt (show b0 < 256 by omega), Nat.mod_eq_of_lt h1, Nat.mod_eq_of_lt h2,
    Nat.mod_eq_of_lt h3, Nat.mod_eq_of_lt h4, Nat.mod_eq_of_lt h5, Nat.mod_eq_of_lt h6,
    Nat.mod_eq_of_lt h7]
  have e0 : wrap64 (wrap64 (0 * 256) + (b0 : Int)) = (b0 : Int) := by
    rw [wrap64_of_range (0 * 256) (by decide) (by decide), wrap64_of_range _ (by omega) (by omega)]
    simp
  rw [e0]
  rw [wrap64_step _ _ (by omega) h1]
  rw [wrap64_step _ _ (by omega) h2]
  rw [wrap64_step _ _ (by omega) h3]
  rw [wrap64_step _ _ (by omega) h4]
  rw [wrap64_step _ _ (by omega) h5]
  rw [wrap64_step _ _ (by omega) h6]
  rw [wrap64_step _ _ (by omega) h7]

theorem decodeSize_header (n : Nat) (h : n < 2 ^ 63) :
    Decrypt0.decodeSize (List.replicate 8 0 ++ bigEndian64 n) = (n : Int) := by
  have h2 : n < 9223372036854775808 := by simpa using h
  have g7 : n / 72057594037927936 % 256 = n / 72057594037927936 := by omega
  have b0 : n / 72057594037927936 % 256 < 128 := by omega
  have g6 : n / 72057594037927936 * 256 + n / 281474976710656 % 256 = n / 281474976710656 := by
    omega
  have g5 : n / 281474976710656 * 256 + n / 1099511627776 % 256 = n / 1099511627776 := by
    clear g6 g7 b0; omega
  have g4 : n / 1099511627776 * 256 + n / 4294967296 % 256 = n / 4294967296 := by
    clear g5 g6 g7 b0; omega
  have g3 : n / 4294967296 * 256 + n / 16777216 % 256 = n / 16777216 := by
    clear g4 g5 g6 g7 b0; omega
  have g2 : n / 16777216 * 256 + n / 65536 % 256 = n / 65536 := by
    clear g3 g4 g5 g6 g7 b0; omega
  have g1 : n / 65536 * 256 + n / 256 % 256 = n / 256 := by
    clear g2 g3 g4 g5 g6 g7 b0; omega
  have g0 : n / 256 * 256 + n / 1 % 256 = n := by
    clear g1 g2 g3 g4 g5 g6 g7 b0; omega
  have m : ∀ x : Nat, x % 256 < 256 := fun x => Nat.mod_lt _ (by decide)
  show Decrypt0.decodeSize [0, 0, 0, 0, 0, 0, 0, 0, n / 72057594037927936 % 256,
    n / 281474976710656 % 256, n / 1099511627776 % 256, n / 4294967296 % 256,
    n / 16777216 % 256, n / 65536 % 256, n / 256 % 256, n / 1 % 256] = (n : Int)
  rw [decodeSize_bytes _ _ _ _ _ _ _ _ _ _ _ _ _ _ _ _ b0 (m _) (m _) (m _) (m _) (m _) (m _) (m _)]
  rw [g7, g6, g5, g4, g3, g2, g1, g0]

/-! ## The container and its recovery -/

theorem cipherStream_eq (P : Prims) (plain pad iv : List Nat) (short : Bool) :
    cipherStream P plain pad iv short
      = (encHead P pad iv plain.length).2 ++ ((encBody P plain pad iv).2
          ++ encTail P plain pad iv short) := by
  simp [cipherStream, clearStream, encHead, encBody, encTail, XORKeyStream_append,
    List.append_assoc]

theorem container_eq (P : Prims) (plain pad iv : List Nat) (short : Bool) :
    container P plain pad iv short
      = iv ++ ((encHead P pad iv plain.length).2 ++ ((encBody P plain pad iv).2
          ++ (encTail P plain pad iv short
          ++ P.hmac (pad.take 96) (iv ++ cipherStream P plain pad iv short)))) := by
  simp [container, cipherStream_eq, List.append_assoc]

theorem bigEndian64_length (n : Nat) : (bigEndian64 n).length = 8 := rfl

theorem encHead_length (P : Prims) (pad iv : List Nat) (n : Nat) (h : 144 ≤ pad.length) :
    (encHead P pad iv n).2.length = 16 := by
  simp [encHead, XORKeyStream_length, xorBytes_length, bigEndian64_length]
  omega

theorem encBody_length (P : Prims) (plain pad iv : List Nat) (h : 144 + plain.length ≤ pad.length) :
    (encBody P plain pad iv).2.length = plain.length := by
  simp [encBody, XORKeyStream_length, xorBytes_length]
  omega

theorem encTail_length (P : Prims) (plain pad iv : List Nat) (short : Bool) :
    (encTail P plain pad iv short).length
      = if short then 0 else pad.length - (144 + plain.length) := by
  cases short <;> simp [encTail, XORKeyStream_length]

theorem container_length (P : Prims) (hP : P.tag64) (plain pad iv : List Nat) (short : Bool)
    (hiv : iv.length = 16) (h : 144 + plain.length ≤ pad.length) :
    (container P plain pad iv short).length
      = if short then plain.length + 96 else pad.length - 48 := by
  rw [container_eq]
  simp only [List.length_append, encHead_length P pad iv _ (by omega),
    encBody_length P plain pad iv h, encTail_length, hP _ _, hiv]
  cases short
  · simp only [Bool.false_eq_true, if_false]
    omega
  · simp only [if_true]
    omega

theorem decHead (P : Prims) (pad iv : List Nat) (n : Nat) :
    (CFB.New ((pad.drop 96).take 32) iv true).XORKeyStream P (encHead P pad iv n).2
      = ((encHead P pad iv n).1.toDecrypt,
          xorBytes (List.replicate 8 0 ++ bigEndian64 n) ((pad.drop 128).take 16)) := by
  rw [← New_toDecrypt]
  exact XORKeyStream_toDecrypt P _ _ rfl

theorem decBody (P : Prims) (plain pad iv : List Nat) :
    (encHead P pad iv plain.length).1.toDecrypt.XORKeyStream P (encBody P plain pad iv).2
      = ((encBody P plain pad iv).1.toDecrypt, xorBytes plain (pad.drop 144)) :=
  XORKeyStream_toDecrypt P _ _ (XORKeyStream_decrypt_false P _ _ rfl)

theorem container_take_iv (P : Prims) (plain pad iv : List Nat) (short : Bool)
    (hiv : iv.length = 16) : (container P plain pad iv short).take 16 = iv := by
  rw [container_eq]
  exact List.take_left' hiv

theorem container_head (P : Prims) (plain pad iv : List Nat) (short : Bool)
    (hiv : iv.length = 16) (h : 144 ≤ pad.length) :
    ((container P plain pad iv short).drop 16).take 16 = (encHead P pad iv plain.length).2 := by
  rw [container_eq, List.drop_left' hiv]
  exact List.take_left' (encHead_length P pad iv _ h)

theorem container_body (P : Prims) (plain pad iv : List Nat) (short : Bool)
    (hiv : iv.length = 16) (h : 144 ≤ pad.length) :
    (container P plain pad iv short).drop 32
      = (encBody P plain pad iv).2 ++ (encTail P plain pad iv short
          ++ P.hmac (pad.take 96) (iv ++ cipherStream P plain pad iv short)) := by
  have h32 : (32 : Nat) = 16 + 16 := rfl
  rw [container_eq, h32, ← List.drop_drop, List.drop_left' hiv,
    List.drop_left' (encHead_length P pad iv _ h)]

theorem sizeOf_container (P : Prims) (plain pad iv : List Nat) (short : Bool)
    (hiv : iv.length = 16) (h : 144 ≤ pad.length) (hn : plain.length < 2 ^ 63) :
    Decrypt0.sizeOf P (container P plain pad iv short) pad = (plain.length : Int) := by
  unfold Decrypt0.sizeOf
  rw [container_take_iv P plain pad iv short hiv, container_head P plain pad iv short hiv h,
    decHead]
  simp only
  rw [xorBytes_cancel _ _ (by simp [bigEndian64_length]; omega)]
  exact decodeSize_header _ hn

theorem xorBytes_take_right (a q : List Nat) (k : Nat) (h : a.length ≤ k) :
    xorBytes a (q.take k) = xorBytes a q := by
  have h1 : xorBytes a q = (xorBytes a q).take k := by
    rw [List.take_of_length_le]
    rw [xorBytes_length]
    omega
  rw [h1]
  simp only [xorBytes, List.take_zipWith]
  rw [List.take_of_length_le h]

theorem Decrypt0.recover (P : Prims) (hP : P.tag64) (d : Decrypt0.World)
    (plain pad iv : List Nat) (short : Bool)
    (hct : d.fs d.CiphertextName = some (.file (container P plain pad iv short)))
    (hpad : d.PadNode = some (.file pad))
    (hpn : d.PadName.length > 0) (hcn : d.CiphertextName.length > 0)
    (hon : (Replace d.CiphertextName ".enc" "").length > 0)
    (hop : Replace d.CiphertextName ".enc" "" ≠ d.PadName)
    (hoc : Replace d.CiphertextName ".enc" "" ≠ d.CiphertextName)
    (hod : d.fs.isDir (Replace d.CiphertextName ".enc" "") = false)
    (hw : d.wfail = [])
    (hcs : d.CiphertextSize = ((container P plain pad iv short).length : Int))
    (hiv : iv.length = 16) (h : 144 + plain.length ≤ pad.length) (hn : plain.length < 2 ^ 63) :
    ∃ d1 d2, Decrypt0.DecryptInit P d = .ok d1 ∧ Decrypt0.Decrypt P d1 = .ok d2 ∧
      d2.Fplaintext = some plain ∧
      d2.fs = d.fs.set (Replace d.CiphertextName ".enc" "") (.file plain) ∧
      d2.PlaintextName = Replace d.CiphertextName ".enc" "" := by
  have hlen := container_length P hP plain pad iv short hiv h
  have hsz := sizeOf_container P plain pad iv short hiv (by omega) hn
  have hcl : 32 ≤ (container P plain pad iv short).length := by
    rw [hlen]
    cases short
    · simp only [Bool.false_eq_true, if_false]
      omega
    · simp only [if_true]
      omega
  have hci : (plain.length : Int) + 96 ≤ ((container P plain pad iv short).length : Int) := by
    rw [hlen]
    cases short
    · simp only [Bool.false_eq_true, if_false]
      omega
    · simp only [if_true]
      omega
  have hinit := Decrypt0.DecryptInit_mid P d _ pad hct hpad hpn hcn hon hop hoc hod hw hcs
    (by omega) hcl (by rw [hsz]; omega) (by rw [hsz]; exact hci)
  rw [hsz, container_take_iv P plain pad iv short hiv,
    container_head P plain pad iv short hiv (by omega),
    container_body P plain pad iv short hiv (by omega), decHead] at hinit
  simp only at hinit
  have hdec := Decrypt0.Decrypt_mid P (Decrypt0.initBase d (plain.length : Int) (pad.take 96))
    ((encBody P plain pad iv).2 ++ (encTail P plain pad iv short
      ++ P.hmac (pad.take 96) (iv ++ cipherStream P plain pad iv short)))
    (pad.drop 144) (encHead P pad iv plain.length).1.toDecrypt [] plain.length rfl
    (by simp [encBody_length P plain pad iv h]) (by simp; omega)
  refine ⟨_, _, hinit, hdec, ?_, ?_, ?_⟩
  · show some ([] ++ xorBytes _ _) = some plain
    rw [List.take_left' (encBody_length P plain pad iv h), decBody]
    simp only [List.nil_append]
    rw [xorBytes_take_right _ _ _ (by rw [xorBytes_length]; omega),
      xorBytes_cancel _ _ (by simp; omega)]
  · show (d.fs.set _ (.file ([] ++ xorBytes _ _))) = _
    rw [List.take_left' (encBody_length P plain pad iv h), decBody]
    simp only [List.nil_append]
    rw [xorBytes_take_right _ _ _ (by rw [xorBytes_length]; omega),
      xorBytes_cancel _ _ (by simp; omega)]
    rfl
  · rfl

theorem holdsBytes_iff (o : Option Node) (data : List Nat) :
    holdsBytes o data ↔ o = some (.file data) := by
  unfold holdsBytes
  cases o with
  | none => simp
  | some n =>
    cases n <;> simp

theorem Encrypt0.output_ready (P : Prims) (plain pad iv : List Nat) (e : Encrypt0.World)
    (hlen : 144 + plain.length ≤ pad.length) (he : Encrypt0.Ready e plain pad) :
    Encrypt0.output P iv e = some (container P plain pad iv e.Short) := by
  obtain ⟨h1, h2, h3, h4, h5, h6, h7, h8⟩ := he
  have h1b := (holdsBytes_iff _ _).mp h1
  have h2b := (holdsBytes_iff _ _).mp h2
  unfold Encrypt0.output
  rw [Encrypt0.Init_mid iv e plain pad h1b h2b h6 h7 h8 h5 (by omega)]
  simp only
  rw [Encrypt0.Encrypt_afterInit P iv e plain pad h3 h4 hlen]
  simp [Encrypt0.mid, FS.set, fileBytes]

theorem Decrypt0.recovered_ready (P : Prims) (hP : P.tag64) (plain pad iv : List Nat) (short : Bool)
    (d : Decrypt0.World) (hiv : iv.length = 16) (hlen : 144 + plain.length ≤ pad.length)
    (hn : plain.length < 2 ^ 63)
    (hd : Decrypt0.Ready d (container P plain pad iv short) pad) :
    Decrypt0.recovered P d = some plain := by
  obtain ⟨h1, h2, h3, h4, h5, h6, h7, h8, h9, h10⟩ := hd
  obtain ⟨d1, d2, hi, hdec, _, hfs, hname⟩ := Decrypt0.recover P hP d plain pad iv short
    ((holdsBytes_iff _ _).mp h1) ((holdsBytes_iff _ _).mp h2) h3 h4 h5 h6 h7 h8 h9 h10 hiv hlen hn
  unfold Decrypt0.recovered
  rw [hi]
  simp only
  rw [hdec]
  simp only
  rw [hfs, hname]
  simp [FS.set, fileBytes]

theorem samplePrims_tag64 : samplePrims.tag64 := by
  intro key msg
  simp [samplePrims]

theorem container_tag (P : Prims) (hP : P.tag64) (plain pad iv : List Nat) (short : Bool) :
    (container P plain pad iv short).take ((container P plain pad iv short).length - 64)
        = iv ++ cipherStream P plain pad iv short ∧
      (container P plain pad iv short).drop ((container P plain pad iv short).length - 64)
        = P.hmac (pad.take 96) (iv ++ cipherStream P plain pad iv short) := by
  have hl : (container P plain pad iv short).length - 64
      = (iv ++ cipherStream P plain pad iv short).length := by
    simp [container, hP _ _]
    omega
  rw [hl]
  unfold container
  constructor
  · exact List.take_left' rfl
  · exact List.drop_left' rfl

/-! ## The authentication probe -/

theorem Decrypt0.macBlock_step (w0 : Decrypt0.World) (h0 : Mac) (r : List Nat) (n : Nat)
    (hn : n ≤ r.length) (i : Int) (hi0 : 0 ≤ i) (hi1 : i < (n : Int).tdiv 1048576 + 1) :
    Decrypt0.macBlock (n : Int) ((n : Int).tdiv 1048576 + 1) i
        (Decrypt0.macAt w0 h0 r (chunkOff n i))
      = .ok (Decrypt0.macAt w0 h0 r (chunkOff n (i + 1))) := by
  obtain ⟨t, ht, hoff⟩ := chunk_todo n i hi0 hi1
  have hle := chunkOff_le n (i + 1)
  unfold Decrypt0.macBlock
  simp only [Decrypt0.decBufferSize_eq, ht]
  have hc : (Decrypt0.macAt w0 h0 r (chunkOff n i)).1.Fciphertext
      = some (r.drop (chunkOff n i)) := rfl
  rw [hc, readBuf_some _ t (by simp; omega)]
  rw [← hoff]
  simp [Decrypt0.macAt, Mac.Write, List.take_add, List.drop_drop]

theorem Decrypt0.macLoop_ok (w0 : Decrypt0.World) (h0 : Mac) (r : List Nat) (n : Nat)
    (hr : w0.Fciphertext = some r) (hn : n ≤ r.length) :
    forLoop (Decrypt0.macBlock (n : Int) ((n : Int).tdiv Decrypt0.BufferSize + 1))
        ((n : Int).tdiv Decrypt0.BufferSize + 1).toNat 0 (w0, h0)
      = .ok ({ w0 with Fciphertext := some (r.drop n) }, h0.Write (r.take n)) := by
  rw [Decrypt0.decBufferSize_eq]
  have hb : 0 ≤ (n : Int).tdiv 1048576 + 1 := by
    have := Int.tdiv_nonneg (a := (n : Int)) (b := 1048576) (by omega) (by omega)
    omega
  have hstart : (w0, h0) = Decrypt0.macAt w0 h0 r (chunkOff n 0) := by
    cases w0
    simp only at hr
    simp [Decrypt0.macAt, chunkOff_zero, Mac.Write, hr]
  obtain ⟨s2, hl, hinv⟩ := forLoop_ok (Decrypt0.macBlock (n : Int) ((n : Int).tdiv 1048576 + 1))
    (fun i s => s = Decrypt0.macAt w0 h0 r (chunkOff n i))
    ((n : Int).tdiv 1048576 + 1)
    (fun i s hi0 hi1 hs => ⟨_, by rw [hs]; exact Decrypt0.macBlock_step w0 h0 r n hn i hi0 hi1, rfl⟩)
    ((n : Int).tdiv 1048576 + 1).toNat 0 (w0, h0) (le_refl 0)
    (by rw [Int.toNat_of_nonneg hb]; omega) hstart
  rw [hl, hinv, chunkOff_last]
  rfl

theorem Decrypt0.CheckIntegrity_ok (P : Prims) (w : Decrypt0.World) (ct pad : List Nat)
    (hw : Decrypt0.Probing w ct pad) (hct : 88 ≤ ct.length) (hpad : 136 ≤ pad.length) :
    ∃ w2, Decrypt0.CheckIntegrity P w
      = .ok (decide (fastTest P ct pad ∧ tagTest P ct pad), w2) ∧
      w2.fs = w.fs ∧ w2.Fplaintext = w.Fplaintext ∧ w2.PlaintextName = w.PlaintextName ∧
      w2.PadName = w.PadName ∧ w2.PadNode = w.PadNode ∧
      w2.CiphertextName = w.CiphertextName ∧ w2.CiphertextSize = w.CiphertextSize ∧
      w2.wfail = w.wfail := by
  obtain ⟨h1, h2, h3, h4, h5, h6⟩ := hw
  have h1b := (holdsBytes_iff _ _).mp h1
  have h2b := (holdsBytes_iff _ _).mp h2
  have r96 : readBuf (some pad) 96 = .ok (pad.take 96) (some (pad.drop 96)) :=
    readBuf_some pad 96 (by omega)
  have r32 : readBuf (some (pad.drop 96)) 32
      = .ok ((pad.drop 96).take 32) (some ((pad.drop 96).drop 32)) :=
    readBuf_some (pad.drop 96) 32 (by simp; omega)
  have r8 : readBuf (some ((pad.drop 96).drop 32)) 8
      = .ok (((pad.drop 96).drop 32).take 8) (some (((pad.drop 96).drop 32).drop 8)) :=
    readBuf_some _ 8 (by simp; omega)
  have c16 : readBuf (some ct) 16 = .ok (ct.take 16) (some (ct.drop 16)) :=
    readBuf_some ct 16 (by omega)
  have c8 : readBuf (some (ct.drop 16)) 8
      = .ok ((ct.drop 16).take 8) (some ((ct.drop 16).drop 8)) :=
    readBuf_some _ 8 (by simp; omega)
  have hno : ¬ (w.PlaintextName.length > 0) := by omega
  unfold Decrypt0.CheckIntegrity Decrypt0.OpenFiles
  simp only [h3, h4, hno, h2b, h1b, if_true, if_false, Open, Node.open, r96, r32, r8, c16, c8]
  have htr : w.CiphertextSize - 64 - (8 + 16) = ((ct.length - 88 : Nat) : Int) := by
    rw [h6]; omega
  have hmsg : ct.take 16 ++ ((ct.drop 16).take 8 ++ ((ct.drop 16).drop 8).take (ct.length - 88))
      = ct.take (ct.length - 64) := by
    have e : ct.length - 64 = 16 + (8 + (ct.length - 88)) := by omega
    rw [e, List.take_add, List.take_add]
  have htag : Decrypt0.readTag (some (((ct.drop 16).drop 8).drop (ct.length - 88)))
      = ct.drop (ct.length - 64) := by
    have e : ct.length - 64 = 16 + (8 + (ct.length - 88)) := by omega
    have hl : (((ct.drop 16).drop 8).drop (ct.length - 88)).length = 64 := by
      simp; omega
    unfold Decrypt0.readTag
    simp only [hl, Nat.sub_self, List.replicate, List.append_nil]
    rw [List.take_of_length_le (by omega), e]
    rw [List.drop_drop, List.drop_drop]
  have hfast : fastTest P ct pad ↔
      ((CFB.New ((pad.drop 96).take 32) (ct.take 16) true).XORKeyStream P
        ((ct.drop 16).take 8)).2 = ((pad.drop 96).drop 32).take 8 := by
    simp [fastTest, List.drop_drop]
  by_cases hA : fastTest P ct pad
  · have hA2 := hfast.mp hA
    rw [if_neg (by simpa using hA2), htr,
      Decrypt0.macLoop_ok _ _ ((ct.drop 16).drop 8) (ct.length - 88) rfl (by simp; omega)]
    simp only [htag, Mac.Sum, Mac.Write, Mac.New, List.nil_append, List.append_assoc, hmsg]
    by_cases hB : tagTest P ct pad
    · have hB2 : ct.drop (ct.length - 64) = P.hmac (pad.take 96) (ct.take (ct.length - 64)) := hB
      have hd : decide (fastTest P ct pad ∧ tagTest P ct pad) = true := by simp [hA, hB]
      rw [if_pos hB2, hd]
      exact ⟨_, rfl, rfl, rfl, rfl, rfl, rfl, rfl, rfl, rfl⟩
    · have hB2 : ¬ ct.drop (ct.length - 64)
          = P.hmac (pad.take 96) (ct.take (ct.length - 64)) := hB
      have hd : decide (fastTest P ct pad ∧ tagTest P ct pad) = false := by simp [hB]
      rw [if_neg hB2, hd]
      exact ⟨_, rfl, rfl, rfl, rfl, rfl, rfl, rfl, rfl, rfl⟩
  · have hA2 : ¬ _ := fun h => hA (hfast.mpr h)
    have hd : decide (fastTest P ct pad ∧ tagTest P ct pad) = false := by simp [hA]
    rw [if_pos hA2, hd]
    exact ⟨_, rfl, rfl, rfl, rfl, rfl, rfl, rfl, rfl, rfl⟩

theorem XORKeyStream_take (P : Prims) (c : CFB) (x : List Nat) (k : Nat) :
    (c.XORKeyStream P x).2.take k = (c.XORKeyStream P (x.take k)).2 := by
  have hx : c.XORKeyStream P x = c.XORKeyStream P (x.take k ++ x.drop k) := by
    rw [List.take_append_drop]
  rw [hx, XORKeyStream_append]
  simp only
  by_cases hk : k ≤ x.length
  · exact List.take_left' (by rw [XORKeyStream_length]; simp; omega)
  · rw [List.drop_of_length_le (by omega)]
    simp only [CFB.XORKeyStream, List.append_nil]
    exact List.take_of_length_le (by rw [XORKeyStream_length]; simp)

theorem container_fastTest (P : Prims) (plain pad iv : List Nat) (short : Bool)
    (hiv : iv.length = 16) (h : 144 ≤ pad.length) :
    fastTest P (container P plain pad iv short) pad := by
  unfold fastTest
  have h8 : ((container P plain pad iv short).drop 16).take 8
      = (encHead P pad iv plain.length).2.take 8 := by
    rw [container_eq, List.drop_left' hiv]
    exact List.take_append_of_le_length (by rw [encHead_length P pad iv _ h]; omega)
  rw [container_take_iv P plain pad iv short hiv, h8]
  unfold encHead
  rw [XORKeyStream_take, ← New_toDecrypt, XORKeyStream_toDecrypt P _ _ rfl]
  simp only [xorBytes, List.take_zipWith]
  have e1 : (List.replicate 8 0 ++ bigEndian64 plain.length).take 8 = List.replicate 8 0 := rfl
  have e2 : ((pad.drop 128).take 16).take 8 = (pad.drop 128).take 8 := by
    rw [List.take_take]
    rfl
  rw [e1, e2]
  exact xorBytes_zero 8 _ (by simp; omega)

theorem container_tagTest (P : Prims) (hP : P.tag64) (plain pad iv : List Nat) (short : Bool) :
    tagTest P (container P plain pad iv short) pad := by
  unfold tagTest
  rw [(container_tag P hP plain pad iv short).1, (container_tag P hP plain pad iv short).2]

theorem String_length_data (s : String) : s.length = s.data.length := rfl

theorem Index_pos_length (s sub : String) (h : Index s sub > 0) : s.length > 0 := by
  rw [String_length_data]
  unfold Index at h
  cases hs : s.data with
  | nil =>
    rw [hs] at h
    unfold firstIndex at h
    split at h
    · rename_i i hi
      split at hi
      · simp only [Option.some.injEq] at hi
        omega
      · simp at hi
    · omega
  | cons c cs => simp

theorem Decrypt0.statCiphertext_ok (w : Decrypt0.World) (ct : List Nat)
    (h : Decrypt0.Searching w ct) :
    Decrypt0.statCiphertext w = .ok { w with CiphertextSize := (ct.length : Int) } := by
  obtain ⟨h1, h2, h3, h4, h5⟩ := h
  unfold Decrypt0.statCiphertext
  rcases h5 with h5 | h5
  · rw [if_pos h5, h1]
    simp [Stat, Node.IsRegular, Node.Size]
  · have hne : ¬ w.CiphertextSize = -1 := by rw [h5]; omega
    rw [if_neg hne]
    cases w
    simp only at h5
    simp [h5]

theorem Decrypt0.FindPadOn_file (P : Prims) (ct : List Nat) (h88 : 88 ≤ ct.length)
    (data : List Nat) (w : Decrypt0.World) (hs : Decrypt0.Searching w ct)
    (hn : w.PadNode = some (.file data)) :
    ∃ r, Decrypt0.FindPadOn P (.file data) w = .ok r ∧
      Decrypt0.FindPost w ct (searchOn P ct w.PadName (.file data)) r := by
  unfold Decrypt0.FindPadOn
  rw [Decrypt0.statCiphertext_ok w ct hs]
  simp only [Node.Size, Decrypt0.PadOverhead]
  unfold searchOn authenticates padSuffix
  by_cases hsz : (data.length : Int) - (ct.length : Int) ≥ 48
  · rw [if_pos hsz]
    by_cases hsuf : Index w.PadName Decrypt0.PadExt > 0 ∧
        Index w.PadName Decrypt0.PadExt
          = (w.PadName.length : Int) - (Decrypt0.PadExt.length : Int)
    · rw [if_pos hsuf]
      obtain ⟨w2, hc, h1, h2, h3, h4, h5, h6, h7, h8⟩ := Decrypt0.CheckIntegrity_ok P
        { w with CiphertextSize := (ct.length : Int) } ct data
        ⟨(holdsBytes_iff _ _).mpr hs.1, (holdsBytes_iff _ _).mpr hn,
          Index_pos_length _ _ hsuf.1, hs.2.1, hs.2.2.1, rfl⟩ h88 (by omega)
      refine ⟨_, hc, ?_⟩
      by_cases hA : fastTest P ct data ∧ tagTest P ct data
      · have hall : (data.length : Int) - (ct.length : Int) ≥ 48 ∧
            (Index w.PadName Decrypt0.PadExt > 0 ∧ Index w.PadName Decrypt0.PadExt
              = (w.PadName.length : Int) - (Decrypt0.PadExt.length : Int)) ∧
            fastTest P ct data ∧ tagTest P ct data := ⟨hsz, hsuf, hA⟩
        rw [if_pos hall]
        exact ⟨by simp [hA, Search.isFound], h1, h6, h3, h2, h8, h7, h4, by rw [h5]; exact hn⟩
      · have hall : ¬ ((data.length : Int) - (ct.length : Int) ≥ 48 ∧
            (Index w.PadName Decrypt0.PadExt > 0 ∧ Index w.PadName Decrypt0.PadExt
              = (w.PadName.length : Int) - (Decrypt0.PadExt.length : Int)) ∧
            fastTest P ct data ∧ tagTest P ct data) := fun h => hA h.2.2
        rw [if_neg hall]
        exact ⟨by simp [hA, Search.isFound], h1, h6, h3, h2, h8, h7, h4, h5⟩
    · rw [if_neg hsuf]
      have hall : ¬ ((data.length : Int) - (ct.length : Int) ≥ 48 ∧
          (Index w.PadName Decrypt0.PadExt > 0 ∧ Index w.PadName Decrypt0.PadExt
            = (w.PadName.length : Int) - (Decrypt0.PadExt.length : Int)) ∧
          fastTest P ct data ∧ tagTest P ct data) := fun h => hsuf h.2.1
      rw [if_neg hall]
      exact ⟨_, rfl, rfl, rfl, rfl, rfl, rfl, rfl, rfl, rfl, rfl⟩
  · rw [if_neg hsz]
    have hall : ¬ ((data.length : Int) - (ct.length : Int) ≥ 48 ∧
        (Index w.PadName Decrypt0.PadExt > 0 ∧ Index w.PadName Decrypt0.PadExt
          = (w.PadName.length : Int) - (Decrypt0.PadExt.length : Int)) ∧
        fastTest P ct data ∧ tagTest P ct data) := fun h => hsz h.1
    rw [if_neg hall]
    exact ⟨_, rfl, rfl, rfl, rfl, rfl, rfl, rfl, rfl, rfl, rfl⟩

theorem Decrypt0.FindPadOn_unreadable (P : Prims) (ct : List Nat)
    (data : List Nat) (w : Decrypt0.World) (hs : Decrypt0.Searching w ct)
    (hn : w.PadNode = some (.unreadable data)) :
    Decrypt0.FindSpec w ct (searchOn P ct w.PadName (.unreadable data))
      (Decrypt0.FindPadOn P (.unreadable data) w) := by
  unfold Decrypt0.FindPadOn
  rw [Decrypt0.statCiphertext_ok w ct hs]
  simp only [Node.Size, Decrypt0.PadOverhead]
  unfold searchOn padSuffix
  by_cases hsz : (data.length : Int) - (ct.length : Int) ≥ 48
  · rw [if_pos hsz]
    by_cases hsuf : Index w.PadName Decrypt0.PadExt > 0 ∧
        Index w.PadName Decrypt0.PadExt
          = (w.PadName.length : Int) - (Decrypt0.PadExt.length : Int)
    · rw [if_pos hsuf, if_pos ⟨hsz, hsuf⟩]
      have hlen : w.PadName.length > 0 := Index_pos_length _ _ hsuf.1
      unfold Decrypt0.FindSpec Decrypt0.CheckIntegrity Decrypt0.OpenFiles
      simp only [hlen, if_true, hn, Open, Node.open]
      refine ⟨_, rfl, rfl, ?_⟩
      simp [Decrypt0.Fatal, Decrypt0.CleanExit, hs.2.2.2.1]
    · rw [if_neg hsuf, if_neg (fun h => hsuf h.2)]
      exact ⟨_, rfl, rfl, rfl, rfl, rfl, rfl, rfl, rfl, rfl, rfl⟩
  · rw [if_neg hsz, if_neg (fun h => hsz h.1)]
    exact ⟨_, rfl, rfl, rfl, rfl, rfl, rfl, rfl, rfl, rfl, rfl⟩

theorem Decrypt0.FindSpec_ok (w : Decrypt0.World) (ct : List Nat) (res : Search)
    (out : Except Final (Bool × Decrypt0.World)) (h : Decrypt0.FindSpec w ct res out)
    (hns : res ≠ .stopped) : ∃ r, out = .ok r ∧ Decrypt0.FindPost w ct res r := by
  unfold Decrypt0.FindSpec at h
  cases res with
  | found name pad => exact h
  | absent => exact h
  | stopped => exact absurd rfl hns

theorem Decrypt0.FindSpec_of_ok (w : Decrypt0.World) (ct : List Nat) (res : Search)
    (out : Except Final (Bool × Decrypt0.World)) (hns : res ≠ .stopped)
    (h : ∃ r, out = .ok r ∧ Decrypt0.FindPost w ct res r) : Decrypt0.FindSpec w ct res out := by
  unfold Decrypt0.FindSpec
  cases res with
  | found name pad => exact h
  | absent => exact h
  | stopped => exact absurd rfl hns

theorem Decrypt0.Searching_sized (w : Decrypt0.World) (ct : List Nat)
    (hs : Decrypt0.Searching w ct) :
    Decrypt0.Searching { w with CiphertextSize := (ct.length : Int) } ct :=
  ⟨hs.1, hs.2.1, hs.2.2.1, hs.2.2.2.1, Or.inr rfl⟩

mutual
theorem Decrypt0.FindPadOn_spec (P : Prims) (ct : List Nat) (h88 : 88 ≤ ct.length) :
    ∀ (node : Node) (w : Decrypt0.World), Decrypt0.Searching w ct → w.PadNode = some node →
      Decrypt0.FindSpec w ct (searchOn P ct w.PadName node) (Decrypt0.FindPadOn P node w)
  | .file data, w, hs, hn => by
    obtain ⟨r, hr, hp⟩ := Decrypt0.FindPadOn_file P ct h88 data w hs hn
    refine Decrypt0.FindSpec_of_ok _ _ _ _ ?_ ⟨r, hr, hp⟩
    unfold searchOn
    split <;> simp
  | .unreadable data, w, hs, hn => Decrypt0.FindPadOn_unreadable P ct data w hs hn
  | .dangling, w, hs, _ => by
    unfold Decrypt0.FindPadOn searchOn Decrypt0.FindSpec
    rw [Decrypt0.statCiphertext_ok w ct hs]
    refine ⟨_, rfl, rfl, ?_⟩
    simp [Decrypt0.Fatal, Decrypt0.CleanExit, hs.2.2.2.1]
  | .unlistable, w, hs, _ => by
    unfold Decrypt0.FindPadOn searchOn Decrypt0.FindSpec
    rw [Decrypt0.statCiphertext_ok w ct hs]
    refine ⟨_, rfl, rfl, ?_⟩
    simp [Decrypt0.Fatal, Decrypt0.CleanExit, hs.2.2.2.1]
  | .dir es, w, hs, hn => by
    have hp := Decrypt0.FindPadIn_spec P ct h88 es w.PadName (.dir es)
      { w with CiphertextSize := (ct.length : Int) } (Decrypt0.Searching_sized w ct hs) rfl rfl hn
    unfold Decrypt0.FindPadOn
    rw [Decrypt0.statCiphertext_ok w ct hs]
    unfold searchOn
    exact hp
theorem Decrypt0.FindPadIn_spec (P : Prims) (ct : List Nat) (h88 : 88 ≤ ct.length) :
    ∀ (es : List (String × Node)) (oldName : String) (oldNode : Node) (w : Decrypt0.World),
      Decrypt0.Searching w ct → w.CiphertextSize = (ct.length : Int) → w.PadName = oldName →
      w.PadNode = some oldNode →
      Decrypt0.FindSpec w ct (searchIn P ct oldName es) (Decrypt0.FindPadIn P oldName oldNode es w)
  | [], oldName, oldNode, w, hs, hsz, hname, hnode => by
    unfold searchIn Decrypt0.FindSpec
    refine ⟨(false, w), ?_, ?_⟩
    · unfold Decrypt0.FindPadIn
      rfl
    · exact ⟨rfl, rfl, rfl, rfl, rfl, rfl, hsz, rfl, rfl⟩
  | (name, node) :: rest, oldName, oldNode, w, hs, hsz, hname, hnode => by
    have hp : Decrypt0.FindSpec _ ct (searchOn P ct (oldName ++ "/" ++ name) node) _ :=
      Decrypt0.FindPadOn_spec P ct h88 node
        { w with PadName := oldName ++ "/" ++ name, PadNode := some node }
        ⟨hs.1, hs.2.1, hs.2.2.1, hs.2.2.2.1, hs.2.2.2.2⟩ rfl
    unfold Decrypt0.FindPadIn searchIn
    cases hres : searchOn P ct (oldName ++ "/" ++ name) node with
    | stopped =>
      rw [hres] at hp
      obtain ⟨e, he, h1, h2⟩ := hp
      simp only [he]
      exact ⟨e, rfl, h1, h2⟩
    | found nm pad =>
      rw [hres] at hp
      obtain ⟨r, hr, p1, p2, p3, p4, p5, p6, p7, p8⟩ := hp
      simp only [hr]
      have p1b : r.1 = true := p1
      rw [if_pos p1b]
      exact ⟨_, rfl, rfl, p2, p3, p4, p5, p6, p7, p8⟩
    | absent =>
      rw [hres] at hp
      obtain ⟨r, hr, p1, p2, p3, p4, p5, p6, p7, p8⟩ := hp
      simp only [hr]
      have p1b : r.1 = false := p1
      rw [if_neg (by simp [p1b])]
      have hq := Decrypt0.FindPadIn_spec P ct h88 rest
        oldName oldNode { r.2 with PadName := oldName, PadNode := some oldNode }
        ⟨by rw [show ({ r.2 with PadName := oldName, PadNode := some oldNode } :
            Decrypt0.World).fs = r.2.fs from rfl, p2]; exact (p3 ▸ hs.1),
          by show r.2.CiphertextName.length > 0; rw [p3]; exact hs.2.1,
          by show r.2.PlaintextName.length = 0; rw [p4]; exact hs.2.2.1,
          by show r.2.Fplaintext = none; rw [p5]; exact hs.2.2.2.1,
          Or.inr p7⟩ p7 rfl rfl
      cases hres3 : searchIn P ct oldName rest with
      | stopped =>
        rw [hres3] at hq
        obtain ⟨e, he, h1, h2⟩ := hq
        exact ⟨e, he, h1, h2.trans p2⟩
      | found nm pad =>
        rw [hres3] at hq
        obtain ⟨r2, hr2, q1, q2, q3, q4, q5, q6, q7, q8⟩ := hq
        exact ⟨r2, hr2, q1, q2.trans p2, q3.trans p3, q4.trans p4, q5.trans p5, q6.trans p6,
          q7, q8⟩
      | absent =>
        rw [hres3] at hq
        obtain ⟨r2, hr2, q1, q2, q3, q4, q5, q6, q7, q8⟩ := hq
        exact ⟨r2, hr2, q1, q2.trans p2, q3.trans p3, q4.trans p4, q5.trans p5, q6.trans p6,
          q7, q8.1.trans hname.symm, q8.2.trans hnode.symm⟩
end

theorem Decrypt0.ParseArgs_ok (fs : FS) (wfail : List Bool) (prog cn pn : String)
    (h : encSuffix cn) :
    Decrypt0.ParseArgs [prog, cn, pn] (Decrypt0.World.start fs wfail)
      = .ok (Decrypt0.parsed fs wfail cn pn) := by
  unfold Decrypt0.ParseArgs
  have hn : ¬ (Index cn Decrypt0.CiphertextExt ≤ 0 ∨ Index cn Decrypt0.CiphertextExt
      ≠ (cn.length : Int) - (Decrypt0.CiphertextExt.length : Int)) := by
    unfold encSuffix at h
    intro hc
    rcases hc with hc | hc
    · omega
    · exact hc h.2
  simp only [List.length_cons, List.length_nil, List.getD_cons_succ, List.getD_cons_zero]
  rw [if_neg (by decide)]
  simp only [Decrypt0.World.start]
  rw [if_neg hn]
  rfl

theorem Decrypt0.parsed_Searching (fs : FS) (wfail : List Bool) (cn pn : String) (ct : List Nat)
    (hc : fs.holds cn ct) (h : encSuffix cn) :
    Decrypt0.Searching (Decrypt0.parsed fs wfail cn pn) ct :=
  ⟨(holdsBytes_iff _ _).mp hc, Index_pos_length _ _ h.1, rfl, rfl, Or.inl rfl⟩

theorem Decrypt0.FindPad_walk (P : Prims) (fs : FS) (wfail : List Bool) (cn pn : String)
    (ct : List Nat) (node : Node) (hc : fs.holds cn ct) (h : encSuffix cn)
    (h88 : 88 ≤ ct.length) (hp : fs pn = some node) :
    Decrypt0.FindSpec (Decrypt0.parsed fs wfail cn pn) ct (searchOn P ct pn node)
      (Decrypt0.FindPad P (Decrypt0.parsed fs wfail cn pn)) := by
  have hn : (Decrypt0.parsed fs wfail cn pn).PadNode = some node := hp
  unfold Decrypt0.FindPad
  rw [hn]
  exact Decrypt0.FindPadOn_spec P ct h88 node _ (Decrypt0.parsed_Searching fs wfail cn pn ct hc h) hn

theorem Decrypt0.FindPad_spec (P : Prims) (fs : FS) (wfail : List Bool) (cn pn : String)
    (ct : List Nat) (node : Node) (hc : fs.holds cn ct) (h : encSuffix cn)
    (h88 : 88 ≤ ct.length) (hp : fs pn = some node) (hns : searchOn P ct pn node ≠ .stopped) :
    ∃ r, Decrypt0.FindPad P (Decrypt0.parsed fs wfail cn pn) = .ok r ∧
      Decrypt0.FindPost (Decrypt0.parsed fs wfail cn pn) ct (searchOn P ct pn node) r :=
  Decrypt0.FindSpec_ok _ _ _ _ (Decrypt0.FindPad_walk P fs wfail cn pn ct node hc h h88 hp) hns

theorem Decrypt0.main_stopped (P : Prims) (fs : FS) (wfail : List Bool) (prog cn pn : String)
    (ct : List Nat) (node : Node) (hc : fs.holds cn ct) (h : encSuffix cn)
    (h88 : 88 ≤ ct.length) (hp : fs pn = some node)
    (hstop : searchOn P ct pn node = .stopped) :
    (Decrypt0.main P [prog, cn, pn] fs wfail).status = .exit Decrypt0.ExitError ∧
      (Decrypt0.main P [prog, cn, pn] fs wfail).fs = fs := by
  have hw := Decrypt0.FindPad_walk P fs wfail cn pn ct node hc h h88 hp
  rw [hstop] at hw
  obtain ⟨e, he, h1, h2⟩ := hw
  unfold Decrypt0.main
  rw [Decrypt0.ParseArgs_ok fs wfail prog cn pn h]
  simp only [he]
  exact ⟨h1, h2⟩

theorem Decrypt0.main_no_pad (P : Prims) (fs : FS) (wfail : List Bool) (prog cn pn : String)
    (ct : List Nat) (node : Node) (hc : fs.holds cn ct) (h : encSuffix cn)
    (h88 : 88 ≤ ct.length) (hp : fs pn = some node) (hnone : searchOn P ct pn node = .absent) :
    (Decrypt0.main P [prog, cn, pn] fs wfail).status = .exit 1 ∧
      (Decrypt0.main P [prog, cn, pn] fs wfail).fs = fs := by
  obtain ⟨r, hr, p1, p2, p3, p4, p5, p6, p7, p8⟩ :=
    Decrypt0.FindPad_spec P fs wfail cn pn ct node hc h h88 hp (by rw [hnone]; decide)
  rw [hnone] at p1
  simp only [Search.isFound] at p1
  have hfp : r.2.Fplaintext = none := p5
  unfold Decrypt0.main
  rw [Decrypt0.ParseArgs_ok fs wfail prog cn pn h]
  simp only [hr, p1, if_true]
  unfold Decrypt0.CleanExit
  simp only [hfp, Option.isSome_none]
  exact ⟨rfl, by simpa using p2⟩

theorem xor_pow_ne (b j : Nat) : b ^^^ 2 ^ j ≠ b := by
  intro h
  have h2 : b ^^^ (b ^^^ 2 ^ j) = b ^^^ b := by rw [h]
  rw [Nat.xor_cancel_left, Nat.xor_self] at h2
  have := Nat.two_pow_pos j
  omega

theorem flipBit_length (ct : List Nat) (i j : Nat) : (flipBit ct i j).length = ct.length := by
  simp [flipBit]

theorem flipBit_getElem (ct : List Nat) (i j : Nat) (hi : i < ct.length) :
    (flipBit ct i j)[i]? ≠ ct[i]? := by
  unfold flipBit
  rw [List.getElem?_set_self hi, List.getElem?_eq_getElem hi, List.getD_eq_getElem _ _ hi]
  intro h
  exact xor_pow_ne _ _ (Option.some.inj h)

theorem flipBit_take (ct : List Nat) (i j k : Nat) (hk : k ≤ i) :
    (flipBit ct i j).take k = ct.take k := by
  apply List.ext_getElem?
  intro n
  rw [List.getElem?_take, List.getElem?_take]
  split
  · unfold flipBit
    exact List.getElem?_set_ne (by omega)
  · rfl

theorem flipBit_drop (ct : List Nat) (i j k : Nat) (hk : i < k) :
    (flipBit ct i j).drop k = ct.drop k := by
  unfold flipBit
  exact List.drop_set_of_lt _ _ hk

theorem flipBit_take_ne (ct : List Nat) (i j k : Nat) (hi : i < ct.length) (hk : i < k) :
    (flipBit ct i j).take k ≠ ct.take k := by
  intro h
  have h2 : ((flipBit ct i j).take k)[i]? = (ct.take k)[i]? := by rw [h]
  rw [List.getElem?_take_of_lt hk, List.getElem?_take_of_lt hk] at h2
  exact flipBit_getElem ct i j hi h2

theorem flipBit_drop_ne (ct : List Nat) (i j k : Nat) (hi : i < ct.length) (hk : k ≤ i) :
    (flipBit ct i j).drop k ≠ ct.drop k := by
  intro h
  have h2 : ((flipBit ct i j).drop k)[i - k]? = (ct.drop k)[i - k]? := by rw [h]
  rw [List.getElem?_drop, List.getElem?_drop, show k + (i - k) = i by omega] at h2
  exact flipBit_getElem ct i j hi h2

/-- No tag test passes on a container with one bit flipped, when the MAC
gives distinct tags to the container's authenticated part and to every
other message of the same length. -/
theorem flipped_tagTest (P : Prims) (hP : P.tag64) (plain pad iv : List Nat) (short : Bool)
    (i j : Nat) (hi : i < (container P plain pad iv short).length)
    (hinj : ∀ m : List Nat, m.length = (iv ++ cipherStream P plain pad iv short).length →
      m ≠ iv ++ cipherStream P plain pad iv short →
      P.hmac (pad.take 96) m ≠ P.hmac (pad.take 96) (iv ++ cipherStream P plain pad iv short)) :
    ¬ tagTest P (flipBit (container P plain pad iv short) i j) pad := by
  obtain ⟨ht, hd⟩ := container_tag P hP plain pad iv short
  have hl : (container P plain pad iv short).length
      = (iv ++ cipherStream P plain pad iv short).length + 64 := by
    simp [container, hP _ _, Nat.add_assoc]
  unfold tagTest
  rw [flipBit_length]
  intro h
  by_cases hk : i < (container P plain pad iv short).length - 64
  · rw [flipBit_drop _ _ _ _ hk, hd] at h
    refine hinj _ ?_ ?_ h.symm
    · rw [List.length_take, flipBit_length]
      omega
    · rw [← ht]
      exact flipBit_take_ne _ _ _ _ hi hk
  · rw [flipBit_take _ _ _ _ (by omega), ht, ← hd] at h
    exact flipBit_drop_ne _ _ _ _ hi (by omega) h

theorem samplePrims_inj (key m m0 : List Nat) (hl : m.length = m0.length) (h64 : m0.length ≤ 64)
    (h : samplePrims.hmac key m = samplePrims.hmac key m0) : m = m0 := by
  have h2 : (m ++ List.replicate 64 0).take 64 = (m0 ++ List.replicate 64 0).take 64 := h
  have h3 := congrArg (List.take m0.length) h2
  rw [List.take_take, List.take_take, Nat.min_eq_left h64] at h3
  rw [List.take_left' hl, List.take_left' rfl] at h3
  exact h3

theorem replaceAux_skip (old new : List Char) : ∀ (cs : List Char) (n : Nat), cs.length ≤ n →
    replaceAux old new n cs = []
  | [], n, _ => by cases n <;> rfl
  | c :: cs, 0, h => by simp at h
  | c :: cs, n + 1, h => by
    rw [replaceAux]
    exact replaceAux_skip old new cs n (by simpa using h)

theorem replaceAux_last (old new : List Char) (hold : old ≠ []) : ∀ (s : List Char) (k : Nat),
    firstIndex old s = some k → k + old.length = s.length →
    s = s.take k ++ old ∧ replaceAux old new 0 s = s.take k ++ new
  | [], k, h, _ => by
    unfold firstIndex at h
    simp [hold] at h
  | c :: cs, k, h, hl => by
    unfold firstIndex at h
    by_cases hp : old.isPrefixOf (c :: cs) = true
    · rw [if_pos hp] at h
      have hk : k = 0 := by simpa using h.symm
      subst hk
      have heq : old = c :: cs :=
        (List.isPrefixOf_iff_prefix.mp hp).eq_of_length (by omega)
      refine ⟨by simp [heq], ?_⟩
      rw [replaceAux, if_pos hp]
      rw [replaceAux_skip old new cs (old.length - 1) (by rw [heq]; simp)]
      simp
    · rw [if_neg hp] at h
      cases hf : firstIndex old cs with
      | none => rw [hf] at h; simp at h
      | some k2 =>
        rw [hf] at h
        have hk : k = k2 + 1 := by simpa using h.symm
        subst hk
        obtain ⟨h1, h2⟩ := replaceAux_last old new hold cs k2 hf (by simp at hl; omega)
        refine ⟨?_, ?_⟩
        · simp only [List.take_succ_cons, List.cons_append]
          rw [← h1]
        · rw [replaceAux, if_neg hp, h2]
          simp

theorem Index_suffix (s sub : String) (h0 : Index s sub > 0)
    (h1 : Index s sub = (s.length : Int) - (sub.length : Int)) :
    ∃ k : Nat, firstIndex sub.data s.data = some k ∧ k + sub.data.length = s.data.length := by
  unfold Index at h0 h1
  cases hf : firstIndex sub.data s.data with
  | none => rw [hf] at h0; simp at h0
  | some k =>
    rw [hf] at h1
    simp only [String_length_data] at h1
    exact ⟨k, rfl, by omega⟩

theorem Replace_suffix (s old new : String) (hold : old.data ≠ []) (h0 : Index s old > 0)
    (h1 : Index s old = (s.length : Int) - (old.length : Int)) :
    ∃ stem : List Char, s.data = stem ++ old.data ∧ (Replace s old new).data = stem ++ new.data := by
  obtain ⟨k, hk, hl⟩ := Index_suffix s old h0 h1
  obtain ⟨e1, e2⟩ := replaceAux_last old.data new.data hold s.data k hk hl
  exact ⟨s.data.take k, e1, e2⟩

theorem append_ne_of_last (a b c d : List Char) (hb : b ≠ []) (hd : d ≠ [])
    (h : b.getLast? ≠ d.getLast?) : a ++ b ≠ c ++ d := by
  intro he
  have := congrArg List.getLast? he
  rw [List.getLast?_append_of_ne_nil _ hb, List.getLast?_append_of_ne_nil _ hd] at this
  exact h this

theorem Committed_set (wn xn cn : String) (pad : List Nat) (fs : FS) (node : Node)
    (hcw : cn ≠ wn) (hcx : cn ≠ xn) (h : Committed wn xn pad fs) :
    Committed wn xn pad (fs.set cn node) := by
  unfold Committed FS.set
  rw [if_neg (Ne.symm hcw), if_neg (Ne.symm hcx)]
  exact h

theorem Committed_remove (wn xn cn : String) (pad : List Nat) (fs : FS)
    (hcx : cn ≠ xn) (h : Committed wn xn pad fs) :
    Committed wn xn pad (fs.remove cn) := by
  unfold Committed FS.remove
  rw [if_neg (Ne.symm hcx)]
  refine ⟨?_, h.2⟩
  split
  · rfl
  · exact h.1

theorem Encrypt0.Burnt_congr (wn xn cn : String) (pad : List Nat) (w w2 : Encrypt0.World)
    (hfs : w2.fs = w.fs) (hn : w2.CiphertextName = w.CiphertextName)
    (h : Encrypt0.Burnt wn xn cn pad w) : Encrypt0.Burnt wn xn cn pad w2 := by
  unfold Encrypt0.Burnt at *
  rw [hfs, hn]
  exact h

theorem Encrypt0.Burnt_Write (wn xn cn : String) (pad : List Nat) (hcw : cn ≠ wn)
    (hcx : cn ≠ xn) (w : Encrypt0.World) (b : List Nat)
    (h : Encrypt0.Burnt wn xn cn pad w) : Encrypt0.Burnt wn xn cn pad (Encrypt0.Write w b).1 := by
  unfold Encrypt0.Write
  split
  · exact h
  · split
    · exact Encrypt0.Burnt_congr wn xn cn pad w _ rfl rfl h
    · refine ⟨?_, h.2⟩
      show Committed wn xn pad (w.fs.set w.CiphertextName _)
      rw [h.2]
      exact Committed_set wn xn cn pad w.fs _ hcw hcx h.1

theorem Encrypt0.Burnt_Fatal (wn xn cn : String) (pad : List Nat) (hcx : cn ≠ xn)
    (w : Encrypt0.World) (h : Encrypt0.Burnt wn xn cn pad w) :
    Committed wn xn pad (Encrypt0.Fatal w).fs := by
  unfold Encrypt0.Fatal Encrypt0.CleanExit
  simp only
  split
  · rw [h.2]
    exact Committed_remove wn xn cn pad w.fs hcx h.1
  · exact h.1

theorem Encrypt0.Burnt_Fault (wn xn cn : String) (pad : List Nat)
    (w : Encrypt0.World) (h : Encrypt0.Burnt wn xn cn pad w) :
    Committed wn xn pad (Encrypt0.Fault w).fs := h.1

theorem forLoop_outcome (inv : Encrypt0.World → Prop) (good : Final → Prop)
    (body : Int → Encrypt0.World → Except Final Encrypt0.World)
    (hbody : ∀ i w, inv w → Encrypt0.Outcome inv good (body i w)) :
    ∀ (k : Nat) (i : Int) (w : Encrypt0.World), inv w →
      Encrypt0.Outcome inv good (forLoop body k i w)
  | 0, _, w, h => h
  | k + 1, i, w, h => by
    have hb := hbody i w h
    unfold forLoop
    cases hr : body i w with
    | error e =>
      rw [hr] at hb
      exact hb
    | ok w2 =>
      rw [hr] at hb
      exact forLoop_outcome inv good body hbody k (i + 1) w2 hb

set_option linter.unusedTactic false in
set_option linter.unreachableTactic false in
theorem Encrypt0.bodyBlock_burnt (P : Prims) (wn xn cn : String) (pad : List Nat)
    (hcw : cn ≠ wn) (hcx : cn ≠ xn) (blocks i : Int) (w : Encrypt0.World)
    (h : Encrypt0.Burnt wn xn cn pad w) :
    Encrypt0.Outcome (Encrypt0.Burnt wn xn cn pad) (fun e => Committed wn xn pad e.fs)
      (Encrypt0.bodyBlock P blocks i w) := by
  unfold Encrypt0.bodyBlock
  simp only
  repeat' split
  all_goals first
    | exact h
    | exact Encrypt0.Burnt_Fault wn xn cn pad _ (Encrypt0.Burnt_congr wn xn cn pad w _ rfl rfl h)
    | exact Encrypt0.Burnt_Fatal wn xn cn pad hcx _ (Encrypt0.Burnt_congr wn xn cn pad w _ rfl rfl h)
    | exact Encrypt0.Burnt_Write wn xn cn pad hcw hcx _ _ h
    | exact Encrypt0.Burnt_Fatal wn xn cn pad hcx _ (Encrypt0.Burnt_Write wn xn cn pad hcw hcx _ _ h)
    | exact Encrypt0.Burnt_Fatal wn xn cn pad hcx _
        (Encrypt0.Burnt_Write wn xn cn pad hcw hcx _ _
          (Encrypt0.Burnt_congr wn xn cn pad w _ rfl rfl h))
    | exact Encrypt0.Burnt_Fault wn xn cn pad _
        (Encrypt0.Burnt_congr wn xn cn pad _ _ rfl rfl
          (Encrypt0.Burnt_Write wn xn cn pad hcw hcx _ _
            (Encrypt0.Burnt_congr wn xn cn pad w _ rfl rfl h)))
    | exact Encrypt0.Burnt_Fatal wn xn cn pad hcx _
        (Encrypt0.Burnt_congr wn xn cn pad _ _ rfl rfl
          (Encrypt0.Burnt_Write wn xn cn pad hcw hcx _ _
            (Encrypt0.Burnt_congr wn xn cn pad w _ rfl rfl h)))
    | exact Encrypt0.Burnt_congr wn xn cn pad _ _ rfl rfl
        (Encrypt0.Burnt_Write wn xn cn pad hcw hcx _ _
          (Encrypt0.Burnt_congr wn xn cn pad w _ rfl rfl h))

set_option linter.unusedTactic false in
set_option linter.unreachableTactic false in
theorem Encrypt0.padBlock_burnt (P : Prims) (wn xn cn : String) (pad : List Nat)
    (hcw : cn ≠ wn) (hcx : cn ≠ xn) (toWrite blocks i : Int) (w : Encrypt0.World)
    (h : Encrypt0.Burnt wn xn cn pad w) :
    Encrypt0.Outcome (Encrypt0.Burnt wn xn cn pad) (fun e => Committed wn xn pad e.fs)
      (Encrypt0.padBlock P toWrite blocks i w) := by
  unfold Encrypt0.padBlock
  simp only
  repeat' split
  all_goals first
    | exact h
    | exact Encrypt0.Burnt_Fault wn xn cn pad _ (Encrypt0.Burnt_congr wn xn cn pad w _ rfl rfl h)
    | exact Encrypt0.Burnt_Fatal wn xn cn pad hcx _ (Encrypt0.Burnt_congr wn xn cn pad w _ rfl rfl h)
    | exact Encrypt0.Burnt_Write wn xn cn pad hcw hcx _ _ h
    | exact Encrypt0.Burnt_Fatal wn xn cn pad hcx _ (Encrypt0.Burnt_Write wn xn cn pad hcw hcx _ _ h)
    | exact Encrypt0.Burnt_Fatal wn xn cn pad hcx _
        (Encrypt0.Burnt_Write wn xn cn pad hcw hcx _ _
          (Encrypt0.Burnt_congr wn xn cn pad w _ rfl rfl h))
    | exact Encrypt0.Burnt_Fault wn xn cn pad _
        (Encrypt0.Burnt_congr wn xn cn pad _ _ rfl rfl
          (Encrypt0.Burnt_Write wn xn cn pad hcw hcx _ _
            (Encrypt0.Burnt_congr wn xn cn pad w _ rfl rfl h)))
    | exact Encrypt0.Burnt_Fatal wn xn cn pad hcx _
        (Encrypt0.Burnt_congr wn xn cn pad _ _ rfl rfl
          (Encrypt0.Burnt_Write wn xn cn pad hcw hcx _ _
            (Encrypt0.Burnt_congr wn xn cn pad w _ rfl rfl h)))
    | exact Encrypt0.Burnt_congr wn xn cn pad _ _ rfl rfl
        (Encrypt0.Burnt_Write wn xn cn pad hcw hcx _ _
          (Encrypt0.Burnt_congr wn xn cn pad w _ rfl rfl h))

set_option linter.unusedTactic false in
set_option linter.unreachableTactic false in
theorem Encrypt0.encryptHeader_burnt (P : Prims) (wn xn cn : String) (pad : List Nat)
    (hcw : cn ≠ wn) (hcx : cn ≠ xn) (w : Encrypt0.World)
    (h : Encrypt0.Burnt wn xn cn pad w) :
    Encrypt0.Outcome (Encrypt0.Burnt wn xn cn pad) (fun e => Committed wn xn pad e.fs)
      (Encrypt0.encryptHeader P w) := by
  unfold Encrypt0.encryptHeader
  simp only
  repeat' split
  all_goals first
    | exact h
    | exact Encrypt0.Burnt_Fault wn xn cn pad _ (Encrypt0.Burnt_congr wn xn cn pad w _ rfl rfl h)
    | exact Encrypt0.Burnt_Fatal wn xn cn pad hcx _ (Encrypt0.Burnt_congr wn xn cn pad w _ rfl rfl h)
    | exact Encrypt0.Burnt_Write wn xn cn pad hcw hcx _ _ h
    | exact Encrypt0.Burnt_Fatal wn xn cn pad hcx _ (Encrypt0.Burnt_Write wn xn cn pad hcw hcx _ _ h)
    | exact Encrypt0.Burnt_Fatal wn xn cn pad hcx _
        (Encrypt0.Burnt_Write wn xn cn pad hcw hcx _ _
          (Encrypt0.Burnt_congr wn xn cn pad w _ rfl rfl h))
    | exact Encrypt0.Burnt_Fault wn xn cn pad _
        (Encrypt0.Burnt_congr wn xn cn pad _ _ rfl rfl
          (Encrypt0.Burnt_Write wn xn cn pad hcw hcx _ _
            (Encrypt0.Burnt_congr wn xn cn pad w _ rfl rfl h)))
    | exact Encrypt0.Burnt_Fatal wn xn cn pad hcx _
        (Encrypt0.Burnt_congr wn xn cn pad _ _ rfl rfl
          (Encrypt0.Burnt_Write wn xn cn pad hcw hcx _ _
            (Encrypt0.Burnt_congr wn xn cn pad w _ rfl rfl h)))
    | exact Encrypt0.Burnt_congr wn xn cn pad _ _ rfl rfl
        (Encrypt0.Burnt_Write wn xn cn pad hcw hcx _ _
          (Encrypt0.Burnt_congr wn xn cn pad w _ rfl rfl h))

set_option linter.unusedTactic false in
set_option linter.unreachableTactic false in
theorem Encrypt0.writeTag_burnt (P : Prims) (wn xn cn : String) (pad : List Nat)
    (hcw : cn ≠ wn) (hcx : cn ≠ xn) (w : Encrypt0.World)
    (h : Encrypt0.Burnt wn xn cn pad w) :
    Encrypt0.Outcome (Encrypt0.Burnt wn xn cn pad) (fun e => Committed wn xn pad e.fs)
      (Encrypt0.writeTag P w) := by
  unfold Encrypt0.writeTag
  simp only
  repeat' split
  all_goals first
    | exact h
    | exact Encrypt0.Burnt_Fault wn xn cn pad _ (Encrypt0.Burnt_congr wn xn cn pad w _ rfl rfl h)
    | exact Encrypt0.Burnt_Fatal wn xn cn pad hcx _ (Encrypt0.Burnt_congr wn xn cn pad w _ rfl rfl h)
    | exact Encrypt0.Burnt_Write wn xn cn pad hcw hcx _ _ h
    | exact Encrypt0.Burnt_Fatal wn xn cn pad hcx _ (Encrypt0.Burnt_Write wn xn cn pad hcw hcx _ _ h)
    | exact Encrypt0.Burnt_Fatal wn xn cn pad hcx _
        (Encrypt0.Burnt_Write wn xn cn pad hcw hcx _ _
          (Encrypt0.Burnt_congr wn xn cn pad w _ rfl rfl h))
    | exact Encrypt0.Burnt_Fault wn xn cn pad _
        (Encrypt0.Burnt_congr wn xn cn pad _ _ rfl rfl
          (Encrypt0.Burnt_Write wn xn cn pad hcw hcx _ _
            (Encrypt0.Burnt_congr wn xn cn pad w _ rfl rfl h)))
    | exact Encrypt0.Burnt_Fatal wn xn cn pad hcx _
        (Encrypt0.Burnt_congr wn xn cn pad _ _ rfl rfl
          (Encrypt0.Burnt_Write wn xn cn pad hcw hcx _ _
            (Encrypt0.Burnt_congr wn xn cn pad w _ rfl rfl h)))
    | exact Encrypt0.Burnt_congr wn xn cn pad _ _ rfl rfl
        (Encrypt0.Burnt_Write wn xn cn pad hcw hcx _ _
          (Encrypt0.Burnt_congr wn xn cn pad w _ rfl rfl h))

set_option linter.unusedTactic false in
set_option linter.unreachableTactic false in
theorem Encrypt0.initKeys_burnt (iv : List Nat) (wn xn cn : String) (pad : List Nat)
    (hcw : cn ≠ wn) (hcx : cn ≠ xn) (w : Encrypt0.World)
    (h : Encrypt0.Burnt wn xn cn pad w) :
    Encrypt0.Outcome (Encrypt0.Burnt wn xn cn pad) (fun e => Committed wn xn pad e.fs)
      (Encrypt0.initKeys iv w) := by
  unfold Encrypt0.initKeys
  simp only
  repeat' split
  all_goals first
    | exact h
    | exact Encrypt0.Burnt_Fault wn xn cn pad _ (Encrypt0.Burnt_congr wn xn cn pad w _ rfl rfl h)
    | exact Encrypt0.Burnt_Fatal wn xn cn pad hcx _ (Encrypt0.Burnt_congr wn xn cn pad w _ rfl rfl h)
    | exact Encrypt0.Burnt_Write wn xn cn pad hcw hcx _ _ h
    | exact Encrypt0.Burnt_Fatal wn xn cn pad hcx _ (Encrypt0.Burnt_Write wn xn cn pad hcw hcx _ _ h)
    | exact Encrypt0.Burnt_Fatal wn xn cn pad hcx _
        (Encrypt0.Burnt_Write wn xn cn pad hcw hcx _ _
          (Encrypt0.Burnt_congr wn xn cn pad w _ rfl rfl h))
    | exact Encrypt0.Burnt_Fault wn xn cn pad _
        (Encrypt0.Burnt_congr wn xn cn pad _ _ rfl rfl
          (Encrypt0.Burnt_Write wn xn cn pad hcw hcx _ _
            (Encrypt0.Burnt_congr wn xn cn pad w _ rfl rfl h)))
    | exact Encrypt0.Burnt_Fatal wn xn cn pad hcx _
        (Encrypt0.Burnt_congr wn xn cn pad _ _ rfl rfl
          (Encrypt0.Burnt_Write wn xn cn pad hcw hcx _ _
            (Encrypt0.Burnt_congr wn xn cn pad w _ rfl rfl h)))
    | exact Encrypt0.Burnt_congr wn xn cn pad _ _ rfl rfl
        (Encrypt0.Burnt_Write wn xn cn pad hcw hcx _ _
          (Encrypt0.Burnt_congr wn xn cn pad w _ rfl rfl h))

theorem Encrypt0.Encrypt_burnt (P : Prims) (wn xn cn : String) (pad : List Nat)
    (hcw : cn ≠ wn) (hcx : cn ≠ xn) (w : Encrypt0.World)
    (h : Encrypt0.Burnt wn xn cn pad w) :
    Encrypt0.Outcome (Encrypt0.Burnt wn xn cn pad) (fun e => Committed wn xn pad e.fs)
      (Encrypt0.Encrypt P w) := by
  unfold Encrypt0.Encrypt
  have h1 := Encrypt0.encryptHeader_burnt P wn xn cn pad hcw hcx w h
  cases hr : Encrypt0.encryptHeader P w with
  | error e =>
    rw [hr] at h1
    exact h1
  | ok w1 =>
    rw [hr] at h1
    simp only
    have h2 := forLoop_outcome (Encrypt0.Burnt wn xn cn pad) (fun e => Committed wn xn pad e.fs)
      (Encrypt0.bodyBlock P (w1.PlaintextSize.tdiv Encrypt0.BufferSize + 1))
      (fun i w hw => Encrypt0.bodyBlock_burnt P wn xn cn pad hcw hcx _ i w hw)
      (w1.PlaintextSize.tdiv Encrypt0.BufferSize + 1).toNat 0 w1 h1
    cases hr2 : forLoop (Encrypt0.bodyBlock P (w1.PlaintextSize.tdiv Encrypt0.BufferSize + 1))
        (w1.PlaintextSize.tdiv Encrypt0.BufferSize + 1).toNat 0 w1 with
    | error e =>
      rw [hr2] at h2
      exact h2
    | ok w2 =>
      rw [hr2] at h2
      simp only
      cases hs : w2.Short
      · simp only [Bool.false_eq_true, if_false]
        have h3 := forLoop_outcome (Encrypt0.Burnt wn xn cn pad)
          (fun e => Committed wn xn pad e.fs)
          (Encrypt0.padBlock P (w2.PadSize - Encrypt0.PadOverhead - w2.PlaintextSize)
            ((w2.PadSize - Encrypt0.PadOverhead - w2.PlaintextSize).tdiv Encrypt0.BufferSize + 1))
          (fun i w hw => Encrypt0.padBlock_burnt P wn xn cn pad hcw hcx _ _ i w hw)
          ((w2.PadSize - Encrypt0.PadOverhead - w2.PlaintextSize).tdiv Encrypt0.BufferSize
            + 1).toNat 0 w2 h2
        cases hr3 : forLoop
            (Encrypt0.padBlock P (w2.PadSize - Encrypt0.PadOverhead - w2.PlaintextSize)
              ((w2.PadSize - Encrypt0.PadOverhead - w2.PlaintextSize).tdiv Encrypt0.BufferSize
                + 1))
            ((w2.PadSize - Encrypt0.PadOverhead - w2.PlaintextSize).tdiv Encrypt0.BufferSize
              + 1).toNat 0 w2 with
        | error e =>
          rw [hr3] at h3
          exact h3
        | ok w3 =>
          rw [hr3] at h3
          exact Encrypt0.writeTag_burnt P wn xn cn pad hcw hcx w3 h3
      · simp only [if_true]
        exact Encrypt0.writeTag_burnt P wn xn cn pad hcw hcx w2 h2

theorem Encrypt0.initFiles_burnt (w : Encrypt0.World) (plain pad : List Nat)
    (hplain : w.fs w.PlaintextName = some (.file plain))
    (hpad : w.fs w.PadName = some (.file pad))
    (hcw : w.PlaintextName ++ Encrypt0.CiphertextExt ≠ w.PadName)
    (hxw : Replace w.PadName Encrypt0.PadExt Encrypt0.UsedPadExt ≠ w.PadName)
    (hx : w.fs.isDir (Replace w.PadName Encrypt0.PadExt Encrypt0.UsedPadExt) = false) :
    ∃ w2, Encrypt0.initFiles w = .ok w2 ∧
      Encrypt0.Burnt w.PadName (Replace w.PadName Encrypt0.PadExt Encrypt0.UsedPadExt)
        (w.PlaintextName ++ Encrypt0.CiphertextExt) pad w2 := by
  unfold Encrypt0.initFiles
  rw [hplain]
  simp only [Open, Node.open]
  cases hc : w.fs.create (w.PlaintextName ++ Encrypt0.CiphertextExt) with
  | none =>
    simp only
    rw [FS.rename_ok _ w.PadName _ (.file pad) hpad hx]
    simp only [if_true, Node.open]
    refine ⟨_, rfl, ⟨?_, ?_⟩, rfl⟩
    · show (if w.PadName = _ then _ else _) = none
      rw [if_neg (Ne.symm hxw), if_pos rfl]
    · show (if _ = _ then _ else _) = _
      rw [if_pos rfl]
  | some fs2 =>
    simp only
    have hfs2 : fs2 = w.fs.set (w.PlaintextName ++ Encrypt0.CiphertextExt) (.file []) := by
      unfold FS.create at hc
      split at hc
      · exact absurd hc (by simp)
      · exact absurd hc (by simp)
      · exact (Option.some.inj hc).symm
    subst hfs2
    rw [FS.rename_ok _ w.PadName _ (.file pad) (by simp [FS.set, Ne.symm hcw, hpad])
      (FS.isDir_set_file _ _ _ _ hx)]
    simp only [if_true, Node.open]
    refine ⟨_, rfl, ⟨?_, ?_⟩, rfl⟩
    · show (if w.PadName = _ then _ else _) = none
      rw [if_neg (Ne.symm hxw), if_pos rfl]
    · show (if _ = _ then _ else _) = _
      rw [if_pos rfl]

theorem pad_names (pn wn : String) (hw : padWSuffix wn) :
    Replace wn Encrypt0.PadExt Encrypt0.UsedPadExt ≠ wn ∧
      pn ++ Encrypt0.CiphertextExt ≠ wn ∧
      pn ++ Encrypt0.CiphertextExt ≠ Replace wn Encrypt0.PadExt Encrypt0.UsedPadExt := by
  obtain ⟨stem, h1, h2⟩ := Replace_suffix wn Encrypt0.PadExt Encrypt0.UsedPadExt (by decide)
    hw.1 hw.2
  refine ⟨?_, ?_, ?_⟩
  · intro h
    have hd := congrArg String.data h
    rw [h1] at hd
    rw [h2] at hd
    exact absurd (List.append_cancel_left hd) (by decide)
  · intro h
    have hd := congrArg String.data h
    rw [String.data_append, h1] at hd
    exact append_ne_of_last _ _ _ _ (by decide) (by decide) (by decide) hd
  · intro h
    have hd := congrArg String.data h
    rw [String.data_append, h2] at hd
    exact append_ne_of_last _ _ _ _ (by decide) (by decide) (by decide) hd

theorem Encrypt0.encParseArgs_ok (fs : FS) (wfail : List Bool) (short : Bool) (prog pn wn : String)
    (hw : padWSuffix wn) :
    Encrypt0.ParseArgs (Encrypt0.argsOf short prog pn wn) (Encrypt0.World.start fs wfail)
      = .ok { Encrypt0.World.start fs wfail with
              Short := short, PlaintextName := pn, PadName := wn } := by
  have hn : ¬ (Index wn Encrypt0.PadExt ≤ 0 ∨ Index wn Encrypt0.PadExt
      ≠ (wn.length : Int) - (Encrypt0.PadExt.length : Int)) := by
    intro hc
    rcases hc with hc | hc
    · have := hw.1
      omega
    · exact hc hw.2
  cases short
  · unfold Encrypt0.ParseArgs Encrypt0.argsOf
    simp [Encrypt0.World.start, hn]
  · unfold Encrypt0.ParseArgs Encrypt0.argsOf
    simp [Encrypt0.World.start, hn]

theorem Encrypt0.CheckFiles_ok (w : Encrypt0.World) (plain pad : List Nat)
    (hplain : w.fs w.PlaintextName = some (.file plain))
    (hpad : w.fs w.PadName = some (.file pad))
    (hlen : (pad.length : Int) - (plain.length : Int) ≥ 144) :
    Encrypt0.CheckFiles w
      = .ok { w with PlaintextSize := (plain.length : Int), PadSize := (pad.length : Int) } := by
  unfold Encrypt0.CheckFiles
  rw [hplain, hpad]
  have hn : ¬ ((pad.length : Int) - (plain.length : Int) < 144) := by omega
  simp [Stat, Node.IsRegular, Node.Size, Encrypt0.PadOverhead, hn]

theorem Encrypt0.main_commits (P : Prims) (iv : List Nat) (fs : FS) (wfail : List Bool)
    (short : Bool) (prog pn wn : String) (plain pad : List Nat) (hw : padWSuffix wn)
    (hplain : fs.holds pn plain) (hpad : fs.holds wn pad)
    (hlen : (pad.length : Int) - (plain.length : Int) ≥ 144)
    (hx : fs.isDir (Replace wn Encrypt0.PadExt Encrypt0.UsedPadExt) = false) :
    Committed wn (Replace wn Encrypt0.PadExt Encrypt0.UsedPadExt) pad
      (Encrypt0.main P iv (Encrypt0.argsOf short prog pn wn) fs wfail).fs := by
  obtain ⟨hxw, hcw, hcx⟩ := pad_names pn wn hw
  have hplain2 := (holdsBytes_iff _ _).mp hplain
  have hpad2 := (holdsBytes_iff _ _).mp hpad
  unfold Encrypt0.main
  rw [Encrypt0.encParseArgs_ok fs wfail short prog pn wn hw]
  simp only
  rw [Encrypt0.CheckFiles_ok _ plain pad hplain2 hpad2 hlen]
  simp only
  unfold Encrypt0.Init
  obtain ⟨w1, h1, hb1⟩ := Encrypt0.initFiles_burnt
    { Encrypt0.World.start fs wfail with
      Short := short, PlaintextName := pn, PadName := wn,
      PlaintextSize := (plain.length : Int), PadSize := (pad.length : Int) }
    plain pad hplain2 hpad2 hcw hxw hx
  rw [h1]
  simp only
  have hb2 := Encrypt0.initKeys_burnt iv wn _ _ pad hcw hcx w1 hb1
  cases hr2 : Encrypt0.initKeys iv w1 with
  | error e =>
    rw [hr2] at hb2
    exact hb2
  | ok w2 =>
    rw [hr2] at hb2
    simp only
    have hb3 := Encrypt0.Encrypt_burnt P wn _ _ pad hcw hcx w2 hb2
    cases hr3 : Encrypt0.Encrypt P w2 with
    | error e =>
      rw [hr3] at hb3
      exact hb3
    | ok w3 =>
      rw [hr3] at hb3
      simp only
      unfold Encrypt0.CleanExit
      simp only [ne_eq, not_true_eq_false, and_false, if_false]
      exact hb3.1

theorem Encrypt0.CheckFiles_short (w : Encrypt0.World) (plain pad : List Nat)
    (hplain : w.fs w.PlaintextName = some (.file plain))
    (hpad : w.fs w.PadName = some (.file pad))
    (hlen : (pad.length : Int) - (plain.length : Int) < 144) :
    Encrypt0.CheckFiles w
      = .error { status := .exit Encrypt0.ExitPadTooShort, fs := w.fs } := by
  unfold Encrypt0.CheckFiles
  rw [hplain, hpad]
  simp [Stat, Node.IsRegular, Node.Size, Encrypt0.PadOverhead, hlen]

theorem Encrypt0.main_too_short (P : Prims) (iv : List Nat) (fs : FS) (wfail : List Bool)
    (short : Bool) (prog pn wn : String) (plain pad : List Nat) (hw : padWSuffix wn)
    (hplain : fs.holds pn plain) (hpad : fs.holds wn pad)
    (hlen : (pad.length : Int) - (plain.length : Int) < 144) :
    (Encrypt0.main P iv (Encrypt0.argsOf short prog pn wn) fs wfail).status
        = .exit Encrypt0.ExitPadTooShort ∧
      (Encrypt0.main P iv (Encrypt0.argsOf short prog pn wn) fs wfail).fs = fs := by
  have hplain2 := (holdsBytes_iff _ _).mp hplain
  have hpad2 := (holdsBytes_iff _ _).mp hpad
  unfold Encrypt0.main
  rw [Encrypt0.encParseArgs_ok fs wfail short prog pn wn hw]
  simp only
  rw [Encrypt0.CheckFiles_short _ plain pad hplain2 hpad2 hlen]
  exact ⟨rfl, rfl⟩

theorem Encrypt0.CheckFiles_regular (w : Encrypt0.World) (pnode wnode : Node)
    (hplain : w.fs w.PlaintextName = some pnode) (hpad : w.fs w.PadName = some wnode)
    (h1 : pnode.IsRegular = true) (h2 : wnode.IsRegular = true) :
    Encrypt0.CheckFiles w
      = if wnode.Size - pnode.Size < 144 then
          .error { status := .exit Encrypt0.ExitPadTooShort, fs := w.fs }
        else .ok { w with PlaintextSize := pnode.Size, PadSize := wnode.Size } := by
  unfold Encrypt0.CheckFiles
  rw [hplain, hpad]
  cases pnode <;> cases wnode <;>
    simp [Stat, Node.IsRegular, Node.Size, Encrypt0.PadOverhead] at h1 h2 ⊢

theorem Encrypt0.main_unopened (P : Prims) (iv : List Nat) (fs : FS) (wfail : List Bool)
    (short : Bool) (prog pn wn : String) (plain : List Nat) (wnode : Node) (hw : padWSuffix wn)
    (hplain : fs pn = some (.unreadable plain)) (hpad : fs wn = some wnode)
    (hreg : wnode.IsRegular = true)
    (hlen : wnode.Size - (plain.length : Int) ≥ 144) :
    (Encrypt0.main P iv (Encrypt0.argsOf short prog pn wn) fs wfail).status
        = .exit Encrypt0.ExitError ∧
      (Encrypt0.main P iv (Encrypt0.argsOf short prog pn wn) fs wfail).fs = fs := by
  unfold Encrypt0.main
  rw [Encrypt0.encParseArgs_ok fs wfail short prog pn wn hw]
  simp only
  rw [Encrypt0.CheckFiles_regular _ (.unreadable plain) wnode hplain hpad rfl hreg]
  have hn : ¬ (wnode.Size - (Node.unreadable plain).Size < 144) := by
    have e : (Node.unreadable plain).Size = (plain.length : Int) := rfl
    rw [e]
    omega
  rw [if_neg hn]
  simp only
  unfold Encrypt0.Init Encrypt0.initFiles
  have ho : Open ((Encrypt0.World.start fs wfail).fs pn) = none := by
    show Open (fs pn) = none
    rw [hplain]
    rfl
  simp only [ho]
  exact ⟨rfl, rfl⟩

theorem Encrypt0.main_short_regular (P : Prims) (iv : List Nat) (fs : FS) (wfail : List Bool)
    (short : Bool) (prog pn wn : String) (pnode wnode : Node) (hw : padWSuffix wn)
    (hplain : fs pn = some pnode) (hpad : fs wn = some wnode)
    (h1 : pnode.IsRegular = true) (h2 : wnode.IsRegular = true)
    (hlen : wnode.Size - pnode.Size < 144) :
    (Encrypt0.main P iv (Encrypt0.argsOf short prog pn wn) fs wfail).status
        = .exit Encrypt0.ExitPadTooShort ∧
      (Encrypt0.main P iv (Encrypt0.argsOf short prog pn wn) fs wfail).fs = fs := by
  unfold Encrypt0.main
  rw [Encrypt0.encParseArgs_ok fs wfail short prog pn wn hw]
  simp only
  rw [Encrypt0.CheckFiles_regular _ pnode wnode hplain hpad h1 h2, if_pos hlen]
  exact ⟨rfl, rfl⟩

theorem wrap64_add (x b : Int) : wrap64 (wrap64 x + b) = wrap64 (x + b) := by
  unfold wrap64
  omega

theorem wrap64_mul_add (x b : Int) : wrap64 (wrap64 x * 256 + b) = wrap64 (x * 256 + b) := by
  unfold wrap64
  omega

theorem wrap64_unsigned (u : Nat) (h : u < 2 ^ 64) :
    wrap64 (u : Int) = if u < 2 ^ 63 then (u : Int) else (u : Int) - 2 ^ 64 := by
  have h2 : u < 18446744073709551616 := by simpa using h
  unfold wrap64
  split
  · rename_i h3
    have h4 : u < 9223372036854775808 := by simpa using h3
    omega
  · rename_i h3
    have h4 : ¬ u < 9223372036854775808 := by simpa using h3
    omega

theorem decodeSize_signed (head : List Nat) (h : head.length = 16) :
    Decrypt0.decodeSize head = signedSize head := by
  match head, h with
  | [a0, a1, a2, a3, a4, a5, a6, a7, b0, b1, b2, b3, b4, b5, b6, b7], _ =>
    rw [decodeSize_cons]
    have e0 : wrap64 (wrap64 (0 * 256) + ((b0 % 256 : Nat) : Int))
        = wrap64 ((b0 % 256 : Nat) : Int) := by
      unfold wrap64
      omega
    rw [e0]
    simp only [wrap64_add, wrap64_mul_add]
    have hv : signedSize [a0, a1, a2, a3, a4, a5, a6, a7, b0, b1, b2, b3, b4, b5, b6, b7]
        = (if (((((((0 * 256 + b0 % 256) * 256 + b1 % 256) * 256 + b2 % 256) * 256 + b3 % 256) * 256
            + b4 % 256) * 256 + b5 % 256) * 256 + b6 % 256) * 256 + b7 % 256 < 2 ^ 63
          then (((((((((0 * 256 + b0 % 256) * 256 + b1 % 256) * 256 + b2 % 256) * 256 + b3 % 256) * 256
            + b4 % 256) * 256 + b5 % 256) * 256 + b6 % 256) * 256 + b7 % 256 : Nat) : Int)
          else (((((((((0 * 256 + b0 % 256) * 256 + b1 % 256) * 256 + b2 % 256) * 256 + b3 % 256) * 256
            + b4 % 256) * 256 + b5 % 256) * 256 + b6 % 256) * 256 + b7 % 256 : Nat) : Int)
            - 2 ^ 64) := rfl
    rw [hv, ← wrap64_unsigned _ (by omega)]
    push_cast
    simp only [zero_mul, zero_add]

theorem FS_set_remove (fs : FS) (name : String) (a : Node) :
    (fs.set name a).remove name = fs.remove name := by
  funext p
  simp only [FS.set, FS.remove]
  split <;> rfl

theorem Decrypt0.DecryptInit_malformed (P : Prims) (d : Decrypt0.World) (ct pad : List Nat)
    (hct : d.fs d.CiphertextName = some (.file ct)) (hpad : d.PadNode = some (.file pad))
    (hpn : d.PadName.length > 0) (hcn : d.CiphertextName.length > 0)
    (hon : (Replace d.CiphertextName ".enc" "").length > 0)
    (hop : Replace d.CiphertextName ".enc" "" ≠ d.PadName)
    (hoc : Replace d.CiphertextName ".enc" "" ≠ d.CiphertextName)
    (hod : d.fs.isDir (Replace d.CiphertextName ".enc" "") = false)
    (hcs : d.CiphertextSize = (ct.length : Int))
    (hpl : 144 ≤ pad.length) (hcl : 32 ≤ ct.length)
    (hbad : Decrypt0.sizeOf P ct pad < 0 ∨ (ct.length : Int) - Decrypt0.sizeOf P ct pad < 96) :
    ∃ e, Decrypt0.DecryptInit P d = .error e ∧ e.status = .exit Decrypt0.ExitError ∧
      e.fs = d.fs.remove (Replace d.CiphertextName ".enc" "") := by
  have r96 : readBuf (some pad) 96 = .ok (pad.take 96) (some (pad.drop 96)) :=
    readBuf_some pad 96 (by omega)
  have r32 : readBuf (some (pad.drop 96)) 32
      = .ok ((pad.drop 96).take 32) (some ((pad.drop 96).drop 32)) :=
    readBuf_some (pad.drop 96) 32 (by simp; omega)
  have r16 : readBuf (some ((pad.drop 96).drop 32)) 16
      = .ok (((pad.drop 96).drop 32).take 16) (some (((pad.drop 96).drop 32).drop 16)) :=
    readBuf_some _ 16 (by simp; omega)
  have c16 : readBuf (some ct) 16 = .ok (ct.take 16) (some (ct.drop 16)) :=
    readBuf_some ct 16 (by omega)
  have c32 : readBuf (some (ct.drop 16)) 16
      = .ok ((ct.drop 16).take 16) (some ((ct.drop 16).drop 16)) :=
    readBuf_some _ 16 (by simp; omega)
  unfold Decrypt0.DecryptInit Decrypt0.OpenFiles
  simp only [hpn, hcn, hon, hpad, hct, if_true, FS.create_ok d.fs _ hod, hop, hoc, if_false,
    Open, Node.open, r96, r32, r16, c16, c32]
  have hsz : Decrypt0.decodeSize (xorBytes
      ((CFB.New ((pad.drop 96).take 32) (ct.take 16) true).XORKeyStream P
        ((ct.drop 16).take 16)).2 (((pad.drop 96).drop 32).take 16))
      = Decrypt0.sizeOf P ct pad := by
    simp [Decrypt0.sizeOf, List.drop_drop]
  have hbad2 : Decrypt0.sizeOf P ct pad < 0 ∨
      (ct.length : Int) - Decrypt0.sizeOf P ct pad < Decrypt0.CiphertextOverhead := hbad
  unfold Decrypt0.sizeCheck
  simp only [hsz, hcs, hbad2, if_true]
  refine ⟨_, rfl, rfl, ?_⟩
  simp [Decrypt0.Fatal, Decrypt0.CleanExit, Decrypt0.ExitError, Decrypt0.ExitSuccess,
    FS_set_remove]

theorem Decrypt0.DecryptInit_short_pad (P : Prims) (d : Decrypt0.World) (ct pad : List Nat)
    (hct : d.fs d.CiphertextName = some (.file ct)) (hpad : d.PadNode = some (.file pad))
    (hpn : d.PadName.length > 0) (hcn : d.CiphertextName.length > 0)
    (hon : (Replace d.CiphertextName ".enc" "").length > 0)
    (hop : Replace d.CiphertextName ".enc" "" ≠ d.PadName)
    (hoc : Replace d.CiphertextName ".enc" "" ≠ d.CiphertextName)
    (hod : d.fs.isDir (Replace d.CiphertextName ".enc" "") = false)
    (hpl : 128 ≤ pad.length) (hps : pad.length < 144) :
    ∃ e, Decrypt0.DecryptInit P d = .error e ∧ e.status = .exit Decrypt0.ExitError ∧
      e.fs = d.fs.remove (Replace d.CiphertextName ".enc" "") := by
  have r96 : readBuf (some pad) 96 = .ok (pad.take 96) (some (pad.drop 96)) :=
    readBuf_some pad 96 (by omega)
  have r32 : readBuf (some (pad.drop 96)) 32
      = .ok ((pad.drop 96).take 32) (some ((pad.drop 96).drop 32)) :=
    readBuf_some (pad.drop 96) 32 (by simp; omega)
  have r16 : readBuf (some ((pad.drop 96).drop 32)) 16 = .short :=
    readBuf_short _ 16 (by simp; omega)
  unfold Decrypt0.DecryptInit Decrypt0.OpenFiles
  simp only [hpn, hcn, hon, hpad, hct, if_true, FS.create_ok d.fs _ hod, hop, hoc, if_false,
    Open, Node.open, r96, r32, r16]
  refine ⟨_, rfl, rfl, ?_⟩
  simp [Decrypt0.Fatal, Decrypt0.CleanExit, Decrypt0.ExitError, Decrypt0.ExitSuccess,
    FS_set_remove]

theorem Encrypt0.Fatal_status (w : Encrypt0.World) : Encrypt0.NotTooShort (Encrypt0.Fatal w) := by
  unfold Encrypt0.NotTooShort Encrypt0.Fatal Encrypt0.CleanExit
  show Status.exit Encrypt0.ExitError ≠ Status.exit Encrypt0.ExitPadTooShort
  decide

theorem Encrypt0.Fault_status (w : Encrypt0.World) : Encrypt0.NotTooShort (Encrypt0.Fault w) := by
  unfold Encrypt0.NotTooShort Encrypt0.Fault
  show Status.fault ≠ Status.exit Encrypt0.ExitPadTooShort
  decide

set_option linter.unusedTactic false in
set_option linter.unreachableTactic false in
theorem Encrypt0.bodyBlock_status (P : Prims) (blocks i : Int) (w : Encrypt0.World) :
    Encrypt0.Outcome (fun _ => True) Encrypt0.NotTooShort (Encrypt0.bodyBlock P blocks i w) := by
  unfold Encrypt0.bodyBlock
  simp only
  repeat' split
  all_goals first
    | exact trivial
    | exact Encrypt0.Fatal_status _
    | exact Encrypt0.Fault_status _

set_option linter.unusedTactic false in
set_option linter.unreachableTactic false in
theorem Encrypt0.padBlock_status (P : Prims) (toWrite blocks i : Int) (w : Encrypt0.World) :
    Encrypt0.Outcome (fun _ => True) Encrypt0.NotTooShort
      (Encrypt0.padBlock P toWrite blocks i w) := by
  unfold Encrypt0.padBlock
  simp only
  repeat' split
  all_goals first
    | exact trivial
    | exact Encrypt0.Fatal_status _
    | exact Encrypt0.Fault_status _

set_option linter.unusedTactic false in
set_option linter.unreachableTactic false in
theorem Encrypt0.encryptHeader_status (P : Prims) (w : Encrypt0.World) :
    Encrypt0.Outcome (fun _ => True) Encrypt0.NotTooShort (Encrypt0.encryptHeader P w) := by
  unfold Encrypt0.encryptHeader
  simp only
  repeat' split
  all_goals first
    | exact trivial
    | exact Encrypt0.Fatal_status _
    | exact Encrypt0.Fault_status _

set_option linter.unusedTactic false in
set_option linter.unreachableTactic false in
theorem Encrypt0.writeTag_status (P : Prims) (w : Encrypt0.World) :
    Encrypt0.Outcome (fun _ => True) Encrypt0.NotTooShort (Encrypt0.writeTag P w) := by
  unfold Encrypt0.writeTag
  simp only
  repeat' split
  all_goals first
    | exact trivial
    | exact Encrypt0.Fatal_status _
    | exact Encrypt0.Fault_status _

set_option linter.unusedTactic false in
set_option linter.unreachableTactic false in
theorem Encrypt0.initKeys_status (iv : List Nat) (w : Encrypt0.World) :
    Encrypt0.Outcome (fun _ => True) Encrypt0.NotTooShort (Encrypt0.initKeys iv w) := by
  unfold Encrypt0.initKeys
  simp only
  repeat' split
  all_goals first
    | exact trivial
    | exact Encrypt0.Fatal_status _
    | exact Encrypt0.Fault_status _

set_option linter.unusedTactic false in
set_option linter.unreachableTactic false in
theorem Encrypt0.initFiles_status (w : Encrypt0.World) :
    Encrypt0.Outcome (fun _ => True) Encrypt0.NotTooShort (Encrypt0.initFiles w) := by
  unfold Encrypt0.initFiles
  simp only
  repeat' split
  all_goals first
    | exact trivial
    | exact Encrypt0.Fatal_status _
    | exact Encrypt0.Fault_status _

theorem Encrypt0.Encrypt_status (P : Prims) (w : Encrypt0.World) :
    Encrypt0.Outcome (fun _ => True) Encrypt0.NotTooShort (Encrypt0.Encrypt P w) := by
  unfold Encrypt0.Encrypt
  have h1 := Encrypt0.encryptHeader_status P w
  cases hr : Encrypt0.encryptHeader P w with
  | error e =>
    rw [hr] at h1
    exact h1
  | ok w1 =>
    simp only
    have h2 := forLoop_outcome (fun _ => True) Encrypt0.NotTooShort
      (Encrypt0.bodyBlock P (w1.PlaintextSize.tdiv Encrypt0.BufferSize + 1))
      (fun i w _ => Encrypt0.bodyBlock_status P _ i w)
      (w1.PlaintextSize.tdiv Encrypt0.BufferSize + 1).toNat 0 w1 trivial
    cases hr2 : forLoop (Encrypt0.bodyBlock P (w1.PlaintextSize.tdiv Encrypt0.BufferSize + 1))
        (w1.PlaintextSize.tdiv Encrypt0.BufferSize + 1).toNat 0 w1 with
    | error e =>
      rw [hr2] at h2
      exact h2
    | ok w2 =>
      simp only
      cases hs : w2.Short
      · simp only [Bool.false_eq_true, if_false]
        have h3 := forLoop_outcome (fun _ => True) Encrypt0.NotTooShort
          (Encrypt0.padBlock P (w2.PadSize - Encrypt0.PadOverhead - w2.PlaintextSize)
            ((w2.PadSize - Encrypt0.PadOverhead - w2.PlaintextSize).tdiv Encrypt0.BufferSize + 1))
          (fun i w _ => Encrypt0.padBlock_status P _ _ i w)
          ((w2.PadSize - Encrypt0.PadOverhead - w2.PlaintextSize).tdiv Encrypt0.BufferSize
            + 1).toNat 0 w2 trivial
        cases hr3 : forLoop
            (Encrypt0.padBlock P (w2.PadSize - Encrypt0.PadOverhead - w2.PlaintextSize)
              ((w2.PadSize - Encrypt0.PadOverhead - w2.PlaintextSize).tdiv Encrypt0.BufferSize
                + 1))
            ((w2.PadSize - Encrypt0.PadOverhead - w2.PlaintextSize).tdiv Encrypt0.BufferSize
              + 1).toNat 0 w2 with
        | error e =>
          rw [hr3] at h3
          exact h3
        | ok w3 =>
          exact Encrypt0.writeTag_status P w3
      · simp only [if_true]
        exact Encrypt0.writeTag_status P w2

theorem Encrypt0.main_not_short (P : Prims) (iv : List Nat) (fs : FS) (wfail : List Bool)
    (short : Bool) (prog pn wn : String) (plain pad : List Nat) (hw : padWSuffix wn)
    (hplain : fs.holds pn plain) (hpad : fs.holds wn pad)
    (hlen : (pad.length : Int) - (plain.length : Int) ≥ 144) :
    (Encrypt0.main P iv (Encrypt0.argsOf short prog pn wn) fs wfail).status
      ≠ .exit Encrypt0.ExitPadTooShort := by
  have hplain2 := (holdsBytes_iff _ _).mp hplain
  have hpad2 := (holdsBytes_iff _ _).mp hpad
  unfold Encrypt0.main
  rw [Encrypt0.encParseArgs_ok fs wfail short prog pn wn hw]
  simp only
  rw [Encrypt0.CheckFiles_ok _ plain pad hplain2 hpad2 hlen]
  simp only
  unfold Encrypt0.Init
  have hb1 := Encrypt0.initFiles_status
    { Encrypt0.World.start fs wfail with
      Short := short, PlaintextName := pn, PadName := wn,
      PlaintextSize := (plain.length : Int), PadSize := (pad.length : Int) }
  cases hr1 : Encrypt0.initFiles
    { Encrypt0.World.start fs wfail with
      Short := short, PlaintextName := pn, PadName := wn,
      PlaintextSize := (plain.length : Int), PadSize := (pad.length : Int) } with
  | error e =>
    rw [hr1] at hb1
    exact hb1
  | ok w1 =>
    simp only
    have hb2 := Encrypt0.initKeys_status iv w1
    cases hr2 : Encrypt0.initKeys iv w1 with
    | error e =>
      rw [hr2] at hb2
      exact hb2
    | ok w2 =>
      simp only
      have hb3 := Encrypt0.Encrypt_status P w2
      cases hr3 : Encrypt0.Encrypt P w2 with
      | error e =>
        rw [hr3] at hb3
        exact hb3
      | ok w3 =>
        simp only
        unfold Encrypt0.CleanExit
        show Status.exit Encrypt0.ExitSuccess ≠ Status.exit Encrypt0.ExitPadTooShort
        decide

theorem forLoop_post {σ : Type} (body : Int → σ → Except Final σ) (Inv : Nat → σ → Prop)
    (hstep : ∀ (n : Nat) (s s2 : σ), Inv n s → body (n : Int) s = .ok s2 → Inv (n + 1) s2) :
    ∀ (k n : Nat) (s s2 : σ), Inv n s → forLoop body k (n : Int) s = .ok s2 → Inv (n + k) s2
  | 0, n, s, s2, hinv, h => by
    simp only [forLoop, Except.ok.injEq] at h
    subst h
    exact hinv
  | k + 1, n, s, s2, hinv, h => by
    unfold forLoop at h
    cases hb : body (n : Int) s with
    | error e =>
      rw [hb] at h
      exact absurd h (by simp)
    | ok s1 =>
      rw [hb] at h
      simp only at h
      have h1 := hstep n s s1 hinv hb
      have h2 := forLoop_post body Inv hstep k (n + 1) s1 s2 h1 (by
        have e : ((n + 1 : Nat) : Int) = (n : Int) + 1 := by push_cast; rfl
        rw [e]
        exact h)
      have e2 : n + (k + 1) = n + 1 + k := by omega
      rw [e2]
      exact h2

theorem CTR_XORKeyStream_append (P : Prims) : ∀ (a b : List Nat) (c : CTR),
    c.XORKeyStream P (a ++ b) =
      (((c.XORKeyStream P a).1.XORKeyStream P b).1,
        (c.XORKeyStream P a).2 ++ ((c.XORKeyStream P a).1.XORKeyStream P b).2)
  | [], b, c => by simp [CTR.XORKeyStream]
  | x :: a, b, c => by
    have ih := CTR_XORKeyStream_append P a b (c.stepByte P x).1
    show CTR.XORKeyStream P c (x :: (a ++ b)) = _
    simp only [CTR.XORKeyStream, ih, List.cons_append]

theorem CTR_XORKeyStream_length (P : Prims) : ∀ (a : List Nat) (c : CTR),
    (c.XORKeyStream P a).2.length = a.length
  | [], c => by simp [CTR.XORKeyStream]
  | x :: a, c => by
    simp only [CTR.XORKeyStream, List.length_cons]
    rw [CTR_XORKeyStream_length P a]

theorem CTR_keyStream_xor (P : Prims) : ∀ (x : List Nat) (c : CTR),
    (c.XORKeyStream P x).2 = xorBytes x (CTR.keyStream P c x.length) ∧
      (c.XORKeyStream P x).1 = (c.XORKeyStream P (List.replicate x.length 0)).1
  | [], c => by simp [CTR.XORKeyStream, CTR.keyStream, xorBytes]
  | b :: bs, c => by
    have ih := CTR_keyStream_xor P bs (c.stepByte P b).1
    have hs : (c.stepByte P 0).1 = (c.stepByte P b).1 := by
      simp [CTR.stepByte]
    have ho : (c.stepByte P b).2 = b ^^^ (c.stepByte P 0).2 := by
      simp [CTR.stepByte]
    simp only [CTR.keyStream, List.length_cons, List.replicate_succ, CTR.XORKeyStream, hs]
    refine ⟨?_, ih.2⟩
    rw [ih.1, ho]
    simp [xorBytes, CTR.keyStream]

theorem mixSources_ok (w : Genpads0.World) : ∀ (srcs done : List (List Nat)) (buffer : List Nat)
    (m : List (List Nat) × List Nat), Genpads0.mixSources w srcs done buffer = .ok m →
    m.1 = done ++ srcs.map (fun f => f.drop 1024) ∧
      m.2 = srcs.foldl (fun acc s => xorBytes acc (s.take 1024)) buffer ∧
      ∀ s ∈ srcs, 1024 ≤ s.length
  | [], done, buffer, m, h => by
    simp only [Genpads0.mixSources, Except.ok.injEq] at h
    subst h
    simp
  | f :: rest, done, buffer, m, h => by
    unfold Genpads0.mixSources at h
    unfold ReadFull at h
    by_cases hf : 1024 ≤ f.length
    · rw [if_pos hf] at h
      simp only at h
      obtain ⟨h1, h2, h3⟩ := mixSources_ok w rest _ _ m h
      refine ⟨?_, ?_, ?_⟩
      · rw [h1]
        simp
      · rw [h2]
        rfl
      · intro s hs
        rcases List.mem_cons.mp hs with e | e
        · rw [e]
          exact hf
        · exact h3 s e
    · rw [if_neg hf] at h
      exact absurd h (by simp)

theorem foldl_xor_length (g : List Nat → List Nat) (k : Nat) : ∀ (L : List (List Nat))
    (buf : List Nat), (∀ s ∈ L, (g s).length = k) → buf.length = k →
    (L.foldl (fun acc s => xorBytes acc (g s)) buf).length = k
  | [], buf, _, hb => hb
  | s :: L, buf, hL, hb => by
    rw [List.foldl_cons]
    apply foldl_xor_length g k L
    · intro t ht
      exact hL t (List.mem_cons_of_mem _ ht)
    · rw [xorBytes_length, hb, hL s (List.mem_cons_self _ _)]
      simp

theorem Genpads0.Write_ok (w : Genpads0.World) (file : String × List Nat) (b : List Nat)
    (r : Genpads0.World × (String × List Nat)) (h : Genpads0.Write w file b = .ok r) :
    r = ({ w with wfail := w.wfail.tail, fs := w.fs.set file.1 (.file (file.2 ++ b)) },
         (file.1, file.2 ++ b)) := by
  unfold Genpads0.Write at h
  split at h
  · exact absurd h (by simp)
  · simp only [Except.ok.injEq] at h
    exact h.symm

theorem Genpads0.padPass_writing (P : Prims) (padName padCopy : String) (w0 : Genpads0.World)
    (n : Nat) (s s2 : Genpads0.World × (String × List Nat) × Option (String × List Nat))
    (hinv : Genpads0.Writing P padName padCopy w0 n s)
    (h : Genpads0.padPass P (n : Int) s = .ok s2) :
    Genpads0.Writing P padName padCopy w0 (n + 1) s2 := by
  obtain ⟨w, f1, f2⟩ := s
  obtain ⟨i1, i2, i3, i4, i5, i6, i7, i8, i9, i10, i11, i12, i13, i14, i15, i16⟩ := hinv
  simp only at i1 i2 i3 i4 i5 i6 i7 i8 i9 i10 i11 i12 i13 i14
  unfold Genpads0.padPass at h
  simp only [Genpads0.randRead] at h
  cases hm : Genpads0.mixSources { w with used := w.used + 1024 } w.Sources []
      ((List.range 1024).map (fun j => w.rng (w.used + j))) with
  | error e =>
    rw [hm] at h
    exact absurd h (by simp)
  | ok m =>
    rw [hm] at h
    simp only at h
    obtain ⟨m1, m2, m3⟩ := mixSources_ok _ _ _ _ m hm
    have hacc : m.2 = Genpads0.accumulator w0 n := by
      rw [m2, i6, i7, i8, List.foldl_map]
      rfl
    have hlen : (Genpads0.accumulator w0 n).length = 1024 := by
      unfold Genpads0.accumulator
      apply foldl_xor_length
      · intro t ht
        have := m3 (t.drop (1024 * n)) (by
          rw [i6]
          exact List.mem_map_of_mem _ ht)
        rw [List.length_take]
        omega
      · simp
    have hsrc : m.1 = w0.Sources.map (fun f => f.drop (1024 * (n + 1))) := by
      rw [m1, i6, List.nil_append, List.map_map]
      apply List.map_congr_left
      intro a _
      simp only [Function.comp, List.drop_drop]
      congr 1
    have happ := CTR_XORKeyStream_append P (Genpads0.mixed w0 n) (Genpads0.accumulator w0 n)
      w0.Cipher
    have hmix : Genpads0.mixed w0 (n + 1) = Genpads0.mixed w0 n ++ Genpads0.accumulator w0 n := rfl
    rw [hacc, i5] at h
    cases hw1 : Genpads0.Write
        { w with used := w.used + 1024, Sources := m.1,
                 Cipher := ((w0.Cipher.XORKeyStream P (Genpads0.mixed w0 n)).1.XORKeyStream P
                   (Genpads0.accumulator w0 n)).1 } f1
        ((w0.Cipher.XORKeyStream P (Genpads0.mixed w0 n)).1.XORKeyStream P
          (Genpads0.accumulator w0 n)).2 with
    | error e =>
      rw [hw1] at h
      exact absurd h (by simp)
    | ok r1 =>
      rw [hw1] at h
      simp only at h
      have e1 := Genpads0.Write_ok _ _ _ _ hw1
      subst e1
      by_cases hc : padCopy = ""
      · have hf2 : f2 = none := by rw [i2]; simp [hc]
        subst hf2
        simp only [Except.ok.injEq] at h
        subst h
        refine ⟨?_, ?_, ?_, ?_, ?_, ?_, ?_, ?_, ?_, ?_, ?_, ?_, ?_, ?_, ?_, ?_⟩
        · simp only [i1, hmix, happ]
        · simp [hc]
        · simp only [i1, hmix, happ, FS.set, if_true]
        · intro hne
          exact absurd hc hne
        · simp only [hmix, happ]
        · exact hsrc
        · show w.used + 1024 = _
          rw [i7]
          omega
        · exact i8
        · exact i9
        · exact i10
        · exact i11
        · exact i12
        · exact i13
        · exact i14
        · rw [hmix, List.length_append, i15, hlen]
          omega
        · intro i hi
          by_cases hin : i < n
          · exact i16 i hin
          · have : i = n := by omega
            subst this
            exact hlen
      · have hf2 : f2 = some (padCopy, (w0.Cipher.XORKeyStream P (Genpads0.mixed w0 n)).2) := by
          rw [i2]
          simp [hc]
        subst hf2
        simp only at h
        cases hw2 : Genpads0.Write
            { w with used := w.used + 1024, Sources := m.1,
                     Cipher := ((w0.Cipher.XORKeyStream P (Genpads0.mixed w0 n)).1.XORKeyStream P
                       (Genpads0.accumulator w0 n)).1,
                     wfail := w.wfail.tail,
                     fs := w.fs.set f1.1 (.file (f1.2 ++
                       ((w0.Cipher.XORKeyStream P (Genpads0.mixed w0 n)).1.XORKeyStream P
                         (Genpads0.accumulator w0 n)).2)) }
            (padCopy, (w0.Cipher.XORKeyStream P (Genpads0.mixed w0 n)).2)
            ((w0.Cipher.XORKeyStream P (Genpads0.mixed w0 n)).1.XORKeyStream P
              (Genpads0.accumulator w0 n)).2 with
        | error e =>
          rw [hw2] at h
          exact absurd h (by simp)
        | ok r2 =>
          rw [hw2] at h
          simp only [Except.ok.injEq] at h
          have e2 := Genpads0.Write_ok _ _ _ _ hw2
          subst e2
          subst h
          refine ⟨?_, ?_, ?_, ?_, ?_, ?_, ?_, ?_, ?_, ?_, ?_, ?_, ?_, ?_, ?_, ?_⟩
          · simp only [i1, hmix, happ]
          · simp [hc, hmix, happ]
          · simp only [i1, hmix, happ, FS.set, if_true]
            split <;> rfl
          · intro _
            simp only [hmix, happ, FS.set, if_true]
          · simp only [hmix, happ]
          · exact hsrc
          · show w.used + 1024 = _
            rw [i7]
            omega
          · exact i8
          · exact i9
          · exact i10
          · exact i11
          · exact i12
          · exact i13
          · exact i14
          · rw [hmix, List.length_append, i15, hlen]
            omega
          · intro i hi
            by_cases hin : i < n
            · exact i16 i hin
            · have : i = n := by omega
              subst this
              exact hlen

theorem FS.create_some (fs fs2 : FS) (name : String) (h : fs.create name = some fs2) :
    fs2 = fs.set name (.file []) := by
  unfold FS.create at h
  split at h
  · exact absurd h (by simp)
  · exact absurd h (by simp)
  · exact (Option.some.inj h).symm

theorem FS.createIn_some (fs fs2 : FS) (name : String) (h : fs.createIn name = some fs2) :
    fs2 = fs.set name (.file []) := by
  unfold FS.createIn at h
  split at h
  · exact FS.create_some _ _ _ h
  · split at h
    · exact FS.create_some _ _ _ h
    · exact absurd h (by simp)

theorem FS.createIn_ok (fs : FS) (name : String) (hp : dirOf name = none)
    (h : fs.isDir name = false) : fs.createIn name = some (fs.set name (.file [])) := by
  unfold FS.createIn
  rw [hp]
  exact FS.create_ok fs name h

theorem Genpads0.GeneratePad_writing (P : Prims) (padName padCopy : String)
    (w w2 : Genpads0.World) (h : Genpads0.GeneratePad P padName padCopy w = .ok w2) :
    ∃ f1 f2, Genpads0.Writing P padName padCopy w w.Size (w2, f1, f2) := by
  unfold Genpads0.GeneratePad at h
  simp only at h
  cases hc1 : w.fs.createIn padName with
  | none =>
    rw [hc1] at h
    exact absurd h (by simp)
  | some fs1 =>
    rw [hc1] at h
    simp only at h
    have e1 := FS.createIn_some _ _ _ hc1
    subst e1
    cases ho : Genpads0.openCopy padCopy
        { w with calls := w.calls ++ [(padName, padCopy)],
                 fs := w.fs.set padName (.file []) } with
    | error e =>
      rw [ho] at h
      exact absurd h (by simp)
    | ok o =>
      rw [ho] at h
      simp only at h
      cases hl : forLoop (Genpads0.padPass P) o.1.Size 0 (o.1, (padName, []), o.2) with
      | error e =>
        rw [hl] at h
        exact absurd h (by simp)
      | ok s =>
        rw [hl] at h
        simp only [Except.ok.injEq] at h
        have hstart : Genpads0.Writing P padName padCopy w 0 (o.1, (padName, []), o.2) := by
          unfold Genpads0.openCopy at ho
          by_cases hc : padCopy = ""
          · simp only [hc, ne_eq, not_true_eq_false, if_false, Except.ok.injEq] at ho
            subst ho
            subst hc
            refine ⟨rfl, by simp, by simp [FS.set, Genpads0.mixed, CTR.XORKeyStream],
              fun hne => absurd rfl hne, rfl, by simp, rfl, rfl, rfl, rfl, rfl, rfl, rfl, rfl, rfl,
              fun i hi => absurd hi (by omega)⟩
          · simp only [ne_eq, hc, not_false_eq_true, if_true] at ho
            cases hc2 : (w.fs.set padName (.file [])).createIn padCopy with
            | none =>
              rw [hc2] at ho
              exact absurd ho (by simp)
            | some fs2 =>
              rw [hc2] at ho
              simp only [Except.ok.injEq] at ho
              have e2 := FS.createIn_some _ _ _ hc2
              subst e2
              subst ho
              refine ⟨rfl, by simp [hc, Genpads0.mixed, CTR.XORKeyStream], ?_, ?_, rfl, by simp,
                rfl, rfl, rfl, rfl, rfl, rfl, rfl, rfl, rfl, fun i hi => absurd hi (by omega)⟩
              · simp only [FS.set, Genpads0.mixed, CTR.XORKeyStream, if_true]
                split <;> rfl
              · intro _
                simp only [FS.set, Genpads0.mixed, CTR.XORKeyStream, if_true]
        have hsz : o.1.Size = w.Size := hstart.2.2.2.2.2.2.2.2.1
        rw [hsz] at hl
        have hend := forLoop_post (Genpads0.padPass P) (Genpads0.Writing P padName padCopy w)
          (fun n s s2 hinv hb => Genpads0.padPass_writing P padName padCopy w n s s2 hinv hb)
          w.Size 0 _ s hstart (by simpa using hl)
        rw [Nat.zero_add] at hend
        obtain ⟨sw, sf1, sf2⟩ := s
        simp only at h
        subst h
        exact ⟨sf1, sf2, hend⟩

theorem mixed_length (w : Genpads0.World) : ∀ (n : Nat),
    (∀ j, j < n → (Genpads0.accumulator w j).length = 1024) →
    (Genpads0.mixed w n).length = 1024 * n
  | 0, _ => rfl
  | n + 1, h => by
    show (Genpads0.mixed w n ++ Genpads0.accumulator w n).length = _
    rw [List.length_append, mixed_length w n (fun j hj => h j (by omega)), h n (by omega)]
    omega

theorem mixed_block (w : Genpads0.World) : ∀ (n : Nat),
    (∀ j, j < n → (Genpads0.accumulator w j).length = 1024) → ∀ i, i < n →
    ((Genpads0.mixed w n).drop (1024 * i)).take 1024 = Genpads0.accumulator w i
  | 0, _, i, hi => absurd hi (by omega)
  | n + 1, h, i, hi => by
    have hl := mixed_length w n (fun j hj => h j (by omega))
    show ((Genpads0.mixed w n ++ Genpads0.accumulator w n).drop (1024 * i)).take 1024 = _
    by_cases hin : i < n
    · rw [List.drop_append_of_le_length (by omega), List.take_append_of_le_length (by
        rw [List.length_drop]
        omega)]
      exact mixed_block w n (fun j hj => h j (by omega)) i hin
    · have e : i = n := by omega
      subst e
      rw [List.drop_left' hl, List.take_of_length_le (by rw [h i (by omega)])]

theorem Genpads0.pad_bytes (P : Prims) (padName padCopy : String) (w w2 : Genpads0.World)
    (h : Genpads0.GeneratePad P padName padCopy w = .ok w2) :
    w2.fs padName
        = some (.file (xorBytes (Genpads0.mixed w w.Size) (CTR.keyStream P w.Cipher (1024 * w.Size)))) ∧
      (padCopy ≠ "" → w2.fs padCopy = w2.fs padName) ∧
      (Genpads0.mixed w w.Size).length = 1024 * w.Size ∧
      (∀ i, i < w.Size → (Genpads0.accumulator w i).length = 1024) ∧
      w2.Cipher = (w.Cipher.XORKeyStream P (List.replicate (1024 * w.Size) 0)).1 ∧
      w2.Sources = w.Sources.map (fun f => f.drop (1024 * w.Size)) ∧
      w2.used = w.used + 1024 * w.Size := by
  obtain ⟨f1, f2, _, _, i3, i4, i5, i6, i7, _, _, _, _, _, _, _, i15, i16⟩ :=
    Genpads0.GeneratePad_writing P padName padCopy w w2 h
  simp only at i3 i4 i5 i6 i7
  have hk := CTR_keyStream_xor P (Genpads0.mixed w w.Size) w.Cipher
  rw [i15] at hk
  refine ⟨?_, ?_, i15, i16, ?_, i6, i7⟩
  · rw [i3, hk.1]
  · intro hc
    rw [i4 hc, i3]
  · rw [i5, hk.2]

theorem mixSources_returns (w : Genpads0.World) : ∀ (srcs done : List (List Nat))
    (buffer : List Nat), (∀ s ∈ srcs, 1024 ≤ s.length) →
    Genpads0.mixSources w srcs done buffer
      = .ok (done ++ srcs.map (fun f => f.drop 1024),
             srcs.foldl (fun acc s => xorBytes acc (s.take 1024)) buffer)
  | [], done, buffer, _ => by simp [Genpads0.mixSources]
  | f :: rest, done, buffer, h => by
    unfold Genpads0.mixSources ReadFull
    rw [if_pos (h f (List.mem_cons_self _ _))]
    simp only
    rw [mixSources_returns w rest _ _ (fun s hs => h s (List.mem_cons_of_mem _ hs))]
    simp

theorem Genpads0.padPass_returns (P : Prims) (w0 : Genpads0.World) (i : Int)
    (s : Genpads0.World × (String × List Nat) × Option (String × List Nat))
    (h0 : 0 ≤ i) (h1 : i < (w0.Size : Int))
    (hs : ∀ f ∈ w0.Sources, 1024 * w0.Size ≤ f.length)
    (hinv : s.1.wfail = [] ∧ s.1.Sources = w0.Sources.map (fun f => f.drop (1024 * i.toNat))) :
    ∃ s2, Genpads0.padPass P i s = .ok s2 ∧
      (s2.1.wfail = [] ∧ s2.1.Sources = w0.Sources.map (fun f => f.drop (1024 * (i + 1).toNat))) := by
  obtain ⟨w, f1, f2⟩ := s
  obtain ⟨hw, hsrc⟩ := hinv
  simp only at hw hsrc
  have hlong : ∀ f ∈ w.Sources, 1024 ≤ f.length := by
    intro f hf
    rw [hsrc] at hf
    obtain ⟨g, hg, rfl⟩ := List.mem_map.mp hf
    have := hs g hg
    rw [List.length_drop]
    have h2 : 1024 * (i.toNat + 1) ≤ 1024 * w0.Size := Nat.mul_le_mul_left _ (by omega)
    omega
  have hnext : (i + 1).toNat = i.toNat + 1 := by omega
  unfold Genpads0.padPass
  simp only [Genpads0.randRead]
  rw [mixSources_returns _ _ _ _ hlong]
  simp only [Genpads0.Write, hw, List.headD_nil, Bool.false_eq_true, if_false, List.tail_nil,
    List.nil_append]
  cases f2 with
  | none =>
    refine ⟨_, rfl, rfl, ?_⟩
    simp only [hsrc, List.map_map, hnext]
    apply List.map_congr_left
    intro a _
    simp only [Function.comp, List.drop_drop]
    congr 1
  | some g =>
    refine ⟨_, rfl, rfl, ?_⟩
    simp only [hsrc, List.map_map, hnext]
    apply List.map_congr_left
    intro a _
    simp only [Function.comp, List.drop_drop]
    congr 1

theorem Genpads0.GeneratePad_returns (P : Prims) (padName padCopy : String) (w : Genpads0.World)
    (hw : w.wfail = []) (hp1 : dirOf padName = none) (hp2 : dirOf padCopy = none)
    (hd1 : w.fs.isDir padName = false) (hd2 : w.fs.isDir padCopy = false)
    (hs : ∀ f ∈ w.Sources, 1024 * w.Size ≤ f.length) :
    ∃ w2, Genpads0.GeneratePad P padName padCopy w = .ok w2 := by
  unfold Genpads0.GeneratePad
  simp only [FS.createIn_ok w.fs padName hp1 hd1]
  have hopen : ∃ o, Genpads0.openCopy padCopy
      { w with calls := w.calls ++ [(padName, padCopy)], fs := w.fs.set padName (.file []) }
        = .ok o ∧ o.1.wfail = [] ∧ o.1.Sources = w.Sources ∧ o.1.Size = w.Size := by
    unfold Genpads0.openCopy
    by_cases hc : padCopy = ""
    · simp only [hc, ne_eq, not_true_eq_false, if_false]
      exact ⟨_, rfl, hw, rfl, rfl⟩
    · simp only [ne_eq, hc, not_false_eq_true, if_true]
      rw [FS.createIn_ok _ padCopy hp2 (FS.isDir_set_file _ _ _ _ hd2)]
      exact ⟨_, rfl, hw, rfl, rfl⟩
  obtain ⟨o, ho, ow, os, oz⟩ := hopen
  rw [ho]
  simp only
  obtain ⟨s2, hl, _⟩ := forLoop_ok (Genpads0.padPass P)
    (fun i s => s.1.wfail = [] ∧ s.1.Sources = w.Sources.map (fun f => f.drop (1024 * i.toNat)))
    (w.Size : Int)
    (fun i s h0 h1 hinv => Genpads0.padPass_returns P w i s h0 h1 hs hinv)
    w.Size 0 (o.1, (padName, []), o.2) (le_refl 0) (by omega) ⟨ow, by simp [os]⟩
  rw [oz, hl]
  exact ⟨_, rfl⟩

theorem Genpads0.GeneratePad_call (P : Prims) (padName padCopy : String)
    (w w2 : Genpads0.World) (h : Genpads0.GeneratePad P padName padCopy w = .ok w2) :
    w2.calls = w.calls ++ [(padName, padCopy)] ∧ w2.ticks = w.ticks ∧ Genpads0.SameJob w w2 := by
  obtain ⟨f1, f2, _, _, _, _, _, _, _, _, i9, i10, i11, i12, i13, i14, _, _⟩ :=
    Genpads0.GeneratePad_writing P padName padCopy w w2 h
  exact ⟨i14, i13, i12, i11, i10, i9⟩

theorem Genpads0.onePad_call (P : Prims) (sender recipient : String) (w w2 : Genpads0.World)
    (h : Genpads0.onePad P sender recipient w = .ok w2) :
    w2.calls = w.calls ++ [padPair sender recipient (FormatInt16 (w.clock w.ticks))] ∧
      w2.ticks = w.ticks + 1 ∧ Genpads0.SameJob w w2 := by
  unfold Genpads0.onePad at h
  simp only at h
  cases h1 : w.fs.mkdirAll (sender ++ Genpads0.DirExt ++ "/" ++ recipient) with
  | none =>
    rw [h1] at h
    exact absurd h (by simp)
  | some fs1 =>
    rw [h1] at h
    simp only at h
    cases h2 : fs1.mkdirAll (recipient ++ Genpads0.DirExt ++ "/" ++ sender) with
    | none =>
      rw [h2] at h
      exact absurd h (by simp)
    | some fs2 =>
      rw [h2] at h
      simp only at h
      obtain ⟨c1, c2, c3⟩ := Genpads0.GeneratePad_call P _ _ _ w2 h
      exact ⟨c1, c2, c3⟩

theorem Genpads0.padsLoop_calls (P : Prims) (i j : Int) (w w2 : Genpads0.World)
    (h : Genpads0.padsLoop P i j w = .ok w2) :
    w2.calls = w.calls ++ pairsFor w.clock w.ticks w.Number
        ((w.Todo.getD i.toNat []).getD 0 "") ((w.Todo.getD i.toNat []).getD j.toNat "") ∧
      w2.ticks = w.ticks + w.Number ∧ Genpads0.SameJob w w2 := by
  unfold Genpads0.padsLoop at h
  have hend := forLoop_post
    (fun _ w => Genpads0.onePad P ((w.Todo.getD i.toNat []).getD 0 "")
      ((w.Todo.getD i.toNat []).getD j.toNat "") w)
    (fun n v => v.calls = w.calls ++ pairsFor w.clock w.ticks n
        ((w.Todo.getD i.toNat []).getD 0 "") ((w.Todo.getD i.toNat []).getD j.toNat "") ∧
      v.ticks = w.ticks + n ∧ Genpads0.SameJob w v)
    (fun n s s2 hinv hb => by
      obtain ⟨a1, a2, a3, a4, a5, a6⟩ := hinv
      simp only at hb
      obtain ⟨c1, c2, c3, c4, c5, c6⟩ := Genpads0.onePad_call P _ _ s s2 hb
      refine ⟨?_, ?_, c3.trans a3, c4.trans a4, c5.trans a5, c6.trans a6⟩
      · rw [c1, a1, a4, a3, a2, List.append_assoc]
        simp only [pairsFor, List.range_succ, List.map_append, List.map_cons, List.map_nil]
      · rw [c2, a2]
        omega)
    w.Number 0 w w2 ⟨by simp [pairsFor], rfl, rfl, rfl, rfl, rfl⟩ (by simpa using h)
  rw [Nat.zero_add] at hend
  exact hend

theorem Genpads0.openSources_frame : ∀ (srcs : List String) (w w2 : Genpads0.World),
    Genpads0.openSources srcs w = .ok w2 →
    w2.calls = w.calls ∧ w2.ticks = w.ticks ∧ w2.used = w.used ∧ w2.rng = w.rng ∧
      Genpads0.SameJob w w2
  | [], w, w2, h => by
    simp only [Genpads0.openSources, Except.ok.injEq] at h
    subst h
    exact ⟨rfl, rfl, rfl, rfl, rfl, rfl, rfl, rfl⟩
  | s :: rest, w, w2, h => by
    unfold Genpads0.openSources at h
    by_cases hs : s = ""
    · simp only [hs, ne_eq, not_true_eq_false, if_false] at h
      exact Genpads0.openSources_frame rest w w2 h
    · simp only [ne_eq, hs, not_false_eq_true, if_true] at h
      cases hf : Open (w.fs s) with
      | none =>
        rw [hf] at h
        exact absurd h (by simp)
      | some node =>
        rw [hf] at h
        simp only at h
        have hr := Genpads0.openSources_frame rest _ w2 h
        exact hr

theorem Genpads0.InitRandom_frame (w w2 : Genpads0.World) (h : Genpads0.InitRandom w = .ok w2) :
    w2.calls = w.calls ∧ w2.ticks = w.ticks ∧ Genpads0.SameJob w w2 := by
  unfold Genpads0.InitRandom at h
  simp only at h
  cases ho : Genpads0.openSources (Split (w.env "CSTRNG") ++ Split (w.env "PRNG")) w with
  | error e =>
    rw [ho] at h
    exact absurd h (by simp)
  | ok w1 =>
    rw [ho] at h
    simp only [Genpads0.randRead] at h
    obtain ⟨f1, f2, _, _, f5, f6, f7, f8⟩ := Genpads0.openSources_frame _ w w1 ho
    split at h
    · exact absurd h (by simp)
    · simp only [Except.ok.injEq] at h
      subst h
      exact ⟨f1, f2, f5, f6, f7, f8⟩

theorem Genpads0.recipientsLoop_pair (P : Prims) (i : Int) (sender recipient : String)
    (w w2 : Genpads0.World) (hrow : w.Todo.getD i.toNat [] = [sender, recipient])
    (h : Genpads0.recipientsLoop P i w = .ok w2) :
    w2.calls = w.calls ++ pairsFor w.clock w.ticks w.Number sender recipient ∧
      w2.ticks = w.ticks + w.Number ∧ Genpads0.SameJob w w2 := by
  unfold Genpads0.recipientsLoop at h
  rw [hrow] at h
  have e1 : [sender, recipient].length - 1 = 1 := rfl
  rw [e1] at h
  unfold forLoop at h
  cases hp : Genpads0.padsLoop P i 1 w with
  | error e =>
    rw [hp] at h
    exact absurd h (by simp)
  | ok w1 =>
    rw [hp] at h
    simp only [forLoop, Except.ok.injEq] at h
    subst h
    have hc := Genpads0.padsLoop_calls P i 1 w w1 hp
    rw [hrow] at hc
    exact hc

theorem Genpads0.DoTheWork_pair (P : Prims) (a b : String) (w w2 : Genpads0.World)
    (hT : w.Todo = [[a, b], [b, a]]) (h : Genpads0.DoTheWork P w = .ok w2) :
    w2.calls = w.calls ++ (pairsFor w.clock w.ticks w.Number a b
        ++ pairsFor w.clock (w.ticks + w.Number) w.Number b a) := by
  unfold Genpads0.DoTheWork at h
  rw [hT] at h
  have e2 : [[a, b], [b, a]].length = 2 := rfl
  rw [e2] at h
  unfold forLoop at h
  cases h1 : Genpads0.recipientsLoop P 0 w with
  | error e =>
    rw [h1] at h
    exact absurd h (by simp)
  | ok w1 =>
    rw [h1] at h
    simp only at h
    unfold forLoop at h
    cases h2 : Genpads0.recipientsLoop P (0 + 1) w1 with
    | error e =>
      rw [h2] at h
      exact absurd h (by simp)
    | ok w3 =>
      rw [h2] at h
      simp only [forLoop, Except.ok.injEq] at h
      subst h
      obtain ⟨c1, c2, c3, c4, c5, _⟩ := Genpads0.recipientsLoop_pair P 0 a b w w1
        (by rw [hT]; rfl) h1
      obtain ⟨d1, _, _⟩ := Genpads0.recipientsLoop_pair P (0 + 1) b a w1 w3
        (by rw [c4, hT]; rfl) h2
      rw [d1, c1, c2, c3, c5, List.append_assoc]

theorem pairsFor_length (clock : Nat → Int) (t0 count : Nat) (sender recipient : String) :
    (pairsFor clock t0 count sender recipient).length = count := by
  simp [pairsFor]

mutual
theorem searchOn_auth (P : Prims) (ct : List Nat) :
    ∀ (name : String) (node : Node) (nm : String) (pd : List Nat),
      searchOn P ct name node = .found nm pd → authenticates P ct nm pd
  | name, .file pad, nm, pd, h => by
    unfold searchOn at h
    split at h
    · rename_i ha
      injection h with e1 e2
      subst e1
      subst e2
      exact ha
    · exact absurd h (by simp)
  | name, .unreadable pad, nm, pd, h => by
    unfold searchOn at h
    split at h
    · exact absurd h (by simp)
    · exact absurd h (by simp)
  | _, .dangling, nm, pd, h => by
    unfold searchOn at h
    exact absurd h (by simp)
  | _, .unlistable, nm, pd, h => by
    unfold searchOn at h
    exact absurd h (by simp)
  | name, .dir es, nm, pd, h => by
    unfold searchOn at h
    exact searchIn_auth P ct name es nm pd h
theorem searchIn_auth (P : Prims) (ct : List Nat) :
    ∀ (dirName : String) (es : List (String × Node)) (nm : String) (pd : List Nat),
      searchIn P ct dirName es = .found nm pd → authenticates P ct nm pd
  | _, [], nm, pd, h => by
    unfold searchIn at h
    exact absurd h (by simp)
  | dirName, (name, node) :: rest, nm, pd, h => by
    unfold searchIn at h
    cases hs : searchOn P ct (dirName ++ "/" ++ name) node with
    | found a b =>
      rw [hs] at h
      simp only at h
      injection h with e1 e2
      subst e1
      subst e2
      exact searchOn_auth P ct _ node a b hs
    | absent =>
      rw [hs] at h
      simp only at h
      exact searchIn_auth P ct dirName rest nm pd h
    | stopped =>
      rw [hs] at h
      simp only at h
      exact absurd h (by simp)
end

theorem enc_names (cn : String) (h : encSuffix cn) :
    cn.length > 0 ∧ (Replace cn ".enc" "").length > 0 ∧ Replace cn ".enc" "" ≠ cn := by
  obtain ⟨k, hk, hl⟩ := Index_suffix cn Decrypt0.CiphertextExt h.1 h.2
  obtain ⟨stem, h1, h2⟩ := Replace_suffix cn Decrypt0.CiphertextExt "" (by decide) h.1 h.2
  have hpos : k > 0 := by
    have := h.1
    unfold Index at this
    rw [hk] at this
    simp only at this
    omega
  have h4 : Decrypt0.CiphertextExt.data.length = 4 := rfl
  have hcl : cn.data.length = stem.length + 4 := by
    rw [h1, List.length_append, h4]
  have hrd : (Replace cn ".enc" "").data = stem := by
    have : (Replace cn Decrypt0.CiphertextExt "").data = stem ++ "".data := h2
    simpa using this
  refine ⟨?_, ?_, ?_⟩
  · rw [String_length_data]
    omega
  · rw [String_length_data, hrd]
    omega
  · intro he
    have hd := congrArg String.data he
    rw [hrd] at hd
    rw [← hd] at hcl
    omega

theorem Decrypt0.main_found (P : Prims) (hP : P.tag64) (fs : FS) (prog cn pn : String)
    (plain pad iv : List Nat) (short : Bool) (node : Node) (name : String)
    (hcn : encSuffix cn) (hc : fs.holds cn (container P plain pad iv short))
    (hp : fs pn = some node)
    (hfound : searchOn P (container P plain pad iv short) pn node = .found name pad)
    (hiv : iv.length = 16) (hlen : 144 + plain.length ≤ pad.length) (hn : plain.length < 2 ^ 63)
    (hout : fs.isDir (Replace cn ".enc" "") = false) (hne : Replace cn ".enc" "" ≠ name) :
    (Decrypt0.main P [prog, cn, pn] fs []).status = .exit Decrypt0.ExitSuccess ∧
      (Decrypt0.main P [prog, cn, pn] fs []).fs = fs.set (Replace cn ".enc" "") (.file plain) := by
  have hl := container_length P hP plain pad iv short hiv hlen
  have h88 : 88 ≤ (container P plain pad iv short).length := by
    rw [hl]
    cases short
    · simp only [Bool.false_eq_true, if_false]
      omega
    · simp only [if_true]
      omega
  obtain ⟨r, hr, p1, p2, p3, p4, p5, p6, p7, p8⟩ :=
    Decrypt0.FindPad_spec P fs [] cn pn _ node hc hcn h88 hp (by rw [hfound]; simp)
  rw [hfound] at p1 p8
  simp only [Search.isFound] at p1
  obtain ⟨q1, q2⟩ := p8
  have hauth := searchOn_auth P _ pn node _ _ hfound
  obtain ⟨n1, n2, n3⟩ := enc_names cn hcn
  have hcnr : r.2.CiphertextName = cn := p3
  have hfsr : r.2.fs = fs := p2
  obtain ⟨d1, d2, hi, hd, _, hfs2, _⟩ := Decrypt0.recover P hP r.2 plain pad iv short
    (by rw [hfsr, hcnr]; exact (holdsBytes_iff _ _).mp hc) q2
    (by rw [q1]; exact Index_pos_length _ _ hauth.2.1.1)
    (by rw [hcnr]; exact n1) (by rw [hcnr]; exact n2) (by rw [hcnr, q1]; exact hne)
    (by rw [hcnr]; exact n3) (by rw [hfsr, hcnr]; exact hout) p6 p7 hiv hlen hn
  unfold Decrypt0.main
  rw [Decrypt0.ParseArgs_ok fs [] prog cn pn hcn]
  simp only [hr, p1, Bool.true_eq_false, if_false, hi, hd]
  unfold Decrypt0.CleanExit
  simp only [ne_eq, not_true_eq_false, and_false, if_false]
  rw [hfs2, hfsr, hcnr]
  exact ⟨trivial, rfl⟩

theorem container_short_prefix (P : Prims) (plain pad pad2 iv : List Nat)
    (h : pad.take (144 + plain.length) = pad2.take (144 + plain.length)) :
    container P plain pad iv true = container P plain pad2 iv true := by
  have k96 : ∀ q : List Nat, q.take 96 = (q.take (144 + plain.length)).take 96 := by
    intro q
    have e : min 96 (144 + plain.length) = 96 := by omega
    rw [List.take_take, e]
  have k32 : ∀ q : List Nat, (q.drop 96).take 32
      = ((q.take (144 + plain.length)).drop 96).take 32 := by
    intro q
    have e : min 32 (144 + plain.length - 96) = 32 := by omega
    rw [List.drop_take, List.take_take, e]
  have k16 : ∀ q : List Nat, (q.drop 128).take 16
      = ((q.take (144 + plain.length)).drop 128).take 16 := by
    intro q
    have e : min 16 (144 + plain.length - 128) = 16 := by omega
    rw [List.drop_take, List.take_take, e]
  have kb : ∀ q : List Nat, xorBytes plain (q.drop 144)
      = xorBytes plain ((q.take (144 + plain.length)).drop 144) := by
    intro q
    rw [List.drop_take]
    have e : 144 + plain.length - 144 = plain.length := by omega
    rw [e, xorBytes_take_right plain _ _ (le_refl _)]
  unfold container cipherStream clearStream
  simp only [if_true, List.append_nil]
  rw [k96 pad, k32 pad, k16 pad, kb pad, k96 pad2, k32 pad2, k16 pad2, kb pad2, h]

theorem Decrypt0.main_too_small (P : Prims) (fs : FS) (wfail : List Bool) (prog cn pn : String)
    (ct pad : List Nat) (hcn : encSuffix cn) (hc : fs.holds cn ct) (hp : fs.holds pn pad)
    (h88 : 88 ≤ ct.length) (hsmall : (pad.length : Int) - (ct.length : Int) < 48) :
    (Decrypt0.main P [prog, cn, pn] fs wfail).status = .exit Decrypt0.ExitNoValidPad ∧
      (Decrypt0.main P [prog, cn, pn] fs wfail).fs = fs := by
  refine Decrypt0.main_no_pad P fs wfail prog cn pn ct (.file pad) hc hcn h88
    ((holdsBytes_iff _ _).mp hp) ?_
  unfold searchOn
  rw [if_neg]
  intro ha
  have := ha.1
  omega

theorem searchIn_cons (P : Prims) (ct : List Nat) (dirName : String) (x : String × Node)
    (xs : List (String × Node)) :
    searchIn P ct dirName (x :: xs)
      = match searchOn P ct (dirName ++ "/" ++ x.1) x.2 with
        | .absent => searchIn P ct dirName xs
        | r => r := by
  cases h : searchOn P ct (dirName ++ "/" ++ x.1) x.2 <;> simp only [searchIn, h]

theorem searchIn_nil (P : Prims) (ct : List Nat) (dirName : String) :
    searchIn P ct dirName [] = .absent := by
  simp only [searchIn]

theorem searchIn_append (P : Prims) (ct : List Nat) (dirName : String) :
    ∀ (xs ys : List (String × Node)),
      searchIn P ct dirName (xs ++ ys)
        = match searchIn P ct dirName xs with
          | .absent => searchIn P ct dirName ys
          | r => r
  | [], ys => by
    rw [List.nil_append, searchIn_nil]
  | x :: xs, ys => by
    rw [List.cons_append, searchIn_cons, searchIn_cons]
    cases hs : searchOn P ct (dirName ++ "/" ++ x.1) x.2 with
    | found a b => rfl
    | stopped => rfl
    | absent =>
      simp only
      exact searchIn_append P ct dirName xs ys

theorem container_authenticates (P : Prims) (hP : P.tag64) (plain pad iv : List Nat) (short : Bool)
    (name : String) (hiv : iv.length = 16) (hlen : 144 + plain.length ≤ pad.length)
    (hsuf : padSuffix name) :
    authenticates P (container P plain pad iv short) name pad := by
  refine ⟨?_, hsuf, container_fastTest P plain pad iv short hiv (by omega),
    container_tagTest P hP plain pad iv short⟩
  rw [container_length P hP plain pad iv short hiv hlen]
  cases short
  · simp only [Bool.false_eq_true, if_false]
    omega
  · simp only [if_true]
    omega

theorem tdiv_small_neg (x : Int) (h0 : x < 0) (h1 : -1048576 < x) :
    x.tdiv 1048576 = 0 ∧ x.tmod 1048576 = x := by
  obtain ⟨k, hk⟩ : ∃ k : Nat, x = -(k : Int) := ⟨x.natAbs, by omega⟩
  subst hk
  have hk1 : (k : Int) < 1048576 := by omega
  have hd : (k : Int).tdiv 1048576 = 0 := by
    rw [Int.tdiv_eq_ediv (by omega) (by omega)]
    omega
  have hm : (k : Int).tmod 1048576 = (k : Int) := by
    rw [Int.tmod_eq_emod (by omega) (by omega)]
    omega
  have hd2 : (-(k : Int)).tdiv 1048576 = 0 := by
    rw [Int.neg_tdiv, hd]
    rfl
  refine ⟨hd2, ?_⟩
  have ha := Int.tmod_add_tdiv (-(k : Int)) 1048576
  rw [hd2] at ha
  omega

theorem Decrypt0.CheckIntegrity_fault (P : Prims) (w : Decrypt0.World) (ct pad : List Nat)
    (hw : Decrypt0.Probing w ct pad) (h24 : 24 ≤ ct.length) (h88 : ct.length < 88)
    (hpad : 136 ≤ pad.length) (hfast : fastTest P ct pad) :
    ∃ e, Decrypt0.CheckIntegrity P w = .error e ∧ e.status = .fault ∧ e.fs = w.fs := by
  obtain ⟨h1, h2, h3, h4, h5, h6⟩ := hw
  have h1b := (holdsBytes_iff _ _).mp h1
  have h2b := (holdsBytes_iff _ _).mp h2
  have r96 : readBuf (some pad) 96 = .ok (pad.take 96) (some (pad.drop 96)) :=
    readBuf_some pad 96 (by omega)
  have r32 : readBuf (some (pad.drop 96)) 32
      = .ok ((pad.drop 96).take 32) (some ((pad.drop 96).drop 32)) :=
    readBuf_some (pad.drop 96) 32 (by simp; omega)
  have r8 : readBuf (some ((pad.drop 96).drop 32)) 8
      = .ok (((pad.drop 96).drop 32).take 8) (some (((pad.drop 96).drop 32).drop 8)) :=
    readBuf_some _ 8 (by simp; omega)
  have c16 : readBuf (some ct) 16 = .ok (ct.take 16) (some (ct.drop 16)) :=
    readBuf_some ct 16 (by omega)
  have c8 : readBuf (some (ct.drop 16)) 8
      = .ok ((ct.drop 16).take 8) (some ((ct.drop 16).drop 8)) :=
    readBuf_some _ 8 (by simp; omega)
  have hno : ¬ (w.PlaintextName.length > 0) := by omega
  unfold Decrypt0.CheckIntegrity Decrypt0.OpenFiles
  simp only [h3, h4, hno, h2b, h1b, if_true, if_false, Open, Node.open, r96, r32, r8, c16, c8]
  have hA2 : ((CFB.New ((pad.drop 96).take 32) (ct.take 16) true).XORKeyStream P
      ((ct.drop 16).take 8)).2 = ((pad.drop 96).drop 32).take 8 := by
    have := hfast
    simpa [fastTest, List.drop_drop] using this
  obtain ⟨hd, hm⟩ := tdiv_small_neg (w.CiphertextSize - 64 - (8 + 16)) (by rw [h6]; omega)
    (by rw [h6]; omega)
  have hneg : w.CiphertextSize - 64 - (8 + 16) < 0 := by rw [h6]; omega
  rw [if_neg (by simpa using hA2), Decrypt0.decBufferSize_eq, hd]
  have e1 : ((0 : Int) + 1).toNat = 1 := rfl
  rw [e1]
  unfold forLoop Decrypt0.macBlock
  simp only [Decrypt0.decBufferSize_eq, hm]
  have e2 : ((0 : Int) = 0 + 1 - 1) := by decide
  rw [if_pos e2]
  unfold readBuf
  rw [if_pos hneg]
  exact ⟨_, rfl, rfl, rfl⟩

theorem readBuf_nat (r : List Nat) (t : Nat) :
    readBuf (some r) (t : Int)
      = if t ≤ r.length then .ok (r.take t) (some (r.drop t)) else .short := by
  by_cases h : t ≤ r.length
  · rw [if_pos h, readBuf_some r t h]
  · rw [if_neg h, readBuf_short r t (by omega)]

theorem Decrypt0.DecryptInit_inv (P : Prims) (d w : Decrypt0.World) (ct pad : List Nat)
    (hct : d.fs d.CiphertextName = some (.file ct)) (hpad : d.PadNode = some (.file pad))
    (hpn : d.PadName.length > 0) (hcn : d.CiphertextName.length > 0)
    (hon : (Replace d.CiphertextName ".enc" "").length > 0)
    (hoc : Replace d.CiphertextName ".enc" "" ≠ d.CiphertextName)
    (hinit : Decrypt0.DecryptInit P d = .ok w) :
    Replace d.CiphertextName ".enc" "" ≠ d.PadName ∧
    d.fs.isDir (Replace d.CiphertextName ".enc" "") = false ∧
    144 ≤ pad.length ∧ 32 ≤ ct.length ∧
    ¬ (Decrypt0.sizeOf P ct pad < 0 ∨
        d.CiphertextSize - Decrypt0.sizeOf P ct pad < Decrypt0.CiphertextOverhead) ∧
    w.PlaintextSize = Decrypt0.sizeOf P ct pad ∧ w.CiphertextSize = d.CiphertextSize ∧
    w.Fciphertext = some (ct.drop 32) ∧ w.Fpad = some (pad.drop 144) := by
  have rd : ∀ (r : List Nat) (t : Nat) (k : Int), k = (t : Int) → readBuf (some r) k
      = if t ≤ r.length then .ok (r.take t) (some (r.drop t)) else .short := by
    intro r t k hk
    rw [hk, readBuf_nat]
  have r96 := rd pad 96 96 rfl
  have r32 := rd (pad.drop 96) 32 32 rfl
  have r16 := rd ((pad.drop 96).drop 32) 16 16 rfl
  have c16 := rd ct 16 16 rfl
  have c32 := rd (ct.drop 16) 16 16 rfl
  have e0 : readBuf (some []) 96 = .short := readBuf_short [] 96 (by simp)
  unfold Decrypt0.DecryptInit Decrypt0.OpenFiles at hinit
  simp only [hpn, hcn, hon, hpad, hct, if_true, hoc, if_false, Open, Node.open] at hinit
  cases hcr : d.fs.create (Replace d.CiphertextName ".enc" "") with
  | none =>
    rw [hcr] at hinit
    simp at hinit
  | some fs2 =>
    rw [hcr] at hinit
    have hfs2 := FS.create_some _ _ _ hcr
    by_cases hop : Replace d.CiphertextName ".enc" "" = d.PadName
    · simp only [hop, if_true, Option.map_some'] at hinit
      rw [e0] at hinit
      simp at hinit
    · simp only [hop, if_false] at hinit
      rw [r96] at hinit
      by_cases h96 : 96 ≤ pad.length
      swap
      · rw [if_neg h96] at hinit
        simp at hinit
      rw [if_pos h96] at hinit
      simp only at hinit
      rw [r32] at hinit
      by_cases h32 : 32 ≤ (pad.drop 96).length
      swap
      · rw [if_neg h32] at hinit
        simp at hinit
      rw [if_pos h32] at hinit
      simp only at hinit
      rw [r16] at hinit
      by_cases h16 : 16 ≤ ((pad.drop 96).drop 32).length
      swap
      · rw [if_neg h16] at hinit
        simp at hinit
      rw [if_pos h16] at hinit
      simp only at hinit
      rw [c16] at hinit
      by_cases k16 : 16 ≤ ct.length
      swap
      · rw [if_neg k16] at hinit
        simp at hinit
      rw [if_pos k16] at hinit
      simp only at hinit
      rw [c32] at hinit
      by_cases k32 : 16 ≤ (ct.drop 16).length
      swap
      · rw [if_neg k32] at hinit
        simp at hinit
      rw [if_pos k32] at hinit
      simp only at hinit
      have hsz : Decrypt0.decodeSize (xorBytes
          ((CFB.New ((pad.drop 96).take 32) (ct.take 16) true).XORKeyStream P
            ((ct.drop 16).take 16)).2 (((pad.drop 96).drop 32).take 16))
          = Decrypt0.sizeOf P ct pad := by
        simp [Decrypt0.sizeOf, List.drop_drop]
      rw [hsz] at hinit
      unfold Decrypt0.sizeCheck at hinit
      simp only at hinit
      by_cases hbad : Decrypt0.sizeOf P ct pad < 0 ∨
          d.CiphertextSize - Decrypt0.sizeOf P ct pad < Decrypt0.CiphertextOverhead
      · rw [if_pos hbad] at hinit
        simp at hinit
      · rw [if_neg hbad] at hinit
        have hw := (Except.ok.inj hinit).symm
        have hod : d.fs.isDir (Replace d.CiphertextName ".enc" "") = false := by
          cases hx : d.fs (Replace d.CiphertextName ".enc" "") with
          | none => simp [FS.isDir, hx]
          | some nd =>
            cases nd with
            | file b => simp [FS.isDir, hx]
            | dir es => simp [FS.create, hx] at hcr
            | unreadable b => simp [FS.isDir, hx]
            | unlistable => simp [FS.create, hx] at hcr
            | dangling => simp [FS.isDir, hx]
        simp only [List.length_drop] at h32 h16 k32
        refine ⟨hop, hod, by omega, by omega, hbad, ?_⟩
        rw [hw]
        simp only [List.drop_drop]
        exact ⟨trivial, trivial, trivial, trivial⟩

theorem Decrypt0.Write_frame (w : Decrypt0.World) (b : List Nat) :
    (Decrypt0.Write w b).1.Fciphertext = w.Fciphertext ∧ (Decrypt0.Write w b).1.Fpad = w.Fpad ∧
    (Decrypt0.Write w b).1.PlaintextSize = w.PlaintextSize ∧
    (Decrypt0.Write w b).1.PlaintextName = w.PlaintextName := by
  unfold Decrypt0.Write
  split
  · exact ⟨rfl, rfl, rfl, rfl⟩
  · split
    · exact ⟨rfl, rfl, rfl, rfl⟩
    · exact ⟨rfl, rfl, rfl, rfl⟩

theorem Decrypt0.plainBlock_reads (P : Prims) (cr q : List Nat) (n : Nat)
    (hc : n ≤ cr.length) (hq : n ≤ q.length) (i : Int) (h0 : 0 ≤ i)
    (h1 : i < (n : Int).tdiv 1048576 + 1) (s : Decrypt0.World)
    (hs : s.Fciphertext = some (cr.drop (chunkOff n i)) ∧ s.Fpad = some (q.drop (chunkOff n i)) ∧
      s.PlaintextSize = (n : Int)) :
    ∃ s2, Decrypt0.plainBlock P ((n : Int).tdiv 1048576 + 1) i s = .ok s2 ∧
      s2.Fciphertext = some (cr.drop (chunkOff n (i + 1))) ∧
      s2.Fpad = some (q.drop (chunkOff n (i + 1))) ∧ s2.PlaintextSize = (n : Int) := by
  obtain ⟨t, ht, hoff⟩ := chunk_todo n i h0 h1
  have hle := chunkOff_le n (i + 1)
  obtain ⟨hs1, hs2, hs3⟩ := hs
  unfold Decrypt0.plainBlock
  simp only [hs3, Decrypt0.decBufferSize_eq, ht]
  rw [if_neg (by decide), hs1, readBuf_some _ t (by simp; omega)]
  simp only
  rw [hs2, readBuf_some _ t (by simp; omega)]
  simp only
  refine ⟨_, rfl, (Decrypt0.Write_frame _ _).1.trans ?_, (Decrypt0.Write_frame _ _).2.1.trans ?_,
    (Decrypt0.Write_frame _ _).2.2.1.trans ?_⟩
  · show some ((cr.drop (chunkOff n i)).drop t) = _
    rw [List.drop_drop, hoff]
  · show some ((q.drop (chunkOff n i)).drop t) = _
    rw [List.drop_drop, hoff]
  · rfl

theorem Decrypt0.Decrypt_reads (P : Prims) (w : Decrypt0.World) (cr q : List Nat) (n : Nat)
    (hn : w.PlaintextSize = (n : Int)) (hc : n ≤ cr.length) (hq : n ≤ q.length)
    (h1 : w.Fciphertext = some cr) (h2 : w.Fpad = some q) :
    ∃ w2, Decrypt0.Decrypt P w = .ok w2 ∧ w2.Fciphertext = some (cr.drop n) ∧
      w2.Fpad = some (q.drop n) ∧ w2.PlaintextSize = (n : Int) := by
  unfold Decrypt0.Decrypt
  simp only [hn, Decrypt0.decBufferSize_eq]
  have hb : 0 ≤ (n : Int).tdiv 1048576 + 1 := by
    have := Int.tdiv_nonneg (a := (n : Int)) (b := 1048576) (by omega) (by omega)
    omega
  obtain ⟨s2, hl, hinv⟩ := forLoop_ok (Decrypt0.plainBlock P ((n : Int).tdiv 1048576 + 1))
    (fun i s => s.Fciphertext = some (cr.drop (chunkOff n i)) ∧
      s.Fpad = some (q.drop (chunkOff n i)) ∧ s.PlaintextSize = (n : Int))
    ((n : Int).tdiv 1048576 + 1)
    (fun i s h0 h1 hs => Decrypt0.plainBlock_reads P cr q n hc hq i h0 h1 s hs)
    ((n : Int).tdiv 1048576 + 1).toNat 0 w (le_refl 0)
    (by rw [Int.toNat_of_nonneg hb]; omega)
    (by
      show w.Fciphertext = some (cr.drop (chunkOff n 0)) ∧ w.Fpad = some (q.drop (chunkOff n 0)) ∧
        w.PlaintextSize = (n : Int)
      rw [chunkOff_zero]
      exact ⟨by simpa using h1, by simpa using h2, hn⟩)
  rw [chunkOff_last] at hinv
  exact ⟨s2, hl, hinv⟩

theorem blockLengths_upto (n : Nat) :
    ∀ k : Nat, (k : Int) ≤ (n : Int).tdiv 1048576 + 1 →
      (((List.range k).map (fun i : Nat => if (i : Int) = (n : Int).tdiv 1048576 + 1 - 1
          then (n : Int).tmod 1048576 else (1048576 : Int))).sum = ((chunkOff n (k : Int) : Nat) : Int))
  | 0, _ => by simp [chunkOff]
  | k + 1, hk => by
    have ih := blockLengths_upto n k (by push_cast at hk; omega)
    obtain ⟨t, ht, hoff⟩ := chunk_todo n (k : Int) (by omega) (by push_cast at hk; omega)
    rw [List.range_succ, List.map_append, List.sum_append, ih]
    simp only [List.map_cons, List.map_nil, List.sum_cons, List.sum_nil, add_zero]
    rw [ht]
    push_cast
    rw [← hoff]
    push_cast
    rfl

theorem blockLengths_sum (n : Nat) : (Decrypt0.blockLengths (n : Int)).sum = (n : Int) := by
  have hb : 0 ≤ (n : Int).tdiv 1048576 + 1 := by
    have := Int.tdiv_nonneg (a := (n : Int)) (b := 1048576) (by omega) (by omega)
    omega
  unfold Decrypt0.blockLengths
  simp only [Decrypt0.decBufferSize_eq]
  rw [blockLengths_upto n _ (by rw [Int.toNat_of_nonneg hb]), Int.toNat_of_nonneg hb,
    chunkOff_last]

theorem blockLengths_range (n : Nat) (t : Int) (h : t ∈ Decrypt0.blockLengths (n : Int)) :
    0 ≤ t ∧ t ≤ 1048576 := by
  unfold Decrypt0.blockLengths at h
  simp only [Decrypt0.decBufferSize_eq, List.mem_map] at h
  obtain ⟨i, _, hi⟩ := h
  have hm : (n : Int).tmod 1048576 = (n : Int) % 1048576 :=
    Int.tmod_eq_emod (by omega) (by omega)
  split at hi
  · rw [hm] at hi
    omega
  · omega

theorem digitChar_ne_slash : ∀ d, d < 16 → Nat.digitChar d ≠ '/' := by
  decide

theorem toDigitsCore_no_slash : ∀ (fuel n : Nat) (ds : List Char), '/' ∉ ds →
    '/' ∉ Nat.toDigitsCore 16 fuel n ds
  | 0, _, ds, h => by
    unfold Nat.toDigitsCore
    exact h
  | fuel + 1, n, ds, h => by
    have hd : '/' ∉ Nat.digitChar (n % 16) :: ds := by
      intro hm
      rcases List.mem_cons.mp hm with e | e
      · exact digitChar_ne_slash _ (Nat.mod_lt _ (by decide)) e.symm
      · exact h e
    unfold Nat.toDigitsCore
    simp only
    split
    · exact hd
    · exact toDigitsCore_no_slash fuel _ _ hd

theorem FormatInt16_no_slash (t : Int) : '/' ∉ (FormatInt16 t).data := by
  unfold FormatInt16
  split
  · intro hm
    rcases List.mem_cons.mp hm with e | e
    · exact absurd e (by decide)
    · exact toDigitsCore_no_slash _ _ [] (by simp) e
  · exact toDigitsCore_no_slash _ _ [] (by simp)

theorem split_at_last {α : Type} (a : α) : ∀ (l1 l2 r1 r2 : List α), a ∉ r1 → a ∉ r2 →
    l1 ++ a :: r1 = l2 ++ a :: r2 → l1 = l2 ∧ r1 = r2
  | [], [], r1, r2, _, _, h => by
    simp only [List.nil_append, List.cons.injEq, true_and] at h
    exact ⟨rfl, h⟩
  | [], x :: l2, r1, r2, h1, _, h => by
    simp only [List.nil_append, List.cons_append, List.cons.injEq] at h
    exact absurd (by rw [h.2]; simp) h1
  | x :: l1, [], r1, r2, _, h2, h => by
    simp only [List.nil_append, List.cons_append, List.cons.injEq] at h
    exact absurd (by rw [← h.2]; simp) h2
  | x :: l1, y :: l2, r1, r2, h1, h2, h => by
    simp only [List.cons_append, List.cons.injEq] at h
    obtain ⟨e1, e2⟩ := split_at_last a l1 l2 r1 r2 h1 h2 h.2
    exact ⟨by rw [h.1, e1], e2⟩

theorem padPair_data (s r base : String) :
    (padPair s r base).1.data
        = (s.data ++ ".pads".data ++ '/' :: r.data) ++ '/' :: (base.data ++ ".w.pad".data) ∧
      (padPair s r base).2.data
        = (r.data ++ ".pads".data ++ '/' :: s.data) ++ '/' :: (base.data ++ ".r.pad".data) := by
  constructor <;> simp [padPair, String.data_append]

theorem padPair_names (x y x2 y2 : String) (t t2 : Int)
    (hk : (x2 = x ∧ y2 = y) ∨ (x2 = y ∧ y2 = x)) :
    ((padPair x2 y2 (FormatInt16 t2)).1 = (padPair x y (FormatInt16 t)).1 →
        padPair x2 y2 (FormatInt16 t2) = padPair x y (FormatInt16 t)) ∧
      ((padPair x2 y2 (FormatInt16 t2)).2 = (padPair x y (FormatInt16 t)).2 →
        padPair x2 y2 (FormatInt16 t2) = padPair x y (FormatInt16 t)) ∧
      (padPair x2 y2 (FormatInt16 t2)).1 ≠ (padPair x y (FormatInt16 t)).2 ∧
      (padPair x2 y2 (FormatInt16 t2)).2 ≠ (padPair x y (FormatInt16 t)).1 := by
  have hw : ∀ (b : String), '/' ∉ b.data → '/' ∉ b.data ++ ".w.pad".data := by
    intro b hb hm
    rcases List.mem_append.mp hm with e | e
    · exact hb e
    · exact absurd e (by decide)
  have hr : ∀ (b : String), '/' ∉ b.data → '/' ∉ b.data ++ ".r.pad".data := by
    intro b hb hm
    rcases List.mem_append.mp hm with e | e
    · exact hb e
    · exact absurd e (by decide)
  have n1 := FormatInt16_no_slash t
  have n2 := FormatInt16_no_slash t2
  obtain ⟨p1, p2⟩ := padPair_data x y (FormatInt16 t)
  obtain ⟨q1, q2⟩ := padPair_data x2 y2 (FormatInt16 t2)
  have both : (x2.data ++ ".pads".data ++ '/' :: y2.data = x.data ++ ".pads".data ++ '/' :: y.data)
      → (y2.data ++ ".pads".data ++ '/' :: x2.data = y.data ++ ".pads".data ++ '/' :: x.data) := by
    intro e
    rcases hk with ⟨e1, e2⟩ | ⟨e1, e2⟩
    · rw [e1, e2]
    · rw [e1, e2] at e
      rw [e1, e2]
      exact e.symm
  have back : (y2.data ++ ".pads".data ++ '/' :: x2.data = y.data ++ ".pads".data ++ '/' :: x.data)
      → (x2.data ++ ".pads".data ++ '/' :: y2.data = x.data ++ ".pads".data ++ '/' :: y.data) := by
    intro e
    rcases hk with ⟨e1, e2⟩ | ⟨e1, e2⟩
    · rw [e1, e2]
    · rw [e1, e2] at e
      rw [e1, e2]
      exact e.symm
  have same : ∀ (d d2 e e2 : List Char), d2 = d → e2 = e → (FormatInt16 t2).data = (FormatInt16 t).data →
      (padPair x2 y2 (FormatInt16 t2)).1.data = d2 ++ '/' :: ((FormatInt16 t2).data ++ ".w.pad".data) →
      (padPair x2 y2 (FormatInt16 t2)).2.data = e2 ++ '/' :: ((FormatInt16 t2).data ++ ".r.pad".data) →
      (padPair x y (FormatInt16 t)).1.data = d ++ '/' :: ((FormatInt16 t).data ++ ".w.pad".data) →
      (padPair x y (FormatInt16 t)).2.data = e ++ '/' :: ((FormatInt16 t).data ++ ".r.pad".data) →
      padPair x2 y2 (FormatInt16 t2) = padPair x y (FormatInt16 t) := by
    intro d d2 e e2 hd he hb a1 a2 b1 b2
    apply Prod.ext
    · apply String.ext
      rw [a1, b1, hd, hb]
    · apply String.ext
      rw [a2, b2, he, hb]
  refine ⟨?_, ?_, ?_, ?_⟩
  · intro h
    have hd := congrArg String.data h
    rw [q1, p1] at hd
    obtain ⟨u1, u2⟩ := split_at_last '/' _ _ _ _ (hw _ n2) (hw _ n1) hd
    exact same _ _ _ _ u1 (both u1) (List.append_cancel_right u2) q1 q2 p1 p2
  · intro h
    have hd := congrArg String.data h
    rw [q2, p2] at hd
    obtain ⟨u1, u2⟩ := split_at_last '/' _ _ _ _ (hr _ n2) (hr _ n1) hd
    exact same _ _ _ _ (back u1) u1 (List.append_cancel_right u2) q1 q2 p1 p2
  · intro h
    have hd := congrArg String.data h
    rw [q1, p2] at hd
    obtain ⟨_, u2⟩ := split_at_last '/' _ _ _ _ (hw _ n2) (hr _ n1) hd
    have hl := congrArg List.length u2
    simp only [List.length_append] at hl
    have e6 : ".w.pad".data.length = ".r.pad".data.length := by decide
    have u3 := (List.append_inj' u2 e6).2
    exact absurd u3 (by decide)
  · intro h
    have hd := congrArg String.data h
    rw [q2, p1] at hd
    obtain ⟨_, u2⟩ := split_at_last '/' _ _ _ _ (hr _ n2) (hw _ n1) hd
    have e6 : ".r.pad".data.length = ".w.pad".data.length := by decide
    have u3 := (List.append_inj' u2 e6).2
    exact absurd u3 (by decide)

theorem FS.mkdirs_keeps : ∀ (ps : List String) (fs fs2 : FS), fs.mkdirs ps = some fs2 →
    ∀ (name : String) (bytes : List Nat), fs name = some (.file bytes) → fs2 name = some (.file bytes)
  | [], fs, fs2, h, name, bytes, hf => by
    simp only [FS.mkdirs, Option.some.injEq] at h
    rw [← h]
    exact hf
  | p :: ps, fs, fs2, h, name, bytes, hf => by
    unfold FS.mkdirs at h
    cases hp : fs p with
    | none =>
      rw [hp] at h
      simp only at h
      refine FS.mkdirs_keeps ps _ fs2 h name bytes ?_
      have hne : name ≠ p := by
        intro e
        rw [e, hp] at hf
        exact absurd hf (by simp)
      simp only [FS.set, hne, if_false]
      exact hf
    | some nd =>
      rw [hp] at h
      cases nd with
      | dir es => exact FS.mkdirs_keeps ps fs fs2 h name bytes hf
      | unlistable => exact FS.mkdirs_keeps ps fs fs2 h name bytes hf
      | file d => exact absurd h (by simp)
      | unreadable d => exact absurd h (by simp)
      | dangling => exact absurd h (by simp)

theorem Genpads0.padPass_frame (P : Prims) (padName padCopy : String) (w0 : Genpads0.World)
    (n : Nat) (s s2 : Genpads0.World × (String × List Nat) × Option (String × List Nat))
    (hinv : s.2.1.1 = padName ∧ (∀ f, s.2.2 = some f → f.1 = padCopy) ∧
      ∀ name, name ≠ padName → name ≠ padCopy → s.1.fs name = w0.fs name)
    (h : Genpads0.padPass P (n : Int) s = .ok s2) :
    s2.2.1.1 = padName ∧ (∀ f, s2.2.2 = some f → f.1 = padCopy) ∧
      ∀ name, name ≠ padName → name ≠ padCopy → s2.1.fs name = w0.fs name := by
  obtain ⟨w, f1, f2⟩ := s
  obtain ⟨i1, i2, i3⟩ := hinv
  simp only at i1 i2 i3
  unfold Genpads0.padPass at h
  simp only [Genpads0.randRead] at h
  cases hm : Genpads0.mixSources { w with used := w.used + 1024 } w.Sources []
      ((List.range 1024).map (fun j => w.rng (w.used + j))) with
  | error e =>
    rw [hm] at h
    exact absurd h (by simp)
  | ok m =>
    rw [hm] at h
    simp only at h
    split at h
    · exact absurd h (by simp)
    · rename_i r1 hw1
      have e1 := Genpads0.Write_ok _ _ _ _ hw1
      subst e1
      cases f2 with
      | none =>
        simp only [Except.ok.injEq] at h
        subst h
        refine ⟨i1, fun f hf => absurd hf (by simp), ?_⟩
        intro name h1 h2
        simp only [FS.set, i1, h1, if_false]
        exact i3 name h1 h2
      | some g =>
        simp only at h
        split at h
        · exact absurd h (by simp)
        · rename_i r2 hw2
          have e2 := Genpads0.Write_ok _ _ _ _ hw2
          subst e2
          simp only [Except.ok.injEq] at h
          subst h
          have hg := i2 g rfl
          refine ⟨i1, ?_, ?_⟩
          · intro f hf
            simp only [Option.some.injEq] at hf
            rw [← hf]
            exact hg
          · intro name h1 h2
            simp only [FS.set, i1, hg, h1, h2, if_false]
            exact i3 name h1 h2

theorem Genpads0.GeneratePad_frame (P : Prims) (padName padCopy : String)
    (w w2 : Genpads0.World) (h : Genpads0.GeneratePad P padName padCopy w = .ok w2) :
    ∀ name, name ≠ padName → name ≠ padCopy → w2.fs name = w.fs name := by
  unfold Genpads0.GeneratePad at h
  simp only at h
  cases hc1 : w.fs.createIn padName with
  | none =>
    rw [hc1] at h
    exact absurd h (by simp)
  | some fs1 =>
    rw [hc1] at h
    simp only at h
    have e1 := FS.createIn_some _ _ _ hc1
    subst e1
    cases ho : Genpads0.openCopy padCopy
        { w with calls := w.calls ++ [(padName, padCopy)],
                 fs := w.fs.set padName (.file []) } with
    | error e =>
      rw [ho] at h
      exact absurd h (by simp)
    | ok o =>
      rw [ho] at h
      simp only at h
      cases hl : forLoop (Genpads0.padPass P) o.1.Size 0 (o.1, (padName, []), o.2) with
      | error e =>
        rw [hl] at h
        exact absurd h (by simp)
      | ok s =>
        rw [hl] at h
        simp only [Except.ok.injEq] at h
        have hstart : (∀ f, o.2 = some f → f.1 = padCopy) ∧
            ∀ name, name ≠ padName → name ≠ padCopy → o.1.fs name = w.fs name := by
          unfold Genpads0.openCopy at ho
          by_cases hc : padCopy = ""
          · simp only [hc, ne_eq, not_true_eq_false, if_false, Except.ok.injEq] at ho
            subst ho
            refine ⟨fun f hf => absurd hf (by simp), ?_⟩
            intro name h1 _
            simp only [FS.set, h1, if_false]
          · simp only [ne_eq, hc, not_false_eq_true, if_true] at ho
            cases hc2 : (w.fs.set padName (.file [])).createIn padCopy with
            | none =>
              rw [hc2] at ho
              exact absurd ho (by simp)
            | some fs2 =>
              rw [hc2] at ho
              simp only [Except.ok.injEq] at ho
              have e2 := FS.createIn_some _ _ _ hc2
              subst e2
              subst ho
              refine ⟨?_, ?_⟩
              · intro f hf
                simp only [Option.some.injEq] at hf
                rw [← hf]
              · intro name h1 h2
                simp only [FS.set, h1, h2, if_false]
        have hend := forLoop_post (Genpads0.padPass P)
          (fun _ s => s.2.1.1 = padName ∧ (∀ f, s.2.2 = some f → f.1 = padCopy) ∧
            ∀ name, name ≠ padName → name ≠ padCopy → s.1.fs name = w.fs name)
          (fun n s s2 hinv hb => Genpads0.padPass_frame P padName padCopy w n s s2 hinv hb)
          o.1.Size 0 _ s ⟨rfl, hstart.1, hstart.2⟩ (by simpa using hl)
        rw [← h]
        exact hend.2.2

theorem Genpads0.onePad_files (P : Prims) (sender recipient : String) (w w2 : Genpads0.World)
    (h : Genpads0.onePad P sender recipient w = .ok w2) :
    pairWritten w2.fs w.Size (padPair sender recipient (FormatInt16 (w.clock w.ticks))) ∧
      ∀ name bytes, name ≠ (padPair sender recipient (FormatInt16 (w.clock w.ticks))).1 →
        name ≠ (padPair sender recipient (FormatInt16 (w.clock w.ticks))).2 →
        w.fs name = some (.file bytes) → w2.fs name = some (.file bytes) := by
  unfold Genpads0.onePad at h
  simp only at h
  cases h1 : w.fs.mkdirAll (sender ++ Genpads0.DirExt ++ "/" ++ recipient) with
  | none =>
    rw [h1] at h
    exact absurd h (by simp)
  | some fs1 =>
    rw [h1] at h
    simp only at h
    cases h2 : fs1.mkdirAll (recipient ++ Genpads0.DirExt ++ "/" ++ sender) with
    | none =>
      rw [h2] at h
      exact absurd h (by simp)
    | some fs2 =>
      rw [h2] at h
      simp only at h
      have hne : (padPair sender recipient (FormatInt16 (w.clock w.ticks))).2 ≠ "" := by
        intro e
        have hd := congrArg String.data e
        rw [(padPair_data _ _ _).2] at hd
        exact absurd hd (by simp)
      obtain ⟨b1, b2, b3, _, _, _, _⟩ := Genpads0.pad_bytes P _ _ _ w2 h
      have hfr := Genpads0.GeneratePad_frame P _ _ _ w2 h
      refine ⟨⟨_, b1, ?_, ?_⟩, ?_⟩
      · exact (b2 hne).trans b1
      · rw [xorBytes_length, b3, CTR.keyStream, CTR_XORKeyStream_length, List.length_replicate]
        show min (1024 * w.Size) (1024 * w.Size) = w.Size * 1024
        omega
      · intro name bytes n1 n2 hf
        rw [hfr name n1 n2]
        exact FS.mkdirs_keeps _ _ _ h2 name bytes (FS.mkdirs_keeps _ _ _ h1 name bytes hf)

theorem Genpads0.onePad_keeps (P : Prims) (a b sender recipient : String)
    (w w2 : Genpads0.World)
    (hk : (sender = a ∧ recipient = b) ∨ (sender = b ∧ recipient = a))
    (h : Genpads0.onePad P sender recipient w = .ok w2) :
    pairWritten w2.fs w.Size (padPair sender recipient (FormatInt16 (w.clock w.ticks))) ∧
      ∀ q, channelPair a b q → pairWritten w.fs w.Size q → pairWritten w2.fs w.Size q := by
  obtain ⟨hnew, hold⟩ := Genpads0.onePad_files P sender recipient w w2 h
  refine ⟨hnew, ?_⟩
  intro q hq hw
  have hnames : ∃ x2 y2 t2, q = padPair x2 y2 (FormatInt16 t2) ∧
      ((x2 = sender ∧ y2 = recipient) ∨ (x2 = recipient ∧ y2 = sender)) := by
    obtain ⟨t2, e | e⟩ := hq
    · refine ⟨a, b, t2, e, ?_⟩
      rcases hk with ⟨e1, e2⟩ | ⟨e1, e2⟩
      · exact Or.inl ⟨e1.symm, e2.symm⟩
      · exact Or.inr ⟨e2.symm, e1.symm⟩
    · refine ⟨b, a, t2, e, ?_⟩
      rcases hk with ⟨e1, e2⟩ | ⟨e1, e2⟩
      · exact Or.inr ⟨e2.symm, e1.symm⟩
      · exact Or.inl ⟨e1.symm, e2.symm⟩
  obtain ⟨x2, y2, t2, eq, hrel⟩ := hnames
  obtain ⟨k1, k2, k3, k4⟩ := padPair_names sender recipient x2 y2 (w.clock w.ticks) t2 hrel
  rw [← eq] at k1 k2 k3 k4
  by_cases c1 : q.1 = (padPair sender recipient (FormatInt16 (w.clock w.ticks))).1
  · rw [k1 c1]
    exact hnew
  · have c2 : q.2 ≠ (padPair sender recipient (FormatInt16 (w.clock w.ticks))).2 := by
      intro e
      exact c1 (congrArg Prod.fst (k2 e))
    obtain ⟨bytes, w1, w2b, w3⟩ := hw
    exact ⟨bytes, hold _ _ c1 k3 w1, hold _ _ k4 c2 w2b, w3⟩

theorem pairsFor_channel (a b sender recipient : String) (clock : Nat → Int) (t0 count : Nat)
    (hk : (sender = a ∧ recipient = b) ∨ (sender = b ∧ recipient = a)) :
    ∀ q ∈ pairsFor clock t0 count sender recipient, channelPair a b q := by
  intro q hq
  unfold pairsFor at hq
  obtain ⟨k, _, e⟩ := List.mem_map.mp hq
  rcases hk with ⟨e1, e2⟩ | ⟨e1, e2⟩
  · exact ⟨_, Or.inl (by rw [← e, e1, e2])⟩
  · exact ⟨_, Or.inr (by rw [← e, e1, e2])⟩

theorem Genpads0.padsLoop_files (P : Prims) (a b : String) (i j : Int) (w w2 : Genpads0.World)
    (hk : ((w.Todo.getD i.toNat []).getD 0 "" = a ∧ (w.Todo.getD i.toNat []).getD j.toNat "" = b) ∨
      ((w.Todo.getD i.toNat []).getD 0 "" = b ∧ (w.Todo.getD i.toNat []).getD j.toNat "" = a))
    (h : Genpads0.padsLoop P i j w = .ok w2) :
    (∀ q, channelPair a b q → pairWritten w.fs w.Size q → pairWritten w2.fs w.Size q) ∧
      ∀ q ∈ pairsFor w.clock w.ticks w.Number
          ((w.Todo.getD i.toNat []).getD 0 "") ((w.Todo.getD i.toNat []).getD j.toNat ""),
        pairWritten w2.fs w.Size q := by
  unfold Genpads0.padsLoop at h
  have hend := forLoop_post
    (fun _ w => Genpads0.onePad P ((w.Todo.getD i.toNat []).getD 0 "")
      ((w.Todo.getD i.toNat []).getD j.toNat "") w)
    (fun n v => (v.ticks = w.ticks + n ∧ Genpads0.SameJob w v) ∧
      (∀ q, channelPair a b q → pairWritten w.fs w.Size q → pairWritten v.fs w.Size q) ∧
      ∀ q ∈ pairsFor w.clock w.ticks n
          ((w.Todo.getD i.toNat []).getD 0 "") ((w.Todo.getD i.toNat []).getD j.toNat ""),
        pairWritten v.fs w.Size q)
    (fun n s s2 hinv hb => by
      obtain ⟨⟨a2, a3, a4, a5, a6⟩, a7, a8⟩ := hinv
      simp only at hb
      obtain ⟨_, c2, c3, c4, c5, c6⟩ := Genpads0.onePad_call P _ _ s s2 hb
      rw [a4] at hb
      obtain ⟨n1, n2⟩ := Genpads0.onePad_keeps P a b _ _ s s2 hk hb
      rw [a6, a3, a2] at n1
      rw [a6] at n2
      refine ⟨⟨?_, c3.trans a3, c4.trans a4, c5.trans a5, c6.trans a6⟩, ?_, ?_⟩
      · rw [c2, a2]
        omega
      · intro q hq hw
        exact n2 q hq (a7 q hq hw)
      · intro q hq
        simp only [pairsFor, List.range_succ, List.map_append, List.map_cons, List.map_nil,
          List.mem_append, List.mem_singleton] at hq
        rcases hq with hq | hq
        · exact n2 q (pairsFor_channel a b _ _ w.clock w.ticks n hk q hq) (a8 q hq)
        · rw [hq]
          exact n1)
    w.Number 0 w w2 ⟨⟨rfl, rfl, rfl, rfl, rfl⟩, fun _ _ hw => hw, by simp [pairsFor]⟩
    (by simpa using h)
  rw [Nat.zero_add] at hend
  exact hend.2

theorem Genpads0.recipientsLoop_files (P : Prims) (a b : String) (i : Int)
    (sender recipient : String) (w w2 : Genpads0.World)
    (hrow : w.Todo.getD i.toNat [] = [sender, recipient])
    (hk : (sender = a ∧ recipient = b) ∨ (sender = b ∧ recipient = a))
    (h : Genpads0.recipientsLoop P i w = .ok w2) :
    (∀ q, channelPair a b q → pairWritten w.fs w.Size q → pairWritten w2.fs w.Size q) ∧
      ∀ q ∈ pairsFor w.clock w.ticks w.Number sender recipient, pairWritten w2.fs w.Size q := by
  unfold Genpads0.recipientsLoop at h
  rw [hrow] at h
  have e1 : [sender, recipient].length - 1 = 1 := rfl
  rw [e1] at h
  unfold forLoop at h
  cases hp : Genpads0.padsLoop P i 1 w with
  | error e =>
    rw [hp] at h
    exact absurd h (by simp)
  | ok w1 =>
    rw [hp] at h
    simp only [forLoop, Except.ok.injEq] at h
    subst h
    have hc := Genpads0.padsLoop_files P a b i 1 w w1 (by rw [hrow]; exact hk) hp
    rw [hrow] at hc
    exact hc

theorem Genpads0.DoTheWork_files (P : Prims) (a b : String) (w w2 : Genpads0.World)
    (hT : w.Todo = [[a, b], [b, a]]) (h : Genpads0.DoTheWork P w = .ok w2) :
    ∀ q ∈ pairsFor w.clock w.ticks w.Number a b
        ++ pairsFor w.clock (w.ticks + w.Number) w.Number b a, pairWritten w2.fs w.Size q := by
  unfold Genpads0.DoTheWork at h
  rw [hT] at h
  have e2 : [[a, b], [b, a]].length = 2 := rfl
  rw [e2] at h
  unfold forLoop at h
  cases h1 : Genpads0.recipientsLoop P 0 w with
  | error e =>
    rw [h1] at h
    exact absurd h (by simp)
  | ok w1 =>
    rw [h1] at h
    simp only at h
    unfold forLoop at h
    cases h2 : Genpads0.recipientsLoop P (0 + 1) w1 with
    | error e =>
      rw [h2] at h
      exact absurd h (by simp)
    | ok w3 =>
      rw [h2] at h
      simp only [forLoop, Except.ok.injEq] at h
      subst h
      obtain ⟨_, c2, c3, c4, c5, c6⟩ := Genpads0.recipientsLoop_pair P 0 a b w w1
        (by rw [hT]; rfl) h1
      obtain ⟨_, f2⟩ := Genpads0.recipientsLoop_files P a b 0 a b w w1
        (by rw [hT]; rfl) (Or.inl ⟨rfl, rfl⟩) h1
      obtain ⟨g1, g2⟩ := Genpads0.recipientsLoop_files P a b (0 + 1) b a w1 w3
        (by rw [c4, hT]; rfl) (Or.inr ⟨rfl, rfl⟩) h2
      rw [c2, c3, c5, c6] at g2
      rw [c6] at g1
      intro q hq
      rcases List.mem_append.mp hq with hq | hq
      · exact g1 q (pairsFor_channel a b a b w.clock w.ticks w.Number (Or.inl ⟨rfl, rfl⟩) q hq)
          (f2 q hq)
      · exact g2 q hq

mutual
theorem searchOn_examinable (P : Prims) (ct : List Nat) :
    ∀ (name : String) (node : Node), node.examinable = true → searchOn P ct name node ≠ .stopped
  | name, .file pad, _ => by
    unfold searchOn
    split <;> simp
  | name, .unreadable pad, h => by
    simp [Node.examinable] at h
  | _, .dangling, h => by
    simp [Node.examinable] at h
  | _, .unlistable, h => by
    simp [Node.examinable] at h
  | name, .dir entries, h => by
    unfold searchOn
    unfold Node.examinable at h
    exact searchIn_examinable P ct name entries h
theorem searchIn_examinable (P : Prims) (ct : List Nat) (dirName : String) :
    ∀ (entries : List (String × Node)), examinableAll entries = true →
      searchIn P ct dirName entries ≠ .stopped
  | [], _ => by
    unfold searchIn
    simp
  | f :: rest, h => by
    unfold examinableAll at h
    rw [Bool.and_eq_true] at h
    have h1 := searchOn_examinable P ct (dirName ++ "/" ++ f.1) f.2 h.1
    have h2 := searchIn_examinable P ct dirName rest h.2
    unfold searchIn
    cases hs : searchOn P ct (dirName ++ "/" ++ f.1) f.2 with
    | found a b => simp
    | absent => exact h2
    | stopped => exact absurd hs h1
end

set_option maxRecDepth 100000 in
/-- The run `genpads0 1 nodir/k.pad` in an empty directory ends with exit
code 9, `os.Create` failing for want of the directory `nodir`; the run
`genpads0 1 k.pad` there ends with exit code 0. -/
theorem Genpads0.missing_directory :
    (Genpads0.main samplePrims (fun _ => none) ["genpads0", "1", "nodir/k.pad"]
        sampleGenStart).status = .exit Genpads0.ExitError ∧
      (Genpads0.main samplePrims (fun _ => none) ["genpads0", "1", "k.pad"]
        sampleGenStart).status = .exit Genpads0.ExitSuccess := by
  constructor <;> decide

theorem Genpads0.openSources_fs : ∀ (srcs : List String) (w w2 : Genpads0.World),
    Genpads0.openSources srcs w = .ok w2 → w2.fs = w.fs
  | [], w, w2, h => by
    simp only [Genpads0.openSources, Except.ok.injEq] at h
    rw [← h]
  | s :: rest, w, w2, h => by
    unfold Genpads0.openSources at h
    by_cases hs : s = ""
    · simp only [hs, ne_eq, not_true_eq_false, if_false] at h
      exact Genpads0.openSources_fs rest w w2 h
    · simp only [ne_eq, hs, not_false_eq_true, if_true] at h
      cases hf : Open (w.fs s) with
      | none =>
        rw [hf] at h
        exact absurd h (by simp)
      | some node =>
        rw [hf] at h
        simp only at h
        have hr := Genpads0.openSources_fs rest _ w2 h
        exact hr

theorem Genpads0.InitRandom_fs (w w2 : Genpads0.World) (h : Genpads0.InitRandom w = .ok w2) :
    w2.fs = w.fs := by
  unfold Genpads0.InitRandom at h
  simp only at h
  cases ho : Genpads0.openSources (Split (w.env "CSTRNG") ++ Split (w.env "PRNG")) w with
  | error e =>
    rw [ho] at h
    exact absurd h (by simp)
  | ok w1 =>
    rw [ho] at h
    simp only [Genpads0.randRead] at h
    have hfs := Genpads0.openSources_fs _ w w1 ho
    split at h
    · exact absurd h (by simp)
    · simp only [Except.ok.injEq] at h
      subst h
      exact hfs

theorem Genpads0.padsLoop_others (P : Prims) (i j : Int) (w w2 : Genpads0.World)
    (h : Genpads0.padsLoop P i j w = .ok w2) :
    ∀ name bytes, (∀ q ∈ pairsFor w.clock w.ticks w.Number
          ((w.Todo.getD i.toNat []).getD 0 "") ((w.Todo.getD i.toNat []).getD j.toNat ""),
        name ≠ q.1 ∧ name ≠ q.2) →
      w.fs name = some (.file bytes) → w2.fs name = some (.file bytes) := by
  unfold Genpads0.padsLoop at h
  have hend := forLoop_post
    (fun _ w => Genpads0.onePad P ((w.Todo.getD i.toNat []).getD 0 "")
      ((w.Todo.getD i.toNat []).getD j.toNat "") w)
    (fun n v => (v.ticks = w.ticks + n ∧ Genpads0.SameJob w v) ∧
      ∀ name bytes, (∀ q ∈ pairsFor w.clock w.ticks n
          ((w.Todo.getD i.toNat []).getD 0 "") ((w.Todo.getD i.toNat []).getD j.toNat ""),
        name ≠ q.1 ∧ name ≠ q.2) →
      w.fs name = some (.file bytes) → v.fs name = some (.file bytes))
    (fun n s s2 hinv hb => by
      obtain ⟨⟨a2, a3, a4, a5, a6⟩, a7⟩ := hinv
      simp only at hb
      obtain ⟨_, c2, c3, c4, c5, c6⟩ := Genpads0.onePad_call P _ _ s s2 hb
      rw [a4] at hb
      obtain ⟨_, n2⟩ := Genpads0.onePad_files P _ _ s s2 hb
      rw [a3, a2] at n2
      refine ⟨⟨?_, c3.trans a3, c4.trans a4, c5.trans a5, c6.trans a6⟩, ?_⟩
      · rw [c2, a2]
        omega
      · intro name bytes hav hf
        have hsplit : ∀ q, q ∈ pairsFor w.clock w.ticks n
              ((w.Todo.getD i.toNat []).getD 0 "") ((w.Todo.getD i.toNat []).getD j.toNat "") ∨
            q = padPair ((w.Todo.getD i.toNat []).getD 0 "")
              ((w.Todo.getD i.toNat []).getD j.toNat "") (FormatInt16 (w.clock (w.ticks + n))) →
            name ≠ q.1 ∧ name ≠ q.2 := by
          intro q hq
          apply hav q
          simp only [pairsFor, List.range_succ, List.map_append, List.map_cons, List.map_nil,
            List.mem_append, List.mem_singleton]
          exact hq
        have hlast := hsplit _ (Or.inr rfl)
        exact n2 name bytes hlast.1 hlast.2 (a7 name bytes (fun q hq => hsplit q (Or.inl hq)) hf))
    w.Number 0 w w2 ⟨⟨rfl, rfl, rfl, rfl, rfl⟩, fun _ _ _ hf => hf⟩
    (by simpa using h)
  rw [Nat.zero_add] at hend
  exact hend.2

theorem Genpads0.recipientsLoop_others (P : Prims) (i : Int) (sender recipient : String)
    (w w2 : Genpads0.World) (hrow : w.Todo.getD i.toNat [] = [sender, recipient])
    (h : Genpads0.recipientsLoop P i w = .ok w2) :
    ∀ name bytes, (∀ q ∈ pairsFor w.clock w.ticks w.Number sender recipient,
        name ≠ q.1 ∧ name ≠ q.2) →
      w.fs name = some (.file bytes) → w2.fs name = some (.file bytes) := by
  unfold Genpads0.recipientsLoop at h
  rw [hrow] at h
  have e1 : [sender, recipient].length - 1 = 1 := rfl
  rw [e1] at h
  unfold forLoop at h
  cases hp : Genpads0.padsLoop P i 1 w with
  | error e =>
    rw [hp] at h
    exact absurd h (by simp)
  | ok w1 =>
    rw [hp] at h
    simp only [forLoop, Except.ok.injEq] at h
    subst h
    have hc := Genpads0.padsLoop_others P i 1 w w1 hp
    rw [hrow] at hc
    exact hc

theorem Genpads0.DoTheWork_others (P : Prims) (a b : String) (w w2 : Genpads0.World)
    (hT : w.Todo = [[a, b], [b, a]]) (h : Genpads0.DoTheWork P w = .ok w2) :
    ∀ name bytes, (∀ q ∈ pairsFor w.clock w.ticks w.Number a b
          ++ pairsFor w.clock (w.ticks + w.Number) w.Number b a, name ≠ q.1 ∧ name ≠ q.2) →
      w.fs name = some (.file bytes) → w2.fs name = some (.file bytes) := by
  unfold Genpads0.DoTheWork at h
  rw [hT] at h
  have e2 : [[a, b], [b, a]].length = 2 := rfl
  rw [e2] at h
  unfold forLoop at h
  cases h1 : Genpads0.recipientsLoop P 0 w with
  | error e =>
    rw [h1] at h
    exact absurd h (by simp)
  | ok w1 =>
    rw [h1] at h
    simp only at h
    unfold forLoop at h
    cases h2 : Genpads0.recipientsLoop P (0 + 1) w1 with
    | error e =>
      rw [h2] at h
      exact absurd h (by simp)
    | ok w3 =>
      rw [h2] at h
      simp only [forLoop, Except.ok.injEq] at h
      subst h
      obtain ⟨_, c2, c3, c4, c5, c6⟩ := Genpads0.recipientsLoop_pair P 0 a b w w1
        (by rw [hT]; rfl) h1
      have f := Genpads0.recipientsLoop_others P 0 a b w w1 (by rw [hT]; rfl) h1
      have g := Genpads0.recipientsLoop_others P (0 + 1) b a w1 w3 (by rw [c4, hT]; rfl) h2
      rw [c2, c3, c5] at g
      intro name bytes hav hf
      exact g name bytes (fun q hq => hav q (List.mem_append_right _ hq))
        (f name bytes (fun q hq => hav q (List.mem_append_left _ hq)) hf)

/-! ## Claims -/

/-- C1. Round trip: for every plaintext, every pad that exceeds it by at
least 144 bytes, every 16-byte IV and both modes, `Init` then `Encrypt`
produce a container, and `DecryptInit` then `Decrypt`, run on a file holding
that container with `CiphertextSize` its length and a read pad holding the
same bytes as the write pad, write exactly the plaintext.  Sizes are
`int64` in the source, hence the bound on the pad's length. -/
theorem roundtrip (P : Prims) (hP : P.tag64) (plain pad iv : List Nat) (e : Encrypt0.World)
    (d : Decrypt0.World) (hlen : (pad.length : Int) - (plain.length : Int) ≥ 144)
    (hiv : iv.length = 16) (h63 : pad.length < 2 ^ 63)
    (he : Encrypt0.Ready e plain pad)
    (hd : Decrypt0.Ready d (container P plain pad iv e.Short) pad) :
    Encrypt0.output P iv e = some (container P plain pad iv e.Short) ∧
      Decrypt0.recovered P d = some plain :=
  ⟨Encrypt0.output_ready P plain pad iv e (by omega) he,
    Decrypt0.recovered_ready P hP plain pad iv e.Short d hiv (by omega) (by omega) hd⟩

set_option maxRecDepth 100000 in
theorem roundtrip_witness :
    Encrypt0.output samplePrims sampleIv (sampleEnc false) = some (sampleContainer false) ∧
      Decrypt0.recovered samplePrims (sampleDec (sampleContainer false)) = some samplePlain :=
  roundtrip samplePrims samplePrims_tag64 samplePlain samplePad sampleIv (sampleEnc false)
    (sampleDec (sampleContainer false)) (by decide) (by decide) (by decide)
    (by unfold Encrypt0.Ready; decide) (by unfold Decrypt0.Ready; decide)

/-- C3. The tag: `Init` then `Encrypt` produce a container whose last 64
bytes are the HMAC, keyed with the first 96 pad bytes, of all the bytes
before them, and these bytes are, in this order, the IV, the sixteen
encrypted header bytes, the encrypted plaintext and the encrypted
size-hiding bytes (none in short mode). -/
theorem tag_over_container (P : Prims) (hP : P.tag64) (plain pad iv : List Nat)
    (e : Encrypt0.World) (hlen : (pad.length : Int) - (plain.length : Int) ≥ 144)
    (he : Encrypt0.Ready e plain pad) :
    ∃ ct, Encrypt0.output P iv e = some ct ∧ 64 ≤ ct.length ∧
      ct.drop (ct.length - 64) = P.hmac (pad.take 96) (ct.take (ct.length - 64)) ∧
      ct.take (ct.length - 64)
        = iv ++ (encHead P pad iv plain.length).2 ++ (encBody P plain pad iv).2
            ++ encTail P plain pad iv e.Short ∧
      (encHead P pad iv plain.length).2.length = 16 := by
  have ht := container_tag P hP plain pad iv e.Short
  refine ⟨_, Encrypt0.output_ready P plain pad iv e (by omega) he, ?_, ?_, ?_, ?_⟩
  · simp [container, hP _ _]
    omega
  · rw [ht.2, ht.1]
  · rw [ht.1, cipherStream_eq]
    simp [List.append_assoc]
  · exact encHead_length P pad iv _ (by omega)

set_option maxRecDepth 100000 in
theorem tag_over_container_witness :
    ∃ ct, Encrypt0.output samplePrims sampleIv (sampleEnc false) = some ct ∧ 64 ≤ ct.length ∧
      ct.drop (ct.length - 64)
        = samplePrims.hmac (samplePad.take 96) (ct.take (ct.length - 64)) ∧
      ct.take (ct.length - 64)
        = sampleIv ++ (encHead samplePrims samplePad sampleIv samplePlain.length).2
            ++ (encBody samplePrims samplePlain samplePad sampleIv).2
            ++ encTail samplePrims samplePlain samplePad sampleIv (sampleEnc false).Short ∧
      (encHead samplePrims samplePad sampleIv samplePlain.length).2.length = 16 :=
  tag_over_container samplePrims samplePrims_tag64 samplePlain samplePad sampleIv (sampleEnc false)
    (by decide) (by unfold Encrypt0.Ready; decide)

/-- C4. Sizes: for a plaintext of `p` bytes and a pad of `w` bytes with
`w - p ≥ 144`, the container that `Init` and `Encrypt` write has `w - 48`
bytes in long mode and `p + 96` bytes in short mode. -/
theorem container_size (P : Prims) (hP : P.tag64) (plain pad iv : List Nat)
    (e : Encrypt0.World) (hlen : (pad.length : Int) - (plain.length : Int) ≥ 144)
    (hiv : iv.length = 16) (he : Encrypt0.Ready e plain pad) :
    ∃ ct, Encrypt0.output P iv e = some ct ∧
      (ct.length : Int)
        = if e.Short then (plain.length : Int) + 96 else (pad.length : Int) - 48 := by
  refine ⟨_, Encrypt0.output_ready P plain pad iv e (by omega) he, ?_⟩
  rw [container_length P hP plain pad iv e.Short hiv (by omega)]
  cases e.Short
  · simp only [Bool.false_eq_true, if_false]
    omega
  · simp

set_option maxRecDepth 100000 in
theorem container_size_witness :
    ∃ ct, Encrypt0.output samplePrims sampleIv (sampleEnc true) = some ct ∧
      (ct.length : Int)
        = if (sampleEnc true).Short then (samplePlain.length : Int) + 96
          else (samplePad.length : Int) - 48 :=
  container_size samplePrims samplePrims_tag64 samplePlain samplePad sampleIv (sampleEnc true)
    (by decide) (by decide) (by unfold Encrypt0.Ready; decide)

/-- C10. Header: for a plaintext size `n` with `0 ≤ n < 2^63`, `GetHeader`
returns sixteen bytes; the first eight are zero and the last eight are `n`
in big-endian order: byte `8 + k` is `n / 256^(7-k) mod 256`, and read as a
base-256 number the eight bytes give back `n`. -/
theorem GetHeader_layout (n : Int) (h0 : 0 ≤ n) (h1 : n < 2 ^ 63) :
    (Encrypt0.GetHeader n).length = 16 ∧
      (Encrypt0.GetHeader n).take 8 = List.replicate 8 0 ∧
      (Encrypt0.GetHeader n).drop 8 = bigEndian64 n.toNat ∧
      ((bigEndianValue ((Encrypt0.GetHeader n).drop 8) : Nat) : Int) = n := by
  obtain ⟨m, rfl⟩ := Int.eq_ofNat_of_zero_le h0
  have hm : m < 9223372036854775808 := by
    have : (m : Int) < 9223372036854775808 := by simpa using h1
    exact_mod_cast this
  rw [GetHeader_eq, Int.toNat_ofNat]
  refine ⟨rfl, rfl, rfl, ?_⟩
  show ((bigEndianValue (bigEndian64 m) : Nat) : Int) = (m : Int)
  have g7 : m / 72057594037927936 % 256 = m / 72057594037927936 := by omega
  have g6 : m / 72057594037927936 * 256 + m / 281474976710656 % 256 = m / 281474976710656 := by
    omega
  have g5 : m / 281474976710656 * 256 + m / 1099511627776 % 256 = m / 1099511627776 := by
    clear g6 g7; omega
  have g4 : m / 1099511627776 * 256 + m / 4294967296 % 256 = m / 4294967296 := by
    clear g5 g6 g7; omega
  have g3 : m / 4294967296 * 256 + m / 16777216 % 256 = m / 16777216 := by
    clear g4 g5 g6 g7; omega
  have g2 : m / 16777216 * 256 + m / 65536 % 256 = m / 65536 := by
    clear g3 g4 g5 g6 g7; omega
  have g1 : m / 65536 * 256 + m / 256 % 256 = m / 256 := by
    clear g2 g3 g4 g5 g6 g7; omega
  have g0 : m / 256 * 256 + m / 1 % 256 = m := by
    clear g1 g2 g3 g4 g5 g6 g7; omega
  have hv : bigEndianValue (bigEndian64 m)
      = (((((((0 * 256 + m / 72057594037927936 % 256) * 256 + m / 281474976710656 % 256) * 256
          + m / 1099511627776 % 256) * 256 + m / 4294967296 % 256) * 256
          + m / 16777216 % 256) * 256 + m / 65536 % 256) * 256 + m / 256 % 256) * 256
          + m / 1 % 256 := rfl
  rw [hv, Nat.zero_mul, Nat.zero_add, g7, g6, g5, g4, g3, g2, g1, g0]

theorem GetHeader_layout_witness :
    (Encrypt0.GetHeader 258).length = 16 ∧
      (Encrypt0.GetHeader 258).take 8 = List.replicate 8 0 ∧
      (Encrypt0.GetHeader 258).drop 8 = bigEndian64 (258 : Int).toNat ∧
      ((bigEndianValue ((Encrypt0.GetHeader 258).drop 8) : Nat) : Int) = 258 :=
  GetHeader_layout 258 (by decide) (by decide)

/-- C2. The probe: for a ciphertext of at least 88 bytes and a candidate
pad of at least 136 bytes, `CheckIntegrity` returns, and it returns true
exactly when the fast test holds (CFB-decrypting ciphertext bytes 16..23
under the key `pad[96:128]` and the IV `ct[0:16]` gives `pad[128:136]`) and
the tag test holds (the last 64 bytes are the HMAC, keyed with `pad[0:96]`,
of the bytes before them); hence it returns true on every container that
the encryptor makes with that pad. -/
theorem probe_iff (P : Prims) (w : Decrypt0.World) (ct pad : List Nat)
    (hw : Decrypt0.Probing w ct pad) (hct : 88 ≤ ct.length) (hpad : 136 ≤ pad.length) :
    (∃ b w2, Decrypt0.CheckIntegrity P w = .ok (b, w2) ∧
      (b = true ↔ fastTest P ct pad ∧ tagTest P ct pad)) ∧
    (∀ plain iv short, P.tag64 → iv.length = 16 → 144 + plain.length ≤ pad.length →
      ct = container P plain pad iv short →
      ∃ w2, Decrypt0.CheckIntegrity P w = .ok (true, w2)) := by
  obtain ⟨w2, hc, _⟩ := Decrypt0.CheckIntegrity_ok P w ct pad hw hct hpad
  refine ⟨⟨_, w2, hc, by simp⟩, ?_⟩
  intro plain iv short hP hiv hlen hcon
  refine ⟨w2, ?_⟩
  rw [hc, hcon]
  have h1 := container_fastTest P plain pad iv short hiv (by omega)
  have h2 := container_tagTest P hP plain pad iv short
  simp [h1, h2]

set_option maxRecDepth 100000 in
theorem probe_iff_witness :
    (∃ b w2, Decrypt0.CheckIntegrity samplePrims (sampleDec (sampleContainer false)) = .ok (b, w2) ∧
      (b = true ↔ fastTest samplePrims (sampleContainer false) samplePad ∧
        tagTest samplePrims (sampleContainer false) samplePad)) ∧
    (∀ plain iv short, samplePrims.tag64 → iv.length = 16 →
      144 + plain.length ≤ samplePad.length →
      sampleContainer false = container samplePrims plain samplePad iv short →
      ∃ w2, Decrypt0.CheckIntegrity samplePrims (sampleDec (sampleContainer false))
        = .ok (true, w2)) :=
  probe_iff samplePrims (sampleDec (sampleContainer false)) (sampleContainer false) samplePad
    (by unfold Decrypt0.Probing; decide) (by decide) (by decide)

/-- C6. Authentication: take a container that the encryptor makes, flip
one bit of it, and run `decrypt0` on the result with the matched pad as
the pad argument.  When HMAC gives the container's authenticated part a
tag that no other message of the same length has, the run ends with exit
code 1 ("no valid pad") and leaves the file system as it was: no output
file is created. -/
theorem bitflip_rejected (P : Prims) (hP : P.tag64) (plain pad iv : List Nat) (short : Bool)
    (i j : Nat) (fs : FS) (wfail : List Bool) (prog cn pn : String)
    (hlen : (pad.length : Int) - (plain.length : Int) ≥ 144) (hiv : iv.length = 16)
    (hi : i < (container P plain pad iv short).length) (hj : j < 8)
    (hinj : ∀ m : List Nat, m.length = (iv ++ cipherStream P plain pad iv short).length →
      m ≠ iv ++ cipherStream P plain pad iv short →
      P.hmac (pad.take 96) m ≠ P.hmac (pad.take 96) (iv ++ cipherStream P plain pad iv short))
    (hcn : encSuffix cn)
    (hc : fs.holds cn (flipBit (container P plain pad iv short) i j))
    (hp : fs.holds pn pad) :
    (Decrypt0.main P [prog, cn, pn] fs wfail).status = .exit Decrypt0.ExitNoValidPad ∧
      (Decrypt0.main P [prog, cn, pn] fs wfail).fs = fs := by
  have _ := hj
  have hl := container_length P hP plain pad iv short hiv (by omega)
  have h88 : 88 ≤ (flipBit (container P plain pad iv short) i j).length := by
    rw [flipBit_length, hl]
    cases short
    · simp only [Bool.false_eq_true, if_false]
      omega
    · simp only [if_true]
      omega
  refine Decrypt0.main_no_pad P fs wfail prog cn pn _ (.file pad) hc hcn h88
    ((holdsBytes_iff _ _).mp hp) ?_
  unfold searchOn
  rw [if_neg]
  intro ha
  exact flipped_tagTest P hP plain pad iv short i j hi hinj ha.2.2.2

set_option maxRecDepth 100000 in
theorem bitflip_rejected_witness :
    (Decrypt0.main samplePrims ["decrypt0", "m.enc", "k.r.pad"]
        (sampleDecFS (flipBit (sampleContainer false) 20 3)) []).status
      = .exit Decrypt0.ExitNoValidPad ∧
    (Decrypt0.main samplePrims ["decrypt0", "m.enc", "k.r.pad"]
        (sampleDecFS (flipBit (sampleContainer false) 20 3)) []).fs
      = sampleDecFS (flipBit (sampleContainer false) 20 3) :=
  bitflip_rejected samplePrims samplePrims_tag64 samplePlain samplePad sampleIv false 20 3
    (sampleDecFS (flipBit (sampleContainer false) 20 3)) [] "decrypt0" "m.enc" "k.r.pad"
    (by decide) (by decide) (by decide) (by decide)
    (fun m hl hne heq => hne (samplePrims_inj _ m _ hl (by decide) heq))
    (by decide) (by decide) (by decide)

set_option maxRecDepth 100000 in
/-- C7, as stated, fails: with an empty ciphertext `m.enc` and a regular
pad `k.r.pad` of 150 bytes, no pad can authenticate, yet for no choice of
the primitives does the run end with exit code 1: the probe's read of the
IV comes up short and `FatalCheck` ends the run with code 9. -/
theorem short_ciphertext_fatal :
    ¬ ∃ P : Prims,
      (Decrypt0.main P ["decrypt0", "m.enc", "k.r.pad"] emptyCipherFS []).status
        = .exit Decrypt0.ExitNoValidPad := by
  rintro ⟨P, h⟩
  have h9 : (Decrypt0.main P ["decrypt0", "m.enc", "k.r.pad"] emptyCipherFS []).status
      = .exit Decrypt0.ExitError := by rfl
  rw [h9] at h
  exact absurd h (by decide)

/-- C7, amended. For a ciphertext file of at least 88 bytes and a pad
argument that exists (a file, or a directory tree): if the depth-first
search of `FindPad` gets through without an answer (every object it meets
can be examined and no candidate authenticates the ciphertext), `decrypt0`
ends with exit code 1 and leaves the file system as it was: no plaintext
file is created, and the run does not end with code 9 or with a run-time
fault.  If the search meets, before any candidate authenticates, an object
that cannot be examined (a link that leads nowhere, a directory that cannot
be listed, a file that would be probed and cannot be opened), the run ends
with exit code 9, the file system being as it was. -/
theorem no_pad_exit (P : Prims) (fs : FS) (wfail : List Bool) (prog cn pn : String)
    (ct : List Nat) (node : Node) (hcn : encSuffix cn) (hc : fs.holds cn ct)
    (h88 : 88 ≤ ct.length) (hp : fs pn = some node) :
    (searchOn P ct pn node = .absent →
      (Decrypt0.main P [prog, cn, pn] fs wfail).status = .exit Decrypt0.ExitNoValidPad ∧
      (Decrypt0.main P [prog, cn, pn] fs wfail).status ≠ .exit Decrypt0.ExitError ∧
      (Decrypt0.main P [prog, cn, pn] fs wfail).status ≠ .fault ∧
      (Decrypt0.main P [prog, cn, pn] fs wfail).fs = fs) ∧
    (searchOn P ct pn node = .stopped →
      (Decrypt0.main P [prog, cn, pn] fs wfail).status = .exit Decrypt0.ExitError ∧
      (Decrypt0.main P [prog, cn, pn] fs wfail).fs = fs) := by
  refine ⟨fun hnone => ?_, fun hstop => ?_⟩
  · obtain ⟨h1, h2⟩ := Decrypt0.main_no_pad P fs wfail prog cn pn ct node hc hcn h88 hp hnone
    refine ⟨h1, ?_, ?_, h2⟩
    · rw [h1]
      decide
    · rw [h1]
      decide
  · exact Decrypt0.main_stopped P fs wfail prog cn pn ct node hc hcn h88 hp hstop

set_option maxRecDepth 100000 in
theorem no_pad_exit_witness :
    ((Decrypt0.main samplePrims ["decrypt0", "m.enc", "d"] decoyPadFS []).status
        = .exit Decrypt0.ExitNoValidPad ∧
      (Decrypt0.main samplePrims ["decrypt0", "m.enc", "d"] decoyPadFS []).status
        ≠ .exit Decrypt0.ExitError ∧
      (Decrypt0.main samplePrims ["decrypt0", "m.enc", "d"] decoyPadFS []).status ≠ .fault ∧
      (Decrypt0.main samplePrims ["decrypt0", "m.enc", "d"] decoyPadFS []).fs = decoyPadFS) ∧
    ((Decrypt0.main samplePrims ["decrypt0", "m.enc", "d"] brokenDirFS []).status
        = .exit Decrypt0.ExitError ∧
      (Decrypt0.main samplePrims ["decrypt0", "m.enc", "d"] brokenDirFS []).fs = brokenDirFS) :=
  ⟨(no_pad_exit samplePrims decoyPadFS [] "decrypt0" "m.enc" "d" (sampleContainer false)
      (.dir [("a.r.pad", .file (List.replicate 150 0)),
             ("s", .dir [("b.r.pad", .file (List.replicate 200 2))]),
             ("z.r.pad", .file (List.replicate 150 1))])
      (by decide) (by decide) (by decide) rfl).1 (by decide),
   (no_pad_exit samplePrims brokenDirFS [] "decrypt0" "m.enc" "d" (sampleContainer false)
      (.dir [("a.r.pad", .file (List.replicate 150 0)),
             ("gone", .dangling),
             ("k.r.pad", .file samplePad)])
      (by decide) (by decide) (by decide) rfl).2 (by decide)⟩

set_option maxRecDepth 100000 in
/-- C8, as stated, fails: with the pad argument `d`, a directory in which
the matching pad lies two levels down as `d/s/k.r.pad`, `FindPad` returns
true and leaves that path in `PadName`: it went into the sub-directory
`d/s` and tried the pad there. -/
theorem nested_pad_found :
    Decrypt0.found samplePrims (Decrypt0.parsed nestedPadFS [] "m.enc" "d")
      = some "d/s/k.r.pad" := by
  have hs : searchOn samplePrims (sampleContainer false) "d"
      (.dir [("a.r.pad", .file (List.replicate 150 0)),
             ("s", .dir [("k.r.pad", .file samplePad)]),
             ("z.r.pad", .file (List.replicate 150 1))])
      = .found "d/s/k.r.pad" samplePad := by decide
  obtain ⟨r, hr, p1, _, _, _, _, _, _, p8⟩ :=
    Decrypt0.FindPad_spec samplePrims nestedPadFS [] "m.enc" "d" (sampleContainer false)
      (.dir [("a.r.pad", .file (List.replicate 150 0)),
             ("s", .dir [("k.r.pad", .file samplePad)]),
             ("z.r.pad", .file (List.replicate 150 1))])
      (by decide) (by decide) (by decide) rfl (by rw [hs]; decide)
  rw [hs] at p1 p8
  unfold Decrypt0.found
  rw [hr]
  have p1b : r.1 = true := p1
  simp only [p1b, if_true]
  rw [p8.1]

/-- C8, amended. When the pad argument is a directory, `FindPad` is a
depth-first search of the whole tree below it in listing order: it calls
itself on every entry, sub-directories included.  Stated for a ciphertext
of at least 88 bytes.  If the search stops (at the first object that cannot
be examined, before any pad has authenticated) `FindPad` ends the run with
exit code 9.  Otherwise it returns, true exactly when the search has an
answer, with the answer's path in `PadName`, and it leaves the file system
as it was.  The answer is the first regular file in that order that
authenticates: it is at least 48 bytes longer than the ciphertext, the
first occurrence of `.r.pad` in its whole path (the directory names
included) ends the path, and it passes the probe.  So a pad at any depth is
tried, unless its path fails this suffix test, as it does when a directory
on the path has `.r.pad` in its name. -/
theorem FindPad_depth_first (P : Prims) (fs : FS) (wfail : List Bool) (cn pn : String)
    (ct : List Nat) (node : Node) (hcn : encSuffix cn) (hc : fs.holds cn ct)
    (h88 : 88 ≤ ct.length) (hp : fs pn = some node) :
    (searchOn P ct pn node = .stopped →
      ∃ e, Decrypt0.FindPad P (Decrypt0.parsed fs wfail cn pn) = .error e ∧
        e.status = .exit Decrypt0.ExitError ∧ e.fs = fs) ∧
    (searchOn P ct pn node ≠ .stopped →
      ∃ r, Decrypt0.FindPad P (Decrypt0.parsed fs wfail cn pn) = .ok r ∧
        r.1 = (searchOn P ct pn node).isFound ∧
        (∀ name pad, searchOn P ct pn node = .found name pad →
          r.2.PadName = name ∧ r.2.PadNode = some (.file pad) ∧
          (pad.length : Int) - (ct.length : Int) ≥ 48 ∧ padSuffix name ∧
          fastTest P ct pad ∧ tagTest P ct pad) ∧
        r.2.fs = fs) := by
  refine ⟨fun hstop => ?_, fun hns => ?_⟩
  · have hw := Decrypt0.FindPad_walk P fs wfail cn pn ct node hc hcn h88 hp
    rw [hstop] at hw
    exact hw
  · obtain ⟨r, hr, p1, p2, _, _, _, _, _, p8⟩ :=
      Decrypt0.FindPad_spec P fs wfail cn pn ct node hc hcn h88 hp hns
    refine ⟨r, hr, p1, ?_, p2⟩
    intro name pad ha
    rw [ha] at p8
    exact ⟨p8.1, p8.2, searchOn_auth P ct pn node name pad ha⟩

set_option maxRecDepth 100000 in
theorem FindPad_depth_first_witness :
    (∃ r, Decrypt0.FindPad samplePrims (Decrypt0.parsed nestedPadFS [] "m.enc" "d") = .ok r ∧
      r.1 = true ∧ r.2.PadName = "d/s/k.r.pad" ∧ r.2.PadNode = some (.file samplePad) ∧
      r.2.fs = nestedPadFS) ∧
    (∃ e, Decrypt0.FindPad samplePrims (Decrypt0.parsed brokenDirFS [] "m.enc" "d") = .error e ∧
      e.status = .exit Decrypt0.ExitError ∧ e.fs = brokenDirFS) := by
  have hs : searchOn samplePrims (sampleContainer false) "d"
      (.dir [("a.r.pad", .file (List.replicate 150 0)),
             ("s", .dir [("k.r.pad", .file samplePad)]),
             ("z.r.pad", .file (List.replicate 150 1))])
      = .found "d/s/k.r.pad" samplePad := by decide
  constructor
  · obtain ⟨r, hr, p1, p2, p3⟩ :=
      (FindPad_depth_first samplePrims nestedPadFS [] "m.enc" "d" (sampleContainer false)
        (.dir [("a.r.pad", .file (List.replicate 150 0)),
               ("s", .dir [("k.r.pad", .file samplePad)]),
               ("z.r.pad", .file (List.replicate 150 1))])
        (by decide) (by decide) (by decide) rfl).2 (by rw [hs]; decide)
    rw [hs] at p1
    exact ⟨r, hr, p1, (p2 _ _ hs).1, (p2 _ _ hs).2.1, p3⟩
  · exact (FindPad_depth_first samplePrims brokenDirFS [] "m.enc" "d" (sampleContainer false)
      (.dir [("a.r.pad", .file (List.replicate 150 0)),
             ("gone", .dangling),
             ("k.r.pad", .file samplePad)])
      (by decide) (by decide) (by decide) rfl).1 (by decide)

set_option maxRecDepth 100000 in
/-- C9, as stated, fails: run `encrypt0 m k.w.pad` where `m` has three bytes
and the pad has ten.  `CheckFiles` ends the run ("pad too short") before
`Init` renames anything: for no choice of primitives and IV is `k.w.pad`
gone or `k.x.pad` there afterwards. -/
theorem too_short_not_committed :
    ¬ ∃ (P : Prims) (iv : List Nat),
      (Encrypt0.main P iv ["encrypt0", "m", "k.w.pad"] shortPadFS []).fs "k.w.pad" = none ∨
      ((Encrypt0.main P iv ["encrypt0", "m", "k.w.pad"] shortPadFS []).fs "k.x.pad").isSome
        = true := by
  rintro ⟨P, iv, h⟩
  have hfs : (Encrypt0.main P iv ["encrypt0", "m", "k.w.pad"] shortPadFS []).fs = shortPadFS :=
    (Encrypt0.main_too_short P iv shortPadFS [] false "encrypt0" "m" "k.w.pad" samplePlain
      (List.range 10) (by decide) (by decide) (by decide) (by decide)).2
  rw [hfs] at h
  rcases h with h | h
  · exact absurd h (by simp [shortPadFS])
  · exact absurd h (by decide)

/-- C9, amended. Pad commit: take a run of `encrypt0` (with or without
`--short`) on a regular plaintext and a regular pad that can be read, whose
name ends in `.w.pad` and whose used name is not a directory.  If the
plaintext can be opened for reading and the pad exceeds it by at least 144
bytes, then whether the run succeeds or fails later (whatever output writes
fail), afterwards nothing is named by the pad's name and the `.x.pad` name
names a file with the pad's bytes.  If the pad does not exceed the
plaintext by 144 bytes, the run ends with exit code 1 and the file system
is as it was: the pad keeps its name.  If it does, but the plaintext cannot
be opened for reading, `Init` ends the run with exit code 9 before it
renames the pad: the file system is as it was, and the pad keeps its
name. -/
theorem pad_commit (P : Prims) (iv : List Nat) (fs : FS) (wfail : List Bool)
    (short : Bool) (prog pn wn : String) (plain pad : List Nat) (hw : padWSuffix wn)
    (hpad : fs.holds wn pad)
    (hx : fs.isDir (Replace wn Encrypt0.PadExt Encrypt0.UsedPadExt) = false) :
    (fs.holds pn plain → (pad.length : Int) - (plain.length : Int) ≥ 144 →
      (Encrypt0.main P iv (Encrypt0.argsOf short prog pn wn) fs wfail).fs wn = none ∧
      (Encrypt0.main P iv (Encrypt0.argsOf short prog pn wn) fs wfail).fs.holds
        (Replace wn Encrypt0.PadExt Encrypt0.UsedPadExt) pad) ∧
    (fs.holds pn plain ∨ fs pn = some (.unreadable plain) →
      (pad.length : Int) - (plain.length : Int) < 144 →
      (Encrypt0.main P iv (Encrypt0.argsOf short prog pn wn) fs wfail).status
        = .exit Encrypt0.ExitPadTooShort ∧
      (Encrypt0.main P iv (Encrypt0.argsOf short prog pn wn) fs wfail).fs = fs) ∧
    (fs pn = some (.unreadable plain) → (pad.length : Int) - (plain.length : Int) ≥ 144 →
      (Encrypt0.main P iv (Encrypt0.argsOf short prog pn wn) fs wfail).status
        = .exit Encrypt0.ExitError ∧
      (Encrypt0.main P iv (Encrypt0.argsOf short prog pn wn) fs wfail).fs = fs ∧
      (Encrypt0.main P iv (Encrypt0.argsOf short prog pn wn) fs wfail).fs.holds wn pad) := by
  have hpad2 := (holdsBytes_iff _ _).mp hpad
  refine ⟨fun hplain hlen => ?_, fun hplain hlen => ?_, fun hplain hlen => ?_⟩
  · obtain ⟨h1, h2⟩ := Encrypt0.main_commits P iv fs wfail short prog pn wn plain pad hw hplain
      hpad hlen hx
    exact ⟨h1, (holdsBytes_iff _ _).mpr h2⟩
  · rcases hplain with hplain | hplain
    · exact Encrypt0.main_too_short P iv fs wfail short prog pn wn plain pad hw hplain hpad hlen
    · exact Encrypt0.main_short_regular P iv fs wfail short prog pn wn (.unreadable plain)
        (.file pad) hw hplain hpad2 rfl rfl hlen
  · obtain ⟨h1, h2⟩ := Encrypt0.main_unopened P iv fs wfail short prog pn wn plain (.file pad) hw
      hplain hpad2 rfl hlen
    refine ⟨h1, h2, ?_⟩
    rw [h2]
    exact hpad

set_option maxRecDepth 100000 in
theorem pad_commit_witness :
    ((Encrypt0.main samplePrims sampleIv (Encrypt0.argsOf false "encrypt0" "m" "k.w.pad")
        sampleFS [false, true]).fs "k.w.pad" = none ∧
      (Encrypt0.main samplePrims sampleIv (Encrypt0.argsOf false "encrypt0" "m" "k.w.pad")
        sampleFS [false, true]).fs.holds
        (Replace "k.w.pad" Encrypt0.PadExt Encrypt0.UsedPadExt) samplePad) ∧
    ((Encrypt0.main samplePrims sampleIv (Encrypt0.argsOf false "encrypt0" "m" "k.w.pad")
        shortPadFS []).status = .exit Encrypt0.ExitPadTooShort ∧
      (Encrypt0.main samplePrims sampleIv (Encrypt0.argsOf false "encrypt0" "m" "k.w.pad")
        shortPadFS []).fs = shortPadFS) ∧
    ((Encrypt0.main samplePrims sampleIv (Encrypt0.argsOf false "encrypt0" "m" "k.w.pad")
        lockedPlainFS []).status = .exit Encrypt0.ExitError ∧
      (Encrypt0.main samplePrims sampleIv (Encrypt0.argsOf false "encrypt0" "m" "k.w.pad")
        lockedPlainFS []).fs = lockedPlainFS ∧
      (Encrypt0.main samplePrims sampleIv (Encrypt0.argsOf false "encrypt0" "m" "k.w.pad")
        lockedPlainFS []).fs.holds "k.w.pad" samplePad) :=
  ⟨(pad_commit samplePrims sampleIv sampleFS [false, true] false "encrypt0" "m" "k.w.pad"
      samplePlain samplePad (by decide) (by decide) (by decide)).1 (by decide) (by decide),
   (pad_commit samplePrims sampleIv shortPadFS [] false "encrypt0" "m" "k.w.pad"
      samplePlain (List.range 10) (by decide) (by decide) (by decide)).2.1
      (Or.inl (by decide)) (by decide),
   (pad_commit samplePrims sampleIv lockedPlainFS [] false "encrypt0" "m" "k.w.pad"
      samplePlain samplePad (by decide) (by decide) (by decide)).2.2 rfl (by decide)⟩

set_option maxRecDepth 100000 in
/-- C5 on the code: with one source of 48 zero bytes and a system generator
that delivers only 255, `InitRandom` keys the CTR stream with an all-zero
IV and an all-zero key, the bytes of the source alone, while the XOR of the
generator's bytes with the source's, which the claim describes, is all
255: `io.ReadFull(f, iv)` and `io.ReadFull(f, aesKey)` overwrite the
generator's bytes, and the buffers XORed in are the zeroed `_iv` and
`_aesKey`. -/
theorem InitRandom_drops_generator :
    Genpads0.seed zeroSourceGen = some (List.replicate 16 0, List.replicate 32 0) ∧
      mixedSeed (List.replicate 16 255) (List.replicate 32 255) [List.replicate 48 0]
        = (List.replicate 16 255, List.replicate 32 255) ∧
      Genpads0.seed zeroSourceGen
        ≠ some (mixedSeed (List.replicate 16 255) (List.replicate 32 255)
            [List.replicate 48 0]) := by
  decide

/-- C11. Header sanity: let the decryptor be about to run `DecryptInit` on
an authenticated ciphertext (at least 88 bytes, as the probe requires) with
the pad that `FindPad` accepted (at least 48 bytes longer).  Let `n` be
bytes 8..15 of the decrypted and unmasked header read as a signed 64-bit
big-endian integer.  If `n` is negative or `CiphertextSize - n < 96`,
`DecryptInit` ends the run with exit code 9, and the output file it had just
created is removed; otherwise it returns with `PlaintextSize = n`.  (A pad
of fewer than 144 bytes can only go with a ciphertext of fewer than 96
bytes, for which the condition holds whatever `n` is; the exit is then
taken one step earlier, at the read of the header mask, with the same code
and the same clean-up.) -/
theorem malformed_iff (P : Prims) (d : Decrypt0.World) (ct pad : List Nat)
    (hd : Decrypt0.Ready d ct pad) (h88 : 88 ≤ ct.length) (h48 : ct.length + 48 ≤ pad.length) :
    ((signedSize (unmaskedHeader P ct pad) < 0 ∨
        d.CiphertextSize - signedSize (unmaskedHeader P ct pad) < 96) →
      ∃ e, Decrypt0.DecryptInit P d = .error e ∧ e.status = .exit Decrypt0.ExitError ∧
        e.fs = d.fs.remove (Replace d.CiphertextName ".enc" "") ∧
        e.fs (Replace d.CiphertextName ".enc" "") = none) ∧
    (¬ (signedSize (unmaskedHeader P ct pad) < 0 ∨
        d.CiphertextSize - signedSize (unmaskedHeader P ct pad) < 96) →
      ∃ w, Decrypt0.DecryptInit P d = .ok w ∧
        w.PlaintextSize = signedSize (unmaskedHeader P ct pad)) := by
  obtain ⟨h1, h2, h3, h4, h5, h6, h7, h8, h9, h10⟩ := hd
  have h1b := (holdsBytes_iff _ _).mp h1
  have h2b := (holdsBytes_iff _ _).mp h2
  rw [h10]
  by_cases hp : pad.length < 144
  · constructor
    · intro _
      obtain ⟨e, he, hs, hfs⟩ := Decrypt0.DecryptInit_short_pad P d ct pad h1b h2b h3 h4 h5 h6 h7 h8
        (by omega) hp
      exact ⟨e, he, hs, hfs, by rw [hfs]; simp [FS.remove]⟩
    · intro hn
      exact absurd (by omega) hn
  · have hlen : (unmaskedHeader P ct pad).length = 16 := by
      unfold unmaskedHeader
      rw [xorBytes_length, XORKeyStream_length]
      simp
      omega
    have hsz : Decrypt0.sizeOf P ct pad = signedSize (unmaskedHeader P ct pad) :=
      decodeSize_signed _ hlen
    constructor
    · intro hbad
      rw [← hsz] at hbad
      obtain ⟨e, he, hs, hfs⟩ := Decrypt0.DecryptInit_malformed P d ct pad h1b h2b h3 h4 h5 h6 h7 h8
        h10 (by omega) (by omega) hbad
      exact ⟨e, he, hs, hfs, by rw [hfs]; simp [FS.remove]⟩
    · intro hok
      rw [← hsz] at hok ⊢
      rw [Decrypt0.DecryptInit_mid P d ct pad h1b h2b h3 h4 h5 h6 h7 h8 h9 h10 (by omega)
        (by omega) (by omega) (by omega)]
      exact ⟨_, rfl, rfl⟩

set_option maxRecDepth 100000 in
theorem malformed_iff_witness :
    ((signedSize (unmaskedHeader samplePrims (sampleContainer false) samplePad) < 0 ∨
        (sampleDec (sampleContainer false)).CiphertextSize
          - signedSize (unmaskedHeader samplePrims (sampleContainer false) samplePad) < 96) →
      ∃ e, Decrypt0.DecryptInit samplePrims (sampleDec (sampleContainer false)) = .error e ∧
        e.status = .exit Decrypt0.ExitError ∧
        e.fs = (sampleDec (sampleContainer false)).fs.remove
          (Replace (sampleDec (sampleContainer false)).CiphertextName ".enc" "") ∧
        e.fs (Replace (sampleDec (sampleContainer false)).CiphertextName ".enc" "") = none) ∧
    (¬ (signedSize (unmaskedHeader samplePrims (sampleContainer false) samplePad) < 0 ∨
        (sampleDec (sampleContainer false)).CiphertextSize
          - signedSize (unmaskedHeader samplePrims (sampleContainer false) samplePad) < 96) →
      ∃ w, Decrypt0.DecryptInit samplePrims (sampleDec (sampleContainer false)) = .ok w ∧
        w.PlaintextSize = signedSize (unmaskedHeader samplePrims (sampleContainer false) samplePad)) :=
  malformed_iff samplePrims (sampleDec (sampleContainer false)) (sampleContainer false) samplePad
    (by unfold Decrypt0.Ready; decide) (by decide) (by decide)

/-- C12. One continuous stream: for a plaintext and a pad that exceeds it
by at least 144 bytes, `Init` then `Encrypt` return and leave a container
`ct` of which bytes 0..15 are the IV and the bytes between the IV and the
64-byte tag are a single AES-CFB encryption (key `pad[96:128]`, that IV) of
the stream: header XOR `pad[128:144]`, then the plaintext XOR
`pad[144 : 144+|P|]`, then, in long mode only, the pad bytes from
`144+|P|` to the end.  The encryption of the stream is the same however the
stream is cut in two (so the 1 MiB blocks do not matter), the five pieces of
the pad that are used follow each other in the pad, and the pad file has been
read sequentially to its end in long mode (to `144+|P|` in short mode). -/
theorem continuous_stream (P : Prims) (hP : P.tag64) (plain pad iv : List Nat)
    (e : Encrypt0.World) (hlen : (pad.length : Int) - (plain.length : Int) ≥ 144)
    (hiv : iv.length = 16) (he : Encrypt0.Ready e plain pad) :
    ∃ w1 w2 ct stream, Encrypt0.Init iv e = .ok w1 ∧ Encrypt0.Encrypt P w1 = .ok w2 ∧
      fileBytes (w2.fs w2.CiphertextName) = some ct ∧
      stream = xorBytes (List.replicate 8 0 ++ bigEndian64 plain.length) ((pad.drop 128).take 16)
        ++ xorBytes plain ((pad.drop 144).take plain.length)
        ++ (if e.Short then [] else pad.drop (144 + plain.length)) ∧
      ct.take 16 = iv ∧
      (ct.drop 16).take (ct.length - 80)
        = ((CFB.New ((pad.drop 96).take 32) iv false).XORKeyStream P stream).2 ∧
      (∀ k, ((CFB.New ((pad.drop 96).take 32) iv false).XORKeyStream P stream).2
        = ((CFB.New ((pad.drop 96).take 32) iv false).XORKeyStream P (stream.take k)).2
          ++ (((CFB.New ((pad.drop 96).take 32) iv false).XORKeyStream P (stream.take k)).1.XORKeyStream
              P (stream.drop k)).2) ∧
      pad.take 96 ++ (pad.drop 96).take 32 ++ (pad.drop 128).take 16
        ++ (pad.drop 144).take plain.length ++ pad.drop (144 + plain.length) = pad ∧
      w2.Fpad = some (if e.Short then pad.drop (144 + plain.length) else []) := by
  obtain ⟨h1, h2, h3, h4, h5, h6, h7, h8⟩ := he
  have h1b := (holdsBytes_iff _ _).mp h1
  have h2b := (holdsBytes_iff _ _).mp h2
  have hs : xorBytes (List.replicate 8 0 ++ bigEndian64 plain.length) ((pad.drop 128).take 16)
        ++ xorBytes plain ((pad.drop 144).take plain.length)
        ++ (if e.Short then [] else pad.drop (144 + plain.length))
      = clearStream plain pad e.Short := by
    unfold clearStream
    rw [xorBytes_take_right plain _ _ (le_refl _)]
  refine ⟨_, _, container P plain pad iv e.Short, _,
    Encrypt0.Init_mid iv e plain pad h1b h2b h6 h7 h8 h5 (by omega),
    Encrypt0.Encrypt_afterInit P iv e plain pad h3 h4 (by omega), ?_, rfl, ?_, ?_, ?_, ?_, ?_⟩
  · simp [Encrypt0.mid, FS.set, fileBytes]
  · exact container_take_iv P plain pad iv e.Short hiv
  · rw [hs]
    have hl : (container P plain pad iv e.Short).length - 80
        = (cipherStream P plain pad iv e.Short).length := by
      simp [container, hP _ _, hiv]
      omega
    rw [hl]
    unfold container
    rw [List.append_assoc, List.drop_left' hiv]
    exact List.take_left' rfl
  · intro k
    have := XORKeyStream_append P (List.take k (xorBytes (List.replicate 8 0 ++ bigEndian64 plain.length) ((pad.drop 128).take 16)
        ++ xorBytes plain ((pad.drop 144).take plain.length)
        ++ (if e.Short then [] else pad.drop (144 + plain.length))))
      (List.drop k (xorBytes (List.replicate 8 0 ++ bigEndian64 plain.length) ((pad.drop 128).take 16)
        ++ xorBytes plain ((pad.drop 144).take plain.length)
        ++ (if e.Short then [] else pad.drop (144 + plain.length))))
      (CFB.New ((pad.drop 96).take 32) iv false)
    rw [List.take_append_drop] at this
    rw [this]
  · have e1 : pad.drop 128 = (pad.drop 96).drop 32 := by rw [List.drop_drop]
    have e2 : pad.drop 144 = (pad.drop 128).drop 16 := by rw [List.drop_drop]
    have e3 : pad.drop (144 + plain.length) = (pad.drop 144).drop plain.length := by
      rw [List.drop_drop, Nat.add_comm]
    rw [e3, List.append_assoc, List.append_assoc, List.append_assoc, List.take_append_drop,
      e2, List.take_append_drop, e1, List.take_append_drop, List.take_append_drop]
  · rfl

set_option maxRecDepth 100000 in
theorem continuous_stream_witness :
    ∃ w1 w2 ct stream, Encrypt0.Init sampleIv (sampleEnc false) = .ok w1 ∧
      Encrypt0.Encrypt samplePrims w1 = .ok w2 ∧
      fileBytes (w2.fs w2.CiphertextName) = some ct ∧
      stream = xorBytes (List.replicate 8 0 ++ bigEndian64 samplePlain.length)
          ((samplePad.drop 128).take 16)
        ++ xorBytes samplePlain ((samplePad.drop 144).take samplePlain.length)
        ++ (if (sampleEnc false).Short then [] else samplePad.drop (144 + samplePlain.length)) ∧
      ct.take 16 = sampleIv ∧
      (ct.drop 16).take (ct.length - 80)
        = ((CFB.New ((samplePad.drop 96).take 32) sampleIv false).XORKeyStream samplePrims stream).2 ∧
      (∀ k, ((CFB.New ((samplePad.drop 96).take 32) sampleIv false).XORKeyStream samplePrims stream).2
        = ((CFB.New ((samplePad.drop 96).take 32) sampleIv false).XORKeyStream samplePrims
            (stream.take k)).2
          ++ (((CFB.New ((samplePad.drop 96).take 32) sampleIv false).XORKeyStream samplePrims
              (stream.take k)).1.XORKeyStream samplePrims (stream.drop k)).2) ∧
      samplePad.take 96 ++ (samplePad.drop 96).take 32 ++ (samplePad.drop 128).take 16
        ++ (samplePad.drop 144).take samplePlain.length
        ++ samplePad.drop (144 + samplePlain.length) = samplePad ∧
      w2.Fpad = some (if (sampleEnc false).Short then samplePad.drop (144 + samplePlain.length)
        else []) :=
  continuous_stream samplePrims samplePrims_tag64 samplePlain samplePad sampleIv (sampleEnc false)
    (by decide) (by decide) (by unfold Encrypt0.Ready; decide)

/-- C13. Pad too short: run `encrypt0` (with or without `--short`) on a
regular plaintext file and a regular pad file whose name ends in `.w.pad`.
If `pad_size - plaintext_size < 144`, the run ends with exit code 1 and the
file system is as it was: no output file is created.  If
`pad_size - plaintext_size ≥ 144`, the run never ends with exit code 1,
whatever happens later (whatever output writes fail). -/
theorem pad_too_short_exit (P : Prims) (iv : List Nat) (fs : FS) (wfail : List Bool)
    (short : Bool) (prog pn wn : String) (plain pad : List Nat) (hw : padWSuffix wn)
    (hplain : fs.holds pn plain) (hpad : fs.holds wn pad) :
    ((pad.length : Int) - (plain.length : Int) < 144 →
      (Encrypt0.main P iv (Encrypt0.argsOf short prog pn wn) fs wfail).status
        = .exit Encrypt0.ExitPadTooShort ∧
      (Encrypt0.main P iv (Encrypt0.argsOf short prog pn wn) fs wfail).fs = fs) ∧
    ((pad.length : Int) - (plain.length : Int) ≥ 144 →
      (Encrypt0.main P iv (Encrypt0.argsOf short prog pn wn) fs wfail).status
        ≠ .exit Encrypt0.ExitPadTooShort) :=
  ⟨fun hlen => Encrypt0.main_too_short P iv fs wfail short prog pn wn plain pad hw hplain hpad hlen,
    fun hlen => Encrypt0.main_not_short P iv fs wfail short prog pn wn plain pad hw hplain hpad hlen⟩

set_option maxRecDepth 100000 in
theorem pad_too_short_exit_witness :
    (((List.range 10).length : Int) - (samplePlain.length : Int) < 144 →
      (Encrypt0.main samplePrims sampleIv (Encrypt0.argsOf true "encrypt0" "m" "k.w.pad")
        shortPadFS []).status = .exit Encrypt0.ExitPadTooShort ∧
      (Encrypt0.main samplePrims sampleIv (Encrypt0.argsOf true "encrypt0" "m" "k.w.pad")
        shortPadFS []).fs = shortPadFS) ∧
    (((List.range 10).length : Int) - (samplePlain.length : Int) ≥ 144 →
      (Encrypt0.main samplePrims sampleIv (Encrypt0.argsOf true "encrypt0" "m" "k.w.pad")
        shortPadFS []).status ≠ .exit Encrypt0.ExitPadTooShort) :=
  pad_too_short_exit samplePrims sampleIv shortPadFS [] true "encrypt0" "m" "k.w.pad"
    samplePlain (List.range 10) (by decide) (by decide) (by decide)

/-- C14. Pad pair identity: whenever a call `GeneratePad(padName, padCopy)`
with a non-empty `padCopy` returns, both names name a regular file, the two
files hold the same bytes, and these are exactly `Size × 1024` bytes. -/
theorem pad_pair_identical (P : Prims) (padName padCopy : String) (w w2 : Genpads0.World)
    (h : Genpads0.GeneratePad P padName padCopy w = .ok w2) (hc : padCopy ≠ "") :
    ∃ bytes, w2.fs padName = some (.file bytes) ∧ w2.fs padCopy = some (.file bytes) ∧
      bytes.length = w.Size * 1024 := by
  obtain ⟨h1, h2, h3, _, _, _, _⟩ := Genpads0.pad_bytes P padName padCopy w w2 h
  refine ⟨_, h1, ?_, ?_⟩
  · rw [h2 hc, h1]
  · rw [xorBytes_length, h3, CTR.keyStream, CTR_XORKeyStream_length, List.length_replicate]
    omega

theorem pad_pair_identical_witness :
    ∃ w2, Genpads0.GeneratePad samplePrims "k.w.pad" "k.r.pad" sampleGen = .ok w2 ∧
      ∃ bytes, w2.fs "k.w.pad" = some (.file bytes) ∧ w2.fs "k.r.pad" = some (.file bytes) ∧
        bytes.length = sampleGen.Size * 1024 := by
  obtain ⟨w2, h⟩ := Genpads0.GeneratePad_returns samplePrims "k.w.pad" "k.r.pad" sampleGen rfl
    (by decide) (by decide) rfl rfl (by
      show ∀ f ∈ [List.replicate 3000 5, List.replicate 2500 9], 1024 * 2 ≤ f.length
      intro f hf
      rcases List.mem_cons.mp hf with e | e
      · rw [e, List.length_replicate]
        decide
      · rw [List.mem_singleton.mp e, List.length_replicate]
        decide)
  exact ⟨w2, h, pad_pair_identical samplePrims "k.w.pad" "k.r.pad" sampleGen w2 h (by decide)⟩

/-- C15. Pad blocks: whenever a call of `GeneratePad` returns, block `i` of
the pad it wrote (bytes `1024 i` to `1024 i + 1023`, for every `i < Size`)
is the XOR of the accumulator of block `i` with the next 1024 bytes of the
CTR key stream (bytes `1024 i` onwards of the key stream of the cipher as
it stood at the call).  The accumulator is 1024 fresh bytes of the system
generator with, for every source in `Sources`, whatever its class, the next
1024 bytes of that source XORed in.  The call leaves the generator, every
source and the cipher advanced by `Size` blocks, so the next pad goes on
from there. -/
theorem pad_block_mix (P : Prims) (padName padCopy : String) (w w2 : Genpads0.World)
    (h : Genpads0.GeneratePad P padName padCopy w = .ok w2) (i : Nat) (hi : i < w.Size) :
    ∃ bytes, w2.fs padName = some (.file bytes) ∧
      (bytes.drop (1024 * i)).take 1024
        = xorBytes (Genpads0.accumulator w i)
            (((CTR.keyStream P w.Cipher (1024 * w.Size)).drop (1024 * i)).take 1024) ∧
      Genpads0.accumulator w i
        = w.Sources.foldl (fun acc s => xorBytes acc ((s.drop (1024 * i)).take 1024))
            ((List.range 1024).map (fun j => w.rng (w.used + 1024 * i + j))) ∧
      (Genpads0.accumulator w i).length = 1024 ∧
      (((CTR.keyStream P w.Cipher (1024 * w.Size)).drop (1024 * i)).take 1024).length = 1024 ∧
      w2.used = w.used + 1024 * w.Size ∧
      w2.Sources = w.Sources.map (fun f => f.drop (1024 * w.Size)) ∧
      w2.Cipher = (w.Cipher.XORKeyStream P (List.replicate (1024 * w.Size) 0)).1 := by
  obtain ⟨h1, _, h3, h4, h5, h6, h7⟩ := Genpads0.pad_bytes P padName padCopy w w2 h
  refine ⟨_, h1, ?_, rfl, h4 i hi, ?_, h7, h6, h5⟩
  · simp only [xorBytes, List.drop_zipWith, List.take_zipWith]
    rw [mixed_block w w.Size h4 i hi]
  · rw [List.length_take, List.length_drop, CTR.keyStream, CTR_XORKeyStream_length,
      List.length_replicate]
    have : 1024 * (i + 1) ≤ 1024 * w.Size := Nat.mul_le_mul_left _ hi
    omega

theorem pad_block_mix_witness :
    ∃ w2, Genpads0.GeneratePad samplePrims "k.w.pad" "" sampleGen = .ok w2 ∧
      ∃ bytes, w2.fs "k.w.pad" = some (.file bytes) ∧
      (bytes.drop (1024 * 1)).take 1024
        = xorBytes (Genpads0.accumulator sampleGen 1)
            (((CTR.keyStream samplePrims sampleGen.Cipher (1024 * sampleGen.Size)).drop
              (1024 * 1)).take 1024) ∧
      Genpads0.accumulator sampleGen 1
        = sampleGen.Sources.foldl (fun acc s => xorBytes acc ((s.drop (1024 * 1)).take 1024))
            ((List.range 1024).map (fun j => sampleGen.rng (sampleGen.used + 1024 * 1 + j))) ∧
      (Genpads0.accumulator sampleGen 1).length = 1024 ∧
      (((CTR.keyStream samplePrims sampleGen.Cipher (1024 * sampleGen.Size)).drop
        (1024 * 1)).take 1024).length = 1024 ∧
      w2.used = sampleGen.used + 1024 * sampleGen.Size ∧
      w2.Sources = sampleGen.Sources.map (fun f => f.drop (1024 * sampleGen.Size)) ∧
      w2.Cipher = (sampleGen.Cipher.XORKeyStream samplePrims
        (List.replicate (1024 * sampleGen.Size) 0)).1 := by
  obtain ⟨w2, h⟩ := Genpads0.GeneratePad_returns samplePrims "k.w.pad" "" sampleGen rfl
    (by decide) (by decide) rfl rfl (by
      show ∀ f ∈ [List.replicate 3000 5, List.replicate 2500 9], 1024 * 2 ≤ f.length
      intro f hf
      rcases List.mem_cons.mp hf with e | e
      · rw [e, List.length_replicate]
        decide
      · rw [List.mem_singleton.mp e, List.length_replicate]
        decide)
  exact ⟨w2, h, pad_block_mix samplePrims "k.w.pad" "" sampleGen w2 h 1 (by decide)⟩

/-- C19. Two-way channel: whenever the run `genpads0 size count A B` gets
through `DoTheWork`, `size` and `count` are numbers `sz` and `n`, and the
calls of `GeneratePad` made are exactly `2 n`: first `n` calls for the
direction `A` to `B`, then `n` calls for `B` to `A`.  The call for a
direction `S` to `R` has the arguments `S.pads/R/<base>.w.pad` and
`R.pads/S/<base>.r.pad` with one and the same `<base>`:
`strconv.FormatInt(t, 16)`, the lower-case hexadecimal of the clock reading
`t` (in nanoseconds) taken for that call, each call taking the next
reading.  Every one of these calls has written its two files: when the run
ends, both names of each call name a regular file in the file system, and
the two files of a call hold one and the same `sz × 1024` bytes.  No other
regular file is touched: one whose name is not among these still holds what
it held before the run. -/
theorem two_way_pads (P : Prims) (csv : List Nat → Option (List (List String)))
    (prog size count a b : String) (w w2 : Genpads0.World)
    (h : Genpads0.run P csv [prog, size, count, a, b] w = .ok w2) :
    ∃ sz n, ParseUint size = some sz ∧ ParseUint count = some n ∧
      w2.calls = w.calls ++
        ((List.range n).map (fun k => padPair a b (FormatInt16 (w.clock (w.ticks + k))))
          ++ (List.range n).map (fun k => padPair b a (FormatInt16 (w.clock (w.ticks + n + k))))) ∧
      ((List.range n).map (fun k => padPair a b (FormatInt16 (w.clock (w.ticks + k))))
          ++ (List.range n).map
            (fun k => padPair b a (FormatInt16 (w.clock (w.ticks + n + k))))).length = 2 * n ∧
      (∀ q ∈ (List.range n).map (fun k => padPair a b (FormatInt16 (w.clock (w.ticks + k))))
          ++ (List.range n).map (fun k => padPair b a (FormatInt16 (w.clock (w.ticks + n + k)))),
        ∃ bytes, w2.fs q.1 = some (.file bytes) ∧ w2.fs q.2 = some (.file bytes) ∧
          bytes.length = sz * 1024) ∧
      (∀ name bytes,
        (∀ q ∈ (List.range n).map (fun k => padPair a b (FormatInt16 (w.clock (w.ticks + k))))
            ++ (List.range n).map
              (fun k => padPair b a (FormatInt16 (w.clock (w.ticks + n + k)))),
          name ≠ q.1 ∧ name ≠ q.2) →
        w.fs name = some (.file bytes) → w2.fs name = some (.file bytes)) ∧
      ∀ s r base, padPair s r base
        = (s ++ ".pads" ++ "/" ++ r ++ "/" ++ base ++ ".w.pad",
           r ++ ".pads" ++ "/" ++ s ++ "/" ++ base ++ ".r.pad") := by
  unfold Genpads0.run at h
  have e5 : [prog, size, count, a, b].length = 5 := rfl
  simp only [e5, Nat.reduceEqDiff, if_false, if_true] at h
  unfold Genpads0.parseSizes at h
  simp only [List.getD_cons_succ, List.getD_cons_zero] at h
  cases hs : ParseUint size with
  | none =>
    rw [hs] at h
    exact absurd h (by simp)
  | some sz =>
    rw [hs] at h
    simp only at h
    cases hn : ParseUint count with
    | none =>
      rw [hn] at h
      exact absurd h (by simp)
    | some n =>
      rw [hn] at h
      simp only at h
      cases hi : Genpads0.InitRandom { w with Size := sz, Number := n } with
      | error e =>
        rw [hi] at h
        exact absurd h (by simp)
      | ok w1 =>
        rw [hi] at h
        simp only at h
        obtain ⟨f1, f2, f3, _, f5, f6⟩ := Genpads0.InitRandom_frame _ w1 hi
        have hc := Genpads0.DoTheWork_pair P a b _ w2 rfl h
        have hf := Genpads0.DoTheWork_files P a b _ w2 rfl h
        have ho := Genpads0.DoTheWork_others P a b _ w2 rfl h
        have hfs := Genpads0.InitRandom_fs _ w1 hi
        simp only [f1, f2, f3, f5] at hc
        simp only [f2, f3, f5, f6] at hf
        simp only [f2, f3, f5, hfs] at ho
        refine ⟨sz, n, rfl, rfl, hc, ?_, hf, ho, fun _ _ _ => rfl⟩
        simp only [List.length_append, List.length_map, List.length_range]
        omega

set_option maxRecDepth 100000 in
theorem two_way_pads_witness :
    ∃ w2, Genpads0.run samplePrims (fun _ => none) ["genpads0", "1", "2", "Alice", "Bob"]
        sampleGenStart = .ok w2 ∧
      ∃ sz n, ParseUint "1" = some sz ∧ ParseUint "2" = some n ∧
      w2.calls = sampleGenStart.calls ++
        ((List.range n).map (fun k => padPair "Alice" "Bob"
            (FormatInt16 (sampleGenStart.clock (sampleGenStart.ticks + k))))
          ++ (List.range n).map (fun k => padPair "Bob" "Alice"
            (FormatInt16 (sampleGenStart.clock (sampleGenStart.ticks + n + k))))) ∧
      ((List.range n).map (fun k => padPair "Alice" "Bob"
            (FormatInt16 (sampleGenStart.clock (sampleGenStart.ticks + k))))
          ++ (List.range n).map (fun k => padPair "Bob" "Alice"
            (FormatInt16 (sampleGenStart.clock (sampleGenStart.ticks + n + k))))).length = 2 * n ∧
      (∀ q ∈ (List.range n).map (fun k => padPair "Alice" "Bob"
            (FormatInt16 (sampleGenStart.clock (sampleGenStart.ticks + k))))
          ++ (List.range n).map (fun k => padPair "Bob" "Alice"
            (FormatInt16 (sampleGenStart.clock (sampleGenStart.ticks + n + k)))),
        ∃ bytes, w2.fs q.1 = some (.file bytes) ∧ w2.fs q.2 = some (.file bytes) ∧
          bytes.length = sz * 1024) ∧
      (∀ name bytes,
        (∀ q ∈ (List.range n).map (fun k => padPair "Alice" "Bob"
              (FormatInt16 (sampleGenStart.clock (sampleGenStart.ticks + k))))
            ++ (List.range n).map (fun k => padPair "Bob" "Alice"
              (FormatInt16 (sampleGenStart.clock (sampleGenStart.ticks + n + k)))),
          name ≠ q.1 ∧ name ≠ q.2) →
        sampleGenStart.fs name = some (.file bytes) → w2.fs name = some (.file bytes)) ∧
      ∀ s r base, padPair s r base
        = (s ++ ".pads" ++ "/" ++ r ++ "/" ++ base ++ ".w.pad",
           r ++ ".pads" ++ "/" ++ s ++ "/" ++ base ++ ".r.pad") := by
  cases h : Genpads0.run samplePrims (fun _ => none) ["genpads0", "1", "2", "Alice", "Bob"]
      sampleGenStart with
  | error e =>
    have ht : (Genpads0.run samplePrims (fun _ => none) ["genpads0", "1", "2", "Alice", "Bob"]
        sampleGenStart).toBool = true := by decide
    rw [h] at ht
    exact absurd ht Bool.false_ne_true
  | ok w2 =>
    exact ⟨w2, rfl, two_way_pads samplePrims (fun _ => none) "genpads0" "1" "2" "Alice" "Bob"
      sampleGenStart w2 h⟩

set_option maxRecDepth 100000 in
/-- C16, as stated, fails in short mode: encrypt the three-byte sample
plaintext with the 150-byte sample pad and `--short`, giving a container of
99 bytes, and run `decrypt0 m.enc k.r.pad` where `k.r.pad` holds the first
149 bytes of the pad.  The pad is still 50 bytes longer than the
container, its first 144 bytes are those of the whole pad, and the run ends
with exit code 0, not 1, having written the plaintext to `m`. -/
theorem truncated_pad_accepted :
    (Decrypt0.main samplePrims ["decrypt0", "m.enc", "k.r.pad"] truncatedPadFS []).status
        = .exit Decrypt0.ExitSuccess ∧
      (Decrypt0.main samplePrims ["decrypt0", "m.enc", "k.r.pad"] truncatedPadFS []).status
        ≠ .exit Decrypt0.ExitNoValidPad ∧
      (Decrypt0.main samplePrims ["decrypt0", "m.enc", "k.r.pad"] truncatedPadFS []).fs.holds "m"
        samplePlain := by
  obtain ⟨h1, h2⟩ := Decrypt0.main_found samplePrims samplePrims_tag64 truncatedPadFS "decrypt0"
    "m.enc" "k.r.pad" samplePlain (samplePad.take 149) sampleIv true (.file (samplePad.take 149))
    "k.r.pad" (by decide) (by decide) rfl (by decide) (by decide) (by decide) (by decide)
    (by decide) (by decide)
  refine ⟨h1, ?_, ?_⟩
  · rw [h1]
    decide
  · rw [h2]
    decide

/-- C16, amended. Take a container that the encryptor makes from a
plaintext and a pad at least 144 bytes longer, and run `decrypt0` on it
with, as the pad argument, a file holding the pad without its last byte.
In long mode, and in short mode when the pad exceeds the plaintext by
exactly 144 bytes, the truncated pad is less than 48 bytes longer than the
container: no pad is found, the run ends with exit code 1 and the file
system is as it was.  In short mode with a pad that exceeds the plaintext
by 145 bytes or more, the truncated pad, under a name that carries the
`.r.pad` suffix, still authenticates the container, and the run (no write
failing, the output name free) ends with exit code 0 and the plaintext
written. -/
theorem truncated_pad (P : Prims) (hP : P.tag64) (fs : FS) (prog cn pn : String)
    (plain pad iv : List Nat) (short : Bool) (hcn : encSuffix cn) (hiv : iv.length = 16)
    (hlen : (pad.length : Int) - (plain.length : Int) ≥ 144)
    (hc : fs.holds cn (container P plain pad iv short))
    (hp : fs.holds pn (pad.take (pad.length - 1))) :
    ((short = false ∨ (pad.length : Int) - (plain.length : Int) = 144) → ∀ wfail,
      (Decrypt0.main P [prog, cn, pn] fs wfail).status = .exit Decrypt0.ExitNoValidPad ∧
      (Decrypt0.main P [prog, cn, pn] fs wfail).fs = fs) ∧
    (short = true → (pad.length : Int) - (plain.length : Int) ≥ 145 → padSuffix pn →
      plain.length < 2 ^ 63 → fs.isDir (Replace cn ".enc" "") = false →
      Replace cn ".enc" "" ≠ pn →
      (Decrypt0.main P [prog, cn, pn] fs []).status = .exit Decrypt0.ExitSuccess ∧
      (Decrypt0.main P [prog, cn, pn] fs []).fs = fs.set (Replace cn ".enc" "") (.file plain)) := by
  have hl := container_length P hP plain pad iv short hiv (by omega)
  have htl : (pad.take (pad.length - 1)).length = pad.length - 1 := by
    rw [List.length_take]
    omega
  constructor
  · intro hcase wfail
    refine Decrypt0.main_too_small P fs wfail prog cn pn _ _ hcn hc hp ?_ ?_
    · rw [hl]
      cases short
      · simp only [Bool.false_eq_true, if_false]
        omega
      · simp only [if_true]
        omega
    · rw [hl, htl]
      rcases hcase with hs | he
      · subst hs
        simp only [Bool.false_eq_true, if_false]
        omega
      · cases short
        · simp only [Bool.false_eq_true, if_false]
          omega
        · simp only [if_true]
          omega
  · intro hs h145 hsuf hn hout hne
    subst hs
    have hpre : container P plain pad iv true
        = container P plain (pad.take (pad.length - 1)) iv true := by
      apply container_short_prefix
      rw [List.take_take]
      congr 1
      omega
    rw [hpre] at hc hl
    simp only [if_true] at hl
    have hfound : searchOn P (container P plain (pad.take (pad.length - 1)) iv true) pn
        (.file (pad.take (pad.length - 1))) = .found pn (pad.take (pad.length - 1)) := by
      unfold searchOn
      rw [if_pos]
      refine ⟨?_, hsuf, container_fastTest P plain _ iv true hiv (by omega),
        container_tagTest P hP plain _ iv true⟩
      rw [hl, htl]
      omega
    exact Decrypt0.main_found P hP fs prog cn pn plain (pad.take (pad.length - 1)) iv true
      (.file (pad.take (pad.length - 1))) pn hcn hc ((holdsBytes_iff _ _).mp hp) hfound hiv
      (by omega) hn hout hne

set_option maxRecDepth 100000 in
theorem truncated_pad_witness :
    ((false = false ∨ (samplePad.length : Int) - (samplePlain.length : Int) = 144) → ∀ wfail,
      (Decrypt0.main samplePrims ["decrypt0", "m.enc", "t.r.pad"] truncatedLongFS wfail).status
        = .exit Decrypt0.ExitNoValidPad ∧
      (Decrypt0.main samplePrims ["decrypt0", "m.enc", "t.r.pad"] truncatedLongFS wfail).fs
        = truncatedLongFS) ∧
    (false = true → (samplePad.length : Int) - (samplePlain.length : Int) ≥ 145 →
      padSuffix "t.r.pad" → samplePlain.length < 2 ^ 63 →
      truncatedLongFS.isDir (Replace "m.enc" ".enc" "") = false →
      Replace "m.enc" ".enc" "" ≠ "t.r.pad" →
      (Decrypt0.main samplePrims ["decrypt0", "m.enc", "t.r.pad"] truncatedLongFS []).status
        = .exit Decrypt0.ExitSuccess ∧
      (Decrypt0.main samplePrims ["decrypt0", "m.enc", "t.r.pad"] truncatedLongFS []).fs
        = truncatedLongFS.set (Replace "m.enc" ".enc" "") (.file samplePlain)) :=
  truncated_pad samplePrims samplePrims_tag64 truncatedLongFS "decrypt0" "m.enc" "t.r.pad"
    samplePlain samplePad sampleIv false (by decide) (by decide) (by decide) (by decide)
    (by decide)

set_option maxRecDepth 100000 in
/-- C17 on the code: a directory whose path contains `.r.pad` hides its
pads.  Run `decrypt0 m.enc old.r.pad.d` where the directory `old.r.pad.d`
holds the matching pad as `k.r.pad`.  `FindPad` tests the candidate's whole
path, `old.r.pad.d/k.r.pad`, with `strings.Index`, which finds `.r.pad`
first at index 3 and not at the end, so the pad is not tried: the run ends
with exit code 1 although the pad authenticates the container. -/
theorem dotted_directory_missed :
    (Decrypt0.main samplePrims ["decrypt0", "m.enc", "old.r.pad.d"] dottedDirFS []).status
        = .exit Decrypt0.ExitNoValidPad ∧
      dottedDirFS "old.r.pad.d" = some (.dir [("k.r.pad", .file samplePad)]) ∧
      authenticates samplePrims (sampleContainer false) "k.r.pad" samplePad ∧
      ¬ padSuffix "old.r.pad.d/k.r.pad" := by
  refine ⟨?_, rfl, by decide, by decide⟩
  exact (Decrypt0.main_no_pad samplePrims dottedDirFS [] "decrypt0" "m.enc" "old.r.pad.d"
    (sampleContainer false) (.dir [("k.r.pad", .file samplePad)]) (by decide) (by decide)
    (by decide) rfl (by decide)).1

/-- C17, where the code keeps the claim and where it does not. Directory
discovery: let the pad argument be a directory whose listing holds, under
the name `f`, the pad of a container that the encryptor made, and let the
path of that entry carry the suffix the way `FindPad` tests it (the first
`.r.pad` in `pn/f` is its end).  Then, unless the search of the entries
listed before `f` stops at an object that cannot be examined (it never
does among readable regular files and listable directories:
`searchIn_examinable`), `FindPad` returns true, with `PadName` the path of
a pad that authenticates the container: the first such in the depth-first
order of the listing.  If the search of the entries listed before `f` gets
through them without an answer, `PadName` is `pn/f`, and the run of
`decrypt0` (no write failing, the output name free) ends with exit code 0
and the plaintext written, whatever entries follow.  But a directory that
holds that pad and nothing else, under a path `pn2/f2` that does not pass
the test (as when `.r.pad` occurs in `pn2`), is searched in vain: the run
ends with exit code 1. -/
theorem directory_discovery (P : Prims) (hP : P.tag64) (fs : FS) (prog cn pn f : String)
    (plain pad iv : List Nat) (short : Bool) (before after : List (String × Node))
    (hcn : encSuffix cn) (hc : fs.holds cn (container P plain pad iv short))
    (hp : fs pn = some (.dir (before ++ (f, .file pad) :: after)))
    (hiv : iv.length = 16) (hlen : (pad.length : Int) - (plain.length : Int) ≥ 144)
    (hsuf : padSuffix (pn ++ "/" ++ f)) :
    (searchIn P (container P plain pad iv short) pn before ≠ .stopped →
      ∃ r name pd, Decrypt0.FindPad P (Decrypt0.parsed fs [] cn pn) = .ok r ∧ r.1 = true ∧
        searchIn P (container P plain pad iv short) pn (before ++ (f, .file pad) :: after)
          = .found name pd ∧
        r.2.PadName = name ∧ authenticates P (container P plain pad iv short) name pd) ∧
    (searchIn P (container P plain pad iv short) pn before = .absent → plain.length < 2 ^ 63 →
      fs.isDir (Replace cn ".enc" "") = false → Replace cn ".enc" "" ≠ pn ++ "/" ++ f →
      (∃ r, Decrypt0.FindPad P (Decrypt0.parsed fs [] cn pn) = .ok r ∧ r.1 = true ∧
        r.2.PadName = pn ++ "/" ++ f) ∧
      (Decrypt0.main P [prog, cn, pn] fs []).status = .exit Decrypt0.ExitSuccess ∧
      (Decrypt0.main P [prog, cn, pn] fs []).fs = fs.set (Replace cn ".enc" "") (.file plain)) ∧
    (∀ (fs2 : FS) (pn2 f2 : String), fs2.holds cn (container P plain pad iv short) →
      fs2 pn2 = some (.dir [(f2, .file pad)]) → ¬ padSuffix (pn2 ++ "/" ++ f2) →
      (Decrypt0.main P [prog, cn, pn2] fs2 []).status = .exit Decrypt0.ExitNoValidPad) := by
  have hl := container_length P hP plain pad iv short hiv (by omega)
  have h88 : 88 ≤ (container P plain pad iv short).length := by
    rw [hl]
    cases short
    · simp only [Bool.false_eq_true, if_false]
      omega
    · simp only [if_true]
      omega
  have hauth := container_authenticates P hP plain pad iv short (pn ++ "/" ++ f) hiv (by omega) hsuf
  have hhere : searchOn P (container P plain pad iv short) (pn ++ "/" ++ f) (.file pad)
      = .found (pn ++ "/" ++ f) pad := by
    unfold searchOn
    rw [if_pos hauth]
  have hon : searchOn P (container P plain pad iv short) pn
      (.dir (before ++ (f, .file pad) :: after))
      = searchIn P (container P plain pad iv short) pn (before ++ (f, .file pad) :: after) := by
    rw [searchOn]
  refine ⟨?_, ?_, ?_⟩
  · intro hgo
    have hsome : ∃ name pd, searchIn P (container P plain pad iv short) pn
        (before ++ (f, .file pad) :: after) = .found name pd := by
      rw [searchIn_append, searchIn_cons, hhere]
      cases hb : searchIn P (container P plain pad iv short) pn before with
      | found a b => exact ⟨a, b, rfl⟩
      | absent => exact ⟨_, _, rfl⟩
      | stopped => exact absurd hb hgo
    obtain ⟨name, pd, ha⟩ := hsome
    obtain ⟨r, hr, p1, _, _, _, _, _, _, p8⟩ :=
      Decrypt0.FindPad_spec P fs [] cn pn _ _ hc hcn h88 hp (by rw [hon, ha]; simp)
    rw [hon, ha] at p1 p8
    exact ⟨r, name, pd, hr, p1, ha, p8.1, searchOn_auth P _ pn _ name pd (hon.trans ha)⟩
  swap
  · intro fs2 pn2 f2 hc2 hp2 hns
    refine (Decrypt0.main_no_pad P fs2 [] prog cn pn2 _ _ hc2 hcn h88 hp2 ?_).1
    rw [searchOn, searchIn_cons, searchIn_nil, searchOn, if_neg]
    intro ha
    exact hns ha.2.1
  · intro hdecoy hn hout hne
    have hfound : searchIn P (container P plain pad iv short) pn
        (before ++ (f, .file pad) :: after) = .found (pn ++ "/" ++ f) pad := by
      rw [searchIn_append, hdecoy, searchIn_cons, hhere]
    obtain ⟨r, hr, p1, _, _, _, _, _, _, p8⟩ :=
      Decrypt0.FindPad_spec P fs [] cn pn _ _ hc hcn h88 hp (by rw [hon, hfound]; simp)
    rw [hon, hfound] at p1 p8
    refine ⟨⟨r, hr, p1, p8.1⟩, ?_⟩
    exact Decrypt0.main_found P hP fs prog cn pn plain pad iv short _ (pn ++ "/" ++ f) hcn hc hp
      (hon.trans hfound) hiv (by omega) hn hout hne

set_option maxRecDepth 100000 in
theorem directory_discovery_witness :
    (searchIn samplePrims (container samplePrims samplePlain samplePad sampleIv false) "d"
        [("a.r.pad", .file (List.replicate 150 0))] ≠ .stopped →
      ∃ r name pd,
        Decrypt0.FindPad samplePrims (Decrypt0.parsed discoveryFS [] "m.enc" "d") = .ok r ∧
        r.1 = true ∧
        searchIn samplePrims (container samplePrims samplePlain samplePad sampleIv false) "d"
          ([("a.r.pad", .file (List.replicate 150 0))] ++ ("k.r.pad", .file samplePad)
            :: [("z.r.pad", .file (List.replicate 150 1))]) = .found name pd ∧
        r.2.PadName = name ∧
        authenticates samplePrims (container samplePrims samplePlain samplePad sampleIv false)
          name pd) ∧
    (searchIn samplePrims (container samplePrims samplePlain samplePad sampleIv false) "d"
        [("a.r.pad", .file (List.replicate 150 0))] = .absent → samplePlain.length < 2 ^ 63 →
      discoveryFS.isDir (Replace "m.enc" ".enc" "") = false →
      Replace "m.enc" ".enc" "" ≠ "d" ++ "/" ++ "k.r.pad" →
      (∃ r, Decrypt0.FindPad samplePrims (Decrypt0.parsed discoveryFS [] "m.enc" "d") = .ok r ∧
        r.1 = true ∧ r.2.PadName = "d" ++ "/" ++ "k.r.pad") ∧
      (Decrypt0.main samplePrims ["decrypt0", "m.enc", "d"] discoveryFS []).status
        = .exit Decrypt0.ExitSuccess ∧
      (Decrypt0.main samplePrims ["decrypt0", "m.enc", "d"] discoveryFS []).fs
        = discoveryFS.set (Replace "m.enc" ".enc" "") (.file samplePlain)) ∧
    (∀ (fs2 : FS) (pn2 f2 : String),
      fs2.holds "m.enc" (container samplePrims samplePlain samplePad sampleIv false) →
      fs2 pn2 = some (.dir [(f2, .file samplePad)]) → ¬ padSuffix (pn2 ++ "/" ++ f2) →
      (Decrypt0.main samplePrims ["decrypt0", "m.enc", pn2] fs2 []).status
        = .exit Decrypt0.ExitNoValidPad) :=
  directory_discovery samplePrims samplePrims_tag64 discoveryFS "decrypt0" "m.enc" "d" "k.r.pad"
    samplePlain samplePad sampleIv false [("a.r.pad", .file (List.replicate 150 0))]
    [("z.r.pad", .file (List.replicate 150 1))] (by decide) (by decide) rfl (by decide)
    (by decide) (by decide)

set_option maxRecDepth 100000 in
set_option linter.unusedTactic false in
set_option linter.unreachableTactic false in
/-- C18 on the code: a failed write of a body block is not detected, in
either tool.  Whether a pass of the plaintext loop of `Encrypt`, or of the
loop of `Decrypt`, returns or ends the process never depends on the outcomes
of the output `Write` calls: the result of `Write` is not looked at.  So
`encrypt0 m k.w.pad` in which the write of the only body block fails (the
writes of the IV and of the header before it, and all later ones, succeed)
ends with exit code 0 and leaves `m.enc` without its three body bytes; and
`decrypt0 m.enc k.r.pad` in which the write of the only block fails ends
with exit code 0 and leaves `m` empty.  The sibling loop does check: when the
write of the size-hiding block fails instead, `encrypt0` ends with exit code
9 and `m.enc` is removed. -/
theorem body_write_unchecked :
    (∀ (P : Prims) (blocks i : Int) (w : Encrypt0.World) (l : List Bool),
      (Encrypt0.bodyBlock P blocks i { w with wfail := l }).toBool
        = (Encrypt0.bodyBlock P blocks i w).toBool) ∧
    (∀ (P : Prims) (blocks i : Int) (w : Decrypt0.World) (l : List Bool),
      (Decrypt0.plainBlock P blocks i { w with wfail := l }).toBool
        = (Decrypt0.plainBlock P blocks i w).toBool) ∧
    (Encrypt0.main samplePrims sampleIv ["encrypt0", "m", "k.w.pad"] sampleFS
      [false, false, true]).status = .exit Encrypt0.ExitSuccess ∧
    (Encrypt0.main samplePrims sampleIv ["encrypt0", "m", "k.w.pad"] sampleFS
      [false, false, true]).fs.holds "m.enc"
        ((sampleContainer false).take 32 ++ (sampleContainer false).drop 35) ∧
    (Decrypt0.main samplePrims ["decrypt0", "m.enc", "k.r.pad"]
      (sampleDecFS (sampleContainer false)) [true]).status = .exit Decrypt0.ExitSuccess ∧
    (Decrypt0.main samplePrims ["decrypt0", "m.enc", "k.r.pad"]
      (sampleDecFS (sampleContainer false)) [true]).fs.holds "m" [] ∧
    (Encrypt0.main samplePrims sampleIv ["encrypt0", "m", "k.w.pad"] sampleFS
      [false, false, false, true]).status = .exit Encrypt0.ExitError ∧
    (Encrypt0.main samplePrims sampleIv ["encrypt0", "m", "k.w.pad"] sampleFS
      [false, false, false, true]).fs "m.enc" = none := by
  refine ⟨?_, ?_, by decide, by decide, by decide, by decide, by decide, by rfl⟩
  · intro P blocks i w l
    unfold Encrypt0.bodyBlock
    simp only
    repeat' split
    all_goals rfl
  · intro P blocks i w l
    unfold Decrypt0.plainBlock
    simp only
    repeat' split
    all_goals rfl

set_option maxRecDepth 100000 in
/-- C20 on the code: the claim holds from 88 bytes on and fails below.
For a ciphertext of 24 to 87 bytes that passes the 8-byte prefix test
against a candidate pad of at least 136 bytes, `toRead = size - 88` is
negative, the loop of `CheckIntegrity` makes one pass (`toRead / 1 MiB + 1`
is 1, the division truncating), and the length of its only block is
`toRead % 1 MiB = toRead`, a negative number: `make([]byte, todo)` is a
run-time fault, and the probe ends the process that way.  Such a ciphertext
is the first 24 bytes of a container with its matched pad:
`decrypt0 m.enc k.r.pad` on them ends with a fault, neither exit code 1 nor
9.  For a ciphertext of 88 bytes or more (`toRead = n ≥ 0`) every block
length is a number between 0 and 1 MiB and the lengths add up to `n`. -/
theorem probe_negative_length (P : Prims) (w : Decrypt0.World) (ct pad : List Nat)
    (hw : Decrypt0.Probing w ct pad) (h24 : 24 ≤ ct.length) (h88 : ct.length < 88)
    (hpad : 136 ≤ pad.length) (hfast : fastTest P ct pad) :
    (w.CiphertextSize - 64 - (8 + 16) < 0 ∧
      (w.CiphertextSize - 64 - (8 + 16)).tdiv Decrypt0.BufferSize + 1 = 1 ∧
      (w.CiphertextSize - 64 - (8 + 16)).tmod Decrypt0.BufferSize
        = w.CiphertextSize - 64 - (8 + 16) ∧
      ∃ e, Decrypt0.CheckIntegrity P w = .error e ∧ e.status = .fault) ∧
    (Decrypt0.main samplePrims ["decrypt0", "m.enc", "k.r.pad"]
      (sampleDecFS ((sampleContainer false).take 24)) []).status = .fault ∧
    (∀ (n : Nat) (i : Int), 0 ≤ i → i < (n : Int).tdiv Decrypt0.BufferSize + 1 →
      ∃ t : Nat, (if i = (n : Int).tdiv Decrypt0.BufferSize + 1 - 1
          then (n : Int).tmod Decrypt0.BufferSize else Decrypt0.BufferSize) = (t : Int) ∧
        t ≤ 1048576 ∧ chunkOff n i + t = chunkOff n (i + 1)) ∧
    (∀ n : Nat, chunkOff n 0 = 0 ∧ chunkOff n ((n : Int).tdiv Decrypt0.BufferSize + 1) = n) := by
  have h6 : w.CiphertextSize = (ct.length : Int) := hw.2.2.2.2.2
  obtain ⟨hd, hm⟩ := tdiv_small_neg (w.CiphertextSize - 64 - (8 + 16)) (by rw [h6]; omega)
    (by rw [h6]; omega)
  obtain ⟨e, he, hs, _⟩ := Decrypt0.CheckIntegrity_fault P w ct pad hw h24 h88 hpad hfast
  refine ⟨⟨by rw [h6]; omega, ?_, ?_, e, he, hs⟩, by decide, ?_, ?_⟩
  · rw [Decrypt0.decBufferSize_eq, hd]
    rfl
  · rw [Decrypt0.decBufferSize_eq, hm]
  · intro n i h0 h1
    rw [Decrypt0.decBufferSize_eq] at h1 ⊢
    obtain ⟨t, ht, hoff⟩ := chunk_todo n i h0 h1
    refine ⟨t, ht, ?_, hoff⟩
    have hmod : (n : Int).tmod 1048576 = (n : Int) % 1048576 :=
      Int.tmod_eq_emod (by omega) (by omega)
    split at ht
    · rw [hmod] at ht
      omega
    · omega
  · intro n
    rw [Decrypt0.decBufferSize_eq]
    exact ⟨chunkOff_zero n, chunkOff_last n⟩

set_option maxRecDepth 100000 in
theorem probe_negative_length_witness :
    ((sampleDec ((sampleContainer false).take 24)).CiphertextSize - 64 - (8 + 16) < 0 ∧
      ((sampleDec ((sampleContainer false).take 24)).CiphertextSize - 64 - (8 + 16)).tdiv
        Decrypt0.BufferSize + 1 = 1 ∧
      ((sampleDec ((sampleContainer false).take 24)).CiphertextSize - 64 - (8 + 16)).tmod
        Decrypt0.BufferSize
        = (sampleDec ((sampleContainer false).take 24)).CiphertextSize - 64 - (8 + 16) ∧
      ∃ e, Decrypt0.CheckIntegrity samplePrims (sampleDec ((sampleContainer false).take 24))
        = .error e ∧ e.status = .fault) ∧
    (Decrypt0.main samplePrims ["decrypt0", "m.enc", "k.r.pad"]
      (sampleDecFS ((sampleContainer false).take 24)) []).status = .fault ∧
    (∀ (n : Nat) (i : Int), 0 ≤ i → i < (n : Int).tdiv Decrypt0.BufferSize + 1 →
      ∃ t : Nat, (if i = (n : Int).tdiv Decrypt0.BufferSize + 1 - 1
          then (n : Int).tmod Decrypt0.BufferSize else Decrypt0.BufferSize) = (t : Int) ∧
        t ≤ 1048576 ∧ chunkOff n i + t = chunkOff n (i + 1)) ∧
    (∀ n : Nat, chunkOff n 0 = 0 ∧ chunkOff n ((n : Int).tdiv Decrypt0.BufferSize + 1) = n) :=
  probe_negative_length samplePrims (sampleDec ((sampleContainer false).take 24))
    ((sampleContainer false).take 24) samplePad (by unfold Decrypt0.Probing; decide) (by decide)
    (by decide) (by decide) (by decide)

/-- C21. No read of `Decrypt` runs short.  Let `DecryptInit` be called in
the state `FindPad` leaves after accepting a pad `pad` for a ciphertext `ct`
(so the pad passed the size test `pad_size - ciphertext_size >= 48`), and
let it return, which it does only past its sanity check.  Then
`0 <= PlaintextSize` and `ciphertext_size - PlaintextSize >= 96`; the block
lengths of the loop of `Decrypt` lie between 0 and 1 MiB and add up to
`PlaintextSize`; `32 + PlaintextSize <= ciphertext_size - 64` and
`144 + PlaintextSize <= pad_size`; and `Decrypt` returns, whichever output
writes fail, having read exactly `PlaintextSize` bytes after the 32 bytes of
IV and header and after the 144 bytes of pad prelude, so that what follows in
the container (size-hiding bytes and tag) stays unread.  When no output write
fails, the output file then holds exactly `PlaintextSize` bytes: the
CFB decryption of `ct[32 : 32 + PlaintextSize]` XORed with
`pad[144 : 144 + PlaintextSize]`. -/
theorem no_short_read (P : Prims) (d w : Decrypt0.World) (ct pad : List Nat)
    (hd : Decrypt0.Accepted d ct pad)
    (h48 : (pad.length : Int) - d.CiphertextSize ≥ Decrypt0.PadOverhead)
    (hinit : Decrypt0.DecryptInit P d = .ok w) :
    (0 ≤ w.PlaintextSize ∧ w.CiphertextSize - w.PlaintextSize ≥ Decrypt0.CiphertextOverhead) ∧
    (∀ t ∈ Decrypt0.blockLengths w.PlaintextSize, 0 ≤ t ∧ t ≤ 1024 * 1024) ∧
    (Decrypt0.blockLengths w.PlaintextSize).sum = w.PlaintextSize ∧
    32 + w.PlaintextSize ≤ (ct.length : Int) - 64 ∧
    144 + w.PlaintextSize ≤ (pad.length : Int) ∧
    ∃ w2, Decrypt0.Decrypt P w = .ok w2 ∧
      w2.Fciphertext = some (ct.drop (32 + w.PlaintextSize.toNat)) ∧
      w2.Fpad = some (pad.drop (144 + w.PlaintextSize.toNat)) ∧
      (d.wfail = [] → ∃ out, w2.fs.holds w2.PlaintextName out ∧
        (out.length : Int) = w.PlaintextSize ∧
        out = xorBytes ((Decrypt0.bodyCipher P ct pad).XORKeyStream P
                ((ct.drop 32).take w.PlaintextSize.toNat)).2
              ((pad.drop 144).take w.PlaintextSize.toNat)) := by
  obtain ⟨hcn, hct, hcs, hpn, hpad⟩ := hd
  have hctb := (holdsBytes_iff _ _).mp hct
  have hpadb := (holdsBytes_iff _ _).mp hpad
  obtain ⟨n1, n2, n3⟩ := enc_names d.CiphertextName hcn
  obtain ⟨hop, hod, h144, h32, hok, hps, hws, hfc, hfp⟩ :=
    Decrypt0.DecryptInit_inv P d w ct pad hctb hpadb hpn n1 n2 n3 hinit
  simp only [Decrypt0.CiphertextOverhead, not_or, not_lt] at hok
  simp only [Decrypt0.PadOverhead] at h48
  obtain ⟨m, hm⟩ : ∃ m : Nat, Decrypt0.sizeOf P ct pad = (m : Int) :=
    ⟨(Decrypt0.sizeOf P ct pad).toNat, by omega⟩
  rw [hm] at hok
  rw [hcs] at hok h48
  have hpm : w.PlaintextSize = (m : Int) := hps.trans hm
  have hmc : m ≤ (ct.drop 32).length := by simp only [List.length_drop]; omega
  have hmq : m ≤ (pad.drop 144).length := by simp only [List.length_drop]; omega
  obtain ⟨w2, hdec, g1, g2, _⟩ :=
    Decrypt0.Decrypt_reads P w (ct.drop 32) (pad.drop 144) m hpm hmc hmq hfc hfp
  rw [hws, hcs, hpm]
  simp only [Decrypt0.CiphertextOverhead, Int.toNat_ofNat]
  refine ⟨⟨by omega, by omega⟩, ?_, blockLengths_sum m, by omega, by omega, w2, hdec, ?_, ?_, ?_⟩
  · intro t ht
    exact blockLengths_range m t ht
  · rw [g1, List.drop_drop]
  · rw [g2, List.drop_drop]
  · intro hwf
    have hmid := Decrypt0.DecryptInit_mid P d ct pad hctb hpadb hpn n1 n2 hop n3 hod hwf hcs h144
      h32 (by omega) (by omega)
    rw [hinit] at hmid
    have hwm := Except.ok.inj hmid
    have hdm := Decrypt0.Decrypt_mid P (Decrypt0.initBase d (Decrypt0.sizeOf P ct pad) (pad.take 96))
      (ct.drop 32) (pad.drop 144) (Decrypt0.bodyCipher P ct pad) [] m
      (show (Decrypt0.initBase d (Decrypt0.sizeOf P ct pad) (pad.take 96)).PlaintextSize = (m : Int)
        from hm) hmc hmq
    have hwm2 : w = Decrypt0.mid (Decrypt0.initBase d (Decrypt0.sizeOf P ct pad) (pad.take 96))
        (ct.drop 32) (pad.drop 144) (Decrypt0.bodyCipher P ct pad) [] := hwm
    rw [← hwm2, hdec] at hdm
    have hw2 := Except.ok.inj hdm
    refine ⟨_, ?_, ?_, rfl⟩
    · rw [hw2]
      simp [FS.holds, holdsBytes, Decrypt0.mid, FS.set]
    · rw [xorBytes_length, XORKeyStream_length]
      simp only [List.length_take]
      omega

set_option maxRecDepth 100000 in
theorem no_short_read_witness :
    (0 ≤ sampleInit.PlaintextSize ∧
      sampleInit.CiphertextSize - sampleInit.PlaintextSize ≥ Decrypt0.CiphertextOverhead) ∧
    (∀ t ∈ Decrypt0.blockLengths sampleInit.PlaintextSize, 0 ≤ t ∧ t ≤ 1024 * 1024) ∧
    (Decrypt0.blockLengths sampleInit.PlaintextSize).sum = sampleInit.PlaintextSize ∧
    32 + sampleInit.PlaintextSize ≤ ((sampleContainer false).length : Int) - 64 ∧
    144 + sampleInit.PlaintextSize ≤ (samplePad.length : Int) ∧
    ∃ w2, Decrypt0.Decrypt samplePrims sampleInit = .ok w2 ∧
      w2.Fciphertext
        = some ((sampleContainer false).drop (32 + sampleInit.PlaintextSize.toNat)) ∧
      w2.Fpad = some (samplePad.drop (144 + sampleInit.PlaintextSize.toNat)) ∧
      ((sampleDec (sampleContainer false)).wfail = [] →
        ∃ out, w2.fs.holds w2.PlaintextName out ∧
          (out.length : Int) = sampleInit.PlaintextSize ∧
          out = xorBytes ((Decrypt0.bodyCipher samplePrims (sampleContainer false)
                  samplePad).XORKeyStream samplePrims
                (((sampleContainer false).drop 32).take sampleInit.PlaintextSize.toNat)).2
              ((samplePad.drop 144).take sampleInit.PlaintextSize.toNat)) :=
  no_short_read samplePrims (sampleDec (sampleContainer false)) sampleInit
    (sampleContainer false) samplePad (by unfold Decrypt0.Accepted; decide) (by decide)
    (by
      have h := Decrypt0.DecryptInit_mid samplePrims (sampleDec (sampleContainer false))
        (sampleContainer false) samplePad rfl rfl (by decide) (by decide) (by decide)
        (by decide) (by decide) rfl rfl rfl (by decide) (by decide) (by decide) (by decide)
      unfold sampleInit
      rw [h])

end Crypt0
